import Mathlib

/-!
NDLZ-8 block codec (blosc/ndlz8.c): embedding and verification.

The two entry points of `blosc/ndlz8.c`, `ndlz8_compress` and `ndlz8_decompress`,
are embedded as pure functions.

* Buffers are lists of bytes (`List Nat`); a pointer into a buffer is an index.
* The output cursor `op - obase` of the encoder is the length of the list of
  bytes written so far, and every `memcpy` to `op` appends.
* The C arrays `tab_*`, `hash_*`, `update_*`, `triple_match`, `pair_matches`
  are functions from the index to the stored value.
* `XXH32` comes from `xxhash.c`, which is not part of the sources at hand; it
  is a parameter of the embedding (buffer and seed to a 32-bit value).
* Multi-byte stores (`memcpy(op, &token, 2)`, `*(uint16_t *) op = offset`)
  are little-endian, as the comments of the source assume.
* A `goto match` or an early `return` inside a loop is the `Except.error`
  branch of `loop`.
-/

namespace Ndlz8

/-! ## Bytes, casts and loops -/

/-- The cast `(uint8_t) x`. -/
def u8 (x : Int) : Nat := (x % 256).toNat

/-- The cast `(uint16_t) x`. -/
def u16 (x : Int) : Nat := (x % 65536).toNat

/-- The cast `(uint32_t) x`. -/
def u32 (x : Int) : Nat := (x % 4294967296).toNat

/-- The two bytes of a 16-bit store, low byte first. -/
def le16 (v : Nat) : List Nat := [v % 256, v / 256 % 256]

/-- The three bytes written by `memcpy(op, &token, 3)` for a 32-bit token. -/
def le24 (v : Nat) : List Nat := [v % 256, v / 256 % 256, v / 65536 % 256]

/-- The four bytes of a 32-bit store, low byte first. -/
def le32 (v : Nat) : List Nat :=
  [v % 256, v / 256 % 256, v / 65536 % 256, v / 16777216 % 256]

/-- The `n` bytes found at `p[0 .. n-1]` where `p = mem + pos`. -/
def rd (mem : List Nat) (pos n : Nat) : List Nat :=
  (List.range n).map (fun k => mem.getD (pos + k) 0)

/-- Assignment `a[i] = v` for an array held as a function. -/
def setAt (a : Nat → Nat) (i v : Nat) : Nat → Nat :=
  fun k => if k = i then v else a k

/-- The values `lo, lo+1, ..., hi-1` of `for (x = lo; x < hi; x++)`. -/
def for_range (lo hi : Nat) : List Nat := List.range' lo (hi - lo)

/-- A `for` loop whose body may leave the loop for good (`goto`, `return`):
`Except.error` carries what the jump needs, `Except.ok` the state for the
next iteration. -/
def loop {α σ ρ : Type} (body : α → σ → Except ρ σ) : List α → σ → Except ρ σ
  | [], s => Except.ok s
  | a :: as, s =>
    match body a s with
    | Except.error r => Except.error r
    | Except.ok s' => loop body as s'

/-- The constant `MAX_DISTANCE` of the source. -/
def MAX_DISTANCE : Nat := 65535

/-- The 12-bit table index `XXH32(buf, len, 1) >> (32 - 12)`. -/
def hash12 (XXH32 : List Nat → Nat → Nat) (buf : List Nat) : Nat :=
  (XXH32 buf 1 % 4294967296) >>> 20

/-! ## Encoder -/

/-- The fields of `blosc2_context` that `ndlz8_compress` reads.  The block
shape holds the two dimensions of the block, as natural numbers; the
`int32_t` values of the source, which may be negative, are those of
`signed_context`. -/
structure blosc2_context where
  ndim : Int
  blockshape0 : Nat
  blockshape1 : Nat
  leftover : Int

/-- The local variables of `ndlz8_compress` that live across cells. -/
structure ndlz8_vars where
  tab_cell : Nat → Nat
  tab_6 : Nat → Nat
  tab_triple : Nat → Nat
  tab_pair : Nat → Nat
  hash_6 : Nat → Nat
  hash_triple : Nat → Nat
  hash_pair : Nat → Nat
  update_6 : Nat → Nat
  update_triple : Nat → Nat
  update_pair : Nat → Nat
  triple_match : Nat → Nat
  pair_matches : Nat → Nat
  /-- the three 8-byte slots of `buf_triple[24]` -/
  buf_triple : List Nat × List Nat × List Nat
  literal : Bool

/-- All arrays zero, as the initialisers `= {0}` leave them. -/
def ndlz8_vars.init : ndlz8_vars where
  tab_cell := fun _ => 0
  tab_6 := fun _ => 0
  tab_triple := fun _ => 0
  tab_pair := fun _ => 0
  hash_6 := fun _ => 0
  hash_triple := fun _ => 0
  hash_pair := fun _ => 0
  update_6 := fun _ => 0
  update_triple := fun _ => 0
  update_pair := fun _ => 0
  triple_match := fun _ => 0
  pair_matches := fun _ => 0
  buf_triple := (List.replicate 8 0, List.replicate 8 0, List.replicate 8 0)
  literal := true

/-- Row `i` of the 8x8 cell buffer: `&buf_cell[i * cell_shape]`, 8 bytes. -/
def cell_row (buf_cell : List Nat) (i : Nat) : List Nat := rd buf_cell (i * 8) 8

/-- The rows `l` of the cell, in increasing order, that pass `keep`: the
literal rows that follow the offsets of a multi-row record. -/
def rows_where (buf_cell : List Nat) (keep : Nat → Bool) : List Nat :=
  ((List.range 8).filter keep).flatMap (cell_row buf_cell)

/-- The byte-wise comparison loops `if (buf[k] != buf_aux[k]) same = false`
over `n` bytes with `buf_aux = obase + pos`. -/
def same_bytes (buf out : List Nat) (pos n : Nat) : Bool :=
  rd buf 0 n == rd out pos n

/-- The test `(distance != 0) && (distance < MAX_DISTANCE)`. -/
def accepted (distance : Nat) : Bool := distance != 0 && decide (distance < MAX_DISTANCE)

/-- Body of the six-rows search (lines 237-291) for the excluded pair `(i, j)`.
`out` is the output written so far and `anchor = out.length`. -/
def six_body (XXH32 : List Nat → Nat → Nat) (out buf_cell : List Nat) (anchor : Nat)
    (ij : Nat × Nat) (v : ndlz8_vars) : Except (List Nat × ndlz8_vars) ndlz8_vars :=
  let i := ij.1
  let j := ij.2
  let buf_6 := rows_where buf_cell (fun k => decide (k ≠ i ∧ k ≠ j))
  let hval := hash12 XXH32 buf_6
  if v.tab_6 hval ≠ 0 then
    let same := same_bytes buf_6 out (v.tab_6 hval) 48
    let offset := u16 ((anchor : Int) - (v.tab_6 hval : Int))
    let distance := if same then u32 ((anchor : Int) - (v.tab_6 hval : Int)) else 0
    if accepted distance then
      let token := ((38 <<< 10) ||| (i <<< 7) ||| (j <<< 4)) % 65536
      Except.error
        (le16 token ++ le16 offset ++ cell_row buf_cell i ++ cell_row buf_cell j,
         { v with literal := false })
    else Except.ok v
  else if (i = 0 ∧ (j = 1 ∨ j = 7)) ∨ (i = 6 ∧ j = 7) then
    let l := if j = 1 then 2 else if i = 6 then 0 else 1
    Except.ok { v with update_6 := setAt v.update_6 l (anchor + 1 + l * 8)
                       hash_6 := setAt v.hash_6 l hval }
  else Except.ok v

/-- The pairs `(i, j)` of `for (i = 0; i < 7; i++) for (j = i + 1; j < 8; j++)`. -/
def pair_indices (lo : Nat) : List (Nat × Nat) :=
  (for_range lo 7).flatMap (fun i => (for_range (i + 1) 8).map (fun j => (i, j)))

/-- The triples of `for (i_ = lo; i_ < 6; ..) for (j_ = i_ + 1; j_ < 7; ..)
for (k_ = j_ + 1; k_ < 8; ..)`. -/
def triple_indices (lo : Nat) : List (Nat × Nat × Nat) :=
  (for_range lo 6).flatMap (fun i =>
    (for_range (i + 1) 7).flatMap (fun j =>
      (for_range (j + 1) 8).map (fun k => (i, j, k))))

/-- The 24 bytes of `buf_triple`. -/
def triple_bytes (b : List Nat × List Nat × List Nat) : List Nat :=
  b.1 ++ b.2.1 ++ b.2.2

/-- Body of the search for a second triple (lines 340-383).  The state is
`buf_triple` and the flag `same` of the enclosing iteration, which the source
does not reset between candidates. -/
def triple2_body (XXH32 : List Nat → Nat → Nat) (out buf_cell : List Nat) (anchor : Nat)
    (tab_triple : Nat → Nat) (i j k offset : Nat) (v : ndlz8_vars) (c : Nat × Nat × Nat)
    (s : (List Nat × List Nat × List Nat) × Bool) :
    Except (List Nat × ndlz8_vars) ((List Nat × List Nat × List Nat) × Bool) :=
  let i_ := c.1
  let j_ := c.2.1
  let k_ := c.2.2
  if i_ ≠ j ∧ i_ ≠ k ∧ j_ ≠ j ∧ k_ ≠ k ∧ j_ ≠ k ∧ k_ ≠ j then
    let buf := (cell_row buf_cell i_, cell_row buf_cell j_, cell_row buf_cell k_)
    let hval := hash12 XXH32 (triple_bytes buf)
    let same := if tab_triple hval ≠ 0
      then s.2 && same_bytes (triple_bytes buf) out (tab_triple hval) 24
      else false
    let distance :=
      if same then u32 ((anchor : Int) + (i_ : Int) * 8 - (tab_triple hval : Int)) else 0
    if accepted distance then
      let token := ((9 <<< 20) ||| (i <<< 15) ||| (j <<< 12) ||| (k <<< 9) |||
                    (i_ <<< 6) ||| (j_ <<< 3) ||| k_) % 4294967296
      let offset_2 := u16 ((anchor : Int) - (tab_triple hval : Int))
      Except.error
        (le24 token ++ le16 offset ++ le16 offset_2 ++
          rows_where buf_cell (fun l => decide
            (l ≠ i ∧ l ≠ j ∧ l ≠ k ∧ l ≠ i_ ∧ l ≠ j_ ∧ l ≠ k_)),
         { v with buf_triple := buf })
    else Except.ok (buf, same)
  else Except.ok s

/-- Body of the triples search (lines 302-388) for rows `i < j < k`; the
first two slots of `buf_triple` were filled by the enclosing loops. -/
def triple_body (XXH32 : List Nat → Nat → Nat) (out buf_cell : List Nat) (anchor : Nat)
    (i j k : Nat) (v : ndlz8_vars) : Except (List Nat × ndlz8_vars) ndlz8_vars :=
  let buf := (v.buf_triple.1, v.buf_triple.2.1, cell_row buf_cell k)
  let hval := hash12 XXH32 (triple_bytes buf)
  if v.tab_triple hval ≠ 0 then
    let same := same_bytes (triple_bytes buf) out (v.tab_triple hval) 24
    let offset := u16 ((anchor : Int) - (v.tab_triple hval : Int))
    let distance :=
      if same then u32 ((anchor : Int) + (i : Int) * 8 - (v.tab_triple hval : Int)) else 0
    if accepted distance then
      let v1 := { v with
        buf_triple := buf
        literal := false
        triple_match := fun n =>
          if n = 0 then 1 else if n = 1 then i else if n = 2 then j
          else if n = 3 then k else if n = 4 then hval else v.triple_match n }
      (loop (triple2_body XXH32 out buf_cell anchor v.tab_triple i j k offset v1)
          (triple_indices (i + 1)) (buf, same)).map
        (fun s => { v1 with buf_triple := s.1 })
    else Except.ok { v with buf_triple := buf }
  else if j - i = 1 ∧ k - j = 1 then
    Except.ok { v with
      buf_triple := buf
      update_triple := setAt v.update_triple i (anchor + 1 + i * 8)
      hash_triple := setAt v.hash_triple i hval }
  else Except.ok { v with buf_triple := buf }

/-- The triples search (lines 296-390), with the three nested loops and the
row copies made at each level. -/
def triple_search (XXH32 : List Nat → Nat → Nat) (out buf_cell : List Nat) (anchor : Nat)
    (v : ndlz8_vars) : Except (List Nat × ndlz8_vars) ndlz8_vars :=
  loop (fun i v1 =>
    loop (fun j v2 =>
      loop (fun k v3 => triple_body XXH32 out buf_cell anchor i j k v3)
        (for_range (j + 1) 8)
        { v2 with buf_triple := (v2.buf_triple.1, cell_row buf_cell j, v2.buf_triple.2.2) })
      (for_range (i + 1) 7)
      { v1 with buf_triple := (cell_row buf_cell i, v1.buf_triple.2.1, v1.buf_triple.2.2) })
    (for_range 0 6) { v with triple_match := setAt v.triple_match 0 0 }

/-- Body of the search for a third pair (lines 466-510). -/
def pair3_body (XXH32 : List Nat → Nat → Nat) (out buf_cell : List Nat) (anchor : Nat)
    (i j i_ j_ offset offset_2 : Nat) (c : Nat × Nat) (v : ndlz8_vars) :
    Except (List Nat × ndlz8_vars) ndlz8_vars :=
  let i__ := c.1
  let j__ := c.2
  if j__ ≠ j_ ∧ j__ ≠ j ∧ i__ ≠ j ∧ i__ ≠ j_ then
    let buf_pair := cell_row buf_cell i__ ++ cell_row buf_cell j__
    let hval := hash12 XXH32 buf_pair
    let same := if v.tab_pair hval ≠ 0
      then same_bytes buf_pair out (v.tab_pair hval) 16 else false
    let distance :=
      if same then u32 ((anchor : Int) + (i__ : Int) * 8 - (v.tab_pair hval : Int)) else 0
    if accepted distance then
      let token := ((33 <<< 18) ||| (i <<< 15) ||| (j <<< 12) ||| (i_ <<< 9) |||
                    (j_ <<< 6) ||| (i__ <<< 3) ||| j__) % 4294967296
      let offset_3 := u16 ((anchor : Int) - (v.tab_pair hval : Int))
      Except.error
        (le24 token ++ le16 offset ++ le16 offset_2 ++ le16 offset_3 ++
          rows_where buf_cell (fun l => decide
            (l ≠ i ∧ l ≠ j ∧ l ≠ i_ ∧ l ≠ j_ ∧ l ≠ i__ ∧ l ≠ j__)),
         v)
    else Except.ok v
  else Except.ok v

/-- Body of the search for a second pair (lines 434-515). -/
def pair2_body (XXH32 : List Nat → Nat → Nat) (out buf_cell : List Nat) (anchor : Nat)
    (i j offset : Nat) (c : Nat × Nat) (v : ndlz8_vars) :
    Except (List Nat × ndlz8_vars) ndlz8_vars :=
  let i_ := c.1
  let j_ := c.2
  if j_ ≠ j ∧ i_ ≠ j then
    let buf_pair := cell_row buf_cell i_ ++ cell_row buf_cell j_
    let hval := hash12 XXH32 buf_pair
    let same := if v.tab_pair hval ≠ 0
      then same_bytes buf_pair out (v.tab_pair hval) 16 else false
    let offset_2 := u16 ((anchor : Int) - (v.tab_pair hval : Int))
    let distance :=
      if same then u32 ((anchor : Int) + (i_ : Int) * 8 - (v.tab_pair hval : Int)) else 0
    if accepted distance then
      loop (pair3_body XXH32 out buf_cell anchor i j i_ j_ offset offset_2)
        (pair_indices (i_ + 1))
        { v with pair_matches := fun n =>
            if n = 0 then 2 else if n = 4 then i_ else if n = 5 then j_
            else if n = 6 then hval else v.pair_matches n }
    else Except.ok v
  else Except.ok v

/-- Body of the pairs search (lines 396-517) for rows `i < j`. -/
def pair_body (XXH32 : List Nat → Nat → Nat) (out buf_cell : List Nat) (anchor : Nat)
    (ij : Nat × Nat) (v : ndlz8_vars) : Except (List Nat × ndlz8_vars) ndlz8_vars :=
  let i := ij.1
  let j := ij.2
  let buf_pair := cell_row buf_cell i ++ cell_row buf_cell j
  let hval := hash12 XXH32 buf_pair
  if v.tab_pair hval ≠ 0 then
    let same := same_bytes buf_pair out (v.tab_pair hval) 16
    let offset := u16 ((anchor : Int) - (v.tab_pair hval : Int))
    let distance :=
      if same then u32 ((anchor : Int) + (i : Int) * 8 - (v.tab_pair hval : Int)) else 0
    if accepted distance then
      loop (pair2_body XXH32 out buf_cell anchor i j offset)
        (pair_indices (i + 1))
        { v with
          literal := false
          pair_matches := fun n =>
            if n = 0 then 1 else if n = 1 then i else if n = 2 then j
            else if n = 3 then hval else v.pair_matches n }
    else Except.ok v
  else if j - i = 1 then
    Except.ok { v with
      update_pair := setAt v.update_pair i (anchor + 1 + i * 8)
      hash_pair := setAt v.hash_pair i hval }
  else Except.ok v

/-- The record written under `if (!literal)` (lines 521-567) once the three
searches ended without a `goto match`. -/
def emit_matches (buf_cell : List Nat) (anchor : Nat) (v : ndlz8_vars) : List Nat :=
  let pm := v.pair_matches
  let tm := v.triple_match
  if pm 0 = 2 then
    let token := ((11 <<< 12) ||| (pm 1 <<< 9) ||| (pm 2 <<< 6) ||| (pm 4 <<< 3) ||| pm 5)
      % 65536
    le16 token ++ le16 (u16 ((anchor : Int) - (v.tab_pair (pm 3) : Int))) ++
      le16 (u16 ((anchor : Int) - (v.tab_pair (pm 6) : Int))) ++
      rows_where buf_cell (fun l => decide (l ≠ pm 1 ∧ l ≠ pm 2 ∧ l ≠ pm 4 ∧ l ≠ pm 5))
  else if tm 0 = 1 then
    let token := ((35 <<< 10) ||| (tm 1 <<< 7) ||| (tm 2 <<< 4) ||| (tm 3 <<< 1)) % 65536
    le16 token ++ le16 (u16 ((anchor : Int) - (v.tab_triple (tm 4) : Int))) ++
      rows_where buf_cell (fun l => decide (l ≠ tm 1 ∧ l ≠ tm 2 ∧ l ≠ tm 3))
  else if pm 0 = 1 then
    let token := ((34 <<< 10) ||| (pm 1 <<< 7) ||| (pm 2 <<< 4)) % 65536
    le16 token ++ le16 (u16 ((anchor : Int) - (v.tab_pair (pm 3) : Int))) ++
      rows_where buf_cell (fun l => decide (l ≠ pm 1 ∧ l ≠ pm 2))
  else []

/-- The table updates made for a literal cell (lines 571-586). -/
def literal_update (hash_cell anchor : Nat) (v : ndlz8_vars) : ndlz8_vars :=
  { v with
    tab_cell := setAt v.tab_cell hash_cell (anchor + 1)
    tab_6 := if v.update_6 0 ≠ 0
      then (List.range 3).foldl (fun t h => setAt t (v.hash_6 h) (v.update_6 h)) v.tab_6
      else v.tab_6
    tab_triple := if v.update_triple 0 ≠ 0
      then (List.range 6).foldl (fun t h => setAt t (v.hash_triple h) (v.update_triple h))
        v.tab_triple
      else v.tab_triple
    tab_pair := if v.update_pair 0 ≠ 0
      then (List.range 7).foldl (fun t h => setAt t (v.hash_pair h) (v.update_pair h))
        v.tab_pair
      else v.tab_pair }

/-- The three searches of a cell that is neither constant nor a cell match
(lines 232-591): the record written and the variables afterwards. -/
def search_cell (XXH32 : List Nat → Nat → Nat) (out buf_cell : List Nat) (hash_cell : Nat)
    (v : ndlz8_vars) : List Nat × ndlz8_vars :=
  let anchor := out.length
  match loop (six_body XXH32 out buf_cell anchor) (pair_indices 0)
      { v with literal := true } with
  | Except.error r => r
  | Except.ok v1 =>
    match triple_search XXH32 out buf_cell anchor v1 with
    | Except.error r => r
    | Except.ok v2 =>
      match loop (pair_body XXH32 out buf_cell anchor) (pair_indices 0)
          { v2 with pair_matches := setAt v2.pair_matches 0 0 } with
      | Except.error r => r
      | Except.ok v3 =>
        if v3.literal then ([0] ++ rd buf_cell 0 64, literal_update hash_cell anchor v3)
        else (emit_matches buf_cell anchor v3, v3)

/-- The 64 bytes of the cell at `orig`, copied row by row (lines 183-187). -/
def fill_cell (input : List Nat) (cols orig : Nat) : List Nat :=
  (List.range 8).flatMap (fun i => rd input (orig + i * cols) 8)

/-- A cell that is not on a padded edge (lines 183-599): the record written
for it and the variables afterwards. -/
def full_cell (XXH32 : List Nat → Nat → Nat) (input : List Nat) (cols : Nat)
    (out : List Nat) (orig : Nat) (v : ndlz8_vars) : List Nat × ndlz8_vars :=
  let buf_cell := fill_cell input cols orig
  let anchor := out.length
  let hash_cell := hash12 XXH32 buf_cell
  let distance :=
    if v.tab_cell hash_cell = 0 then 0
    else if same_bytes buf_cell out (v.tab_cell hash_cell) 64
      then u32 ((anchor : Int) - (v.tab_cell hash_cell : Int)) else 0
  let alleq := (for_range 1 64).all (fun i => buf_cell.getD i 0 == buf_cell.getD 0 0)
  if alleq then ([64, buf_cell.getD 0 0], v)
  else if distance = 0 ∨ distance ≥ MAX_DISTANCE then
    search_cell XXH32 out buf_cell hash_cell v
  else ([192] ++ le16 (u16 ((anchor : Int) - (v.tab_cell hash_cell : Int))), v)

/-- The values `padding[0]` and `padding[1]` for the cell `(ii0, ii1)` (lines 167-176). -/
def padding (shape i_stop ii : Nat) : Nat :=
  if ii = i_stop - 1 then (if shape % 8 = 0 then 8 else shape % 8) else 8

/-- A cell on a padded edge (lines 165-180): token 0 and the live bytes. -/
def padded_cell (input : List Nat) (cols orig pad0 pad1 : Nat) : List Nat :=
  [0] ++ (List.range pad0).flatMap (fun i => rd input (orig + i * cols) pad1)

/-- The test of lines 163-164: the cell lies on a padded edge. -/
def on_padded_edge (rows cols i_stop0 i_stop1 ii0 ii1 : Nat) : Bool :=
  (decide (rows % 8 ≠ 0) && decide (ii0 = i_stop0 - 1)) ||
  (decide (cols % 8 ≠ 0) && decide (ii1 = i_stop1 - 1))

/-- The record and variables for the cell `(ii0, ii1)` once the space check
has passed (lines 162-601). -/
def encode_cell (XXH32 : List Nat → Nat → Nat) (rows cols : Nat) (input out : List Nat)
    (ii0 ii1 : Nat) (v : ndlz8_vars) : List Nat × ndlz8_vars :=
  let i_stop0 := (rows + 8 - 1) / 8
  let i_stop1 := (cols + 8 - 1) / 8
  let orig := ii0 * 8 * cols + ii1 * 8
  if on_padded_edge rows cols i_stop0 i_stop1 ii0 ii1 then
    (padded_cell input cols orig (padding rows i_stop0 ii0) (padding cols i_stop1 ii1), v)
  else full_cell XXH32 input cols out orig v

/-- One iteration of the main loop (lines 149-606) for the cell `(ii0, ii1)`.
`Except.error out` is `return 0` with `out` written so far.  The reset loop
of lines 149-155 also stores 0 at `update_6[3..6]`, behind the three elements
of `update_6`; this definition leaves these four stores out, and
`cell_step_stray` adds them for a given layout of the frame. -/
def cell_step (XXH32 : List Nat → Nat → Nat) (rows cols : Nat) (input : List Nat)
    (length maxout : Int) (ii0 ii1 : Nat) (s : ndlz8_vars × List Nat) :
    Except (List Nat) (ndlz8_vars × List Nat) :=
  let v := { s.1 with
    update_6 := fun _ => 0, update_pair := fun _ => 0, update_triple := fun _ => 0 }
  let out := s.2
  if (out.length : Int) + 64 + 1 > maxout then Except.error out
  else
    let r := encode_cell XXH32 rows cols input out ii0 ii1 v
    if ((out ++ r.1).length : Int) > length then Except.error (out ++ r.1)
    else Except.ok (r.2, out ++ r.1)

/-- The main loop over the cell grid (lines 147-608), started after the
header has been written. -/
def encode_cells (XXH32 : List Nat → Nat → Nat) (rows cols : Nat) (input : List Nat)
    (length maxout : Int) (header : List Nat) : Except (List Nat) (ndlz8_vars × List Nat) :=
  let i_stop0 := (rows + 8 - 1) / 8
  let i_stop1 := (cols + 8 - 1) / 8
  loop (fun ii0 s =>
      loop (fun ii1 s1 => cell_step XXH32 rows cols input length maxout ii0 ii1 s1)
        (for_range 0 i_stop1) s)
    (for_range 0 i_stop0) (ndlz8_vars.init, header)

/-- The codec entry point `ndlz8_compress`: the value returned and the bytes
written to `output`, in order.  `input` is the block, read row-major.  The
product `rows * cols` is exact here; the source takes it in `int`, as
`ndlz8_compress_signed` does, and the two definitions agree on the shapes
whose product is at most `2^31 - 1` (`compress_signed_agrees`). -/
def ndlz8_compress (XXH32 : List Nat → Nat → Nat) (context : blosc2_context)
    (input : List Nat) (length maxout : Int) : Int × List Nat :=
  let rows := context.blockshape0
  let cols := context.blockshape1
  if context.ndim ≠ 2 then (-1, [])
  else if length = context.leftover then (0, [])
  else if length ≠ ((rows * cols : Nat) : Int) then (-1, [])
  else if maxout < 1 + context.ndim * 4 then (-1, [])
  else
    let overhead : Int := 17 + (((rows * cols / 64 : Nat) : Int) - 1) * 2
    if length < 64 ∨ maxout < overhead then (0, [])
    else
      let header := [u8 context.ndim] ++ le32 rows ++ le32 cols
      match encode_cells XXH32 rows cols input length maxout header with
      | Except.error out => (0, out)
      | Except.ok s => ((s.2.length : Int), s.2)

/-! ## Decoder

`ndlz8_decompress` reads some objects it has not written: bytes around the
input buffer, the bytes that follow `cell_aux[16]`, the initial content of
`local_buffer`, the words that follow a `rows` array (`valueinarray` loops
up to `sizeof(arr)`, the size of a pointer), the top byte of `token_3`, and
`ind` and `padding[1]` when the cell loop never runs.  The embedding takes
these values as the parameter `indeterminate`, so that every statement
proved holds whatever they are.
-/

/-- The values `ndlz8_decompress` may read without having written them. -/
structure indeterminate where
  /-- bytes at `input[k]` for `k` outside `0 .. length-1` -/
  outside : Int → Nat
  /-- initial content of the output buffer -/
  output : Nat → Nat
  /-- the bytes `cell_aux[k]`; the indices `k >= 16` lie behind the array and
  are taken as the same bytes for every cell of a call -/
  cell_aux : Nat → Nat
  /-- initial content of `local_buffer[64]` -/
  local_buffer : Nat → Nat
  /-- the `int` found at `rows[k]` for `k` behind the end of a `rows` array -/
  rows_tail : Nat → Int
  /-- the byte of `token_3` that `memcpy(&token_3, ip, 3)` leaves unset -/
  token_3_hi : Nat
  /-- the variable `ind` before any assignment -/
  ind : Nat
  /-- the variable `padding[1]` before any assignment -/
  padding1 : Nat

/-- The function `valueinarray(val, arr)` (lines 669-675): `arr` is a pointer, so the
loop bound `(int) sizeof(arr)` is the size of a pointer, 8 on the 64-bit
targets of the library. -/
def valueinarray (val : Int) (arr : Nat → Int) : Int :=
  if (List.range 8).any (fun i => arr i == val) then 1 else 0

/-- An `int rows[n]` array as `valueinarray` sees it: its elements, then
whatever follows it in memory. -/
def rows_array (rows : List Nat) (tail : Nat → Int) : Nat → Int :=
  fun i => if i < rows.length then (rows.getD i 0 : Int) else tail i

/-- The byte `input[k]`. -/
def in_byte (u : indeterminate) (input : List Nat) (k : Int) : Nat :=
  if 0 ≤ k ∧ k < (input.length : Int) then input.getD k.toNat 0 else u.outside k

/-- The read `*((uint16_t*) ip)`: the 16-bit value stored low byte first at `ip`. -/
def in_u16 (u : indeterminate) (input : List Nat) (ip : Int) : Nat :=
  in_byte u input ip + in_byte u input (ip + 1) * 256

/-- The 32-bit value that `memcpy(&x, ip, 4)` stores into `x`. -/
def in_u32 (u : indeterminate) (input : List Nat) (ip : Int) : Nat :=
  in_byte u input ip + in_byte u input (ip + 1) * 256 +
  in_byte u input (ip + 2) * 65536 + in_byte u input (ip + 3) * 16777216

/-- The field `blockshape[0]` of the decoder: the 32-bit value at bytes 1..4. -/
def header_rows (u : indeterminate) (input : List Nat) : Nat :=
  in_u32 u input 1 % 4294967296

/-- The field `blockshape[1]` of the decoder: the 32-bit value at bytes 5..8. -/
def header_cols (u : indeterminate) (input : List Nat) : Nat :=
  in_u32 u input 5 % 4294967296

/-- The copy `memcpy(&dst[pos], src, n)` for a buffer held as a function; `src k` is
the byte `src[k]`. -/
def copy_to (dst : Nat → Nat) (pos : Nat) (src : Nat → Nat) (n : Nat) : Nat → Nat :=
  fun k => if pos ≤ k ∧ k < pos + n then src (k - pos) else dst k

/-- The bytes at `input + p` as a source buffer. -/
def in_at (u : indeterminate) (input : List Nat) (p : Int) : Nat → Nat :=
  fun k => in_byte u input (p + (k : Int))

/-- The loops `for (l = 0; l < n; l++) memcpy(&buffercpy[rows[l] * 8],
ip - offset + l * 8, 8)` with `src = ip - offset`. -/
def copy_rows (u : indeterminate) (input : List Nat) (rows : List Nat) (src : Int)
    (buf : Nat → Nat) : Nat → Nat :=
  (List.range rows.length).foldl
    (fun b l => copy_to b (rows.getD l 0 * 8) (in_at u input (src + (l : Int) * 8)) 8) buf

/-- The loops `for (l = 0; l < 8; l++) if (!valueinarray(l, rows)) { memcpy(
&buffercpy[l * 8], ip, 8); ip += 8; }`: the buffer and `ip` afterwards. -/
def inline_rows (u : indeterminate) (input : List Nat) (rows : Nat → Int)
    (s : (Nat → Nat) × Int) : (Nat → Nat) × Int :=
  (List.range 8).foldl
    (fun t (l : Nat) => if valueinarray (l : Int) rows = 0
      then (copy_to t.1 (l * 8) (in_at u input t.2) 8, t.2 + 8) else t) s

/-- The variables of `ndlz8_decompress` that change from cell to cell. -/
structure decoder_vars where
  ip : Int
  out : Nat → Nat
  local_buffer : Nat → Nat
  cell_aux : Nat → Nat
  ind : Nat
  padding1 : Nat

/-- What a token branch of the decoder leaves: the source `buffercpy`, the
read cursor, and the two scratch buffers. -/
structure decoded_cell where
  buffercpy : Nat → Nat
  ip : Int
  local_buffer : Nat → Nat
  cell_aux : Nat → Nat

/-- The token dispatch of lines 735-904 for a cell with the given padding;
`s.ip` points at the token.  `none` is the branch `Invalid token`. -/
def decode_token (u : indeterminate) (input : List Nat) (pad0 pad1 : Nat)
    (s : decoder_vars) : Option decoded_cell :=
  let token := in_byte u input s.ip % 256
  let ip := s.ip + 1
  let match_type := token >>> 2
  if token = 0 then
    some ⟨in_at u input ip, ip + ((pad0 * pad1 : Nat) : Int), s.local_buffer, s.cell_aux⟩
  else if token = 192 then
    let offset := in_u16 u input ip
    some ⟨in_at u input (ip - (offset : Int) - 1), ip + 2, s.local_buffer, s.cell_aux⟩
  else if token = 64 then
    let cell_aux := copy_to s.cell_aux 0 (fun _ => in_byte u input ip) 16
    some ⟨cell_aux, ip + 1, s.local_buffer, cell_aux⟩
  else if match_type = 38 then
    let ip := ip - 1
    let token_2 := in_u16 u input ip
    let ip := ip + 2
    let i := (token_2 >>> 7) &&& 7
    let j := (token_2 >>> 4) &&& 7
    let offset := (in_u16 u input ip + 3) % 65536
    let ip := ip + 2
    let others := (List.range 8).filter (fun l => decide (l ≠ i ∧ l ≠ j))
    let buf := copy_rows u input others (ip - (offset : Int)) s.local_buffer
    let buf := copy_to buf (i * 8) (in_at u input ip) 8
    let ip := ip + 8
    let buf := copy_to buf (j * 8) (in_at u input ip) 8
    let ip := ip + 8
    some ⟨buf, ip, buf, s.cell_aux⟩
  else if match_type = 36 then
    let ip := ip - 1
    let token_3 := in_byte u input ip + in_byte u input (ip + 1) * 256 +
      in_byte u input (ip + 2) * 65536 + (u.token_3_hi % 256) * 16777216
    let ip := ip + 3
    let rows := (List.range 6).map (fun l => (token_3 >>> (8 + 15 - 3 * l)) &&& 7)
    let offset := (in_u16 u input ip + 3) % 65536
    let ip := ip + 2
    let offset_2 := (in_u16 u input ip + 3) % 65536
    let ip := ip + 2
    let buf := copy_rows u input (rows.take 3) (ip - (offset : Int)) s.local_buffer
    let buf := copy_rows u input (rows.drop 3) (ip - (offset_2 : Int)) buf
    let r := inline_rows u input (rows_array rows u.rows_tail) (buf, ip)
    some ⟨r.1, r.2, r.1, s.cell_aux⟩
  else if match_type = 35 then
    let ip := ip - 1
    let token_2 := in_u16 u input ip
    let ip := ip + 2
    let rows := (List.range 3).map (fun l => (token_2 >>> (7 - 3 * l)) &&& 7)
    let offset := (in_u16 u input ip + 3) % 65536
    let ip := ip + 2
    let buf := copy_rows u input rows (ip - (offset : Int)) s.local_buffer
    let r := inline_rows u input (rows_array rows u.rows_tail) (buf, ip)
    some ⟨r.1, r.2, r.1, s.cell_aux⟩
  else if match_type = 33 then
    let ip := ip - 1
    let token_3 := in_byte u input ip + in_byte u input (ip + 1) * 256 +
      in_byte u input (ip + 2) * 65536 + (u.token_3_hi % 256) * 16777216
    let ip := ip + 3
    let rows := (List.range 6).map (fun l => (token_3 >>> (8 + 15 - 3 * l)) &&& 7)
    let offset := (in_u16 u input ip + 3) % 65536
    let ip := ip + 2
    let offset_2 := (in_u16 u input ip + 3) % 65536
    let ip := ip + 2
    let offset_3 := (in_u16 u input ip + 3) % 65536
    let ip := ip + 2
    let buf := copy_rows u input (rows.take 2) (ip - (offset : Int)) s.local_buffer
    let buf := copy_rows u input ((rows.drop 2).take 2) (ip - (offset_2 : Int)) buf
    let buf := copy_rows u input (rows.drop 4) (ip - (offset_3 : Int)) buf
    let r := inline_rows u input (rows_array rows u.rows_tail) (buf, ip)
    some ⟨r.1, r.2, r.1, s.cell_aux⟩
  else if match_type >>> 2 = 11 then
    let ip := ip - 1
    let token_2 := in_u16 u input ip
    let ip := ip + 2
    let rows := (List.range 4).map (fun l => (token_2 >>> (9 - 3 * l)) &&& 7)
    let offset := (in_u16 u input ip + 3) % 65536
    let ip := ip + 2
    let offset_2 := (in_u16 u input ip + 3) % 65536
    let ip := ip + 2
    let buf := copy_rows u input (rows.take 2) (ip - (offset : Int)) s.local_buffer
    let buf := copy_rows u input (rows.drop 2) (ip - (offset_2 : Int)) buf
    let r := inline_rows u input (rows_array rows u.rows_tail) (buf, ip)
    some ⟨r.1, r.2, r.1, s.cell_aux⟩
  else if match_type = 34 then
    let ip := ip - 1
    let token_2 := in_u16 u input ip
    let ip := ip + 2
    let rows := (List.range 2).map (fun l => (token_2 >>> (3 - 3 * l)) &&& 7)
    let offset := (in_u16 u input ip + 3) % 65536
    let ip := ip + 2
    let buf := copy_rows u input rows (ip - (offset : Int)) s.local_buffer
    let r := inline_rows u input (rows_array rows u.rows_tail) (buf, ip)
    some ⟨r.1, r.2, r.1, s.cell_aux⟩
  else none

/-- The values `padding[0]`, `padding[1]` of the decoder (lines 725-734). -/
def decoder_padding (shape i_stop ii : Nat) : Nat :=
  if ii = i_stop - 1 then (if shape % 8 = 0 then 8 else shape % 8) else 8

/-- The copy of the decoded cell into the output (lines 906-913): row `i`
goes to `op[orig + i * blockshape[1]]` in 32-bit arithmetic, and `buffercpy`
advances by `padding[1]` for each of the 8 rows. -/
def scatter (out : Nat → Nat) (buffercpy : Nat → Nat) (orig cols pad0 pad1 : Nat) :
    Nat → Nat :=
  (List.range 8).foldl
    (fun o i => if i < pad0
      then copy_to o ((orig + i * cols) % 4294967296) (fun k => buffercpy (i * pad1 + k)) pad1
      else o) out

/-- One iteration of the decoder's main loop (lines 721-918) for the cell
`(ii0, ii1)`; `Except.error` is `return 0`. -/
def decode_step (u : indeterminate) (input : List Nat) (length maxout : Int)
    (rows cols i_stop0 i_stop1 ii0 ii1 : Nat) (s : decoder_vars) :
    Except decoder_vars decoder_vars :=
  if s.ip > length then Except.error s
  else
    let pad0 := decoder_padding rows i_stop0 ii0
    let pad1 := decoder_padding cols i_stop1 ii1
    match decode_token u input pad0 pad1 s with
    | none => Except.error { s with ip := s.ip + 1, padding1 := pad1 }
    | some d =>
      let orig := (ii0 * 8 * cols + ii1 * 8) % 4294967296
      let out := scatter s.out d.buffercpy orig cols pad0 pad1
      let ind := (orig + (pad0 - 1) * cols) % 4294967296
      let s1 : decoder_vars := ⟨d.ip, out, d.local_buffer, d.cell_aux, ind, pad1⟩
      if ind > u32 maxout then Except.error s1 else Except.ok s1

/-- The cast `(int) x` for a 32-bit unsigned `x`. -/
def i32 (x : Nat) : Int :=
  if x % 4294967296 < 2147483648 then ((x % 4294967296 : Nat) : Int)
  else ((x % 4294967296 : Nat) : Int) - 4294967296

/-- The codec entry point `ndlz8_decompress`: the value returned and the
content of the output buffer afterwards.  The buffer is the function from `k`
to the byte `op[k]`, for every `k`: the definition stores where the source
stores, whatever `maxout` is, so that a store at an index `k >= maxout` is a
store behind the capacity of the buffer. -/
def ndlz8_decompress (u : indeterminate) (input : List Nat) (length maxout : Int) :
    Int × (Nat → Nat) :=
  if length ≤ 0 then (0, u.output)
  else
    let rows := header_rows u input
    let cols := header_cols u input
    let eshape0 := ((rows + 7) % 4294967296) / 8 * 8
    let eshape1 := ((cols + 7) % 4294967296) / 8 * 8
    let out := copy_to u.output 0 (fun _ => 0) ((rows * cols) % 4294967296)
    let i_stop0 := eshape0 / 8
    let i_stop1 := eshape1 / 8
    match loop (fun ii0 s =>
        loop (fun ii1 s1 =>
            decode_step u input length maxout rows cols i_stop0 i_stop1 ii0 ii1 s1)
          (for_range 0 i_stop1) s)
        (for_range 0 i_stop0)
        (⟨9, out, u.local_buffer, u.cell_aux, u.ind, u.padding1⟩ : decoder_vars) with
    | Except.error s => (0, s.out)
    | Except.ok s =>
      let ind := (s.ind + s.padding1) % 4294967296
      if ind ≠ (rows * cols) % 4294967296 then (0, s.out)
      else if ind > u32 maxout then (0, s.out)
      else (i32 ind, s.out)

/-- The first `n` bytes of an output buffer. -/
def out_bytes (out : Nat → Nat) (n : Nat) : List Nat := (List.range n).map out

/-! ## Concrete inputs used in the instances -/

/-- A hash that maps every buffer to 0. -/
def zero_hash : List Nat → Nat → Nat := fun _ _ => 0

/-- Indeterminate values that are all zero. -/
def zero_indeterminate : indeterminate :=
  ⟨fun _ => 0, fun _ => 0, fun _ => 0, fun _ => 0, fun _ => 0, 0, 0, 0⟩

/-- The block of scenario S3: 8 rows of 16 bytes, row 0 is `0, 1, ..., 15`
and rows 1..7 are zero. -/
def block_S3 : List Nat := List.range 16 ++ List.replicate 112 0

/-- The first cell of `block_S3` (columns 0..7): row 0 is `0, ..., 7`. -/
def cell_S3_0 : List Nat := List.range 8 ++ List.replicate 56 0

/-- The second cell of `block_S3` (columns 8..15): row 0 is `8, ..., 15`. -/
def cell_S3_1 : List Nat := [8, 9, 10, 11, 12, 13, 14, 15] ++ List.replicate 56 0

/-- The 9 header bytes for the block shape 8 x 16. -/
def header_S3 : List Nat := [2, 8, 0, 0, 0, 16, 0, 0, 0]

/-- The six-rows record of the second cell of scenario S3: the 16-bit token
`(38 << 10) | (0 << 7) | (1 << 4) = 0x9810` stored low byte first, the offset
48 = 74 - 26 (anchor 74; rows 2..7 of the first literal start at 10 + 16),
then rows 0 and 1 of the cell. -/
def six_record_S3 : List Nat :=
  [16, 152] ++ [48, 0] ++ [8, 9, 10, 11, 12, 13, 14, 15] ++ List.replicate 8 0

/-! ## Predicates used in the statements -/

/-- The triples and pairs searches of a cell whose tables `tab_triple`,
`tab_pair` are empty leave these variables as they are: the four tables, the
flag `literal` and the candidate updates of the six-rows search. -/
def keeps (v v' : ndlz8_vars) : Prop :=
  v'.tab_cell = v.tab_cell ∧ v'.tab_6 = v.tab_6 ∧ v'.tab_triple = v.tab_triple ∧
  v'.tab_pair = v.tab_pair ∧ v'.literal = v.literal ∧ v'.update_6 = v.update_6 ∧
  v'.hash_6 = v.hash_6

/-- The token byte `t` passes none of the tests of the decoder's dispatch
(lines 738-880), so that the `else` branch `Invalid token` is taken. -/
def no_token_class (t : Nat) : Bool :=
  t != 0 && t != 192 && t != 64 && (t >>> 2) != 38 && (t >>> 2) != 36 && (t >>> 2) != 35 &&
  (t >>> 2) != 33 && ((t >>> 2) >>> 2) != 11 && (t >>> 2) != 34

/-- A property of the result of a loop or of a loop body: `Q` on the value
carried by a jump out of the loop, `P` on the state otherwise. -/
def outcome {ρ σ : Type} (Q : ρ → Prop) (P : σ → Prop) : Except ρ σ → Prop
  | Except.error r => Q r
  | Except.ok s => P s

/-! ## Block-size chooser (blosc/btune.c)

`btune.c` names constants of `blosc2.h` (`L1`, the codec codes, the flag
`BLOSC_DOBITSHUFFLE`) and calls `split_block`, which it does not define: the
embedding takes them as parameters.  The variables are `int32_t`; a product
is reduced to 32 bits as the compiled code does, and the quotient of `/` is
truncated towards zero.
-/

namespace Btune

/-- The constants of `blosc2.h` that `btune.c` names. -/
structure constants where
  L1 : Int
  BLOSC_BLOSCLZ : Int
  BLOSC_LZ4 : Int
  BLOSC_LZ4HC : Int
  BLOSC_LIZARD : Int
  BLOSC_ZLIB : Int
  BLOSC_ZSTD : Int
  BLOSC_NDLZ : Int
  BLOSC_DOBITSHUFFLE : Nat

/-- The fields of `blosc2_context` that `btune_next_blocksize` and `is_HCR`
read or write. -/
structure blosc2_context where
  clevel : Int
  typesize : Int
  sourcesize : Int
  blocksize : Int
  compcode : Int
  filter_flags : Nat

/-- The function `is_HCR` (lines 18-39): whether the codec of the context is
meant for high compression ratios. The `default` case logs an error and falls
to `return false`. -/
def is_HCR (c : constants) (context : blosc2_context) : Bool :=
  if context.compcode = c.BLOSC_BLOSCLZ then false
  else if context.compcode = c.BLOSC_LZ4 then
    (context.filter_flags &&& c.BLOSC_DOBITSHUFFLE) != 0
  else if context.compcode = c.BLOSC_LZ4HC then true
  else if context.compcode = c.BLOSC_LIZARD then true
  else if context.compcode = c.BLOSC_ZLIB then true
  else if context.compcode = c.BLOSC_ZSTD then true
  else if context.compcode = c.BLOSC_NDLZ then false
  else false

/-- The product of two `int32_t` values, reduced to 32 bits. -/
def mul32 (a b : Int) : Int := i32 (u32 (a * b))

/-- The function `btune_next_blocksize` (lines 42-153): the context after the
call. `split_block` is the function of that name, called with the context,
`typesize`, `blocksize` and `true`. -/
def btune_next_blocksize (c : constants)
    (split_block : blosc2_context → Int → Int → Bool → Bool)
    (context : blosc2_context) : blosc2_context :=
  let clevel := context.clevel
  let typesize := context.typesize
  let nbytes := context.sourcesize
  let user_blocksize := context.blocksize
  let blocksize := nbytes
  -- Protection against very small buffers
  if nbytes < typesize then { context with blocksize := 1 }
  else
    let blocksize :=
      if user_blocksize ≠ 0 then user_blocksize
      else
        let blocksize :=
          if nbytes ≥ c.L1 then
            let blocksize := c.L1
            let blocksize := if is_HCR c context then mul32 blocksize 2 else blocksize
            if clevel = 0 then Int.tdiv blocksize 4
            else if clevel = 1 then Int.tdiv blocksize 2
            else if clevel = 2 then mul32 blocksize 1
            else if clevel = 3 then mul32 blocksize 2
            else if clevel = 4 ∨ clevel = 5 then mul32 blocksize 4
            else if clevel = 6 ∨ clevel = 7 ∨ clevel = 8 then mul32 blocksize 8
            else if clevel = 9 then
              let blocksize := mul32 blocksize 8
              if is_HCR c context then mul32 blocksize 2 else blocksize
            else blocksize
          else blocksize
        -- the blocksize for splittable codecs
        if clevel > 0 ∧ split_block context typesize blocksize true = true then
          let blocksize : Int :=
            if clevel = 1 then 8 * 1024
            else if clevel = 2 ∨ clevel = 3 then 16 * 1024
            else if clevel = 4 ∨ clevel = 5 ∨ clevel = 6 ∨ clevel = 7 ∨ clevel = 8 then
              128 * 1024
            else 256 * 1024
          let blocksize := mul32 blocksize typesize
          let blocksize := if blocksize > 1024 * 1024 then 1024 * 1024 else blocksize
          if blocksize < 32 * 1024 then 32 * 1024 else blocksize
        else blocksize
    -- label `last`
    let blocksize := if blocksize > nbytes then nbytes else blocksize
    let blocksize :=
      if blocksize > typesize then mul32 (Int.tdiv blocksize typesize) typesize
      else blocksize
    { context with blocksize := blocksize }

/-- Values of the constants for the instances: `L1` is 32 KiB. -/
def sample_constants : constants := ⟨32768, 0, 1, 2, 3, 5, 6, 32, 4⟩

/-- A `split_block` that never splits. -/
def never_split : blosc2_context → Int → Int → Bool → Bool := fun _ _ _ _ => false

end Btune

/-! ## Predicates on the hash tables and on the records -/

/-- The four hash tables of `w` are those of `v`. -/
def same_tables (v w : ndlz8_vars) : Prop :=
  w.tab_cell = v.tab_cell ∧ w.tab_6 = v.tab_6 ∧ w.tab_triple = v.tab_triple ∧
  w.tab_pair = v.tab_pair

/-- The position `p` is an entry of one of the four hash tables, and `len` is
the number of bytes that the table keys: 64 for `tab_cell`, 48 for `tab_6`,
24 for `tab_triple`, 16 for `tab_pair`. -/
def table_entry (v : ndlz8_vars) (p len : Nat) : Prop :=
  (len = 64 ∧ ∃ h, v.tab_cell h = p) ∨ (len = 48 ∧ ∃ h, v.tab_6 h = p) ∨
  (len = 24 ∧ ∃ h, v.tab_triple h = p) ∨ (len = 16 ∧ ∃ h, v.tab_pair h = p)

/-- The candidate table updates of the cell at `anchor`: an element of
`update_6`, `update_triple`, `update_pair` is 0 or the position of row `h` in
the data of a literal record written at `anchor`, with `h` at most 2, 5, 6. -/
def updates_inside (anchor : Nat) (v : ndlz8_vars) : Prop :=
  (∀ h, v.update_6 h = 0 ∨ (h ≤ 2 ∧ v.update_6 h = anchor + 1 + h * 8)) ∧
  (∀ h, v.update_triple h = 0 ∨ (h ≤ 5 ∧ v.update_triple h = anchor + 1 + h * 8)) ∧
  (∀ h, v.update_pair h = 0 ∨ (h ≤ 6 ∧ v.update_pair h = anchor + 1 + h * 8))

/-- A literal cell record: the token 0 and 64 data bytes. -/
def literal_cell_record (r : List Nat) : Prop := r.length = 65 ∧ r.head? = some 0

/-- The states of the main loop between two cells, each with the records
written so far as pairs (anchor, record), the latest first: the start, after
the header, and the state after a cell step that stays in the loop. -/
inductive written (XXH32 : List Nat → Nat → Nat) (rows cols : Nat) (input : List Nat)
    (length maxout : Int) (header : List Nat) :
    ndlz8_vars × List Nat → List (Nat × List Nat) → Prop
  | start : written XXH32 rows cols input length maxout header (ndlz8_vars.init, header) []
  | cell (ii0 ii1 : Nat) (s s' : ndlz8_vars × List Nat) (recs : List (Nat × List Nat)) :
      written XXH32 rows cols input length maxout header s recs →
      cell_step XXH32 rows cols input length maxout ii0 ii1 s = Except.ok s' →
      written XXH32 rows cols input length maxout header s'
        ((s.2.length, s'.2.drop s.2.length) :: recs)

/-- The table entries of `v` lie in literal cell records of `recs`: every
non-zero entry `p` that keys `len` bytes has `[p, p + len)` inside the 64 data
bytes of a literal cell record. -/
def tables_inside (recs : List (Nat × List Nat)) (v : ndlz8_vars) : Prop :=
  ∀ p len, table_entry v p len → p ≠ 0 →
    ∃ ar ∈ recs, literal_cell_record ar.2 ∧ ar.1 + 1 ≤ p ∧ p + len ≤ ar.1 + 65

/-- The records `recs` are in the stream `out`, behind the header. -/
def records_in_stream (out : List Nat) (recs : List (Nat × List Nat)) : Prop :=
  ∀ ar ∈ recs, 9 ≤ ar.1 ∧ ar.1 + ar.2.length ≤ out.length ∧
    (out.drop ar.1).take ar.2.length = ar.2


/-- The value `d` is an exact back-offset at `anchor`: strictly positive, below
65535, and the distance from a non-zero entry `p` of a hash table to `anchor`. -/
def exact_offset (anchor : Nat) (v : ndlz8_vars) (d : Nat) : Prop :=
  0 < d ∧ d < 65535 ∧ ∃ p len, table_entry v p len ∧ p ≠ 0 ∧ d + p = anchor

/-- The records that hold back-offsets, with the offsets they hold, in the
order in which the fields are written: the token, the 16-bit offsets, the
literal rows. -/
inductive offset_record (buf_cell : List Nat) : List Nat → List Nat → Prop
  | cell_match (d : Nat) : offset_record buf_cell [d] ([192] ++ le16 d)
  | six_rows (i j d : Nat) : offset_record buf_cell [d]
      (le16 (((38 <<< 10) ||| (i <<< 7) ||| (j <<< 4)) % 65536) ++ le16 d ++
        cell_row buf_cell i ++ cell_row buf_cell j)
  | two_triples (i j k i_ j_ k_ d d_2 : Nat) : offset_record buf_cell [d, d_2]
      (le24 (((9 <<< 20) ||| (i <<< 15) ||| (j <<< 12) ||| (k <<< 9) |||
          (i_ <<< 6) ||| (j_ <<< 3) ||| k_) % 4294967296) ++ le16 d ++ le16 d_2 ++
        rows_where buf_cell (fun l => decide
          (l ≠ i ∧ l ≠ j ∧ l ≠ k ∧ l ≠ i_ ∧ l ≠ j_ ∧ l ≠ k_)))
  | three_pairs (i j i_ j_ i__ j__ d d_2 d_3 : Nat) : offset_record buf_cell [d, d_2, d_3]
      (le24 (((33 <<< 18) ||| (i <<< 15) ||| (j <<< 12) ||| (i_ <<< 9) |||
          (j_ <<< 6) ||| (i__ <<< 3) ||| j__) % 4294967296) ++
        le16 d ++ le16 d_2 ++ le16 d_3 ++
        rows_where buf_cell (fun l => decide
          (l ≠ i ∧ l ≠ j ∧ l ≠ i_ ∧ l ≠ j_ ∧ l ≠ i__ ∧ l ≠ j__)))
  | two_pairs (i j i_ j_ d d_2 : Nat) : offset_record buf_cell [d, d_2]
      (le16 (((11 <<< 12) ||| (i <<< 9) ||| (j <<< 6) ||| (i_ <<< 3) ||| j_) % 65536) ++
        le16 d ++ le16 d_2 ++
        rows_where buf_cell (fun l => decide (l ≠ i ∧ l ≠ j ∧ l ≠ i_ ∧ l ≠ j_)))
  | one_triple (i j k d : Nat) : offset_record buf_cell [d]
      (le16 (((35 <<< 10) ||| (i <<< 7) ||| (j <<< 4) ||| (k <<< 1)) % 65536) ++ le16 d ++
        rows_where buf_cell (fun l => decide (l ≠ i ∧ l ≠ j ∧ l ≠ k)))
  | one_pair (i j d : Nat) : offset_record buf_cell [d]
      (le16 (((34 <<< 10) ||| (i <<< 7) ||| (j <<< 4)) % 65536) ++ le16 d ++
        rows_where buf_cell (fun l => decide (l ≠ i ∧ l ≠ j)))

/-- The record `r` holds back-offsets, all of them exact at `anchor`. -/
def offsets_exact (buf_cell : List Nat) (anchor : Nat) (v : ndlz8_vars) (r : List Nat) :
    Prop :=
  ∃ ds, offset_record buf_cell ds r ∧ ∀ d ∈ ds, exact_offset anchor v d

/-- The entry `p` of a hash table is not 0, lies before `anchor`, at a distance
below 65535. -/
def entry_near (anchor p : Nat) : Prop := p ≠ 0 ∧ p < anchor ∧ anchor - p < 65535

namespace Btune

/-- A `split_block` that always splits. -/
def always_split : blosc2_context → Int → Int → Bool → Bool := fun _ _ _ _ => true

end Btune


/-- A hash whose 12-bit table index is the first byte of the buffer. -/
def first_byte_hash : List Nat → Nat → Nat := fun buf _ => (buf.getD 0 0 % 4096) <<< 20

/-- A block of 8 rows and 16 columns, two cells side by side, whose half rows
are constant: row `r` is 8 bytes `a[r]` (left cell) and 8 bytes `b[r]` (right
cell). -/
def striped_block (a b : List Nat) : List Nat :=
  (List.range 8).flatMap (fun r => List.replicate 8 (a.getD r 0) ++ List.replicate 8 (b.getD r 0))

/-- A cell whose rows are constant: row `r` is 8 bytes `a[r]`. -/
def striped_cell (a : List Nat) : List Nat :=
  (List.range 8).flatMap (fun r => List.replicate 8 (a.getD r 0))

/-! ## The matches that the records name -/

/-- The match test of the pairs search for the rows `c = (i, j)` (lines
396-431): the entry of `tab_pair` is not 0, the 16 bytes of the two rows are
the bytes at the entry, and the distance passes
`(distance != 0) && (distance < MAX_DISTANCE)`. -/
def pair_passes (XXH32 : List Nat → Nat → Nat) (out buf_cell : List Nat) (anchor : Nat)
    (tab_pair : Nat → Nat) (c : Nat × Nat) : Bool :=
  let buf_pair := cell_row buf_cell c.1 ++ cell_row buf_cell c.2
  let hval := hash12 XXH32 buf_pair
  decide (tab_pair hval ≠ 0) &&
    accepted (if same_bytes buf_pair out (tab_pair hval) 16
      then u32 ((anchor : Int) + (c.1 : Int) * 8 - (tab_pair hval : Int)) else 0)

/-- The order in which the pairs search visits the pairs of rows. -/
def scan_order (a b : Nat × Nat) : Prop := a.1 < b.1 ∨ (a.1 = b.1 ∧ a.2 < b.2)

/-- A record that names a match: its class, the rows that its token names and
the positions `p` in the output, entries of the hash tables, that its offsets
designate. -/
inductive match_record where
  | cell_match (p : Nat)
  | six_rows (i j p : Nat)
  | two_triples (i j k i_ j_ k_ p p_2 : Nat)
  | three_pairs (i j i_ j_ i__ j__ p p_2 p_3 : Nat)
  | two_pairs (i j i_ j_ p p_2 : Nat)
  | one_triple (i j k p : Nat)
  | one_pair (i j p : Nat)

/-- The bytes of a match record written at `anchor`: the token, the 16-bit
offsets `anchor - p`, the rows of the cell that the token does not name (for
a six-rows record: the two rows that it names). -/
def record_bytes (buf_cell : List Nat) (anchor : Nat) : match_record → List Nat
  | match_record.cell_match p => [192] ++ le16 (anchor - p)
  | match_record.six_rows i j p =>
    le16 (((38 <<< 10) ||| (i <<< 7) ||| (j <<< 4)) % 65536) ++ le16 (anchor - p) ++
      cell_row buf_cell i ++ cell_row buf_cell j
  | match_record.two_triples i j k i_ j_ k_ p p_2 =>
    le24 (((9 <<< 20) ||| (i <<< 15) ||| (j <<< 12) ||| (k <<< 9) |||
        (i_ <<< 6) ||| (j_ <<< 3) ||| k_) % 4294967296) ++
      le16 (anchor - p) ++ le16 (anchor - p_2) ++
      rows_where buf_cell (fun l => decide
        (l ≠ i ∧ l ≠ j ∧ l ≠ k ∧ l ≠ i_ ∧ l ≠ j_ ∧ l ≠ k_))
  | match_record.three_pairs i j i_ j_ i__ j__ p p_2 p_3 =>
    le24 (((33 <<< 18) ||| (i <<< 15) ||| (j <<< 12) ||| (i_ <<< 9) |||
        (j_ <<< 6) ||| (i__ <<< 3) ||| j__) % 4294967296) ++
      le16 (anchor - p) ++ le16 (anchor - p_2) ++ le16 (anchor - p_3) ++
      rows_where buf_cell (fun l => decide
        (l ≠ i ∧ l ≠ j ∧ l ≠ i_ ∧ l ≠ j_ ∧ l ≠ i__ ∧ l ≠ j__))
  | match_record.two_pairs i j i_ j_ p p_2 =>
    le16 (((11 <<< 12) ||| (i <<< 9) ||| (j <<< 6) ||| (i_ <<< 3) ||| j_) % 65536) ++
      le16 (anchor - p) ++ le16 (anchor - p_2) ++
      rows_where buf_cell (fun l => decide (l ≠ i ∧ l ≠ j ∧ l ≠ i_ ∧ l ≠ j_))
  | match_record.one_triple i j k p =>
    le16 (((35 <<< 10) ||| (i <<< 7) ||| (j <<< 4) ||| (k <<< 1)) % 65536) ++
      le16 (anchor - p) ++ rows_where buf_cell (fun l => decide (l ≠ i ∧ l ≠ j ∧ l ≠ k))
  | match_record.one_pair i j p =>
    le16 (((34 <<< 10) ||| (i <<< 7) ||| (j <<< 4)) % 65536) ++ le16 (anchor - p) ++
      rows_where buf_cell (fun l => decide (l ≠ i ∧ l ≠ j))

/-- The bytes `bytes` stand in the output `out` at the position `p`. -/
def found_at (out : List Nat) (p : Nat) (bytes : List Nat) : Prop :=
  p + bytes.length ≤ out.length ∧ (out.drop p).take bytes.length = bytes

/-- The positions that the offsets of a match record designate are not 0, lie
before `anchor` and at a distance below 65535, so that the 16-bit field
`anchor - p` designates `p`. -/
def positions_near (anchor : Nat) : match_record → Prop
  | match_record.cell_match p => entry_near anchor p
  | match_record.six_rows _ _ p => entry_near anchor p
  | match_record.two_triples _ _ _ _ _ _ p p_2 => entry_near anchor p ∧ entry_near anchor p_2
  | match_record.three_pairs _ _ _ _ _ _ p p_2 p_3 =>
    entry_near anchor p ∧ entry_near anchor p_2 ∧ entry_near anchor p_3
  | match_record.two_pairs _ _ _ _ p p_2 => entry_near anchor p ∧ entry_near anchor p_2
  | match_record.one_triple _ _ _ p => entry_near anchor p
  | match_record.one_pair _ _ p => entry_near anchor p

/-- The ranges that a cell-match, six-rows, one-pair or three-pairs record
references hold the rows of the cell that the record stands for, in
increasing row order: the 64 bytes of the cell, the six rows other than `i`
and `j`, the rows of each pair. -/
def refs_verified (out buf_cell : List Nat) : match_record → Prop
  | match_record.cell_match p => buf_cell.length = 64 ∧ found_at out p buf_cell
  | match_record.six_rows i j p =>
    i < j ∧ j < 8 ∧
    (rows_where buf_cell (fun k => decide (k ≠ i ∧ k ≠ j))).length = 48 ∧
    found_at out p (rows_where buf_cell (fun k => decide (k ≠ i ∧ k ≠ j)))
  | match_record.three_pairs i j i_ j_ i__ j__ p p_2 p_3 =>
    i < j ∧ j < 8 ∧ i_ < j_ ∧ j_ < 8 ∧ i__ < j__ ∧ j__ < 8 ∧
    found_at out p (cell_row buf_cell i ++ cell_row buf_cell j) ∧
    found_at out p_2 (cell_row buf_cell i_ ++ cell_row buf_cell j_) ∧
    found_at out p_3 (cell_row buf_cell i__ ++ cell_row buf_cell j__)
  | match_record.one_pair i j p =>
    i < j ∧ j < 8 ∧ found_at out p (cell_row buf_cell i ++ cell_row buf_cell j)
  | _ => True

/-- The second triple of a two-triples record: the 24 bytes at the second
position are the rows `i_`, `j_`, `k_` of the cell, the six rows named are
pairwise distinct, and two rows (16 bytes) follow as literals. -/
def second_triple_verified (out buf_cell : List Nat) : match_record → Prop
  | match_record.two_triples i j k i_ j_ k_ _ p_2 =>
    i < j ∧ j < k ∧ k < 8 ∧ i_ < j_ ∧ j_ < k_ ∧ k_ < 8 ∧
    found_at out p_2 (cell_row buf_cell i_ ++ cell_row buf_cell j_ ++ cell_row buf_cell k_) ∧
    [i, j, k, i_, j_, k_].Nodup ∧
    (rows_where buf_cell (fun l => decide
      (l ≠ i ∧ l ≠ j ∧ l ≠ k ∧ l ≠ i_ ∧ l ≠ j_ ∧ l ≠ k_))).length = 16
  | _ => True

/-- The pair of a one-pair record passes the match test, its position is the
entry of `tab_pair` for its rows, and no pair that the scan visits after it
passes the test. -/
def last_passing_pair (XXH32 : List Nat → Nat → Nat) (out buf_cell : List Nat)
    (tab_pair : Nat → Nat) : match_record → Prop
  | match_record.one_pair i j p =>
    (i, j) ∈ pair_indices 0 ∧
    pair_passes XXH32 out buf_cell out.length tab_pair (i, j) = true ∧
    p = tab_pair (hash12 XXH32 (cell_row buf_cell i ++ cell_row buf_cell j)) ∧
    ∀ c ∈ pair_indices 0, pair_passes XXH32 out buf_cell out.length tab_pair c = true →
      c = (i, j) ∨ scan_order c (i, j)
  | _ => True

/-- The classes of records that are written: all but the two-pairs record. -/
def written_class : match_record → Prop
  | match_record.two_pairs _ _ _ _ _ _ => False
  | _ => True

/-- The classes of records written for a cell in which a triple match was
accepted. -/
def triple_accepted_class : match_record → Prop
  | match_record.two_triples _ _ _ _ _ _ _ _ => True
  | match_record.one_triple _ _ _ _ => True
  | match_record.three_pairs _ _ _ _ _ _ _ _ _ => True
  | _ => False

/-- What holds of every match record `m` written for the cell `buf_cell` at the
end of `out`, with `tab_pair` the table of the pairs. -/
def checked (XXH32 : List Nat → Nat → Nat) (out buf_cell : List Nat)
    (tab_pair : Nat → Nat) (m : match_record) : Prop :=
  positions_near out.length m ∧ refs_verified out buf_cell m ∧
  second_triple_verified out buf_cell m ∧
  last_passing_pair XXH32 out buf_cell tab_pair m ∧ written_class m

/-- A triple match is accepted for the cell: the six-rows search ends without
a match, and the triples search leaves by `goto match`, with two triples, or
ends with `triple_match[0] = 1`. -/
def triple_accepted (XXH32 : List Nat → Nat → Nat) (out buf_cell : List Nat)
    (v : ndlz8_vars) : Bool :=
  match loop (six_body XXH32 out buf_cell out.length) (pair_indices 0)
      { v with literal := true } with
  | Except.error _ => false
  | Except.ok v1 =>
    match triple_search XXH32 out buf_cell out.length v1 with
    | Except.error _ => true
    | Except.ok v2 => v2.triple_match 0 == 1

/-- What the triples search leaves for the pairs search: when a triple match
is stored, the cell is no literal, the rows stored are `i < j < k < 8` and the
entry stored is near. -/
def triple_kept (out : List Nat) (v0 v : ndlz8_vars) : Prop :=
  v.triple_match 0 = 1 → v.literal = false ∧
    v.triple_match 1 < v.triple_match 2 ∧ v.triple_match 2 < v.triple_match 3 ∧
    v.triple_match 3 < 8 ∧ entry_near out.length (v0.tab_triple (v.triple_match 4))

/-- Invariant of the scan for further pairs inside the iteration of the pair
`x`, which passed the match test: `x` is the pair stored, and a second pair
stored is a pair that the outer scan visits after `x` and that passes the
test. -/
def pair_stored (XXH32 : List Nat → Nat → Nat) (out buf_cell : List Nat)
    (v0 : ndlz8_vars) (x : Nat × Nat) (v : ndlz8_vars) : Prop :=
  same_tables v0 v ∧ triple_kept out v0 v ∧
  v.pair_matches 1 = x.1 ∧ v.pair_matches 2 = x.2 ∧
  v.pair_matches 3 = hash12 XXH32 (cell_row buf_cell x.1 ++ cell_row buf_cell x.2) ∧
  (v.pair_matches 0 = 1 ∨
    (v.pair_matches 0 = 2 ∧ ∃ y ∈ pair_indices (x.1 + 1),
      pair_passes XXH32 out buf_cell out.length v0.tab_pair y = true))

/-- Invariant of the pairs search after the pairs `done`: no pair passed the
test and none is stored, or the pair stored is the last of `done` that passed
the test. -/
def pair_scanned (XXH32 : List Nat → Nat → Nat) (out buf_cell : List Nat)
    (v0 : ndlz8_vars) (done : List (Nat × Nat)) (v : ndlz8_vars) : Prop :=
  (same_tables v0 v ∧ triple_kept out v0 v ∧ v.pair_matches 0 = 0 ∧
    ∀ y ∈ done, pair_passes XXH32 out buf_cell out.length v0.tab_pair y = false) ∨
  (∃ l1 x l2, done = l1 ++ x :: l2 ∧
    pair_passes XXH32 out buf_cell out.length v0.tab_pair x = true ∧
    (∀ y ∈ l2, pair_passes XXH32 out buf_cell out.length v0.tab_pair y = false) ∧
    pair_stored XXH32 out buf_cell v0 x v)

/-- The state of the main loop after the first cell of an 8 x 16 block, with
`length = 128` and `maxout = 200` (scenario S3 and the striped blocks); the
empty stream stands for a first step that leaves the loop. -/
def after_first_cell (XXH32 : List Nat → Nat → Nat) (input : List Nat) :
    ndlz8_vars × List Nat :=
  match cell_step XXH32 8 16 input 128 200 0 0 (ndlz8_vars.init, header_S3) with
  | Except.ok s => s
  | Except.error _ => (ndlz8_vars.init, [])

/-- An 8 x 16 block of constant half rows whose right cell holds rows 5, 6, 7
of the left cell twice, as rows 0, 1, 2 and as rows 3, 4, 5. -/
def block_two_triples : List Nat :=
  striped_block [1, 2, 3, 4, 5, 6, 7, 8] [6, 7, 8, 6, 7, 8, 9, 10]

/-- An 8 x 16 block of constant half rows whose right cell holds rows 6, 7 of
the left cell as rows 0, 1 and as rows 1, 2. -/
def block_later_pair : List Nat :=
  striped_block [1, 2, 3, 4, 5, 6, 7, 7] [7, 7, 7, 10, 11, 12, 13, 14]

/-- An 8 x 16 block of constant half rows whose right cell holds rows 5, 6, 7
of the left cell as rows 0, 1, 2 and rows 6, 7 as rows 1, 2, rows 3, 4 and
rows 5, 6. -/
def block_three_pairs : List Nat :=
  striped_block [1, 2, 3, 4, 5, 6, 7, 7] [6, 7, 7, 7, 7, 7, 7, 9]

/-- An 8 x 16 block of constant half rows whose right cell holds rows 5, 6, 7
of the left cell as rows 0, 1, 2, and no other match but the pair of rows
1, 2. -/
def block_one_triple : List Nat :=
  striped_block [1, 2, 3, 4, 5, 6, 7, 8] [6, 7, 8, 11, 12, 13, 14, 15]

/-! ## The counter of the pairs search -/

/-- Invariant of the scans for a second and a third pair inside the iteration
of the pair `x`: the counter `pair_matches[0]` is 1, or it is 2 and a pair
that the outer scan visits after `x` passes the match test. -/
def pair_counted (XXH32 : List Nat → Nat → Nat) (out buf_cell : List Nat) (anchor : Nat)
    (tab : Nat → Nat) (x : Nat × Nat) (v : ndlz8_vars) : Prop :=
  v.tab_pair = tab ∧
  (v.pair_matches 0 = 1 ∨
    (v.pair_matches 0 = 2 ∧ ∃ y ∈ pair_indices (x.1 + 1),
      pair_passes XXH32 out buf_cell anchor tab y = true))

/-- Invariant of the pairs search after the pairs `done`: the counter is 0, or
some pair `x` of `done` is followed in `done` by pairs that do not pass the
match test, and the counter is as `pair_counted` says for `x`. -/
def pairs_counted (XXH32 : List Nat → Nat → Nat) (out buf_cell : List Nat) (anchor : Nat)
    (tab : Nat → Nat) (done : List (Nat × Nat)) (v : ndlz8_vars) : Prop :=
  v.tab_pair = tab ∧
  (v.pair_matches 0 = 0 ∨
    ∃ l1 x l2, done = l1 ++ x :: l2 ∧
      (∀ y ∈ l2, pair_passes XXH32 out buf_cell anchor tab y = false) ∧
      pair_counted XXH32 out buf_cell anchor tab x v)

/-! ## Hand-made streams for the token branches of the decoder -/

/-- A stream for the shape 8 x 16 whose first cell is a literal record with
the data bytes 100, 101, ..., 163 (the byte at position `q` is `90 + q` for
`10 <= q < 74`) and whose second record, at position 74, has the given token
bytes and offset fields, followed by the 48 bytes 200, 201, ... -/
def handmade_stream (token : List Nat) (offsets : List Nat) : List Nat :=
  header_S3 ++ [0] ++ List.range' 100 64 ++ token ++ offsets.flatMap le16 ++
    List.range' 200 48

/-- The variables of the decoder when it reaches the second record of a
hand-made stream. -/
def handmade_vars : decoder_vars :=
  ⟨74, fun _ => 0, fun _ => 0, fun _ => 0, 56, 8⟩

/-- Indeterminate values in which the words behind a `rows` array hold `t`. -/
def tail_indeterminate (t : Int) : indeterminate :=
  { zero_indeterminate with rows_tail := fun _ => t }

/-- The row indices that the decoder takes from a token:
`rows[l] = (token >> (shift - 3 * l)) & 7` for `l < n`, with `shift` 7 for the
six-rows and one-triple tokens, 9 for two pairs, 3 for one pair and `8 + 15`
for the 3-byte tokens (lines 753-754, 778-780, 804-806, 825-827, 861-863,
886-888). -/
def token_rows (token shift n : Nat) : List Nat :=
  (List.range n).map (fun l => (token >>> (shift - 3 * l)) &&& 7)

/-- The value of a token as the decoder reads it from its bytes, low byte
first. -/
def token_read (bytes : List Nat) : Nat :=
  (bytes.enum.map (fun kb => kb.2 * 256 ^ kb.1)).sum

/-! ## The cell loop of the decoder -/

/-- The cell loop of `ndlz8_decompress` (lines 719-919), started from the
state that the prologue leaves: `Except.error` is a `return 0` inside the
loop, `Except.ok` the variables when the loop has run to completion. -/
def decoder_cells (u : indeterminate) (input : List Nat) (length maxout : Int) :
    Except decoder_vars decoder_vars :=
  let rows := header_rows u input
  let cols := header_cols u input
  let eshape0 := ((rows + 7) % 4294967296) / 8 * 8
  let eshape1 := ((cols + 7) % 4294967296) / 8 * 8
  let out := copy_to u.output 0 (fun _ => 0) ((rows * cols) % 4294967296)
  let i_stop0 := eshape0 / 8
  let i_stop1 := eshape1 / 8
  loop (fun ii0 s =>
      loop (fun ii1 s1 =>
          decode_step u input length maxout rows cols i_stop0 i_stop1 ii0 ii1 s1)
        (for_range 0 i_stop1) s)
    (for_range 0 i_stop0)
    (⟨9, out, u.local_buffer, u.cell_aux, u.ind, u.padding1⟩ : decoder_vars)

/-- A header whose first dimension is `2^32 - 7` and whose second dimension
is 1. -/
def wrapped_header : List Nat := [2, 249, 255, 255, 255, 1, 0, 0, 0]

/-! ## Constant cells -/

/-- The test `alleq` of lines 217-223: the bytes 1..63 of the cell buffer
equal the byte 0. -/
def all_equal (buf_cell : List Nat) : Bool :=
  (for_range 1 64).all (fun i => buf_cell.getD i 0 == buf_cell.getD 0 0)

/-- Every non-zero entry of `tab_cell` is the position of the first data byte
of a literal cell record of `recs` whose 64 data bytes are not all equal. -/
def cell_entries_literal (recs : List (Nat × List Nat)) (v : ndlz8_vars) : Prop :=
  ∀ h, v.tab_cell h ≠ 0 → ∃ ar ∈ recs, literal_cell_record ar.2 ∧
    v.tab_cell h = ar.1 + 1 ∧ all_equal (ar.2.drop 1) = false

/-! ## The cells of a block and their records -/

/-- The cells `(ii0, ii1)` of the grid in the order in which the nested loops
of lines 147-148 and 719-720 visit them. -/
def cell_grid (i_stop0 i_stop1 : Nat) : List (Nat × Nat) :=
  (for_range 0 i_stop0).flatMap (fun ii0 => (for_range 0 i_stop1).map (fun ii1 => (ii0, ii1)))

/-- The records that the main loop of the encoder writes for the cells
`cells`, one after the other, started in the state `s`; the list stops at a
cell step that leaves the loop by `return 0`. -/
def cell_records (XXH32 : List Nat → Nat → Nat) (rows cols : Nat) (input : List Nat)
    (length maxout : Int) : List (Nat × Nat) → ndlz8_vars × List Nat → List (List Nat)
  | [], _ => []
  | c :: cs, s =>
    match cell_step XXH32 rows cols input length maxout c.1 c.2 s with
    | Except.error _ => []
    | Except.ok s1 =>
      s1.2.drop s.2.length :: cell_records XXH32 rows cols input length maxout cs s1

/-- The cell records of a call of `ndlz8_compress` that reaches the main
loop, in the order of the cells. -/
def compress_records (XXH32 : List Nat → Nat → Nat) (context : blosc2_context)
    (input : List Nat) (length maxout : Int) : List (List Nat) :=
  cell_records XXH32 context.blockshape0 context.blockshape1 input length maxout
    (cell_grid ((context.blockshape0 + 8 - 1) / 8) ((context.blockshape1 + 8 - 1) / 8))
    (ndlz8_vars.init,
      [u8 context.ndim] ++ le32 context.blockshape0 ++ le32 context.blockshape1)

/-- A record that starts with the token 0 (a literal, full or padded), or the
three bytes of a cell match: the token `0xC0` and a 16-bit offset. -/
def plain_record (r : List Nat) : Bool :=
  r.headD 0 == 0 || (r.headD 0 == 192 && r.length == 3)

/-- A block of 8 rows and 16 columns whose two cells are equal: row `r` of
each cell is `8 r, 8 r + 1, ..., 8 r + 7`. -/
def twin_block : List Nat :=
  (List.range 8).flatMap (fun r => List.range' (8 * r) 8 ++ List.range' (8 * r) 8)

/-- A stream for the shape 8 x 8 whose only record is the literal record of
the cell `0, 1, ..., 63`. -/
def literal_stream : List Nat := [2, 8, 0, 0, 0, 8, 0, 0, 0] ++ [0] ++ List.range 64

/-! ## The entry of the encoder in the types of the source

`ndlz8_compress` above holds the block shape as natural numbers and takes
`rows * cols` exactly.  In the source `blockshape` is an array of `int32_t`
and `blockshape[0] * blockshape[1]` is an `int` product.  The definitions of
this section follow the source in these types up to the main loop, whose body
is a parameter; `compress_signed_agrees` shows that the two agree on the
shapes that a block of at most `2^31 - 1` bytes can have.
-/

/-- The fields of `blosc2_context` that `ndlz8_compress` reads, in the types
of the source: `blockshape[0]` and `blockshape[1]` are `int32_t` values. -/
structure signed_context where
  ndim : Int
  blockshape0 : Int
  blockshape1 : Int
  leftover : Int

/-- The value `i_stop[i] = (blockshape[i] + cell_shape - 1) / cell_shape` of
line 141: an `int` sum, an `int` quotient truncated towards zero, stored in a
`uint32_t`. -/
def i_stop (blockshape : Int) : Nat := u32 (Int.tdiv (i32 (u32 (blockshape + 8 - 1))) 8)

/-- The function `ndlz8_compress` (lines 62-612) with the block shape as the
`int32_t` values of the source: the value returned and the bytes written to
`output`.  The product `blockshape[0] * blockshape[1]` is reduced to 32 bits
as the compiled code does, the quotient by `cell_size` is truncated towards
zero, and `memcpy(op, &blockshape[i], 4)` writes the four bytes of the value.
`cell ii0 ii1` is one iteration of the main loop (lines 149-606) for the cell
`(ii0, ii1)`, with `Except.error out` for `return 0`. -/
def ndlz8_compress_signed
    (cell : Nat → Nat → ndlz8_vars × List Nat → Except (List Nat) (ndlz8_vars × List Nat))
    (context : signed_context) (length maxout : Int) : Int × List Nat :=
  if context.ndim ≠ 2 then (-1, [])
  else if length = context.leftover then (0, [])
  else if length ≠ Btune.mul32 context.blockshape0 context.blockshape1 then (-1, [])
  else if maxout < 1 + context.ndim * 4 then (-1, [])
  else
    let overhead : Int :=
      17 + (Int.tdiv (Btune.mul32 context.blockshape0 context.blockshape1) 64 - 1) * 2
    if length < 64 ∨ maxout < overhead then (0, [])
    else
      let header :=
        [u8 context.ndim] ++ le32 (u32 context.blockshape0) ++ le32 (u32 context.blockshape1)
      match loop (fun ii0 s => loop (fun ii1 s1 => cell ii0 ii1 s1)
            (for_range 0 (i_stop context.blockshape1)) s)
          (for_range 0 (i_stop context.blockshape0)) (ndlz8_vars.init, header) with
      | Except.error out => (0, out)
      | Except.ok s => ((s.2.length : Int), s.2)

/-! ## Streams whose header misleads the decoder -/

/-- A header for 16 rows of 16 bytes, followed by the reserved token `0x80`. -/
def invalid_stream_16 : List Nat := [2, 16, 0, 0, 0, 16, 0, 0, 0, 128]

/-- A header for 16 rows of 16 bytes, followed by the literal record of a
cell with the bytes `1, 2, ..., 64`. -/
def literal_stream_16 : List Nat :=
  [2, 16, 0, 0, 0, 16, 0, 0, 0] ++ [0] ++ List.range' 1 64

/-- A header for 65536 rows of 65535 bytes, followed by the reserved token
`0x80`. -/
def invalid_stream_big : List Nat := [2, 0, 0, 1, 0, 255, 255, 0, 0, 128]

/-- A header for 65535 rows of 65535 bytes, followed by the reserved token
`0x80`. -/
def invalid_stream_65535 : List Nat := [2, 255, 255, 0, 0, 255, 255, 0, 0, 128]

/-- A header whose two dimensions are `2^32 - 7`, followed by the reserved
token `0x80`. -/
def invalid_stream_wrapped : List Nat := [2, 249, 255, 255, 255, 249, 255, 255, 255, 128]

/-- Indeterminate values where the output buffer holds the byte `0xAA`
everywhere before the call and everything else is zero. -/
def sentinel_indeterminate : indeterminate :=
  ⟨fun _ => 0, fun _ => 170, fun _ => 0, fun _ => 0, fun _ => 0, 0, 0, 0⟩

/-- Indeterminate values where the variable `ind` holds 49 before its first
assignment and everything else is zero. -/
def primed_indeterminate : indeterminate :=
  ⟨fun _ => 0, fun _ => 0, fun _ => 0, fun _ => 0, fun _ => 0, 0, 49, 0⟩

namespace Btune

/-- The value of `blocksize` at the call `split_block(context, typesize,
blocksize, true)` of line 107, for a context without a caller-supplied
blocksize: `nbytes`, or for `nbytes >= L1` the value that lines 60-104 derive
from `L1`, the codec and the level. -/
def level_blocksize (c : constants) (context : blosc2_context) : Int :=
  let clevel := context.clevel
  let nbytes := context.sourcesize
  let blocksize := nbytes
  if nbytes ≥ c.L1 then
    let blocksize := c.L1
    let blocksize := if is_HCR c context then mul32 blocksize 2 else blocksize
    if clevel = 0 then Int.tdiv blocksize 4
    else if clevel = 1 then Int.tdiv blocksize 2
    else if clevel = 2 then mul32 blocksize 1
    else if clevel = 3 then mul32 blocksize 2
    else if clevel = 4 ∨ clevel = 5 then mul32 blocksize 4
    else if clevel = 6 ∨ clevel = 7 ∨ clevel = 8 then mul32 blocksize 8
    else if clevel = 9 then
      let blocksize := mul32 blocksize 8
      if is_HCR c context then mul32 blocksize 2 else blocksize
    else blocksize
  else blocksize

/-- A `split_block` that splits the blocks of 16 KiB and no other. -/
def split_16384 : blosc2_context → Int → Int → Bool → Bool := fun _ _ b _ => decide (b = 16384)

end Btune

/-! ## The stores of the reset loop behind `update_6`

The reset loop of lines 149-155 runs `h` from 0 to 6 and stores 0 at
`update_6[h]`, but `update_6` has 3 elements (line 107): the stores for
`h = 3 .. 6` go to the four 32-bit words that follow the array in the frame of
`ndlz8_compress`.  C gives these stores no meaning and `cell_step` leaves them
out.  Which object a build places behind the array is a parameter of the
definitions of this section.
-/

/-- The indices `h` of the reset loop whose store `update_6[h] = 0` lies
behind the 3 elements of `update_6`. -/
def stray_indices : List Nat := (for_range 0 7).filter (fun h => decide (3 ≤ h))

/-- The effect on the hash tables of the stores `update_6[h] = 0` behind the
array: `behind h` is the index of the element of `tab_pair` that lies at
`&update_6[h]`, and `none` when that word is no element of a hash table. -/
def stray_stores (behind : Nat → Option Nat) (v : ndlz8_vars) : ndlz8_vars :=
  stray_indices.foldl
    (fun w h =>
      match behind h with
      | some k => { w with tab_pair := setAt w.tab_pair k 0 }
      | none => w) v

/-- One iteration of the main loop (lines 149-606) with the stores of the
reset loop behind `update_6`. -/
def cell_step_stray (behind : Nat → Option Nat) (XXH32 : List Nat → Nat → Nat)
    (rows cols : Nat) (input : List Nat) (length maxout : Int) (ii0 ii1 : Nat)
    (s : ndlz8_vars × List Nat) : Except (List Nat) (ndlz8_vars × List Nat) :=
  cell_step XXH32 rows cols input length maxout ii0 ii1 (stray_stores behind s.1, s.2)

/-- A frame where no hash table follows `update_6`. -/
def no_table_behind : Nat → Option Nat := fun _ => none

/-- A block of 10 rows and 10 columns: the byte at row `r`, column `c` is 7 in
the first cell (`r < 8` and `c < 8`) and `10 r + c` elsewhere. -/
def edge_block : List Nat :=
  (List.range 100).map (fun k => if k / 10 < 8 ∧ k % 10 < 8 then 7 else k)

/-! # Theorems -/

/-! ## Loops -/

theorem outcome_mono {ρ σ : Type} {Q Q' : ρ → Prop} {P P' : σ → Prop}
    (hQ : ∀ r, Q r → Q' r) (hP : ∀ s, P s → P' s) (e : Except ρ σ)
    (h : outcome Q P e) : outcome Q' P' e := by
  cases e with
  | error r => exact hQ r h
  | ok s => exact hP s h

theorem loop_inv {α σ ρ : Type} (body : α → σ → Except ρ σ) (Q : ρ → Prop) (P : σ → Prop)
    (l : List α) (h : ∀ a ∈ l, ∀ s, P s → outcome Q P (body a s)) :
    ∀ s, P s → outcome Q P (loop body l s) := by
  induction l with
  | nil => intro s hs; exact hs
  | cons a as ih =>
    intro s hs
    have ha := h a (List.mem_cons_self _ _) s hs
    simp only [loop]
    cases hb : body a s with
    | error r => rw [hb] at ha; exact ha
    | ok s' =>
      rw [hb] at ha
      exact ih (fun b hb' => h b (List.mem_cons_of_mem _ hb')) s' ha

theorem mem_for_range {lo hi x : Nat} : x ∈ for_range lo hi ↔ lo ≤ x ∧ x < hi := by
  unfold for_range
  rw [List.mem_range'_1]
  omega

theorem mem_pair_indices {lo : Nat} {p : Nat × Nat} :
    p ∈ pair_indices lo ↔ lo ≤ p.1 ∧ p.1 < p.2 ∧ p.2 < 8 := by
  obtain ⟨a, b⟩ := p
  simp only [pair_indices, List.mem_flatMap, List.mem_map, mem_for_range, Prod.mk.injEq]
  constructor
  · rintro ⟨i, hi, j, hj, rfl, rfl⟩
    omega
  · intro h
    exact ⟨a, by omega, b, by omega, rfl, rfl⟩

theorem mem_triple_indices {lo : Nat} {p : Nat × Nat × Nat} :
    p ∈ triple_indices lo ↔ lo ≤ p.1 ∧ p.1 < p.2.1 ∧ p.2.1 < p.2.2 ∧ p.2.2 < 8 := by
  obtain ⟨a, b, c⟩ := p
  simp only [triple_indices, List.mem_flatMap, List.mem_map, mem_for_range, Prod.mk.injEq]
  constructor
  · rintro ⟨i, hi, j, hj, k, hk, rfl, rfl, rfl⟩
    omega
  · intro h
    exact ⟨a, by omega, b, by omega, c, by omega, rfl, rfl, rfl⟩

/-! ## Lengths of the records -/

theorem length_rd (mem : List Nat) (pos n : Nat) : (rd mem pos n).length = n := by
  simp [rd]

theorem length_cell_row (b : List Nat) (i : Nat) : (cell_row b i).length = 8 := by
  simp [cell_row, length_rd]

theorem length_le16 (v : Nat) : (le16 v).length = 2 := rfl

theorem length_le24 (v : Nat) : (le24 v).length = 3 := rfl

theorem length_le32 (v : Nat) : (le32 v).length = 4 := rfl

theorem length_flatMap_const {α β : Type} (l : List α) (f : α → List β) (n : Nat)
    (h : ∀ a, (f a).length = n) : (l.flatMap f).length = l.length * n := by
  induction l with
  | nil => simp
  | cons a as ih => simp [List.flatMap_cons, ih, h, Nat.succ_mul, Nat.add_comm]

theorem length_rows_where (b : List Nat) (keep : Nat → Bool) :
    (rows_where b keep).length = ((List.range 8).filter keep).length * 8 := by
  unfold rows_where
  exact length_flatMap_const _ _ 8 (length_cell_row b)

theorem rows_where_le (b : List Nat) (keep : Nat → Bool) :
    (rows_where b keep).length ≤ 64 := by
  rw [length_rows_where]
  have := List.length_filter_le keep (List.range 8)
  simp only [List.length_range] at this
  omega

theorem rows_where_le_of_drop (b : List Nat) (keep : Nat → Bool) (a : Nat) (ha : a < 8)
    (hk : keep a = false) : (rows_where b keep).length ≤ 56 := by
  rw [length_rows_where]
  have h : ((List.range 8).filter keep).length < (List.range 8).length := by
    rw [List.length_filter_lt_length_iff_exists]
    exact ⟨a, List.mem_range.mpr ha, by simp [hk]⟩
  simp only [List.length_range] at h
  omega

/-! ## Every record of a full cell has between 2 and 65 bytes -/

theorem outcome_map {ρ σ τ : Type} {Q : ρ → Prop} {P' : σ → Prop} {P : τ → Prop}
    (f : σ → τ) (e : Except ρ σ) (h : outcome Q P' e) (hf : ∀ s, P' s → P (f s)) :
    outcome Q P (e.map f) := by
  cases e with
  | error r => exact h
  | ok s => exact hf s h

theorem outcome_ite {ρ σ : Type} {Q : ρ → Prop} {P : σ → Prop} {c : Prop} [Decidable c]
    {a b : Except ρ σ} (ha : c → outcome Q P a) (hb : ¬c → outcome Q P b) :
    outcome Q P (if c then a else b) := by
  split_ifs with h
  · exact ha h
  · exact hb h

theorem six_body_inv (XXH32 : List Nat → Nat → Nat) (out buf_cell : List Nat) (anchor : Nat)
    (ij : Nat × Nat) (v : ndlz8_vars) (hv : v.literal = true) :
    outcome (fun r : List Nat × ndlz8_vars => 2 ≤ r.1.length ∧ r.1.length ≤ 65)
      (fun v' : ndlz8_vars => v'.literal = true)
      (six_body XXH32 out buf_cell anchor ij v) := by
  unfold six_body
  simp only
  split_ifs <;> simp [outcome, hv, length_le16, length_cell_row]

theorem triple2_body_inv (XXH32 : List Nat → Nat → Nat) (out buf_cell : List Nat)
    (anchor : Nat) (tab : Nat → Nat) (i j k offset : Nat) (v : ndlz8_vars)
    (c : Nat × Nat × Nat) (s : (List Nat × List Nat × List Nat) × Bool) (hi : i < 8) :
    outcome (fun r : List Nat × ndlz8_vars => 2 ≤ r.1.length ∧ r.1.length ≤ 65)
      (fun _ : (List Nat × List Nat × List Nat) × Bool => True)
      (triple2_body XXH32 out buf_cell anchor tab i j k offset v c s) := by
  have hr := rows_where_le_of_drop buf_cell (fun l => decide
      (l ≠ i ∧ l ≠ j ∧ l ≠ k ∧ l ≠ c.1 ∧ l ≠ c.2.1 ∧ l ≠ c.2.2)) i hi (by simp)
  unfold triple2_body
  simp only
  split_ifs <;> first
    | trivial
    | (simp only [outcome, List.length_append, length_le16, length_le24]; omega)

theorem triple_body_inv (XXH32 : List Nat → Nat → Nat) (out buf_cell : List Nat)
    (anchor i j k : Nat) (v : ndlz8_vars) (hi : i < 8)
    (hv : (v.literal = true ∧ v.triple_match 0 = 0) ∨
      (v.literal = false ∧ v.triple_match 0 = 1 ∧ v.triple_match 1 < 8)) :
    outcome (fun r : List Nat × ndlz8_vars => 2 ≤ r.1.length ∧ r.1.length ≤ 65)
      (fun v' : ndlz8_vars => (v'.literal = true ∧ v'.triple_match 0 = 0) ∨
        (v'.literal = false ∧ v'.triple_match 0 = 1 ∧ v'.triple_match 1 < 8))
      (triple_body XXH32 out buf_cell anchor i j k v) := by
  unfold triple_body
  simp only
  refine outcome_ite (fun _ => outcome_ite (fun _ => ?_) (fun _ => hv))
    (fun _ => outcome_ite (fun _ => hv) (fun _ => hv))
  refine outcome_map _ _ (loop_inv _ _ (fun _ => True) _
    (fun c _ s _ => triple2_body_inv XXH32 out buf_cell anchor _ i j k _ _ c s hi)
    _ trivial) ?_
  intro s _
  right
  simp [hi]

theorem triple_search_inv (XXH32 : List Nat → Nat → Nat) (out buf_cell : List Nat)
    (anchor : Nat) (v : ndlz8_vars) (hv : v.literal = true) :
    outcome (fun r : List Nat × ndlz8_vars => 2 ≤ r.1.length ∧ r.1.length ≤ 65)
      (fun v' : ndlz8_vars => (v'.literal = true ∧ v'.triple_match 0 = 0) ∨
        (v'.literal = false ∧ v'.triple_match 0 = 1 ∧ v'.triple_match 1 < 8))
      (triple_search XXH32 out buf_cell anchor v) := by
  unfold triple_search
  refine loop_inv _ _ _ _ ?_ _ (Or.inl ⟨hv, by simp [setAt]⟩)
  intro i hi v1 h1
  rw [mem_for_range] at hi
  refine loop_inv _ _ _ _ ?_ _ h1
  intro j _ v2 h2
  refine loop_inv _ _ _ _ ?_ _ h2
  intro k _ v3 h3
  exact triple_body_inv XXH32 out buf_cell anchor i j k v3 (by omega) h3

theorem pair3_body_inv (XXH32 : List Nat → Nat → Nat) (out buf_cell : List Nat)
    (anchor i j i_ j_ offset offset_2 : Nat) (c : Nat × Nat) (v : ndlz8_vars) (hi : i < 8)
    (P : ndlz8_vars → Prop) (hv : P v) :
    outcome (fun r : List Nat × ndlz8_vars => 2 ≤ r.1.length ∧ r.1.length ≤ 65) P
      (pair3_body XXH32 out buf_cell anchor i j i_ j_ offset offset_2 c v) := by
  have hr := rows_where_le_of_drop buf_cell (fun l => decide
      (l ≠ i ∧ l ≠ j ∧ l ≠ i_ ∧ l ≠ j_ ∧ l ≠ c.1 ∧ l ≠ c.2)) i hi (by simp)
  unfold pair3_body
  simp only
  refine outcome_ite (fun _ => outcome_ite (fun _ => ?_) (fun _ => hv)) (fun _ => hv)
  simp only [outcome, List.length_append, length_le16, length_le24]
  omega

theorem pair2_body_inv (XXH32 : List Nat → Nat → Nat) (out buf_cell : List Nat)
    (anchor i j offset : Nat) (c : Nat × Nat) (v : ndlz8_vars) (hi : i < 8)
    (hv : (v.triple_match 0 = 1 → v.triple_match 1 < 8) ∧ v.pair_matches 1 < 8 ∧
      (v.pair_matches 0 = 1 ∨ v.pair_matches 0 = 2) ∧ v.literal = false) :
    outcome (fun r : List Nat × ndlz8_vars => 2 ≤ r.1.length ∧ r.1.length ≤ 65)
      (fun v' : ndlz8_vars => (v'.triple_match 0 = 1 → v'.triple_match 1 < 8) ∧
        v'.pair_matches 1 < 8 ∧ (v'.pair_matches 0 = 1 ∨ v'.pair_matches 0 = 2) ∧
        v'.literal = false)
      (pair2_body XXH32 out buf_cell anchor i j offset c v) := by
  unfold pair2_body
  simp only
  refine outcome_ite (fun _ => outcome_ite (fun _ => ?_) (fun _ => hv)) (fun _ => hv)
  refine loop_inv _ _ _ _ ?_ _ ?_
  · intro c' _ s hs
    exact pair3_body_inv XXH32 out buf_cell anchor i j _ _ _ _ c' s hi _ hs
  · obtain ⟨h1, h2, _, h4⟩ := hv
    exact ⟨h1, by simpa using h2, Or.inr (by simp), h4⟩

theorem pair_body_inv (XXH32 : List Nat → Nat → Nat) (out buf_cell : List Nat)
    (anchor : Nat) (ij : Nat × Nat) (v : ndlz8_vars) (hi : ij.1 < 8)
    (hv : (v.triple_match 0 = 1 → v.triple_match 1 < 8) ∧
      (v.pair_matches 0 ≠ 0 →
        v.pair_matches 1 < 8 ∧ (v.pair_matches 0 = 1 ∨ v.pair_matches 0 = 2)) ∧
      (v.literal = false →
        v.pair_matches 0 = 2 ∨ v.triple_match 0 = 1 ∨ v.pair_matches 0 = 1)) :
    outcome (fun r : List Nat × ndlz8_vars => 2 ≤ r.1.length ∧ r.1.length ≤ 65)
      (fun v' : ndlz8_vars => (v'.triple_match 0 = 1 → v'.triple_match 1 < 8) ∧
        (v'.pair_matches 0 ≠ 0 →
          v'.pair_matches 1 < 8 ∧ (v'.pair_matches 0 = 1 ∨ v'.pair_matches 0 = 2)) ∧
        (v'.literal = false →
          v'.pair_matches 0 = 2 ∨ v'.triple_match 0 = 1 ∨ v'.pair_matches 0 = 1))
      (pair_body XXH32 out buf_cell anchor ij v) := by
  unfold pair_body
  simp only
  refine outcome_ite (fun _ => outcome_ite (fun _ => ?_) (fun _ => hv))
    (fun _ => outcome_ite (fun _ => hv) (fun _ => hv))
  refine outcome_mono (fun _ h => h) ?_ _ (loop_inv _ _ _ _
    (fun c _ s hs => pair2_body_inv XXH32 out buf_cell anchor ij.1 ij.2 _ c s hi hs) _
    ⟨hv.1, by simpa using hi, Or.inl (by simp), rfl⟩)
  rintro s ⟨h1, h2, h3, _⟩
  refine ⟨h1, fun _ => ⟨h2, h3⟩, fun _ => ?_⟩
  rcases h3 with h | h
  · exact Or.inr (Or.inr h)
  · exact Or.inl h

theorem emit_matches_length (buf_cell : List Nat) (anchor : Nat) (v : ndlz8_vars)
    (hv : (v.triple_match 0 = 1 → v.triple_match 1 < 8) ∧
      (v.pair_matches 0 ≠ 0 →
        v.pair_matches 1 < 8 ∧ (v.pair_matches 0 = 1 ∨ v.pair_matches 0 = 2)) ∧
      (v.literal = false →
        v.pair_matches 0 = 2 ∨ v.triple_match 0 = 1 ∨ v.pair_matches 0 = 1))
    (hl : v.literal = false) :
    2 ≤ (emit_matches buf_cell anchor v).length ∧
      (emit_matches buf_cell anchor v).length ≤ 65 := by
  obtain ⟨h1, h2, h3⟩ := hv
  unfold emit_matches
  simp only
  split_ifs with c1 c2 c3
  · have hr := rows_where_le_of_drop buf_cell (fun l => decide
      (l ≠ v.pair_matches 1 ∧ l ≠ v.pair_matches 2 ∧ l ≠ v.pair_matches 4 ∧
        l ≠ v.pair_matches 5)) (v.pair_matches 1) (h2 (by omega)).1 (by simp)
    simp only [List.length_append, length_le16]
    omega
  · have hr := rows_where_le_of_drop buf_cell (fun l => decide
      (l ≠ v.triple_match 1 ∧ l ≠ v.triple_match 2 ∧ l ≠ v.triple_match 3))
      (v.triple_match 1) (h1 c2) (by simp)
    simp only [List.length_append, length_le16]
    omega
  · have hr := rows_where_le_of_drop buf_cell (fun l => decide
      (l ≠ v.pair_matches 1 ∧ l ≠ v.pair_matches 2))
      (v.pair_matches 1) (h2 (by omega)).1 (by simp)
    simp only [List.length_append, length_le16]
    omega
  · exfalso
    rcases h3 hl with h | h | h
    · exact c1 h
    · exact c2 h
    · exact c3 h

theorem search_cell_length (XXH32 : List Nat → Nat → Nat) (out buf_cell : List Nat)
    (hash_cell : Nat) (v : ndlz8_vars) :
    2 ≤ (search_cell XXH32 out buf_cell hash_cell v).1.length ∧
      (search_cell XXH32 out buf_cell hash_cell v).1.length ≤ 65 := by
  unfold search_cell
  simp only
  have h6 := loop_inv (six_body XXH32 out buf_cell out.length)
    (fun r : List Nat × ndlz8_vars => 2 ≤ r.1.length ∧ r.1.length ≤ 65)
    (fun v' : ndlz8_vars => v'.literal = true) (pair_indices 0)
    (fun ij _ s hs => six_body_inv XXH32 out buf_cell out.length ij s hs)
    { v with literal := true } rfl
  cases e6 : loop (six_body XXH32 out buf_cell out.length) (pair_indices 0)
      { v with literal := true } with
  | error r => rw [e6] at h6; exact h6
  | ok v1 =>
    rw [e6] at h6
    have h3 := triple_search_inv XXH32 out buf_cell out.length v1 h6
    simp only
    cases e3 : triple_search XXH32 out buf_cell out.length v1 with
    | error r => rw [e3] at h3; exact h3
    | ok v2 =>
      rw [e3] at h3
      simp only [outcome] at h3
      have h2 := loop_inv (pair_body XXH32 out buf_cell out.length)
        (fun r : List Nat × ndlz8_vars => 2 ≤ r.1.length ∧ r.1.length ≤ 65) _
        (pair_indices 0)
        (fun ij hij s hs => pair_body_inv XXH32 out buf_cell out.length ij s
          (by have := (mem_pair_indices.mp hij); omega) hs)
        { v2 with pair_matches := setAt v2.pair_matches 0 0 }
        ⟨by rcases h3 with h | h
            · intro h'; simp [h.2] at h'
            · intro _; exact h.2.2,
          by intro h'; simp [setAt] at h',
          by rcases h3 with h | h
             · intro h'; simp [h.1] at h'
             · intro _; exact Or.inr (Or.inl h.2.1)⟩
      simp only
      cases e2 : loop (pair_body XXH32 out buf_cell out.length) (pair_indices 0)
          { v2 with pair_matches := setAt v2.pair_matches 0 0 } with
      | error r => rw [e2] at h2; exact h2
      | ok v3 =>
        rw [e2] at h2
        simp only
        split_ifs with hl
        · simp [length_rd]
        · exact emit_matches_length buf_cell out.length v3 h2 (by simpa using hl)

theorem full_cell_length (XXH32 : List Nat → Nat → Nat) (input : List Nat) (cols : Nat)
    (out : List Nat) (orig : Nat) (v : ndlz8_vars) :
    2 ≤ (full_cell XXH32 input cols out orig v).1.length ∧
      (full_cell XXH32 input cols out orig v).1.length ≤ 65 := by
  unfold full_cell
  simp only
  split_ifs <;> first
    | exact search_cell_length XXH32 out _ _ v
    | simp [length_le16]

theorem padding_bounds (shape i_stop ii : Nat) :
    1 ≤ padding shape i_stop ii ∧ padding shape i_stop ii ≤ 8 := by
  unfold padding
  split_ifs <;> omega

theorem length_padded_cell (input : List Nat) (cols orig pad0 pad1 : Nat) :
    (padded_cell input cols orig pad0 pad1).length = 1 + pad0 * pad1 := by
  unfold padded_cell
  rw [List.length_append, length_flatMap_const _ _ pad1 (fun i => length_rd _ _ _)]
  simp

theorem encode_cell_length (XXH32 : List Nat → Nat → Nat) (rows cols : Nat)
    (input out : List Nat) (ii0 ii1 : Nat) (v : ndlz8_vars) :
    2 ≤ (encode_cell XXH32 rows cols input out ii0 ii1 v).1.length ∧
      (encode_cell XXH32 rows cols input out ii0 ii1 v).1.length ≤ 65 := by
  unfold encode_cell
  simp only
  split_ifs
  · simp only [length_padded_cell]
    have h0 := padding_bounds rows ((rows + 8 - 1) / 8) ii0
    have h1 := padding_bounds cols ((cols + 8 - 1) / 8) ii1
    constructor
    · nlinarith
    · nlinarith
  · exact full_cell_length XXH32 input cols out _ v

theorem loop_inv_nonempty {α σ ρ : Type} (body : α → σ → Except ρ σ) (Q : ρ → Prop)
    (P P' : σ → Prop) (l : List α) (hl : l ≠ [])
    (h : ∀ a ∈ l, ∀ s, P s → outcome Q P' (body a s)) (hP : ∀ s, P' s → P s) :
    ∀ s, P s → outcome Q P' (loop body l s) := by
  cases l with
  | nil => exact absurd rfl hl
  | cons a as =>
    intro s hs
    have ha := h a (List.mem_cons_self _ _) s hs
    simp only [loop]
    cases hb : body a s with
    | error r => rw [hb] at ha; exact ha
    | ok s' =>
      rw [hb] at ha
      exact loop_inv body Q P' as
        (fun b hb' t ht => h b (List.mem_cons_of_mem _ hb') t (hP t ht)) s' ha

theorem for_range_ne_nil (n : Nat) (h : 1 ≤ n) : for_range 0 n ≠ [] := by
  intro h0
  have : 0 ∈ for_range 0 n := mem_for_range.mpr ⟨le_refl 0, h⟩
  rw [h0] at this
  exact List.not_mem_nil _ this

/-! ## The main loop -/

theorem cell_step_inv (XXH32 : List Nat → Nat → Nat) (rows cols : Nat) (input : List Nat)
    (length maxout : Int) (ii0 ii1 : Nat) (hdr : List Nat) (s : ndlz8_vars × List Nat)
    (hs : (s.2.length : Int) ≤ maxout ∧ s.2.take 9 = hdr ∧ 9 ≤ s.2.length) :
    outcome (fun o : List Nat => (o.length : Int) ≤ maxout ∧ o.take 9 = hdr)
      (fun s' : ndlz8_vars × List Nat =>
        ((s'.2.length : Int) ≤ maxout ∧ s'.2.take 9 = hdr ∧ 9 ≤ s'.2.length) ∧
        11 ≤ s'.2.length ∧ (s'.2.length : Int) ≤ length)
      (cell_step XXH32 rows cols input length maxout ii0 ii1 s) := by
  obtain ⟨h1, h2, h3⟩ := hs
  have hr := encode_cell_length XXH32 rows cols input s.2 ii0 ii1
    { s.1 with update_6 := fun _ => 0, update_pair := fun _ => 0,
               update_triple := fun _ => 0 }
  dsimp only at hr
  have ht : ∀ r : List Nat, (s.2 ++ r).take 9 = hdr := by
    intro r
    rw [List.take_append_of_le_length h3]
    exact h2
  unfold cell_step
  simp only
  refine outcome_ite (fun _ => ⟨h1, h2⟩) (fun hspace => outcome_ite (fun _ => ?_) (fun hsize => ?_))
  · refine ⟨?_, ht _⟩
    rw [List.length_append]
    push_cast
    omega
  · simp only [outcome, List.length_append, ht, true_and] at hsize ⊢
    push_cast at hsize ⊢
    omega

theorem encode_cells_inv (XXH32 : List Nat → Nat → Nat) (rows cols : Nat) (input : List Nat)
    (length maxout : Int) (hdr : List Nat) (hrows : 1 ≤ rows) (hcols : 1 ≤ cols)
    (hlen : hdr.length = 9) (hmax : 9 ≤ maxout) :
    outcome (fun o : List Nat => (o.length : Int) ≤ maxout ∧ o.take 9 = hdr)
      (fun s' : ndlz8_vars × List Nat =>
        ((s'.2.length : Int) ≤ maxout ∧ s'.2.take 9 = hdr ∧ 9 ≤ s'.2.length) ∧
        11 ≤ s'.2.length ∧ (s'.2.length : Int) ≤ length)
      (encode_cells XXH32 rows cols input length maxout hdr) := by
  unfold encode_cells
  simp only
  refine loop_inv_nonempty _ _
    (fun s : ndlz8_vars × List Nat =>
      (s.2.length : Int) ≤ maxout ∧ s.2.take 9 = hdr ∧ 9 ≤ s.2.length) _ _
    (for_range_ne_nil _ (by omega)) ?_ (fun _ h => h.1) _ ?_
  · intro ii0 _ s hs
    refine loop_inv_nonempty _ _
      (fun s : ndlz8_vars × List Nat =>
        (s.2.length : Int) ≤ maxout ∧ s.2.take 9 = hdr ∧ 9 ≤ s.2.length) _ _
      (for_range_ne_nil _ (by omega)) ?_ (fun _ h => h.1) _ hs
    intro ii1 _ s1 hs1
    exact cell_step_inv XXH32 rows cols input length maxout ii0 ii1 hdr s1 hs1
  · refine ⟨?_, ?_, ?_⟩
    · simp only [hlen]
      exact_mod_cast hmax
    · rw [← hlen, List.take_length]
    · simp only [hlen]
      exact le_refl 9

/-- What `ndlz8_compress` returns once the argument checks have passed. -/
theorem ndlz8_compress_checked (XXH32 : List Nat → Nat → Nat) (context : blosc2_context)
    (input : List Nat) (length maxout : Int)
    (h : (ndlz8_compress XXH32 context input length maxout).2 ≠ [] ∨
      0 < (ndlz8_compress XXH32 context input length maxout).1) :
    context.ndim = 2 ∧ length ≠ context.leftover ∧
    length = ((context.blockshape0 * context.blockshape1 : Nat) : Int) ∧ 9 ≤ maxout ∧
    64 ≤ length ∧
    17 + (((context.blockshape0 * context.blockshape1 / 64 : Nat) : Int) - 1) * 2 ≤ maxout ∧
    ndlz8_compress XXH32 context input length maxout =
      match encode_cells XXH32 context.blockshape0 context.blockshape1 input length maxout
          ([2] ++ le32 context.blockshape0 ++ le32 context.blockshape1) with
      | Except.error out => (0, out)
      | Except.ok s => ((s.2.length : Int), s.2) := by
  unfold ndlz8_compress at h ⊢
  simp only at h ⊢
  split_ifs at h ⊢ with h1 h2 h3 h4 h5
  · simp at h
  · simp at h
  · simp at h
  · simp at h
  · simp at h
  · push_neg at h1 h3 h5
    have hu : u8 context.ndim = 2 := by rw [h1]; rfl
    rw [h1] at h4
    rw [hu]
    exact ⟨h1, h2, h3, by omega, by omega, by omega, rfl⟩

theorem blockshape_pos (rows cols : Nat) (length : Int)
    (h : length = ((rows * cols : Nat) : Int)) (h64 : 64 ≤ length) : 1 ≤ rows ∧ 1 ≤ cols := by
  have h' : 64 ≤ rows * cols := by
    have : (64 : Int) ≤ ((rows * cols : Nat) : Int) := by rw [← h]; exact h64
    exact_mod_cast this
  constructor
  · rcases Nat.eq_zero_or_pos rows with h0 | h0
    · rw [h0] at h'; simp at h'
    · exact h0
  · rcases Nat.eq_zero_or_pos cols with h0 | h0
    · rw [h0] at h'; simp at h'
    · exact h0

/-- Summary of a call of `ndlz8_compress` that wrote something or returned a
positive value: the bytes written stay within `maxout`, they start with the
header, and a positive return value is their number, at least 11 and at most
`length`. -/
theorem ndlz8_compress_spec (XXH32 : List Nat → Nat → Nat) (context : blosc2_context)
    (input : List Nat) (length maxout : Int)
    (h : (ndlz8_compress XXH32 context input length maxout).2 ≠ [] ∨
      0 < (ndlz8_compress XXH32 context input length maxout).1) :
    ((ndlz8_compress XXH32 context input length maxout).2.length : Int) ≤ maxout ∧
    (ndlz8_compress XXH32 context input length maxout).2.take 9 =
      [2] ++ le32 context.blockshape0 ++ le32 context.blockshape1 ∧
    (0 < (ndlz8_compress XXH32 context input length maxout).1 →
      (ndlz8_compress XXH32 context input length maxout).1 =
        ((ndlz8_compress XXH32 context input length maxout).2.length : Int) ∧
      11 ≤ (ndlz8_compress XXH32 context input length maxout).1 ∧
      (ndlz8_compress XXH32 context input length maxout).1 ≤ length) := by
  obtain ⟨_, _, h3, h4, h5, _, heq⟩ := ndlz8_compress_checked XXH32 context input length maxout h
  obtain ⟨hr, hc⟩ := blockshape_pos _ _ _ h3 h5
  have hinv := encode_cells_inv XXH32 context.blockshape0 context.blockshape1 input length
    maxout ([2] ++ le32 context.blockshape0 ++ le32 context.blockshape1) hr hc
    (by simp [length_le32]) h4
  rw [heq]
  cases he : encode_cells XXH32 context.blockshape0 context.blockshape1 input length maxout
      ([2] ++ le32 context.blockshape0 ++ le32 context.blockshape1) with
  | error o =>
    rw [he] at hinv
    exact ⟨hinv.1, hinv.2, fun h0 => absurd h0 (lt_irrefl 0)⟩
  | ok s =>
    rw [he] at hinv
    obtain ⟨⟨a1, a2, _⟩, a4, a5⟩ := hinv
    refine ⟨a1, a2, fun _ => ⟨rfl, ?_, a5⟩⟩
    show (11 : Int) ≤ (s.2.length : Int)
    exact_mod_cast a4

/-! ## Constant blocks -/

theorem rd_replicate (N c pos n : Nat) (h : pos + n ≤ N) :
    rd (List.replicate N c) pos n = List.replicate n c := by
  unfold rd
  apply List.ext_getElem
  · simp
  · intro k h1 h2
    simp only [List.length_map, List.length_range] at h1
    simp only [List.getElem_map, List.getElem_range, List.getElem_replicate]
    rw [List.getD_eq_getElem _ _ (by simp; omega)]
    simp

theorem flatMap_replicate_const {α : Type} (l : List α) (n : Nat) (c : Nat)
    (f : α → List Nat) (h : ∀ a ∈ l, f a = List.replicate n c) :
    l.flatMap f = List.replicate (l.length * n) c := by
  induction l with
  | nil => simp
  | cons a as ih =>
    rw [List.flatMap_cons, h a (List.mem_cons_self _ _),
      ih (fun b hb => h b (List.mem_cons_of_mem _ hb)), List.length_cons,
      ← List.replicate_add]
    congr 1
    ring

theorem fill_cell_replicate (N c cols orig : Nat) (h : orig + 7 * cols + 8 ≤ N) :
    fill_cell (List.replicate N c) cols orig = List.replicate 64 c := by
  unfold fill_cell
  rw [flatMap_replicate_const (List.range 8) 8 c]
  · rfl
  · intro i hi
    rw [List.mem_range] at hi
    apply rd_replicate
    have : i * cols ≤ 7 * cols := Nat.mul_le_mul_right _ (by omega)
    omega

theorem full_cell_replicate (XXH32 : List Nat → Nat → Nat) (N c cols : Nat)
    (out : List Nat) (orig : Nat) (v : ndlz8_vars) (h : orig + 7 * cols + 8 ≤ N) :
    full_cell XXH32 (List.replicate N c) cols out orig v = ([64, c], v) := by
  unfold full_cell
  simp only [fill_cell_replicate N c cols orig h]
  have hall : ((for_range 1 64).all fun i =>
      (List.replicate 64 c).getD i 0 == (List.replicate 64 c).getD 0 0) = true := by
    rw [List.all_eq_true]
    intro i hi
    rw [mem_for_range] at hi
    rw [List.getD_eq_getElem _ _ (by simp; omega), List.getD_eq_getElem _ _ (by simp)]
    simp only [List.getElem_replicate, beq_self_eq_true]
  rw [if_pos hall, List.getD_eq_getElem _ _ (by simp)]
  simp only [List.getElem_replicate]

theorem on_padded_edge_false (rows cols a b ii0 ii1 : Nat) (hr : rows % 8 = 0)
    (hc : cols % 8 = 0) : on_padded_edge rows cols a b ii0 ii1 = false := by
  simp [on_padded_edge, hr, hc]

/-- The bytes of `n` RLE records for the value `c`. -/
theorem length_rle (n c : Nat) : (List.replicate n [64, c]).flatten.length = 2 * n := by
  induction n with
  | zero => rfl
  | succ n ih => simp [List.replicate_succ, ih]; omega

theorem rle_snoc (n c : Nat) :
    (List.replicate n [64, c]).flatten ++ [64, c] = (List.replicate (n + 1) [64, c]).flatten := by
  induction n with
  | zero => rfl
  | succ n ih =>
    rw [List.replicate_succ, List.flatten_cons, List.append_assoc, ih]
    rfl

theorem cell_index_lt (n0 n1 ii0 ii1 : Nat) (h0 : ii0 < n0) (h1 : ii1 < n1) :
    ii0 * n1 + ii1 + 1 ≤ n0 * n1 := by
  have : (ii0 + 1) * n1 ≤ n0 * n1 := Nat.mul_le_mul_right _ h0
  have e : (ii0 + 1) * n1 = ii0 * n1 + n1 := by ring
  omega

theorem cell_in_block (n0 n1 ii0 ii1 : Nat) (h0 : ii0 < n0) (h1 : ii1 < n1) :
    ii0 * 8 * (8 * n1) + ii1 * 8 + 7 * (8 * n1) + 8 ≤ 8 * n0 * (8 * n1) := by
  have : (ii0 + 1) * n1 ≤ n0 * n1 := Nat.mul_le_mul_right _ h0
  have e : (ii0 + 1) * n1 = ii0 * n1 + n1 := by ring
  have e2 : ii0 * 8 * (8 * n1) = 64 * (ii0 * n1) := by ring
  have e3 : 8 * n0 * (8 * n1) = 64 * (n0 * n1) := by ring
  omega

theorem cell_step_rle (XXH32 : List Nat → Nat → Nat) (n0 n1 c : Nat) (maxout : Int)
    (hdr : List Nat) (hlen : hdr.length = 9) (hmax : 72 + 2 * ((n0 * n1 : Nat) : Int) ≤ maxout)
    (ii0 ii1 : Nat) (h0 : ii0 < n0) (h1 : ii1 < n1) (v : ndlz8_vars) :
    ∃ v', cell_step XXH32 (8 * n0) (8 * n1) (List.replicate (8 * n0 * (8 * n1)) c)
        ((8 * n0 * (8 * n1) : Nat) : Int) maxout ii0 ii1
        (v, hdr ++ (List.replicate (ii0 * n1 + ii1) [64, c]).flatten) =
      Except.ok (v', hdr ++ (List.replicate (ii0 * n1 + ii1 + 1) [64, c]).flatten) := by
  have hk := cell_index_lt n0 n1 ii0 ii1 h0 h1
  have hb := cell_in_block n0 n1 ii0 ii1 h0 h1
  have e3 : 8 * n0 * (8 * n1) = 64 * (n0 * n1) := by ring
  rw [e3] at hb ⊢
  generalize n0 * n1 = N at hk hb hmax ⊢
  generalize ii0 * n1 + ii1 = k at hk ⊢
  unfold cell_step
  simp only [List.length_append, length_rle, hlen]
  rw [if_neg (by push_cast; omega)]
  unfold encode_cell
  simp only [on_padded_edge_false (8 * n0) (8 * n1) _ _ ii0 ii1 (by omega) (by omega)]
  simp only [Bool.false_eq_true, if_false]
  rw [full_cell_replicate XXH32 _ c _ _ _ _ hb]
  simp only [List.length_append, length_rle, hlen, List.length_cons, List.length_nil]
  rw [if_neg (by push_cast; omega)]
  exact ⟨_, by rw [List.append_assoc, rle_snoc]⟩

theorem row_loop_rle (XXH32 : List Nat → Nat → Nat) (n0 n1 c : Nat) (maxout : Int)
    (hdr : List Nat) (hlen : hdr.length = 9) (hmax : 72 + 2 * ((n0 * n1 : Nat) : Int) ≤ maxout)
    (ii0 : Nat) (h0 : ii0 < n0) :
    ∀ (m a : Nat), a + m ≤ n1 → ∀ v : ndlz8_vars,
      ∃ v', loop (fun ii1 s1 => cell_step XXH32 (8 * n0) (8 * n1)
          (List.replicate (8 * n0 * (8 * n1)) c) ((8 * n0 * (8 * n1) : Nat) : Int) maxout
          ii0 ii1 s1) (List.range' a m)
          (v, hdr ++ (List.replicate (ii0 * n1 + a) [64, c]).flatten) =
        Except.ok (v', hdr ++ (List.replicate (ii0 * n1 + (a + m)) [64, c]).flatten) := by
  intro m
  induction m with
  | zero => intro a _ v; exact ⟨v, rfl⟩
  | succ m ih =>
    intro a ha v
    obtain ⟨v1, e1⟩ := cell_step_rle XXH32 n0 n1 c maxout hdr hlen hmax ii0 a h0 (by omega) v
    obtain ⟨v2, e2⟩ := ih (a + 1) (by omega) v1
    refine ⟨v2, ?_⟩
    rw [List.range'_succ]
    simp only [loop, e1]
    rw [show ii0 * n1 + a + 1 = ii0 * n1 + (a + 1) by ring, e2,
      show a + 1 + m = a + (m + 1) by ring]

theorem grid_loop_rle (XXH32 : List Nat → Nat → Nat) (n0 n1 c : Nat) (maxout : Int)
    (hdr : List Nat) (hlen : hdr.length = 9) (hmax : 72 + 2 * ((n0 * n1 : Nat) : Int) ≤ maxout) :
    ∀ (m a : Nat), a + m ≤ n0 → ∀ v : ndlz8_vars,
      ∃ v', loop (fun ii0 s => loop (fun ii1 s1 => cell_step XXH32 (8 * n0) (8 * n1)
          (List.replicate (8 * n0 * (8 * n1)) c) ((8 * n0 * (8 * n1) : Nat) : Int) maxout
          ii0 ii1 s1) (for_range 0 n1) s) (List.range' a m)
          (v, hdr ++ (List.replicate (a * n1) [64, c]).flatten) =
        Except.ok (v', hdr ++ (List.replicate ((a + m) * n1) [64, c]).flatten) := by
  intro m
  induction m with
  | zero => intro a _ v; exact ⟨v, rfl⟩
  | succ m ih =>
    intro a ha v
    obtain ⟨v1, e1⟩ := row_loop_rle XXH32 n0 n1 c maxout hdr hlen hmax a (by omega)
      n1 0 (by omega) v
    obtain ⟨v2, e2⟩ := ih (a + 1) (by omega) v1
    refine ⟨v2, ?_⟩
    rw [List.range'_succ]
    simp only [Nat.add_zero, Nat.zero_add] at e1
    have e1' : loop (fun ii1 s1 => cell_step XXH32 (8 * n0) (8 * n1)
        (List.replicate (8 * n0 * (8 * n1)) c) ((8 * n0 * (8 * n1) : Nat) : Int) maxout
        a ii1 s1) (for_range 0 n1) (v, hdr ++ (List.replicate (a * n1) [64, c]).flatten) =
        Except.ok (v1, hdr ++ (List.replicate ((a + 1) * n1) [64, c]).flatten) := by
      rw [show (a + 1) * n1 = a * n1 + n1 by ring, ← e1]
      rfl
    simp only [loop, e1']
    rw [e2, show a + 1 + m = a + (m + 1) by ring]

/-- A block of constant bytes whose dimensions are positive multiples of 8 is
written as the header and one RLE record per cell. -/
theorem compress_constant (XXH32 : List Nat → Nat → Nat) (n0 n1 c : Nat)
    (leftover maxout : Int) (h0 : 0 < n0) (h1 : 0 < n1)
    (hleft : ((8 * n0 * (8 * n1) : Nat) : Int) ≠ leftover)
    (hmax : 72 + 2 * ((n0 * n1 : Nat) : Int) ≤ maxout) :
    ndlz8_compress XXH32 ⟨2, 8 * n0, 8 * n1, leftover⟩
        (List.replicate (8 * n0 * (8 * n1)) c) ((8 * n0 * (8 * n1) : Nat) : Int) maxout =
      (9 + 2 * ((n0 * n1 : Nat) : Int),
       [2] ++ le32 (8 * n0) ++ le32 (8 * n1) ++ (List.replicate (n0 * n1) [64, c]).flatten) := by
  have hN : 1 ≤ n0 * n1 := Nat.mul_pos h0 h1
  have e3 : 8 * n0 * (8 * n1) = 64 * (n0 * n1) := by ring
  obtain ⟨v', e⟩ := grid_loop_rle XXH32 n0 n1 c maxout
    ([2] ++ le32 (8 * n0) ++ le32 (8 * n1)) (by simp [length_le32]) hmax n0 0 (by omega)
    ndlz8_vars.init
  simp only [Nat.zero_mul, Nat.zero_add, List.replicate_zero, List.flatten_nil,
    List.append_nil] at e
  unfold ndlz8_compress
  simp only
  rw [if_neg (by simp), if_neg hleft, if_neg (by simp), if_neg (by omega),
    if_neg (by rw [e3]; push_cast; omega)]
  have hu : u8 2 = 2 := rfl
  unfold encode_cells
  simp only [hu, for_range, Nat.sub_zero,
    show (8 * n0 + 8 - 1) / 8 = n0 by omega, show (8 * n1 + 8 - 1) / 8 = n1 by omega]
  simp only [for_range, Nat.sub_zero] at e
  rw [e]
  simp only [List.length_append, length_rle, length_le32, List.length_cons, List.length_nil]
  congr 1

/-! ## Decoder -/

theorem for_range_zero_cons (n : Nat) (h : 1 ≤ n) : for_range 0 n = 0 :: for_range 1 n := by
  unfold for_range
  obtain ⟨m, rfl⟩ : ∃ m, n = m + 1 := ⟨n - 1, by omega⟩
  simp [List.range'_succ]

theorem decode_token_none (u : indeterminate) (input : List Nat) (pad0 pad1 : Nat)
    (s : decoder_vars) (h : no_token_class (in_byte u input s.ip % 256) = true) :
    decode_token u input pad0 pad1 s = none := by
  unfold no_token_class at h
  simp only [Bool.and_eq_true, bne_iff_ne, ne_eq] at h
  obtain ⟨⟨⟨⟨⟨⟨⟨⟨a1, a2⟩, a3⟩, a4⟩, a5⟩, a6⟩, a7⟩, a8⟩, a9⟩ := h
  unfold decode_token
  simp only
  rw [if_neg a1, if_neg a2, if_neg a3, if_neg a4, if_neg a5, if_neg a6, if_neg a7, if_neg a8,
    if_neg a9]

theorem i_stop_pos (x : Nat) (h1 : 1 ≤ x) (h2 : x ≤ 2147483647) :
    1 ≤ (x + 7) % 4294967296 / 8 * 8 / 8 := by
  omega

theorem decompress_result (u : indeterminate) (input : List Nat) (length maxout : Int) :
    (ndlz8_decompress u input length maxout).1 = 0 ∨
    ∃ ind : Nat, ind = (header_rows u input * header_cols u input) % 4294967296 ∧
      ind ≤ u32 maxout ∧ (ndlz8_decompress u input length maxout).1 = i32 ind := by
  unfold ndlz8_decompress
  simp only
  split_ifs with h
  · exact Or.inl rfl
  · cases loop _ _ _ with
    | error s => exact Or.inl rfl
    | ok s =>
      simp only
      split_ifs with h1 h2
      · exact Or.inl rfl
      · exact Or.inl rfl
      · right
        push_neg at h1 h2
        exact ⟨_, h1, h2, rfl⟩

/-- The value that `ndlz8_decompress` returns for an output capacity
`0 <= maxout` (an `int`): 0 or the product `blockshape[0] * blockshape[1]` of
the two header fields (bytes 1..4 and 5..8), computed in 32 bits as the source
does, and the product only when it is at most `maxout`.  The statement is
about the value returned, not about the bytes stored before the return. -/
theorem decompress_returns_zero_or_size (u : indeterminate) (input : List Nat)
    (length maxout : Int) (h0 : 0 ≤ maxout) (h1 : maxout ≤ 2147483647) :
    (ndlz8_decompress u input length maxout).1 = 0 ∨
    ((ndlz8_decompress u input length maxout).1 =
        (((header_rows u input * header_cols u input) % 4294967296 : Nat) : Int) ∧
      (((header_rows u input * header_cols u input) % 4294967296 : Nat) : Int) ≤ maxout) := by
  rcases decompress_result u input length maxout with h | ⟨ind, e1, e2, e3⟩
  · exact Or.inl h
  · right
    have hu : u32 maxout = maxout.toNat := by
      unfold u32
      congr 1
      omega
    rw [hu] at e2
    have hi : i32 ind = (ind : Int) := by
      unfold i32
      rw [if_pos (by omega)]
      congr 1
      omega
    rw [e3, hi, ← e1]
    exact ⟨rfl, by omega⟩

/-- Instance: an 8x8 header followed by one RLE record, capacity 64; the
decoder returns 64 = 8 * 8. -/
theorem decompress_returns_zero_or_size_witness :
    (ndlz8_decompress zero_indeterminate [2, 8, 0, 0, 0, 8, 0, 0, 0, 64, 7] 11 64).1 = 64 ∧
    ((ndlz8_decompress zero_indeterminate [2, 8, 0, 0, 0, 8, 0, 0, 0, 64, 7] 11 64).1 = 0 ∨
    ((ndlz8_decompress zero_indeterminate [2, 8, 0, 0, 0, 8, 0, 0, 0, 64, 7] 11 64).1 =
        (((header_rows zero_indeterminate [2, 8, 0, 0, 0, 8, 0, 0, 0, 64, 7] *
          header_cols zero_indeterminate [2, 8, 0, 0, 0, 8, 0, 0, 0, 64, 7]) % 4294967296 : Nat)
          : Int) ∧
      (((header_rows zero_indeterminate [2, 8, 0, 0, 0, 8, 0, 0, 0, 64, 7] *
          header_cols zero_indeterminate [2, 8, 0, 0, 0, 8, 0, 0, 0, 64, 7]) % 4294967296 : Nat)
          : Int) ≤ 64)) :=
  ⟨by decide, decompress_returns_zero_or_size zero_indeterminate
    [2, 8, 0, 0, 0, 8, 0, 0, 0, 64, 7] 11 64 (by decide) (by decide)⟩

/-! ## Searches on empty tables -/

theorem loop_ok_foldl {α σ ρ : Type} (body : α → σ → Except ρ σ) (f : α → σ → σ)
    (P : σ → Prop) (hb : ∀ a s, P s → body a s = Except.ok (f a s) ∧ P (f a s)) :
    ∀ (l : List α) (s : σ), P s →
      loop body l s = Except.ok (l.foldl (fun s a => f a s) s) ∧
      P (l.foldl (fun s a => f a s) s) := by
  intro l
  induction l with
  | nil => intro s hs; exact ⟨rfl, hs⟩
  | cons a as ih =>
    intro s hs
    obtain ⟨e, hp⟩ := hb a s hs
    simp only [loop, e, List.foldl_cons]
    exact ih _ hp

theorem pair_indices_zero : pair_indices 0 =
    [(0, 1), (0, 2), (0, 3), (0, 4), (0, 5), (0, 6), (0, 7), (1, 2), (1, 3), (1, 4), (1, 5),
     (1, 6), (1, 7), (2, 3), (2, 4), (2, 5), (2, 6), (2, 7), (3, 4), (3, 5), (3, 6), (3, 7),
     (4, 5), (4, 6), (4, 7), (5, 6), (5, 7), (6, 7)] := by
  decide

theorem six_body_empty (XXH32 : List Nat → Nat → Nat) (out buf_cell : List Nat) (anchor : Nat)
    (ij : Nat × Nat) (v : ndlz8_vars) (h : v.tab_6 = fun _ => 0) :
    six_body XXH32 out buf_cell anchor ij v = Except.ok
      (if (ij.1 = 0 ∧ (ij.2 = 1 ∨ ij.2 = 7)) ∨ (ij.1 = 6 ∧ ij.2 = 7) then
        { v with
          update_6 := setAt v.update_6 (if ij.2 = 1 then 2 else if ij.1 = 6 then 0 else 1)
            (anchor + 1 + (if ij.2 = 1 then 2 else if ij.1 = 6 then 0 else 1) * 8)
          hash_6 := setAt v.hash_6 (if ij.2 = 1 then 2 else if ij.1 = 6 then 0 else 1)
            (hash12 XXH32 (rows_where buf_cell (fun k => decide (k ≠ ij.1 ∧ k ≠ ij.2)))) }
      else v) := by
  unfold six_body
  simp only [h]
  split_ifs <;> first | rfl | (exfalso; simp_all)

/-- The six-rows search of a cell when `tab_6` is empty: no match, and the
candidate updates for the excluded pairs (0,1), (0,7), (6,7) are recorded. -/
theorem six_loop_empty (XXH32 : List Nat → Nat → Nat) (out buf_cell : List Nat)
    (anchor : Nat) (v : ndlz8_vars) (h : v.tab_6 = fun _ => 0) :
    ∃ v', loop (six_body XXH32 out buf_cell anchor) (pair_indices 0) v = Except.ok v' ∧
      v'.tab_cell = v.tab_cell ∧ v'.tab_6 = v.tab_6 ∧ v'.tab_triple = v.tab_triple ∧
      v'.tab_pair = v.tab_pair ∧ v'.literal = v.literal ∧
      v'.update_6 0 = anchor + 1 ∧ v'.update_6 1 = anchor + 9 ∧ v'.update_6 2 = anchor + 17 ∧
      v'.hash_6 0 = hash12 XXH32 (rows_where buf_cell (fun k => decide (k ≠ 6 ∧ k ≠ 7))) ∧
      v'.hash_6 1 = hash12 XXH32 (rows_where buf_cell (fun k => decide (k ≠ 0 ∧ k ≠ 7))) ∧
      v'.hash_6 2 = hash12 XXH32 (rows_where buf_cell (fun k => decide (k ≠ 0 ∧ k ≠ 1))) := by
  obtain ⟨e, _⟩ := loop_ok_foldl (six_body XXH32 out buf_cell anchor) _
    (fun s : ndlz8_vars => s.tab_6 = fun _ => 0)
    (fun ij s hs => ⟨six_body_empty XXH32 out buf_cell anchor ij s hs, by
      split_ifs <;> exact hs⟩) (pair_indices 0) v h
  refine ⟨_, e, ?_⟩
  rw [pair_indices_zero]
  simp [List.foldl, setAt]

theorem triple_body_empty (XXH32 : List Nat → Nat → Nat) (out buf_cell : List Nat)
    (anchor i j k : Nat) (v0 v : ndlz8_vars) (h0 : v0.tab_triple = fun _ => 0)
    (hv : keeps v0 v) :
    outcome (fun _ : List Nat × ndlz8_vars => False) (keeps v0)
      (triple_body XXH32 out buf_cell anchor i j k v) := by
  have ht : v.tab_triple = fun _ => 0 := by rw [hv.2.2.1, h0]
  unfold triple_body
  simp only
  refine outcome_ite (fun h => absurd (by rw [ht]) h)
    (fun _ => outcome_ite (fun _ => ?_) (fun _ => ?_))
  · exact hv
  · exact hv

theorem triple_search_empty (XXH32 : List Nat → Nat → Nat) (out buf_cell : List Nat)
    (anchor : Nat) (v : ndlz8_vars) (h0 : v.tab_triple = fun _ => 0) :
    ∃ v', triple_search XXH32 out buf_cell anchor v = Except.ok v' ∧ keeps v v' := by
  have h : outcome (fun _ : List Nat × ndlz8_vars => False) (keeps v)
      (triple_search XXH32 out buf_cell anchor v) := by
    unfold triple_search
    refine loop_inv _ _ _ _ ?_ _ ⟨rfl, rfl, rfl, rfl, rfl, rfl, rfl⟩
    intro i _ v1 h1
    refine loop_inv _ _ _ _ ?_ _ h1
    intro j _ v2 h2
    refine loop_inv _ _ _ _ ?_ _ h2
    intro k _ v3 h3
    exact triple_body_empty XXH32 out buf_cell anchor i j k v v3 h0 h3
  cases e : triple_search XXH32 out buf_cell anchor v with
  | error r => rw [e] at h; exact absurd h id
  | ok v' => rw [e] at h; exact ⟨v', rfl, h⟩

theorem pair_body_empty (XXH32 : List Nat → Nat → Nat) (out buf_cell : List Nat)
    (anchor : Nat) (ij : Nat × Nat) (v0 v : ndlz8_vars) (h0 : v0.tab_pair = fun _ => 0)
    (hv : keeps v0 v) :
    outcome (fun _ : List Nat × ndlz8_vars => False) (keeps v0)
      (pair_body XXH32 out buf_cell anchor ij v) := by
  have ht : v.tab_pair = fun _ => 0 := by rw [hv.2.2.2.1, h0]
  unfold pair_body
  simp only
  refine outcome_ite (fun h => absurd (by rw [ht]) h)
    (fun _ => outcome_ite (fun _ => ?_) (fun _ => ?_))
  · exact hv
  · exact hv

theorem pair_loop_empty (XXH32 : List Nat → Nat → Nat) (out buf_cell : List Nat)
    (anchor : Nat) (v : ndlz8_vars) (h0 : v.tab_pair = fun _ => 0) :
    ∃ v', loop (pair_body XXH32 out buf_cell anchor) (pair_indices 0) v = Except.ok v' ∧
      keeps v v' := by
  have h := loop_inv (pair_body XXH32 out buf_cell anchor)
    (fun _ : List Nat × ndlz8_vars => False) (keeps v) (pair_indices 0)
    (fun ij _ s hs => pair_body_empty XXH32 out buf_cell anchor ij v s h0 hs) v
    ⟨rfl, rfl, rfl, rfl, rfl, rfl, rfl⟩
  cases e : loop (pair_body XXH32 out buf_cell anchor) (pair_indices 0) v with
  | error r => rw [e] at h; exact absurd h id
  | ok v' => rw [e] at h; exact ⟨v', rfl, h⟩

/-- A cell that reaches the searches while the six-rows, triples and pairs
tables are all empty is written as a literal: token 0 and its 64 bytes.
Afterwards the cell table holds the position of the literal's data at the
cell's hash, and the six-rows table holds the position of its rows 2..7 at
the hash of these rows. -/
theorem search_cell_empty (XXH32 : List Nat → Nat → Nat) (out buf_cell : List Nat)
    (hash_cell : Nat) (v : ndlz8_vars) (h6 : v.tab_6 = fun _ => 0)
    (h3 : v.tab_triple = fun _ => 0) (h2 : v.tab_pair = fun _ => 0) :
    ∃ v', search_cell XXH32 out buf_cell hash_cell v = ([0] ++ rd buf_cell 0 64, v') ∧
      v'.tab_cell = setAt v.tab_cell hash_cell (out.length + 1) ∧
      v'.tab_6 (hash12 XXH32 (rows_where buf_cell (fun k => decide (k ≠ 0 ∧ k ≠ 1)))) =
        out.length + 17 := by
  obtain ⟨v1, e1, a1, a2, a3, a4, a5, a6, a7, a8, a9, a10, a11⟩ :=
    six_loop_empty XXH32 out buf_cell out.length { v with literal := true } h6
  obtain ⟨v2, e2, b⟩ := triple_search_empty XXH32 out buf_cell out.length v1
    (by rw [a3]; exact h3)
  obtain ⟨v3, e3, c⟩ := pair_loop_empty XXH32 out buf_cell out.length
    { v2 with pair_matches := setAt v2.pair_matches 0 0 } (by
      show v2.tab_pair = _
      rw [b.2.2.2.1, a4]; exact h2)
  obtain ⟨b1, b2, b3, b4, b5, b6, b7⟩ := b
  obtain ⟨c1, c2, c3, c4, c5, c6, c7⟩ := c
  simp only at c1 c2 c3 c4 c5 c6 c7
  have hl : v3.literal = true := by rw [c5, b5, a5]
  have hu : v3.update_6 = v1.update_6 := by rw [c6, b6]
  have hh : v3.hash_6 = v1.hash_6 := by rw [c7, b7]
  have ht6 : v3.tab_6 = fun _ => 0 := by rw [c2, b2, a2]; exact h6
  refine ⟨literal_update hash_cell out.length v3, ?_, ?_, ?_⟩
  · unfold search_cell
    simp only [e1, e2, e3, hl, if_true]
  · show setAt v3.tab_cell hash_cell (out.length + 1) = _
    rw [c1, b1, a1]
  · unfold literal_update
    simp only [hu, hh, a6, a7, a8, a9, a10, a11, ht6]
    simp [List.range, List.range.loop, List.foldl, setAt, a6, a7, a8, a9, a10, a11]

/-! ## Scenario S3 -/

theorem fill_cell_S3_0 : fill_cell block_S3 16 0 = cell_S3_0 := by decide

theorem fill_cell_S3_1 : fill_cell block_S3 16 8 = cell_S3_1 := by decide

theorem cell_step_S3_0 (XXH32 : List Nat → Nat → Nat) (maxout : Int) (hmax : 139 ≤ maxout) :
    ∃ v', cell_step XXH32 8 16 block_S3 128 maxout 0 0 (ndlz8_vars.init, header_S3) =
        Except.ok (v', header_S3 ++ [0] ++ cell_S3_0) ∧
      v'.tab_cell = setAt (fun _ => 0) (hash12 XXH32 cell_S3_0) 10 ∧
      v'.tab_6 (hash12 XXH32 (List.replicate 48 0)) = 26 := by
  obtain ⟨v', e, a, b⟩ := search_cell_empty XXH32 header_S3 cell_S3_0
    (hash12 XXH32 cell_S3_0)
    { ndlz8_vars.init with
      update_6 := fun _ => 0, update_pair := fun _ => 0, update_triple := fun _ => 0 }
    rfl rfl rfl
  have hz : rows_where cell_S3_0 (fun k => decide (k ≠ 0 ∧ k ≠ 1)) = List.replicate 48 0 := by
    decide
  rw [hz] at b
  have hr : rd cell_S3_0 0 64 = cell_S3_0 := by decide
  rw [hr] at e
  refine ⟨v', ?_, a, b⟩
  unfold cell_step
  simp only
  rw [if_neg (by simp [header_S3]; omega)]
  have hc : encode_cell XXH32 8 16 block_S3 header_S3 0 0
      { ndlz8_vars.init with
        update_6 := fun _ => 0, update_pair := fun _ => 0, update_triple := fun _ => 0 } =
      ([0] ++ cell_S3_0, v') := by
    unfold encode_cell
    have hp : on_padded_edge 8 16 ((8 + 8 - 1) / 8) ((16 + 8 - 1) / 8) 0 0 = false := by decide
    simp only [hp]
    unfold full_cell
    simp only [Nat.zero_mul, Nat.zero_add, fill_cell_S3_0]
    have hall : ((for_range 1 64).all fun i => cell_S3_0.getD i 0 == cell_S3_0.getD 0 0) =
        false := by decide
    simp only [hall]
    have ht : (ndlz8_vars.init).tab_cell (hash12 XXH32 cell_S3_0) = 0 := rfl
    simp only [ht, if_true, true_or]
    exact e
  rw [hc]
  simp [header_S3, cell_S3_0]

theorem search_cell_S3_1 (XXH32 : List Nat → Nat → Nat) (hash_cell : Nat) (v : ndlz8_vars)
    (h6 : v.tab_6 (hash12 XXH32 (List.replicate 48 0)) = 26) :
    (search_cell XXH32 (header_S3 ++ [0] ++ cell_S3_0) cell_S3_1 hash_cell v).1 =
      six_record_S3 := by
  have hz : rows_where cell_S3_1 (fun k => decide (k ≠ 0 ∧ k ≠ 1)) = List.replicate 48 0 := by
    decide
  have hs : same_bytes (List.replicate 48 0) (header_S3 ++ [0] ++ cell_S3_0) 26 48 = true := by
    decide
  have hlen : (header_S3 ++ [0] ++ cell_S3_0).length = 74 := by decide
  have hacc : accepted (u32 ((74 : Int) - (26 : Int))) = true := by decide
  have hrec : le16 (((38 <<< 10) ||| (0 <<< 7) ||| (1 <<< 4)) % 65536) ++
      le16 (u16 ((74 : Int) - (26 : Int))) ++ cell_row cell_S3_1 0 ++ cell_row cell_S3_1 1 =
      six_record_S3 := by decide
  unfold search_cell
  simp only [pair_indices_zero, loop, hlen]
  have hb : six_body XXH32 (header_S3 ++ [0] ++ cell_S3_0) cell_S3_1 74 (0, 1)
      { v with literal := true } =
      Except.error (six_record_S3, { v with literal := false }) := by
    unfold six_body
    simp only [hz, h6, hs, Nat.cast_ofNat, if_true, hacc]
    rw [if_pos (by decide), hrec]
  rw [hb]

theorem encode_cell_S3_1 (XXH32 : List Nat → Nat → Nat) (w : ndlz8_vars)
    (hc : w.tab_cell = setAt (fun _ => 0) (hash12 XXH32 cell_S3_0) 10)
    (h6 : w.tab_6 (hash12 XXH32 (List.replicate 48 0)) = 26) :
    (encode_cell XXH32 8 16 block_S3 (header_S3 ++ [0] ++ cell_S3_0) 0 1 w).1 =
      six_record_S3 := by
  unfold encode_cell
  have hp : on_padded_edge 8 16 ((8 + 8 - 1) / 8) ((16 + 8 - 1) / 8) 0 1 = false := by decide
  simp only [hp]
  unfold full_cell
  simp only [Nat.zero_mul, Nat.zero_add, Nat.one_mul, fill_cell_S3_1]
  have hall : ((for_range 1 64).all fun i => cell_S3_1.getD i 0 == cell_S3_1.getD 0 0) =
      false := by decide
  have hne : same_bytes cell_S3_1 (header_S3 ++ [0] ++ cell_S3_0) 10 64 = false := by decide
  have h10 : w.tab_cell (hash12 XXH32 cell_S3_1) = 0 ∨
      w.tab_cell (hash12 XXH32 cell_S3_1) = 10 := by
    rw [hc]
    unfold setAt
    split_ifs
    · exact Or.inr rfl
    · exact Or.inl rfl
  simp only [hall]
  rcases h10 with h | h
  · simp only [h, if_true, true_or, Bool.false_eq_true, if_false]
    exact search_cell_S3_1 XXH32 _ w h6
  · simp only [h, hne, OfNat.ofNat_ne_zero, if_false, true_or, Bool.false_eq_true, if_true]
    exact search_cell_S3_1 XXH32 _ w h6

theorem cell_step_S3_1 (XXH32 : List Nat → Nat → Nat) (maxout : Int) (hmax : 139 ≤ maxout)
    (v : ndlz8_vars) (hc : v.tab_cell = setAt (fun _ => 0) (hash12 XXH32 cell_S3_0) 10)
    (h6 : v.tab_6 (hash12 XXH32 (List.replicate 48 0)) = 26) :
    ∃ v', cell_step XXH32 8 16 block_S3 128 maxout 0 1 (v, header_S3 ++ [0] ++ cell_S3_0) =
        Except.ok (v', header_S3 ++ [0] ++ cell_S3_0 ++ six_record_S3) := by
  have hlen : (header_S3 ++ [0] ++ cell_S3_0).length = 74 := by decide
  have henc := encode_cell_S3_1 XXH32
      { v with
        update_6 := fun _ => 0, update_pair := fun _ => 0, update_triple := fun _ => 0 } hc h6
  unfold cell_step
  simp only [hlen]
  rw [if_neg (by omega)]
  simp only [List.length_append, hlen, henc]
  rw [if_neg (by simp [six_record_S3])]
  exact ⟨_, rfl⟩

/-- Scenario S3 for every hash function: the stream written for `block_S3` is
the header, the literal record of the first cell and the six-rows record of
the second cell, 94 bytes in all. -/
theorem compress_S3 (XXH32 : List Nat → Nat → Nat) (leftover maxout : Int)
    (hleft : 128 ≠ leftover) (hmax : 139 ≤ maxout) :
    ndlz8_compress XXH32 ⟨2, 8, 16, leftover⟩ block_S3 128 maxout =
      (94, header_S3 ++ [0] ++ cell_S3_0 ++ six_record_S3) := by
  obtain ⟨v1, e1, a, b⟩ := cell_step_S3_0 XXH32 maxout hmax
  obtain ⟨v2, e2⟩ := cell_step_S3_1 XXH32 maxout hmax v1 a b
  unfold ndlz8_compress
  simp only
  rw [if_neg (by simp), if_neg hleft, if_neg (by simp), if_neg (by omega),
    if_neg (by norm_num; omega)]
  have hh : [u8 2] ++ le32 8 ++ le32 16 = header_S3 := by decide
  have hr0 : for_range 0 ((8 + 8 - 1) / 8) = [0] := by decide
  have hr1 : for_range 0 ((16 + 8 - 1) / 8) = [0, 1] := by decide
  unfold encode_cells
  simp only [hh, hr0, hr1, loop, e1, e2]
  rfl

/-! ## The decoder on the stream of scenario S3 -/

theorem in_byte_inside (u : indeterminate) (input : List Nat) (k : Nat)
    (h : k < input.length) : in_byte u input (k : Int) = input.getD k 0 := by
  unfold in_byte
  rw [if_pos ⟨by omega, by omega⟩]
  simp

theorem decode_step_literal (u : indeterminate) (input : List Nat) (length maxout : Int)
    (rows cols a b ii0 ii1 : Nat) (s : decoder_vars) (hip : ¬ s.ip > length)
    (ht : in_byte u input s.ip % 256 = 0) :
    outcome (fun _ : decoder_vars => True)
      (fun s1 : decoder_vars => s1.ip = s.ip + 1 +
        ((decoder_padding rows a ii0 * decoder_padding cols b ii1 : Nat) : Int))
      (decode_step u input length maxout rows cols a b ii0 ii1 s) := by
  unfold decode_step
  rw [if_neg hip]
  have hd : decode_token u input (decoder_padding rows a ii0) (decoder_padding cols b ii1) s =
      some ⟨in_at u input (s.ip + 1),
        s.ip + 1 + ((decoder_padding rows a ii0 * decoder_padding cols b ii1 : Nat) : Int),
        s.local_buffer, s.cell_aux⟩ := by
    unfold decode_token
    simp only [ht, if_true]
  simp only [hd]
  exact outcome_ite (fun _ => trivial) (fun _ => rfl)

/-- A stream of 94 bytes whose header gives the shape 8 x 16, whose byte 9 is
the literal token and whose byte 74 (the token of the second cell, after the
64 literal bytes) is 0x10: the decoder returns 0. -/
theorem decompress_bad_second_token (u : indeterminate) (maxout : Int) (L : List Nat)
    (hrows : header_rows u L = 8) (hcols : header_cols u L = 16)
    (h9 : in_byte u L 9 = 0) (h74 : in_byte u L 74 = 16) :
    (ndlz8_decompress u L 94 maxout).1 = 0 := by
  unfold ndlz8_decompress
  simp only
  rw [if_neg (by decide)]
  rw [hrows, hcols]
  have hr0 : for_range 0 ((8 + 7) % 4294967296 / 8 * 8 / 8) = [0] := by decide
  have hr1 : for_range 0 ((16 + 7) % 4294967296 / 8 * 8 / 8) = [0, 1] := by decide
  rw [hr0, hr1]
  simp only [loop]
  have step0 := decode_step_literal u L 94
    maxout 8 16 ((8 + 7) % 4294967296 / 8 * 8 / 8) ((16 + 7) % 4294967296 / 8 * 8 / 8) 0 0
    ⟨9, copy_to u.output 0 (fun _ => 0) (8 * 16 % 4294967296), u.local_buffer, u.cell_aux,
      u.ind, u.padding1⟩ (show ¬ ((9 : Int) > 94) by decide) (by rw [h9])
  revert step0
  cases decode_step u L 94
    maxout 8 16 ((8 + 7) % 4294967296 / 8 * 8 / 8) ((16 + 7) % 4294967296 / 8 * 8 / 8) 0 0
    ⟨9, copy_to u.output 0 (fun _ => 0) (8 * 16 % 4294967296), u.local_buffer, u.cell_aux,
      u.ind, u.padding1⟩ with
  | error e => intro _; rfl
  | ok s1 =>
    intro h1
    simp only [outcome] at h1
    have hip : s1.ip = 74 := by rw [h1]; decide
    have hstep : ∃ e, decode_step u L 94
        maxout 8 16 ((8 + 7) % 4294967296 / 8 * 8 / 8) ((16 + 7) % 4294967296 / 8 * 8 / 8) 0 1
        s1 = Except.error e := by
      unfold decode_step
      simp only
      rw [if_neg (by rw [hip]; decide),
        decode_token_none u _ _ _ _ (by rw [hip, h74]; decide)]
      exact ⟨_, rfl⟩
    obtain ⟨e, he⟩ := hstep
    simp only [he]

theorem header_rows_eq (u : indeterminate) (input : List Nat) (h : 5 ≤ input.length) :
    header_rows u input = (input.getD 1 0 + input.getD 2 0 * 256 + input.getD 3 0 * 65536 +
      input.getD 4 0 * 16777216) % 4294967296 := by
  unfold header_rows in_u32
  have h1 := in_byte_inside u input 1 (by omega)
  have h2 := in_byte_inside u input 2 (by omega)
  have h3 := in_byte_inside u input 3 (by omega)
  have h4 := in_byte_inside u input 4 (by omega)
  simp only [Nat.cast_ofNat, Nat.cast_one] at h1 h2 h3 h4
  rw [h1, show (1 : Int) + 1 = 2 by rfl, h2, show (1 : Int) + 2 = 3 by rfl, h3,
    show (1 : Int) + 3 = 4 by rfl, h4]

theorem header_cols_eq (u : indeterminate) (input : List Nat) (h : 9 ≤ input.length) :
    header_cols u input = (input.getD 5 0 + input.getD 6 0 * 256 + input.getD 7 0 * 65536 +
      input.getD 8 0 * 16777216) % 4294967296 := by
  unfold header_cols in_u32
  have h1 := in_byte_inside u input 5 (by omega)
  have h2 := in_byte_inside u input 6 (by omega)
  have h3 := in_byte_inside u input 7 (by omega)
  have h4 := in_byte_inside u input 8 (by omega)
  simp only [Nat.cast_ofNat] at h1 h2 h3 h4
  rw [h1, show (5 : Int) + 1 = 6 by rfl, h2, show (5 : Int) + 2 = 7 by rfl, h3,
    show (5 : Int) + 3 = 8 by rfl, h4]

/-- The decoder returns 0 on the stream that the encoder writes for
scenario S3, whatever the indeterminate values and the capacity. -/
theorem decompress_S3 (u : indeterminate) (maxout : Int) :
    (ndlz8_decompress u (header_S3 ++ [0] ++ cell_S3_0 ++ six_record_S3) 94 maxout).1 = 0 := by
  have hlen : (header_S3 ++ [0] ++ cell_S3_0 ++ six_record_S3).length = 94 := by decide
  apply decompress_bad_second_token
  · rw [header_rows_eq u _ (by omega)]
    decide
  · rw [header_cols_eq u _ (by omega)]
    decide
  · have := in_byte_inside u (header_S3 ++ [0] ++ cell_S3_0 ++ six_record_S3) 9 (by omega)
    simp only [Nat.cast_ofNat] at this
    rw [this]
    decide
  · have := in_byte_inside u (header_S3 ++ [0] ++ cell_S3_0 ++ six_record_S3) 74 (by omega)
    simp only [Nat.cast_ofNat] at this
    rw [this]
    decide

/-! ## Padded cells -/

/-- A cell on a padded edge: the record is the token 0 followed by the live
bytes of the cell, row by row, and the variables are returned unchanged. -/
theorem encode_cell_padded (XXH32 : List Nat → Nat → Nat) (rows cols : Nat)
    (input out : List Nat) (ii0 ii1 : Nat) (v : ndlz8_vars)
    (hedge : (rows % 8 ≠ 0 ∧ ii0 = (rows + 7) / 8 - 1) ∨
      (cols % 8 ≠ 0 ∧ ii1 = (cols + 7) / 8 - 1)) :
    encode_cell XXH32 rows cols input out ii0 ii1 v =
      (0 :: (List.range (if ii0 = (rows + 7) / 8 - 1 ∧ rows % 8 ≠ 0 then rows % 8 else 8)).flatMap
        (fun r =>
          (List.range (if ii1 = (cols + 7) / 8 - 1 ∧ cols % 8 ≠ 0 then cols % 8 else 8)).map
            (fun c => input.getD ((8 * ii0 + r) * cols + (8 * ii1 + c)) 0)), v) := by
  have hp : on_padded_edge rows cols ((rows + 8 - 1) / 8) ((cols + 8 - 1) / 8) ii0 ii1 = true := by
    unfold on_padded_edge
    simp only [show (rows + 8 - 1) = rows + 7 by omega, show (cols + 8 - 1) = cols + 7 by omega,
      Bool.or_eq_true, Bool.and_eq_true, decide_eq_true_eq]
    exact hedge
  have h0 : padding rows ((rows + 8 - 1) / 8) ii0 =
      if ii0 = (rows + 7) / 8 - 1 ∧ rows % 8 ≠ 0 then rows % 8 else 8 := by
    unfold padding
    simp only [show (rows + 8 - 1) = rows + 7 by omega]
    split_ifs <;> simp_all
  have h1 : padding cols ((cols + 8 - 1) / 8) ii1 =
      if ii1 = (cols + 7) / 8 - 1 ∧ cols % 8 ≠ 0 then cols % 8 else 8 := by
    unfold padding
    simp only [show (cols + 8 - 1) = cols + 7 by omega]
    split_ifs <;> simp_all
  unfold encode_cell
  simp only [hp, if_true, h0, h1]
  unfold padded_cell rd
  simp only [List.singleton_append, Prod.mk.injEq, List.cons.injEq, true_and, and_true]
  congr 1
  funext r
  congr 1
  funext c
  congr 1
  ring

/-! # The claims -/

/-- C1 (the code breaks the round trip). Failing input: the block of scenario
S3 (8 rows of 16 bytes, row 0 is 0..15, rows 1..7 zero). For every hash
function `ndlz8_compress` (capacity 200) returns 94 > 0; the second cell record
starts at byte 74 with the 16-bit token 0x9810 stored low byte first, so byte
74 is 0x10.  Whatever the indeterminate values, `ndlz8_decompress` on these 94
bytes with capacity 128 = rows * cols returns 0 and not 128: it reads byte 74
as the token, and 0x10 passes none of the tests of its dispatch. -/
theorem roundtrip_fails_S3 (XXH32 : List Nat → Nat → Nat) (u : indeterminate) :
    (ndlz8_compress XXH32 ⟨2, 8, 16, 0⟩ block_S3 128 200).1 = 94 ∧
    (ndlz8_compress XXH32 ⟨2, 8, 16, 0⟩ block_S3 128 200).2.getD 74 0 = 16 ∧
    no_token_class 16 = true ∧
    (ndlz8_decompress u (ndlz8_compress XXH32 ⟨2, 8, 16, 0⟩ block_S3 128 200).2
      (ndlz8_compress XXH32 ⟨2, 8, 16, 0⟩ block_S3 128 200).1 128).1 = 0 := by
  rw [compress_S3 XXH32 0 200 (by decide) (by decide)]
  exact ⟨rfl, by decide, by decide, decompress_S3 u 128⟩

/-- C3. Every positive value returned by `ndlz8_compress` is at most
`length`.  In the main loop, a cell after which the bytes produced so far
exceed `length` leaves the loop (`Except.error`), and leaving the loop makes
the call return a value that is not positive. -/
theorem compress_size_guard (XXH32 : List Nat → Nat → Nat) (context : blosc2_context)
    (input : List Nat) (length maxout : Int) :
    (0 < (ndlz8_compress XXH32 context input length maxout).1 →
      (ndlz8_compress XXH32 context input length maxout).1 ≤ length) ∧
    (∀ (rows cols ii0 ii1 : Nat) (s : ndlz8_vars × List Nat),
      length < ((s.2 ++ (encode_cell XXH32 rows cols input s.2 ii0 ii1
        { s.1 with update_6 := fun _ => 0, update_pair := fun _ => 0,
                   update_triple := fun _ => 0 }).1).length : Int) →
      ∃ o, cell_step XXH32 rows cols input length maxout ii0 ii1 s = Except.error o) ∧
    (∀ o : List Nat,
      encode_cells XXH32 context.blockshape0 context.blockshape1 input length maxout
        ([2] ++ le32 context.blockshape0 ++ le32 context.blockshape1) = Except.error o →
      (ndlz8_compress XXH32 context input length maxout).1 ≤ 0) := by
  refine ⟨?_, ?_, ?_⟩
  · intro hpos
    exact ((ndlz8_compress_spec XXH32 context input length maxout (Or.inr hpos)).2.2 hpos).2.2
  · intro rows cols ii0 ii1 s hs
    unfold cell_step
    simp only
    split_ifs <;> exact ⟨_, rfl⟩
  · intro o ho
    by_cases hpos : 0 < (ndlz8_compress XXH32 context input length maxout).1
    · obtain ⟨_, _, _, _, _, _, heq⟩ :=
        ndlz8_compress_checked XXH32 context input length maxout (Or.inr hpos)
      rw [heq, ho]
    · omega

/-- Instance of C3: the 8x8 block of 0x42 (11 <= 64), and the 8x8 block
0, 1, ..., 63, whose literal record makes 74 > 64 bytes: the call returns 0. -/
theorem compress_size_guard_witness :
    ((0 : Int) < (ndlz8_compress zero_hash ⟨2, 8, 8, 0⟩ (List.replicate 64 66) 64 74).1 ∧
      (ndlz8_compress zero_hash ⟨2, 8, 8, 0⟩ (List.replicate 64 66) 64 74).1 ≤ 64) ∧
    (ndlz8_compress zero_hash ⟨2, 8, 8, 0⟩ (List.range 64) 64 200).1 = 0 :=
  ⟨⟨by decide,
    (compress_size_guard zero_hash ⟨2, 8, 8, 0⟩ (List.replicate 64 66) 64 74).1 (by decide)⟩,
   by decide⟩

/-- The header, for a block shape of natural numbers: whenever
`ndlz8_compress` returns `n > 0`, `n >= 11` and the first 9 bytes written are
the byte 2, then `blockshape[0]` (rows) and `blockshape[1]` (cols), each as
four bytes, low byte first. -/
theorem compress_header (XXH32 : List Nat → Nat → Nat) (context : blosc2_context)
    (input : List Nat) (length maxout : Int)
    (h : 0 < (ndlz8_compress XXH32 context input length maxout).1) :
    11 ≤ (ndlz8_compress XXH32 context input length maxout).1 ∧
    (ndlz8_compress XXH32 context input length maxout).2.take 9 =
      [2, context.blockshape0 % 256, context.blockshape0 / 256 % 256,
        context.blockshape0 / 65536 % 256, context.blockshape0 / 16777216 % 256,
        context.blockshape1 % 256, context.blockshape1 / 256 % 256,
        context.blockshape1 / 65536 % 256, context.blockshape1 / 16777216 % 256] := by
  obtain ⟨_, b, c⟩ := ndlz8_compress_spec XXH32 context input length maxout (Or.inr h)
  exact ⟨(c h).2.1, b⟩

/-- Instance: the 16x8 block of zero bytes; 13 is returned and the header is
02, 10 00 00 00, 08 00 00 00. -/
theorem compress_header_witness :
    (0 : Int) < (ndlz8_compress zero_hash ⟨2, 16, 8, 0⟩ (List.replicate 128 0) 128 200).1 ∧
    (11 ≤ (ndlz8_compress zero_hash ⟨2, 16, 8, 0⟩ (List.replicate 128 0) 128 200).1 ∧
    (ndlz8_compress zero_hash ⟨2, 16, 8, 0⟩ (List.replicate 128 0) 128 200).2.take 9 =
      [2, 16 % 256, 16 / 256 % 256, 16 / 65536 % 256, 16 / 16777216 % 256,
        8 % 256, 8 / 256 % 256, 8 / 65536 % 256, 8 / 16777216 % 256]) :=
  ⟨by decide,
    compress_header zero_hash ⟨2, 16, 8, 0⟩ (List.replicate 128 0) 128 200 (by decide)⟩

/-- C6. For a call on a regular (not the leftover) block whose dimensions
`rows`, `cols` are positive multiples of 8 and whose `rows * cols` bytes all
equal `c`, with `maxout >= 72 + 2 * cells` where `cells = (rows/8) * (cols/8)`,
`ndlz8_compress` returns `9 + 2 * cells` for every hash function, and the
output is the 9-byte header followed by the pair `(0x40, c)` once per cell. -/
theorem rle_shortcut (XXH32 : List Nat → Nat → Nat) (rows cols c : Nat)
    (leftover maxout : Int) (hrows : 0 < rows) (hcols : 0 < cols)
    (hr8 : rows % 8 = 0) (hc8 : cols % 8 = 0)
    (hleft : ((rows * cols : Nat) : Int) ≠ leftover)
    (hmax : 72 + 2 * ((rows / 8 * (cols / 8) : Nat) : Int) ≤ maxout) :
    ndlz8_compress XXH32 ⟨2, rows, cols, leftover⟩ (List.replicate (rows * cols) c)
        ((rows * cols : Nat) : Int) maxout =
      (9 + 2 * ((rows / 8 * (cols / 8) : Nat) : Int),
       [2] ++ le32 rows ++ le32 cols ++
         (List.replicate (rows / 8 * (cols / 8)) [64, c]).flatten) := by
  obtain ⟨n0, rfl⟩ : ∃ n0, rows = 8 * n0 := ⟨rows / 8, by omega⟩
  obtain ⟨n1, rfl⟩ : ∃ n1, cols = 8 * n1 := ⟨cols / 8, by omega⟩
  have e0 : 8 * n0 / 8 = n0 := by omega
  have e1 : 8 * n1 / 8 = n1 := by omega
  rw [e0, e1] at hmax ⊢
  exact compress_constant XXH32 n0 n1 c leftover maxout (by omega) (by omega) hleft hmax

/-- Instance of C6, scenario S1: the 8x8 block of 0x42 is written as
02 08 00 00 00 08 00 00 00 40 42, 11 bytes. -/
theorem rle_shortcut_witness :
    ndlz8_compress zero_hash ⟨2, 8, 8, 0⟩ (List.replicate (8 * 8) 66) ((8 * 8 : Nat) : Int) 74 =
      (9 + 2 * ((8 / 8 * (8 / 8) : Nat) : Int),
       [2] ++ le32 8 ++ le32 8 ++ (List.replicate (8 / 8 * (8 / 8)) [64, 66]).flatten) ∧
    ([2] ++ le32 8 ++ le32 8 ++ (List.replicate (8 / 8 * (8 / 8)) [64, 66]).flatten =
      [0x02, 0x08, 0x00, 0x00, 0x00, 0x08, 0x00, 0x00, 0x00, 0x40, 0x42]) ∧
    (9 + 2 * ((8 / 8 * (8 / 8) : Nat) : Int) = 11) :=
  ⟨rle_shortcut zero_hash 8 8 66 0 74 (by decide) (by decide) (by decide) (by decide)
    (by decide) (by decide), by decide, by decide⟩

/-- C7 fails as stated: for the 16x8 block of zero bytes (hash constantly 0,
capacity 200) `ndlz8_compress` returns 13, not 14, and the record of the
second cell (bytes 11 and 12) is the RLE record `0x40 0x00`; byte 11 is not
the cell-match token 0xC0. -/
theorem S2_is_not_a_cell_match :
    ndlz8_compress zero_hash ⟨2, 16, 8, 0⟩ (List.replicate 128 0) 128 200 =
      (13, [2, 16, 0, 0, 0, 8, 0, 0, 0, 64, 0, 64, 0]) ∧
    (ndlz8_compress zero_hash ⟨2, 16, 8, 0⟩ (List.replicate 128 0) 128 200).1 ≠ 14 ∧
    (ndlz8_compress zero_hash ⟨2, 16, 8, 0⟩ (List.replicate 128 0) 128 200).2.getD 11 0 ≠ 192 := by
  decide

/-- C7 as amended. Scenario S2: for the 16x8 block of zero bytes, in a call
that is not on the leftover block and has `maxout >= 76`, `ndlz8_compress`
writes both cells as RLE records `0x40 0x00` for every hash function, and
returns 9 + 2 + 2 = 13. -/
theorem S2_two_rle_records (XXH32 : List Nat → Nat → Nat) (leftover maxout : Int)
    (hleft : 128 ≠ leftover) (hmax : 76 ≤ maxout) :
    ndlz8_compress XXH32 ⟨2, 16, 8, leftover⟩ (List.replicate 128 0) 128 maxout =
      (13, [2, 16, 0, 0, 0, 8, 0, 0, 0] ++ [64, 0] ++ [64, 0]) := by
  have h := compress_constant XXH32 2 1 0 leftover maxout (by decide) (by decide)
    (by simpa using hleft) (by simpa using hmax)
  simpa [le32] using h

/-- Instance of the amended C7 with the hash constantly 0 and capacity 76. -/
theorem S2_two_rle_records_witness :
    ndlz8_compress zero_hash ⟨2, 16, 8, 0⟩ (List.replicate 128 0) 128 76 =
      (13, [2, 16, 0, 0, 0, 8, 0, 0, 0] ++ [64, 0] ++ [64, 0]) :=
  S2_two_rle_records zero_hash 0 76 (by decide) (by decide)

/-- C8. Scenario S3: for the 8x16 block whose row 0 is 0, 1, ..., 15 and whose
rows 1..7 are zero, in a call that is not on the leftover block and has
`maxout >= 139`, for every hash function `ndlz8_compress` returns 94 and
writes the header, the literal record of the first cell (token 0x00 and its
64 bytes) and a six-rows record for the second cell: the token
`(38 << 10) | (0 << 7) | (1 << 4)` names the excluded rows 0 and 1, the offset
is 48 = 74 - 26, rows 0 and 1 of the cell follow, and the 48 bytes at
position 26 of the output are rows 2..7 of the first cell's literal. -/
theorem S3_literal_then_six_rows (XXH32 : List Nat → Nat → Nat) (leftover maxout : Int)
    (hleft : 128 ≠ leftover) (hmax : 139 ≤ maxout) :
    ndlz8_compress XXH32 ⟨2, 8, 16, leftover⟩ block_S3 128 maxout =
      ((94 : Int), [2, 8, 0, 0, 0, 16, 0, 0, 0] ++ ([0] ++ fill_cell block_S3 16 0) ++
        (le16 ((38 <<< 10) ||| (0 <<< 7) ||| (1 <<< 4)) ++ le16 (74 - 26) ++
          cell_row (fill_cell block_S3 16 8) 0 ++ cell_row (fill_cell block_S3 16 8) 1)) ∧
    rd (ndlz8_compress XXH32 ⟨2, 8, 16, leftover⟩ block_S3 128 maxout).2 26 48 =
      rows_where (fill_cell block_S3 16 0) (fun k => decide (k ≠ 0 ∧ k ≠ 1)) ∧
    26 = 9 + 1 + 2 * 8 := by
  rw [compress_S3 XXH32 leftover maxout hleft hmax]
  exact ⟨by decide, by decide, rfl⟩

/-- Instance of C8 with the hash constantly 0 and capacity 139. -/
theorem S3_literal_then_six_rows_witness :
    (ndlz8_compress zero_hash ⟨2, 8, 16, 0⟩ block_S3 128 139).2 =
      [2, 8, 0, 0, 0, 16, 0, 0, 0] ++
      [0, 0, 1, 2, 3, 4, 5, 6, 7] ++ List.replicate 56 0 ++
      [0x10, 0x98, 48, 0, 8, 9, 10, 11, 12, 13, 14, 15] ++ List.replicate 8 0 := by
  rw [(S3_literal_then_six_rows zero_hash 0 139 (by decide) (by decide)).1]
  decide

/-! ## Argument checks of the encoder -/

/-- C14. For every call whose context has `ndim != 2`, whatever the other
arguments, `ndlz8_compress` returns -1, a negative value, and writes
nothing. -/
theorem compress_rejects_ndim (XXH32 : List Nat → Nat → Nat) (context : blosc2_context)
    (input : List Nat) (length maxout : Int) (h : context.ndim ≠ 2) :
    ndlz8_compress XXH32 context input length maxout = (-1, []) ∧
    (ndlz8_compress XXH32 context input length maxout).1 < 0 := by
  have e : ndlz8_compress XXH32 context input length maxout = (-1, []) := by
    unfold ndlz8_compress
    simp only
    rw [if_pos h]
  rw [e]
  exact ⟨rfl, by decide⟩

/-- Instance of C14: a context with `ndim = 3` and an otherwise valid call
on the 8x8 block of 0x42. -/
theorem compress_rejects_ndim_witness :
    ndlz8_compress zero_hash ⟨3, 8, 8, 0⟩ (List.replicate 64 66) 64 200 = (-1, []) ∧
    (ndlz8_compress zero_hash ⟨3, 8, 8, 0⟩ (List.replicate 64 66) 64 200).1 < 0 :=
  compress_rejects_ndim zero_hash ⟨3, 8, 8, 0⟩ (List.replicate 64 66) 64 200 (by decide)

/-! ## The decoder on a stream of one 8x8 cell -/

theorem scatter_full_8x8 (out buf : Nat → Nat) (k : Nat) :
    scatter out buf 0 8 8 8 k = if k < 64 then buf k else out k := by
  unfold scatter
  simp only [List.range, List.range.loop, List.foldl, copy_to]
  norm_num
  simp only [copy_to]
  split_ifs <;> first | rfl | (congr 1; omega)

/-- The decoder on a stream whose header gives the shape 8 x 8: one
iteration of the main loop, then the size checks. -/
theorem decompress_single_cell (u : indeterminate) (L : List Nat) (length maxout : Int)
    (hlen : 0 < length) (hrows : header_rows u L = 8) (hcols : header_cols u L = 8) :
    ndlz8_decompress u L length maxout =
      match decode_step u L length maxout 8 8 1 1 0 0
          ⟨9, copy_to u.output 0 (fun _ => 0) 64, u.local_buffer, u.cell_aux, u.ind,
            u.padding1⟩ with
      | Except.error s => (0, s.out)
      | Except.ok s =>
        if (s.ind + s.padding1) % 4294967296 ≠ 64 then (0, s.out)
        else if (s.ind + s.padding1) % 4294967296 > u32 maxout then (0, s.out)
        else (i32 ((s.ind + s.padding1) % 4294967296), s.out) := by
  unfold ndlz8_decompress
  simp only
  rw [if_neg (by omega)]
  rw [hrows, hcols]
  have hr0 : for_range 0 ((8 + 7) % 4294967296 / 8 * 8 / 8) = [0] := by decide
  rw [hr0]
  simp only [loop]
  cases decode_step u L length maxout 8 8 ((8 + 7) % 4294967296 / 8 * 8 / 8)
    ((8 + 7) % 4294967296 / 8 * 8 / 8) 0 0
    ⟨9, copy_to u.output 0 (fun _ => 0) (8 * 8 % 4294967296), u.local_buffer, u.cell_aux,
      u.ind, u.padding1⟩ with
  | error e => rfl
  | ok s => rfl

/-- A literal record (token 0) as the only cell of an 8x8 stream: with
capacity 64 the decoder returns 64 and the 64 output bytes are the bytes at
`input[10 .. 73]`, whether or not they lie inside the input. -/
theorem decompress_literal_8x8 (u : indeterminate) (L : List Nat) (length : Int)
    (hlen : 9 ≤ length) (hrows : header_rows u L = 8) (hcols : header_cols u L = 8)
    (h9 : in_byte u L 9 % 256 = 0) :
    (ndlz8_decompress u L length 64).1 = 64 ∧
    ∀ k : Nat, k < 64 → (ndlz8_decompress u L length 64).2 k = in_byte u L (10 + (k : Int)) := by
  rw [decompress_single_cell u L length 64 (by omega) hrows hcols]
  have hstep : decode_step u L length 64 8 8 1 1 0 0
      ⟨9, copy_to u.output 0 (fun _ => 0) 64, u.local_buffer, u.cell_aux, u.ind,
        u.padding1⟩ =
      Except.ok ⟨9 + 1 + 64,
        scatter (copy_to u.output 0 (fun _ => 0) 64) (in_at u L (9 + 1)) 0 8 8 8,
        u.local_buffer, u.cell_aux, 56, 8⟩ := by
    unfold decode_step
    simp only
    rw [if_neg (by omega)]
    have hp : decoder_padding 8 1 0 = 8 := by decide
    have hd : decode_token u L 8 8
        ⟨9, copy_to u.output 0 (fun _ => 0) 64, u.local_buffer, u.cell_aux, u.ind,
          u.padding1⟩ =
        some ⟨in_at u L (9 + 1), 9 + 1 + ((8 * 8 : Nat) : Int), u.local_buffer, u.cell_aux⟩ := by
      unfold decode_token
      simp only [h9, if_true]
    rw [hp, hd]
    simp only
    rw [if_neg (by decide)]
    rfl
  rw [hstep]
  simp only
  rw [if_neg (by decide), if_neg (by decide)]
  refine ⟨rfl, ?_⟩
  intro k hk
  simp only [scatter_full_8x8, if_pos hk, in_at]
  rfl

/-- An RLE record (token 0x40, value `v`) as the only cell of an 8x8
stream: with capacity 64 the decoder returns 64; the first 16 output bytes
are `v` and the output bytes 16..63 are the bytes found behind the 16
elements of `cell_aux`. -/
theorem decompress_rle_8x8 (u : indeterminate) (L : List Nat) (length : Int)
    (hlen : 9 ≤ length) (hrows : header_rows u L = 8) (hcols : header_cols u L = 8)
    (h9 : in_byte u L 9 % 256 = 64) :
    (ndlz8_decompress u L length 64).1 = 64 ∧
    (∀ k : Nat, k < 16 → (ndlz8_decompress u L length 64).2 k = in_byte u L 10) ∧
    (∀ k : Nat, 16 ≤ k → k < 64 → (ndlz8_decompress u L length 64).2 k = u.cell_aux k) := by
  rw [decompress_single_cell u L length 64 (by omega) hrows hcols]
  have hstep : decode_step u L length 64 8 8 1 1 0 0
      ⟨9, copy_to u.output 0 (fun _ => 0) 64, u.local_buffer, u.cell_aux, u.ind,
        u.padding1⟩ =
      Except.ok ⟨9 + 1 + 1,
        scatter (copy_to u.output 0 (fun _ => 0) 64)
          (copy_to u.cell_aux 0 (fun _ => in_byte u L (9 + 1)) 16) 0 8 8 8,
        u.local_buffer, copy_to u.cell_aux 0 (fun _ => in_byte u L (9 + 1)) 16, 56, 8⟩ := by
    unfold decode_step
    simp only
    rw [if_neg (by omega)]
    have hp : decoder_padding 8 1 0 = 8 := by decide
    have hd : decode_token u L 8 8
        ⟨9, copy_to u.output 0 (fun _ => 0) 64, u.local_buffer, u.cell_aux, u.ind,
          u.padding1⟩ =
        some ⟨copy_to u.cell_aux 0 (fun _ => in_byte u L (9 + 1)) 16, 9 + 1 + 1,
          u.local_buffer, copy_to u.cell_aux 0 (fun _ => in_byte u L (9 + 1)) 16⟩ := by
      unfold decode_token
      simp only [h9]
      rw [if_neg (by decide), if_neg (by decide), if_pos trivial]
    rw [hp, hd]
    simp only
    rw [if_neg (by decide)]
  rw [hstep]
  simp only
  rw [if_neg (by decide), if_neg (by decide)]
  refine ⟨rfl, ?_, ?_⟩
  · intro k hk
    simp only [scatter_full_8x8, if_pos (show k < 64 by omega), copy_to]
    rw [if_pos ⟨by omega, by omega⟩]
    rfl
  · intro k h1 h2
    simp only [scatter_full_8x8, if_pos h2, copy_to]
    rw [if_neg (by omega)]

/-! ## Streams that the decoder should refuse -/

/-- C11. Code defect: the stream of 13 bytes made of a valid 8x8 header, the
literal token 0x00 and only 3 of the 64 payload bytes is truncated, yet
`ndlz8_decompress` does not return 0: it returns 64, and the output bytes 3..63
are the bytes found at the indices 13..73 of the input, at or beyond `length`.
With a header and no cell record at all (9 bytes) the token itself is read at
index 9 = `length`. -/
theorem decompress_truncated_reads_past_end (u : indeterminate) :
    (ndlz8_decompress u [2, 8, 0, 0, 0, 8, 0, 0, 0, 0, 1, 2, 3] 13 64).1 = 64 ∧
    (∀ k : Nat, 3 ≤ k → k < 64 →
      (ndlz8_decompress u [2, 8, 0, 0, 0, 8, 0, 0, 0, 0, 1, 2, 3] 13 64).2 k =
        u.outside (10 + (k : Int))) ∧
    (u.outside 9 % 256 = 0 →
      (ndlz8_decompress u [2, 8, 0, 0, 0, 8, 0, 0, 0] 9 64).1 = 64 ∧
      ∀ k : Nat, k < 64 →
        (ndlz8_decompress u [2, 8, 0, 0, 0, 8, 0, 0, 0] 9 64).2 k =
          u.outside (10 + (k : Int))) := by
  have hr := header_rows_eq u [2, 8, 0, 0, 0, 8, 0, 0, 0, 0, 1, 2, 3] (by decide)
  have hc := header_cols_eq u [2, 8, 0, 0, 0, 8, 0, 0, 0, 0, 1, 2, 3] (by decide)
  have h9 : in_byte u [2, 8, 0, 0, 0, 8, 0, 0, 0, 0, 1, 2, 3] 9 % 256 = 0 := by
    unfold in_byte
    rw [if_pos ⟨by decide, by decide⟩]
    rfl
  have h := decompress_literal_8x8 u [2, 8, 0, 0, 0, 8, 0, 0, 0, 0, 1, 2, 3] 13 (by decide)
    hr hc h9
  have hr0 := header_rows_eq u [2, 8, 0, 0, 0, 8, 0, 0, 0] (by decide)
  have hc0 := header_cols_eq u [2, 8, 0, 0, 0, 8, 0, 0, 0] (by decide)
  refine ⟨h.1, ?_, ?_⟩
  · intro k h3 h64
    rw [h.2 k h64]
    unfold in_byte
    rw [if_neg]
    simp only [List.length_cons, List.length_nil]
    omega
  · intro h0
    have h9 : in_byte u [2, 8, 0, 0, 0, 8, 0, 0, 0] 9 % 256 = 0 := by
      unfold in_byte
      rw [if_neg (by decide)]
      exact h0
    have h := decompress_literal_8x8 u [2, 8, 0, 0, 0, 8, 0, 0, 0] 9 (by decide) hr0 hc0 h9
    refine ⟨h.1, ?_⟩
    intro k h64
    rw [h.2 k h64]
    unfold in_byte
    rw [if_neg]
    simp only [List.length_cons, List.length_nil]
    omega

/-- C12. Code defect: on the stream made of a valid 8x8 header and the RLE
record `0x40, 7`, `ndlz8_decompress` returns 64 but sets only the first 16
bytes of the cell to 7: the scratch array is `cell_aux[16]`, filled by
`memset(buffercpy, *ip, 16)`, and the other 48 destination bytes are copied
from the memory that lies behind that array. -/
theorem decompress_rle_fills_16_bytes (u : indeterminate) :
    (ndlz8_decompress u [2, 8, 0, 0, 0, 8, 0, 0, 0, 64, 7] 11 64).1 = 64 ∧
    (∀ k : Nat, k < 16 →
      (ndlz8_decompress u [2, 8, 0, 0, 0, 8, 0, 0, 0, 64, 7] 11 64).2 k = 7) ∧
    (∀ k : Nat, 16 ≤ k → k < 64 →
      (ndlz8_decompress u [2, 8, 0, 0, 0, 8, 0, 0, 0, 64, 7] 11 64).2 k = u.cell_aux k) := by
  have hr := header_rows_eq u [2, 8, 0, 0, 0, 8, 0, 0, 0, 64, 7] (by decide)
  have hc := header_cols_eq u [2, 8, 0, 0, 0, 8, 0, 0, 0, 64, 7] (by decide)
  have h9 : in_byte u [2, 8, 0, 0, 0, 8, 0, 0, 0, 64, 7] 9 % 256 = 64 := by
    unfold in_byte
    rw [if_pos ⟨by decide, by decide⟩]
    rfl
  have h10 : in_byte u [2, 8, 0, 0, 0, 8, 0, 0, 0, 64, 7] 10 = 7 := by
    unfold in_byte
    rw [if_pos ⟨by decide, by decide⟩]
    rfl
  have h := decompress_rle_8x8 u [2, 8, 0, 0, 0, 8, 0, 0, 0, 64, 7] 11 (by decide) hr hc h9
  refine ⟨h.1, ?_, h.2.2⟩
  intro k hk
  rw [h.2.1 k hk, h10]

/-- C13. Code defect: `ndlz8_decompress` reads the header byte `ndim` and
never tests it. Whatever the value of byte 0, the stream made of that byte,
the shape 8x8, the literal token and 64 payload bytes equal to 5 is decoded:
the function returns 64 and the output is the payload. -/
theorem decompress_ignores_ndim (u : indeterminate) (ndim : Nat) :
    (ndlz8_decompress u (ndim :: [8, 0, 0, 0, 8, 0, 0, 0, 0] ++ List.replicate 64 5)
      74 64).1 = 64 ∧
    ∀ k : Nat, k < 64 →
      (ndlz8_decompress u (ndim :: [8, 0, 0, 0, 8, 0, 0, 0, 0] ++ List.replicate 64 5)
        74 64).2 k = 5 := by
  have hlen : (ndim :: [8, 0, 0, 0, 8, 0, 0, 0, 0] ++ List.replicate 64 5).length = 74 := by
    simp
  have hr : header_rows u (ndim :: [8, 0, 0, 0, 8, 0, 0, 0, 0] ++ List.replicate 64 5)
      = 8 := by
    rw [header_rows_eq u _ (by omega)]
    simp only [List.cons_append, List.getD_cons_succ, List.getD_cons_zero]
  have hc : header_cols u (ndim :: [8, 0, 0, 0, 8, 0, 0, 0, 0] ++ List.replicate 64 5)
      = 8 := by
    rw [header_cols_eq u _ (by omega)]
    simp only [List.cons_append, List.getD_cons_succ, List.getD_cons_zero]
  have h9 : in_byte u (ndim :: [8, 0, 0, 0, 8, 0, 0, 0, 0] ++ List.replicate 64 5) 9 % 256
      = 0 := by
    have := in_byte_inside u (ndim :: [8, 0, 0, 0, 8, 0, 0, 0, 0] ++ List.replicate 64 5) 9
      (by omega)
    simp only [Nat.cast_ofNat] at this
    rw [this]
    rfl
  have h := decompress_literal_8x8 u
    (ndim :: [8, 0, 0, 0, 8, 0, 0, 0, 0] ++ List.replicate 64 5) 74 (by norm_num) hr hc h9
  refine ⟨h.1, ?_⟩
  intro k hk
  rw [h.2 k hk]
  have := in_byte_inside u (ndim :: [8, 0, 0, 0, 8, 0, 0, 0, 0] ++ List.replicate 64 5)
    (10 + k) (by omega)
  simp only [Nat.cast_add, Nat.cast_ofNat] at this
  rw [this]
  rw [List.getD_append_right _ _ _ _ (by simp)]
  simp only [List.length_cons, List.length_nil]
  rw [show 10 + k - (0 + 1 + 1 + 1 + 1 + 1 + 1 + 1 + 1 + 1 + 1) = k by omega]
  simp only [List.getD_eq_getElem?_getD, List.getElem?_replicate, if_pos hk, Option.getD_some]

/-! ## Output space of the encoder -/

theorem loop_cons_ok {α σ ρ : Type} (body : α → σ → Except ρ σ) (a : α) (as : List α)
    (s s' : σ) (h : loop body (a :: as) s = Except.ok s') :
    ∃ s1, body a s = Except.ok s1 ∧ loop body as s1 = Except.ok s' := by
  simp only [loop] at h
  cases hb : body a s with
  | error r =>
    rw [hb] at h
    simp only at h
    cases h
  | ok s1 =>
    rw [hb] at h
    exact ⟨s1, rfl, h⟩

theorem loop_nil_ok {α σ ρ : Type} (body : α → σ → Except ρ σ) (s s' : σ)
    (h : loop body [] s = Except.ok s') : s = s' := by
  simp only [loop] at h
  cases h
  rfl

/-- Space used along a loop that ends normally: when every iteration adds at
least `2 * g` to the measure `m` and demands `m + 2 * g + 63 <= M` of the state
it starts from, the whole loop over a non-empty list does the same with `g`
multiplied by the number of iterations. -/
theorem loop_space {α σ ρ : Type} (body : α → σ → Except ρ σ) (m : σ → Nat) (M : Int)
    (g : Nat)
    (hb : ∀ a s s', body a s = Except.ok s' →
      m s + 2 * g ≤ m s' ∧ (m s : Int) + 2 * (g : Int) + 63 ≤ M) :
    ∀ (l : List α) (s s' : σ), l ≠ [] → loop body l s = Except.ok s' →
      m s + 2 * (g * l.length) ≤ m s' ∧
      (m s : Int) + 2 * ((g * l.length : Nat) : Int) + 63 ≤ M := by
  intro l
  induction l with
  | nil => intro s s' h; exact absurd rfl h
  | cons a as ih =>
    intro s s' _ h
    obtain ⟨s1, h1, h2⟩ := loop_cons_ok body a as s s' h
    obtain ⟨b1, b2⟩ := hb a s s1 h1
    rw [List.length_cons, Nat.mul_succ]
    by_cases has : as = []
    · subst has
      have e := loop_nil_ok body s1 s' h2
      subst e
      simp only [List.length_nil, Nat.mul_zero, Nat.zero_add]
      exact ⟨b1, b2⟩
    · obtain ⟨c1, c2⟩ := ih s1 s' has h2
      push_cast at c2 ⊢
      constructor
      · omega
      · omega

theorem length_for_range_zero (n : Nat) : (for_range 0 n).length = n := by
  simp [for_range]

/-- A cell step that ends normally found 65 free bytes and wrote at least 2. -/
theorem cell_step_ok (XXH32 : List Nat → Nat → Nat) (rows cols : Nat) (input : List Nat)
    (length maxout : Int) (ii0 ii1 : Nat) (s s' : ndlz8_vars × List Nat)
    (h : cell_step XXH32 rows cols input length maxout ii0 ii1 s = Except.ok s') :
    s.2.length + 2 ≤ s'.2.length ∧ (s.2.length : Int) + 65 ≤ maxout := by
  have hr := encode_cell_length XXH32 rows cols input s.2 ii0 ii1
    { s.1 with update_6 := fun _ => 0, update_pair := fun _ => 0,
               update_triple := fun _ => 0 }
  dsimp only at hr
  unfold cell_step at h
  simp only at h
  split_ifs at h with h1 h2
  cases h
  simp only [List.length_append]
  constructor
  · omega
  · omega

theorem encode_cells_space (XXH32 : List Nat → Nat → Nat) (rows cols : Nat)
    (input : List Nat) (length maxout : Int) (header : List Nat)
    (s : ndlz8_vars × List Nat) (hrows : 1 ≤ rows) (hcols : 1 ≤ cols)
    (h : encode_cells XXH32 rows cols input length maxout header = Except.ok s) :
    header.length + 2 * (((rows + 7) / 8) * ((cols + 7) / 8)) ≤ s.2.length ∧
    (header.length : Int) + 2 * ((((rows + 7) / 8) * ((cols + 7) / 8) : Nat) : Int) + 63
      ≤ maxout := by
  unfold encode_cells at h
  simp only at h
  have hin : ∀ (ii0 : Nat) (s s' : ndlz8_vars × List Nat),
      loop (fun ii1 s1 => cell_step XXH32 rows cols input length maxout ii0 ii1 s1)
        (for_range 0 ((cols + 8 - 1) / 8)) s = Except.ok s' →
      s.2.length + 2 * ((cols + 7) / 8) ≤ s'.2.length ∧
      (s.2.length : Int) + 2 * (((cols + 7) / 8 : Nat) : Int) + 63 ≤ maxout := by
    intro ii0 s s' hl
    have := loop_space
      (fun ii1 s1 => cell_step XXH32 rows cols input length maxout ii0 ii1 s1)
      (fun s => s.2.length) maxout 1
      (fun ii1 s s' hs => by
        have := cell_step_ok XXH32 rows cols input length maxout ii0 ii1 s s' hs
        dsimp only
        constructor
        · omega
        · omega)
      _ s s' (for_range_ne_nil _ (by omega)) hl
    rw [length_for_range_zero, Nat.one_mul] at this
    dsimp only at this
    rw [show (cols + 8 - 1) / 8 = (cols + 7) / 8 by omega] at this
    exact this
  have := loop_space
    (fun ii0 s => loop (fun ii1 s1 => cell_step XXH32 rows cols input length maxout ii0 ii1 s1)
      (for_range 0 ((cols + 8 - 1) / 8)) s)
    (fun s => s.2.length) maxout ((cols + 7) / 8)
    (fun ii0 s s' hs => by
      have := hin ii0 s s' hs
      dsimp only
      push_cast at this ⊢
      exact this)
    _ (ndlz8_vars.init, header) s (for_range_ne_nil _ (by omega)) h
  rw [length_for_range_zero] at this
  dsimp only at this
  rw [show (rows + 8 - 1) / 8 = (rows + 7) / 8 by omega,
    Nat.mul_comm ((cols + 7) / 8) ((rows + 7) / 8)] at this
  exact this

/-- C15 fails as stated: for the 8x8 block of 0x42 (one cell, so that
17 + 2 * (num_cells - 1) = 17) and `maxout = 10 < 17`, `ndlz8_compress`
returns 0, the value that also means that the block does not fit, and not a
negative value. -/
theorem small_capacity_returns_zero :
    (10 : Int) < 17 + 2 * (((((8 + 7) / 8) * ((8 + 7) / 8) : Nat) : Int) - 1) ∧
    ndlz8_compress zero_hash ⟨2, 8, 8, 0⟩ (List.replicate 64 66) 64 10 = (0, []) ∧
    ¬ (ndlz8_compress zero_hash ⟨2, 8, 8, 0⟩ (List.replicate 64 66) 64 10).1 < 0 := by
  decide

/-- C15 as amended. For every call with `ndim = 2` and `length = rows * cols`,
if `maxout < 17 + 2 * (num_cells - 1)`, where
`num_cells = ceil(rows / 8) * ceil(cols / 8)`, then `ndlz8_compress` returns
-1 when `maxout < 9` and the call is not on the leftover block, and 0 in every
other case: a capacity between the 9 bytes of the header and the minimum gives
the value 0 of a block that does not fit, not an argument error. -/
theorem compress_small_capacity (XXH32 : List Nat → Nat → Nat) (context : blosc2_context)
    (input : List Nat) (length maxout : Int) (hndim : context.ndim = 2)
    (hlen : length = ((context.blockshape0 * context.blockshape1 : Nat) : Int))
    (hcap : maxout < 17 + 2 * (((((context.blockshape0 + 7) / 8) *
      ((context.blockshape1 + 7) / 8) : Nat) : Int) - 1)) :
    (length ≠ context.leftover → maxout < 9 →
      ndlz8_compress XXH32 context input length maxout = (-1, [])) ∧
    (length = context.leftover ∨ 9 ≤ maxout →
      (ndlz8_compress XXH32 context input length maxout).1 = 0) := by
  unfold ndlz8_compress
  simp only
  rw [if_neg (not_not.mpr hndim)]
  constructor
  · intro h1 h2
    rw [if_neg h1, if_neg (not_not.mpr hlen), if_pos (by rw [hndim]; omega)]
  · intro h
    by_cases hl : length = context.leftover
    · rw [if_pos hl]
    · have h9 : 9 ≤ maxout := by
        rcases h with h | h
        · exact absurd h hl
        · exact h
      rw [if_neg hl, if_neg (not_not.mpr hlen), if_neg (by rw [hndim]; omega)]
      split_ifs with h64
      · rfl
      · push_neg at h64
        obtain ⟨hr, hc⟩ := blockshape_pos _ _ _ hlen h64.1
        split
        · rfl
        · rename_i s he
          have hs := encode_cells_space XXH32 context.blockshape0 context.blockshape1 input
            length maxout _ s hr hc he
          simp only [List.length_append, List.length_cons, List.length_nil, length_le32]
            at hs
          exfalso
          omega

/-- Instance of the amended C15: the 8x8 block of 0x42 with capacity 5
(returns -1) and with capacity 10 (returns 0). -/
theorem compress_small_capacity_witness :
    ndlz8_compress zero_hash ⟨2, 8, 8, 0⟩ (List.replicate 64 66) 64 5 = (-1, []) ∧
    (ndlz8_compress zero_hash ⟨2, 8, 8, 0⟩ (List.replicate 64 66) 64 10).1 = 0 :=
  ⟨(compress_small_capacity zero_hash ⟨2, 8, 8, 0⟩ (List.replicate 64 66) 64 5
      (by decide) (by decide) (by decide)).1 (by decide) (by decide),
   (compress_small_capacity zero_hash ⟨2, 8, 8, 0⟩ (List.replicate 64 66) 64 10
      (by decide) (by decide) (by decide)).2 (Or.inr (by decide))⟩

namespace Btune

theorem mul32_exact (a b : Int) (h0 : 0 ≤ a * b) (h1 : a * b ≤ 2147483647) :
    mul32 a b = a * b := by
  unfold mul32 u32 i32
  have e : (a * b % 4294967296).toNat % 4294967296 = (a * b).toNat := by
    rw [Int.emod_eq_of_lt h0 (by omega)]
    have : (a * b).toNat < 4294967296 := by omega
    exact Nat.mod_eq_of_lt this
  rw [e, if_pos (by omega)]
  exact Int.toNat_of_nonneg h0

/-- The last step of `btune_next_blocksize`: a value above `typesize` is
rounded down to a multiple of `typesize`. -/
theorem round_to_typesize (b t : Int) (ht : 1 ≤ t) (hb : t < b) (hb1 : b ≤ 2147483647) :
    t ∣ mul32 (Int.tdiv b t) t ∧ t ≤ mul32 (Int.tdiv b t) t ∧ mul32 (Int.tdiv b t) t ≤ b := by
  have hd : Int.tdiv b t = b / t :=
    Int.tdiv_eq_ediv (show 0 ≤ b by omega) (show 0 ≤ t by omega)
  have h1 : b / t * t ≤ b := Int.ediv_mul_le b (by omega)
  have h2 : 1 ≤ b / t := by
    have := Int.le_ediv_of_mul_le (show (0 : Int) < t by omega) (show 1 * t ≤ b by omega)
    exact this
  have h3 : t ≤ b / t * t := by nlinarith
  rw [hd, mul32_exact _ _ (by omega) (by omega)]
  exact ⟨Dvd.intro_left _ rfl, h3, h1⟩

/-- C20 fails as stated: with `typesize = 4` and `sourcesize = 3` the guard
against very small buffers sets `blocksize` to 1, and with `typesize = 4`,
`sourcesize = 100` and a caller-supplied `blocksize = 3` the field stays 3;
neither is a multiple of 4. -/
theorem blocksize_not_multiple :
    (btune_next_blocksize sample_constants never_split ⟨5, 4, 3, 0, 0, 0⟩).blocksize = 1 ∧
    (btune_next_blocksize sample_constants never_split ⟨5, 4, 100, 3, 0, 0⟩).blocksize = 3 ∧
    ¬ ((4 : Int) ∣ 1) ∧ ¬ ((4 : Int) ∣ 3) := by
  decide

/-- C20 as amended. For every context with `typesize >= 1` (and `sourcesize`
an `int32_t`), after `btune_next_blocksize` the field `blocksize` is 1 when
`sourcesize < typesize`, and otherwise it is smaller than `typesize` or a
multiple of `typesize`: only a value above `typesize` is rounded. -/
theorem blocksize_multiple_or_small (c : constants)
    (split_block : blosc2_context → Int → Int → Bool → Bool) (context : blosc2_context)
    (ht : 1 ≤ context.typesize) (hs : context.sourcesize ≤ 2147483647) :
    (context.sourcesize < context.typesize →
      (btune_next_blocksize c split_block context).blocksize = 1) ∧
    (context.typesize ≤ context.sourcesize →
      (btune_next_blocksize c split_block context).blocksize < context.typesize ∨
      context.typesize ∣ (btune_next_blocksize c split_block context).blocksize) := by
  unfold btune_next_blocksize
  simp only
  constructor
  · intro h
    rw [if_pos h]
  · intro h
    rw [if_neg (by omega)]
    generalize (if context.blocksize ≠ 0 then context.blocksize else _) = b0
    generalize hb : (if b0 > context.sourcesize then context.sourcesize else b0) = b
    have hle : b ≤ context.sourcesize := by
      rw [← hb]
      split_ifs <;> omega
    show (if b > context.typesize then mul32 (Int.tdiv b context.typesize)
      context.typesize else b) < context.typesize ∨ context.typesize ∣
      (if b > context.typesize then mul32 (Int.tdiv b context.typesize)
      context.typesize else b)
    split_ifs with h1
    · exact Or.inr (round_to_typesize b context.typesize ht h1 (by omega)).1
    · rcases eq_or_lt_of_le (not_lt.mp h1) with h2 | h2
      · exact Or.inr (by rw [h2])
      · exact Or.inl h2

/-- Instance of the amended C20: `typesize = 4`, `sourcesize = 1000`, no
caller-supplied blocksize: the block size is 1000, a multiple of 4. -/
theorem blocksize_multiple_or_small_witness :
    (btune_next_blocksize sample_constants never_split ⟨5, 4, 1000, 0, 0, 0⟩).blocksize < 4 ∨
    (4 : Int) ∣ (btune_next_blocksize sample_constants never_split
      ⟨5, 4, 1000, 0, 0, 0⟩).blocksize :=
  (blocksize_multiple_or_small sample_constants never_split ⟨5, 4, 1000, 0, 0, 0⟩
    (by decide) (by decide)).2 (by decide)

end Btune

/-! ## The hash tables across the searches of a cell -/

theorem same_tables_refl (v : ndlz8_vars) : same_tables v v := ⟨rfl, rfl, rfl, rfl⟩

theorem six_body_tables (XXH32 : List Nat → Nat → Nat) (out buf_cell : List Nat)
    (anchor : Nat) (ij : Nat × Nat) (v0 v : ndlz8_vars)
    (hP : same_tables v0 v ∧ updates_inside anchor v) :
    outcome (fun r : List Nat × ndlz8_vars => same_tables v0 r.2)
      (fun v' : ndlz8_vars => same_tables v0 v' ∧ updates_inside anchor v')
      (six_body XXH32 out buf_cell anchor ij v) := by
  unfold six_body
  simp only
  refine outcome_ite (fun _ => outcome_ite (fun _ => hP.1) (fun _ => hP))
    (fun _ => outcome_ite (fun _ => ⟨hP.1, ?_, hP.2.2⟩) (fun _ => hP))
  intro h
  simp only [setAt]
  split_ifs <;> first
    | exact hP.2.1 h
    | (right; omega)

theorem triple2_body_tables (XXH32 : List Nat → Nat → Nat) (out buf_cell : List Nat)
    (anchor : Nat) (tab : Nat → Nat) (i j k offset : Nat) (v0 v : ndlz8_vars)
    (c : Nat × Nat × Nat) (s : (List Nat × List Nat × List Nat) × Bool)
    (hv : same_tables v0 v) :
    outcome (fun r : List Nat × ndlz8_vars => same_tables v0 r.2)
      (fun _ : (List Nat × List Nat × List Nat) × Bool => True)
      (triple2_body XXH32 out buf_cell anchor tab i j k offset v c s) := by
  unfold triple2_body
  simp only
  exact outcome_ite (fun _ => outcome_ite (fun _ => hv) (fun _ => trivial)) (fun _ => trivial)

theorem triple_body_tables (XXH32 : List Nat → Nat → Nat) (out buf_cell : List Nat)
    (anchor i j k : Nat) (v0 v : ndlz8_vars) (hk : k < 8)
    (hP : same_tables v0 v ∧ updates_inside anchor v) :
    outcome (fun r : List Nat × ndlz8_vars => same_tables v0 r.2)
      (fun v' : ndlz8_vars => same_tables v0 v' ∧ updates_inside anchor v')
      (triple_body XXH32 out buf_cell anchor i j k v) := by
  unfold triple_body
  simp only
  refine outcome_ite (fun _ => outcome_ite (fun _ => ?_) (fun _ => hP))
    (fun _ => outcome_ite (fun hc => ⟨hP.1, hP.2.1, ?_, hP.2.2.2⟩) (fun _ => hP))
  · refine outcome_map _ _ (loop_inv _ _ (fun _ => True) _
      (fun c _ s _ => triple2_body_tables XXH32 out buf_cell anchor _ i j k _ v0 _ c s ?_)
      _ trivial) ?_
    · exact hP.1
    · intro s _
      exact hP
  · intro h
    simp only [setAt]
    split_ifs <;> first
      | exact hP.2.2.1 h
      | (right; omega)

theorem triple_search_tables (XXH32 : List Nat → Nat → Nat) (out buf_cell : List Nat)
    (anchor : Nat) (v0 v : ndlz8_vars) (hP : same_tables v0 v ∧ updates_inside anchor v) :
    outcome (fun r : List Nat × ndlz8_vars => same_tables v0 r.2)
      (fun v' : ndlz8_vars => same_tables v0 v' ∧ updates_inside anchor v')
      (triple_search XXH32 out buf_cell anchor v) := by
  unfold triple_search
  refine loop_inv _ _ _ _ ?_ _ hP
  intro i _ v1 h1
  refine loop_inv _ _ _ _ ?_ _ h1
  intro j _ v2 h2
  refine loop_inv _ _ _ _ ?_ _ h2
  intro k hk v3 h3
  rw [mem_for_range] at hk
  exact triple_body_tables XXH32 out buf_cell anchor i j k v0 v3 hk.2 h3

theorem pair3_body_tables (XXH32 : List Nat → Nat → Nat) (out buf_cell : List Nat)
    (anchor i j i_ j_ offset offset_2 : Nat) (c : Nat × Nat) (v0 v : ndlz8_vars)
    (hP : same_tables v0 v ∧ updates_inside anchor v) :
    outcome (fun r : List Nat × ndlz8_vars => same_tables v0 r.2)
      (fun v' : ndlz8_vars => same_tables v0 v' ∧ updates_inside anchor v')
      (pair3_body XXH32 out buf_cell anchor i j i_ j_ offset offset_2 c v) := by
  unfold pair3_body
  simp only
  exact outcome_ite (fun _ => outcome_ite (fun _ => hP.1) (fun _ => hP)) (fun _ => hP)

theorem pair2_body_tables (XXH32 : List Nat → Nat → Nat) (out buf_cell : List Nat)
    (anchor i j offset : Nat) (c : Nat × Nat) (v0 v : ndlz8_vars)
    (hP : same_tables v0 v ∧ updates_inside anchor v) :
    outcome (fun r : List Nat × ndlz8_vars => same_tables v0 r.2)
      (fun v' : ndlz8_vars => same_tables v0 v' ∧ updates_inside anchor v')
      (pair2_body XXH32 out buf_cell anchor i j offset c v) := by
  unfold pair2_body
  simp only
  refine outcome_ite (fun _ => outcome_ite (fun _ => ?_) (fun _ => hP)) (fun _ => hP)
  exact loop_inv _ _ _ _
    (fun c' _ s hs => pair3_body_tables XXH32 out buf_cell anchor i j _ _ _ _ c' v0 s hs)
    _ hP

theorem pair_body_tables (XXH32 : List Nat → Nat → Nat) (out buf_cell : List Nat)
    (anchor : Nat) (ij : Nat × Nat) (v0 v : ndlz8_vars) (hj : ij.2 < 8)
    (hP : same_tables v0 v ∧ updates_inside anchor v) :
    outcome (fun r : List Nat × ndlz8_vars => same_tables v0 r.2)
      (fun v' : ndlz8_vars => same_tables v0 v' ∧ updates_inside anchor v')
      (pair_body XXH32 out buf_cell anchor ij v) := by
  unfold pair_body
  simp only
  refine outcome_ite (fun _ => outcome_ite (fun _ => ?_) (fun _ => hP))
    (fun _ => outcome_ite (fun hc => ⟨hP.1, hP.2.1, hP.2.2.1, ?_⟩) (fun _ => hP))
  · exact loop_inv _ _ _ _
      (fun c _ s hs => pair2_body_tables XXH32 out buf_cell anchor ij.1 ij.2 _ c v0 s hs)
      _ hP
  · intro h
    simp only [setAt]
    split_ifs <;> first
      | exact hP.2.2.2 h
      | (right; omega)


/-- Proof rule for `search_cell`: a property of every record that leaves one
of the three searches by `goto match`, and of the record written after them. -/
theorem search_cell_outcome (XXH32 : List Nat → Nat → Nat) (out buf_cell : List Nat)
    (hash_cell : Nat) (v : ndlz8_vars) (Q : List Nat × ndlz8_vars → Prop)
    (P1 P2 P3 : ndlz8_vars → Prop)
    (h6 : outcome Q P1 (loop (six_body XXH32 out buf_cell out.length) (pair_indices 0)
      { v with literal := true }))
    (h3 : ∀ v1, P1 v1 → outcome Q P2 (triple_search XXH32 out buf_cell out.length v1))
    (h2 : ∀ v2, P2 v2 → outcome Q P3
      (loop (pair_body XXH32 out buf_cell out.length) (pair_indices 0)
        { v2 with pair_matches := setAt v2.pair_matches 0 0 }))
    (hfin : ∀ v3, P3 v3 → Q (if v3.literal
      then ([0] ++ rd buf_cell 0 64, literal_update hash_cell out.length v3)
      else (emit_matches buf_cell out.length v3, v3))) :
    Q (search_cell XXH32 out buf_cell hash_cell v) := by
  unfold search_cell
  simp only
  cases e1 : loop (six_body XXH32 out buf_cell out.length) (pair_indices 0)
      { v with literal := true } with
  | error r => rw [e1] at h6; exact h6
  | ok v1 =>
    rw [e1] at h6
    have h3' := h3 v1 h6
    simp only
    cases e2 : triple_search XXH32 out buf_cell out.length v1 with
    | error r => rw [e2] at h3'; exact h3'
    | ok v2 =>
      rw [e2] at h3'
      have h2' := h2 v2 h3'
      simp only
      cases e3 : loop (pair_body XXH32 out buf_cell out.length) (pair_indices 0)
          { v2 with pair_matches := setAt v2.pair_matches 0 0 } with
      | error r => rw [e3] at h2'; exact h2'
      | ok v3 =>
        rw [e3] at h2'
        exact hfin v3 h2'

theorem foldl_setAt_entry (hash upd : Nat → Nat) (n : Nat) (t : Nat → Nat) (x : Nat) :
    ((List.range n).foldl (fun t h => setAt t (hash h) (upd h)) t) x = t x ∨
    ∃ h, h < n ∧ ((List.range n).foldl (fun t h => setAt t (hash h) (upd h)) t) x = upd h := by
  induction n with
  | zero => left; rfl
  | succ n ih =>
    rw [List.range_succ, List.foldl_append]
    simp only [List.foldl_cons, List.foldl_nil, setAt]
    split_ifs with hx
    · right
      exact ⟨n, by omega, rfl⟩
    · rcases ih with h | ⟨h, h1, h2⟩
      · left; exact h
      · right; exact ⟨h, by omega, h2⟩

theorem table_entry_of_same (v w : ndlz8_vars) (h : same_tables v w) (p len : Nat)
    (hp : table_entry w p len) : table_entry v p len := by
  obtain ⟨h1, h2, h3, h4⟩ := h
  unfold table_entry at hp ⊢
  rw [h1, h2, h3, h4] at hp
  exact hp

/-- The tables after the table updates of a literal cell: an entry is an old
entry, or 0, or a position that keys bytes of the record written at `anchor`. -/
theorem literal_update_entry (hash_cell anchor : Nat) (v0 v : ndlz8_vars)
    (hP : same_tables v0 v ∧ updates_inside anchor v) (p len : Nat)
    (hp : table_entry (literal_update hash_cell anchor v) p len) (h0 : p ≠ 0) :
    table_entry v0 p len ∨ (anchor + 1 ≤ p ∧ p + len ≤ anchor + 65) := by
  obtain ⟨⟨t1, t2, t3, t4⟩, u1, u2, u3⟩ := hP
  unfold table_entry at hp ⊢
  unfold literal_update at hp
  simp only at hp
  rcases hp with ⟨hl, h, e⟩ | ⟨hl, h, e⟩ | ⟨hl, h, e⟩ | ⟨hl, h, e⟩
  · simp only [setAt] at e
    split_ifs at e with hx
    · right; omega
    · left; left; exact ⟨hl, h, by rw [← t1]; exact e⟩
  · split_ifs at e with hx
    · rcases foldl_setAt_entry v.hash_6 v.update_6 3 v.tab_6 h with g | ⟨k, _, g⟩
      · left; right; left; exact ⟨hl, h, by rw [← t2, ← g]; exact e⟩
      · rw [g] at e
        rcases u1 k with z | ⟨z1, z2⟩
        · omega
        · right; omega
    · left; right; left; exact ⟨hl, h, by rw [← t2]; exact e⟩
  · split_ifs at e with hx
    · rcases foldl_setAt_entry v.hash_triple v.update_triple 6 v.tab_triple h with
        g | ⟨k, _, g⟩
      · left; right; right; left; exact ⟨hl, h, by rw [← t3, ← g]; exact e⟩
      · rw [g] at e
        rcases u2 k with z | ⟨z1, z2⟩
        · omega
        · right; omega
    · left; right; right; left; exact ⟨hl, h, by rw [← t3]; exact e⟩
  · split_ifs at e with hx
    · rcases foldl_setAt_entry v.hash_pair v.update_pair 7 v.tab_pair h with g | ⟨k, _, g⟩
      · left; right; right; right; exact ⟨hl, h, by rw [← t4, ← g]; exact e⟩
      · rw [g] at e
        rcases u3 k with z | ⟨z1, z2⟩
        · omega
        · right; omega
    · left; right; right; right; exact ⟨hl, h, by rw [← t4]; exact e⟩


theorem outcome_same_tables (v : ndlz8_vars) (p len : Nat)
    (X : List Nat × ndlz8_vars → Prop) (P : ndlz8_vars → Prop)
    (e : Except (List Nat × ndlz8_vars) ndlz8_vars)
    (h : outcome (fun r : List Nat × ndlz8_vars => same_tables v r.2) P e) :
    outcome (fun r : List Nat × ndlz8_vars =>
      table_entry r.2 p len → table_entry v p len ∨ X r) P e := by
  cases e with
  | error r => exact fun hp => Or.inl (table_entry_of_same v r.2 h p len hp)
  | ok s => exact h

theorem search_cell_tables (XXH32 : List Nat → Nat → Nat) (out buf_cell : List Nat)
    (hash_cell : Nat) (v : ndlz8_vars) (hu : updates_inside out.length v) (p len : Nat)
    (hp : table_entry (search_cell XXH32 out buf_cell hash_cell v).2 p len) (h0 : p ≠ 0) :
    table_entry v p len ∨
    (literal_cell_record (search_cell XXH32 out buf_cell hash_cell v).1 ∧
      out.length + 1 ≤ p ∧ p + len ≤ out.length + 65) := by
  revert hp
  refine search_cell_outcome XXH32 out buf_cell hash_cell v
    (fun r => table_entry r.2 p len → table_entry v p len ∨
      (literal_cell_record r.1 ∧ out.length + 1 ≤ p ∧ p + len ≤ out.length + 65))
    (fun v' => same_tables v v' ∧ updates_inside out.length v')
    (fun v' => same_tables v v' ∧ updates_inside out.length v')
    (fun v' => same_tables v v' ∧ updates_inside out.length v') ?_ ?_ ?_ ?_
  · exact outcome_same_tables v p len _ _ _ (loop_inv _ _ _ _
        (fun ij _ s hs => six_body_tables XXH32 out buf_cell out.length ij v s hs) _
        ⟨same_tables_refl v, hu⟩)
  · intro v1 h1
    exact outcome_same_tables v p len _ _ _
      (triple_search_tables XXH32 out buf_cell out.length v v1 h1)
  · intro v2 h2
    exact outcome_same_tables v p len _ _ _ (loop_inv _ _ _ _
        (fun ij hij s hs => pair_body_tables XXH32 out buf_cell out.length ij v s
          (mem_pair_indices.mp hij).2.2 hs) _ h2)
  · intro v3 h3
    split_ifs with hl
    · intro hp
      rcases literal_update_entry hash_cell out.length v v3 h3 p len hp h0 with h | h
      · exact Or.inl h
      · refine Or.inr ⟨⟨?_, rfl⟩, h⟩
        simp [length_rd]
    · intro hp
      exact Or.inl (table_entry_of_same v v3 h3.1 p len hp)

theorem encode_cell_tables (XXH32 : List Nat → Nat → Nat) (rows cols : Nat)
    (input out : List Nat) (ii0 ii1 : Nat) (v : ndlz8_vars)
    (hu : updates_inside out.length v) (p len : Nat)
    (hp : table_entry (encode_cell XXH32 rows cols input out ii0 ii1 v).2 p len)
    (h0 : p ≠ 0) :
    table_entry v p len ∨
    (literal_cell_record (encode_cell XXH32 rows cols input out ii0 ii1 v).1 ∧
      out.length + 1 ≤ p ∧ p + len ≤ out.length + 65) := by
  unfold encode_cell at hp ⊢
  simp only at hp ⊢
  split_ifs at hp ⊢
  · exact Or.inl hp
  · unfold full_cell at hp ⊢
    simp only at hp ⊢
    split_ifs at hp ⊢ <;> first
      | exact Or.inl hp
      | exact search_cell_tables XXH32 out _ _ v hu p len hp h0

/-- The invariant of the main loop: the records written are in the stream,
behind the header, and the table entries lie in literal cell records. -/
theorem written_inv (XXH32 : List Nat → Nat → Nat) (rows cols : Nat) (input : List Nat)
    (length maxout : Int) (header : List Nat) (hh : 9 ≤ header.length)
    (s : ndlz8_vars × List Nat) (recs : List (Nat × List Nat))
    (hw : written XXH32 rows cols input length maxout header s recs) :
    9 ≤ s.2.length ∧ records_in_stream s.2 recs ∧ tables_inside recs s.1 := by
  induction hw with
  | start =>
    refine ⟨hh, ?_, ?_⟩
    · intro ar har
      exact absurd har (List.not_mem_nil _)
    · intro p len hp h0
      exfalso
      unfold table_entry at hp
      rcases hp with ⟨_, h, e⟩ | ⟨_, h, e⟩ | ⟨_, h, e⟩ | ⟨_, h, e⟩ <;> exact h0 e.symm
  | cell ii0 ii1 s s' recs _ hstep ih =>
    obtain ⟨i0, i1, i2⟩ := ih
    unfold cell_step at hstep
    simp only at hstep
    split_ifs at hstep with h1 h2
    cases hstep
    simp only [List.drop_left]
    refine ⟨by simp only [List.length_append]; omega, ?_, ?_⟩
    · intro ar har
      rcases List.mem_cons.mp har with e | hmem
      · subst e
        refine ⟨i0, by simp only [List.length_append]; omega, ?_⟩
        simp only [List.drop_left, List.take_length]
      · obtain ⟨a1, a2, a3⟩ := i1 ar hmem
        refine ⟨a1, by simp only [List.length_append]; omega, ?_⟩
        rw [List.drop_append_of_le_length (by omega),
          List.take_append_of_le_length (by simp only [List.length_drop]; omega)]
        exact a3
    · intro p len hp h0
      rcases encode_cell_tables XXH32 rows cols input s.2 ii0 ii1 _
          ⟨fun _ => Or.inl rfl, fun _ => Or.inl rfl, fun _ => Or.inl rfl⟩ p len hp h0 with
        h | ⟨h3, h4, h5⟩
      · obtain ⟨ar, har, hr⟩ := i2 p len h h0
        exact ⟨ar, List.mem_cons_of_mem _ har, hr⟩
      · exact ⟨_, List.mem_cons_self _ _, h3, h4, h5⟩


/-! ## The back-offsets -/

theorem accepted_iff (d : Nat) : accepted d = true ↔ d ≠ 0 ∧ d < 65535 := by
  simp [accepted, MAX_DISTANCE]

theorem u32_exact (x : Int) (n : Nat) (h : x = (n : Int)) (hn : n < 4294967296) :
    u32 x = n := by
  unfold u32
  subst h
  omega

theorem u16_exact (x : Int) (n : Nat) (h : x = (n : Int)) (hn : n < 65536) :
    u16 x = n := by
  unfold u16
  subst h
  omega

/-- The test of a triple or pair match, `distance = anchor + i * 8 - ref`
accepted, bounds the offset `anchor - ref` that is written. -/
theorem near_of_accepted_row (anchor p i : Nat) (same : Bool) (h0 : p ≠ 0) (hp : p < anchor)
    (hA : anchor + i * 8 < 4294967296)
    (h : accepted (if same = true
      then u32 ((anchor : Int) + (i : Int) * 8 - (p : Int)) else 0) = true) :
    entry_near anchor p ∧ u16 ((anchor : Int) - (p : Int)) = anchor - p := by
  rw [accepted_iff] at h
  split_ifs at h with hs
  · rw [u32_exact _ (anchor + i * 8 - p) (by omega) (by omega)] at h
    exact ⟨⟨h0, hp, by omega⟩, u16_exact _ _ (by omega) (by omega)⟩
  · exact absurd rfl h.1

/-- The test of a cell or six-rows match, `distance = anchor - ref` accepted,
bounds the offset that is written. -/
theorem near_of_accepted (anchor p : Nat) (same : Bool) (h0 : p ≠ 0) (hp : p < anchor)
    (hA : anchor < 4294967296)
    (h : accepted (if same = true then u32 ((anchor : Int) - (p : Int)) else 0) = true) :
    entry_near anchor p ∧ u16 ((anchor : Int) - (p : Int)) = anchor - p := by
  rw [accepted_iff] at h
  split_ifs at h with hs
  · rw [u32_exact _ (anchor - p) (by omega) (by omega)] at h
    exact ⟨⟨h0, hp, by omega⟩, u16_exact _ _ (by omega) (by omega)⟩
  · exact absurd rfl h.1

theorem exact_of_near (anchor p len : Nat) (v : ndlz8_vars) (ht : table_entry v p len)
    (h : entry_near anchor p) : exact_offset anchor v (anchor - p) := by
  obtain ⟨h0, h1, h2⟩ := h
  exact ⟨by omega, h2, p, len, ht, h0, by omega⟩


theorem six_body_offsets (XXH32 : List Nat → Nat → Nat) (out buf_cell : List Nat)
    (anchor : Nat) (ij : Nat × Nat) (v0 v : ndlz8_vars)
    (hT : ∀ p len, table_entry v0 p len → p ≠ 0 → p < anchor)
    (hA : anchor + 56 < 4294967296) (hv : same_tables v0 v) :
    outcome (fun r : List Nat × ndlz8_vars => offsets_exact buf_cell anchor v0 r.1)
      (fun v' : ndlz8_vars => same_tables v0 v')
      (six_body XXH32 out buf_cell anchor ij v) := by
  unfold six_body
  simp only
  refine outcome_ite (fun h1 => outcome_ite (fun h2 => ?_) (fun _ => hv))
    (fun _ => outcome_ite (fun _ => hv) (fun _ => hv))
  have ht : table_entry v0 (v.tab_6 (hash12 XXH32
      (rows_where buf_cell (fun k => decide (k ≠ ij.1 ∧ k ≠ ij.2))))) 48 :=
    Or.inr (Or.inl ⟨rfl, _, (congrFun hv.2.1 _).symm⟩)
  obtain ⟨hn, hu⟩ := near_of_accepted anchor _ _ h1 (hT _ 48 ht h1) (by omega) h2
  simp only [outcome]
  rw [hu]
  exact ⟨[_], offset_record.six_rows _ _ _, fun d hd => by
    rw [List.mem_singleton.mp hd]
    exact exact_of_near _ _ _ _ ht hn⟩

theorem triple2_body_offsets (XXH32 : List Nat → Nat → Nat) (out buf_cell : List Nat)
    (anchor : Nat) (tab : Nat → Nat) (i j k offset : Nat) (v0 v : ndlz8_vars)
    (c : Nat × Nat × Nat) (s : (List Nat × List Nat × List Nat) × Bool)
    (hT : ∀ p len, table_entry v0 p len → p ≠ 0 → p < anchor)
    (hA : anchor + 56 < 4294967296) (htab : tab = v0.tab_triple)
    (hoff : exact_offset anchor v0 offset) (hc : c.1 < 8) :
    outcome (fun r : List Nat × ndlz8_vars => offsets_exact buf_cell anchor v0 r.1)
      (fun _ : (List Nat × List Nat × List Nat) × Bool => True)
      (triple2_body XXH32 out buf_cell anchor tab i j k offset v c s) := by
  unfold triple2_body
  simp only
  refine outcome_ite (fun _ => outcome_ite (fun h2 => ?_) (fun _ => trivial))
    (fun _ => trivial)
  subst htab
  by_cases hz : v0.tab_triple (hash12 XXH32 (triple_bytes
      (cell_row buf_cell c.1, cell_row buf_cell c.2.1, cell_row buf_cell c.2.2))) = 0
  · exfalso
    rw [accepted_iff] at h2
    simp [hz] at h2
  · have ht : table_entry v0 (v0.tab_triple (hash12 XXH32 (triple_bytes
        (cell_row buf_cell c.1, cell_row buf_cell c.2.1, cell_row buf_cell c.2.2)))) 24 :=
      Or.inr (Or.inr (Or.inl ⟨rfl, _, rfl⟩))
    obtain ⟨hn, hu⟩ := near_of_accepted_row anchor _ c.1 _ hz (hT _ 24 ht hz) (by omega) h2
    simp only [outcome]
    rw [hu]
    refine ⟨[_, _], offset_record.two_triples _ _ _ _ _ _ _ _, fun d hd => ?_⟩
    simp only [List.mem_cons, List.mem_singleton, List.not_mem_nil, or_false] at hd
    rcases hd with e | e
    · rw [e]; exact hoff
    · rw [e]; exact exact_of_near _ _ _ _ ht hn


theorem triple_body_offsets (XXH32 : List Nat → Nat → Nat) (out buf_cell : List Nat)
    (anchor i j k : Nat) (v0 v : ndlz8_vars)
    (hT : ∀ p len, table_entry v0 p len → p ≠ 0 → p < anchor)
    (hA : anchor + 56 < 4294967296) (hi : i < 8)
    (hP : same_tables v0 v ∧
      (v.triple_match 0 = 1 → entry_near anchor (v0.tab_triple (v.triple_match 4)))) :
    outcome (fun r : List Nat × ndlz8_vars => offsets_exact buf_cell anchor v0 r.1)
      (fun v' : ndlz8_vars => same_tables v0 v' ∧
        (v'.triple_match 0 = 1 → entry_near anchor (v0.tab_triple (v'.triple_match 4))))
      (triple_body XXH32 out buf_cell anchor i j k v) := by
  unfold triple_body
  simp only
  refine outcome_ite (fun h1 => outcome_ite (fun h2 => ?_) (fun _ => hP))
    (fun _ => outcome_ite (fun _ => hP) (fun _ => hP))
  have ht : table_entry v0 (v.tab_triple (hash12 XXH32 (triple_bytes
      (v.buf_triple.1, v.buf_triple.2.1, cell_row buf_cell k)))) 24 :=
    Or.inr (Or.inr (Or.inl ⟨rfl, _, (congrFun hP.1.2.2.1 _).symm⟩))
  obtain ⟨hn, hu⟩ := near_of_accepted_row anchor _ i _ h1 (hT _ 24 ht h1) (by omega) h2
  refine outcome_map _ _ (loop_inv _ _ (fun _ => True) _
    (fun c hc s _ => triple2_body_offsets XXH32 out buf_cell anchor _ i j k _ v0 _ c s
      hT hA hP.1.2.2.1 ?_ ?_) _ trivial) ?_
  · rw [hu]
    exact exact_of_near _ _ _ _ ht hn
  · have := (mem_triple_indices.mp hc)
    omega
  · intro s _
    refine ⟨hP.1, fun _ => ?_⟩
    have e : v0.tab_triple (hash12 XXH32 (triple_bytes
        (v.buf_triple.1, v.buf_triple.2.1, cell_row buf_cell k))) =
        v.tab_triple (hash12 XXH32 (triple_bytes
        (v.buf_triple.1, v.buf_triple.2.1, cell_row buf_cell k))) :=
      (congrFun hP.1.2.2.1 _).symm
    show entry_near anchor (v0.tab_triple (hash12 XXH32 (triple_bytes
        (v.buf_triple.1, v.buf_triple.2.1, cell_row buf_cell k))))
    rw [e]
    exact hn

theorem triple_search_offsets (XXH32 : List Nat → Nat → Nat) (out buf_cell : List Nat)
    (anchor : Nat) (v0 v : ndlz8_vars)
    (hT : ∀ p len, table_entry v0 p len → p ≠ 0 → p < anchor)
    (hA : anchor + 56 < 4294967296) (hv : same_tables v0 v) :
    outcome (fun r : List Nat × ndlz8_vars => offsets_exact buf_cell anchor v0 r.1)
      (fun v' : ndlz8_vars => same_tables v0 v' ∧
        (v'.triple_match 0 = 1 → entry_near anchor (v0.tab_triple (v'.triple_match 4))))
      (triple_search XXH32 out buf_cell anchor v) := by
  unfold triple_search
  refine loop_inv _ _ _ _ ?_ _ ⟨hv, fun h => absurd h (by simp [setAt])⟩
  intro i hi v1 h1
  rw [mem_for_range] at hi
  refine loop_inv _ _ _ _ ?_ _ h1
  intro j _ v2 h2
  refine loop_inv _ _ _ _ ?_ _ h2
  intro k _ v3 h3
  exact triple_body_offsets XXH32 out buf_cell anchor i j k v0 v3 hT hA (by omega) h3


theorem pair3_body_offsets (XXH32 : List Nat → Nat → Nat) (out buf_cell : List Nat)
    (anchor i j i_ j_ offset offset_2 : Nat) (c : Nat × Nat) (v0 v : ndlz8_vars)
    (hT : ∀ p len, table_entry v0 p len → p ≠ 0 → p < anchor)
    (hA : anchor + 56 < 4294967296) (hoff : exact_offset anchor v0 offset)
    (hoff2 : exact_offset anchor v0 offset_2) (hc : c.1 < 8)
    (P : ndlz8_vars → Prop) (hP : same_tables v0 v ∧ P v) :
    outcome (fun r : List Nat × ndlz8_vars => offsets_exact buf_cell anchor v0 r.1)
      (fun v' : ndlz8_vars => same_tables v0 v' ∧ P v')
      (pair3_body XXH32 out buf_cell anchor i j i_ j_ offset offset_2 c v) := by
  unfold pair3_body
  simp only
  refine outcome_ite (fun _ => outcome_ite (fun h2 => ?_) (fun _ => hP)) (fun _ => hP)
  by_cases hz : v.tab_pair (hash12 XXH32 (cell_row buf_cell c.1 ++ cell_row buf_cell c.2)) = 0
  · exfalso
    rw [accepted_iff] at h2
    simp [hz] at h2
  · have ht : table_entry v0 (v.tab_pair (hash12 XXH32
        (cell_row buf_cell c.1 ++ cell_row buf_cell c.2))) 16 :=
      Or.inr (Or.inr (Or.inr ⟨rfl, _, (congrFun hP.1.2.2.2 _).symm⟩))
    obtain ⟨hn, hu⟩ := near_of_accepted_row anchor _ c.1 _ hz (hT _ 16 ht hz) (by omega) h2
    simp only [outcome]
    rw [hu]
    refine ⟨[_, _, _], offset_record.three_pairs _ _ _ _ _ _ _ _ _, fun d hd => ?_⟩
    simp only [List.mem_cons, List.mem_singleton, List.not_mem_nil, or_false] at hd
    rcases hd with e | e | e
    · rw [e]; exact hoff
    · rw [e]; exact hoff2
    · rw [e]; exact exact_of_near _ _ _ _ ht hn

theorem pair2_body_offsets (XXH32 : List Nat → Nat → Nat) (out buf_cell : List Nat)
    (anchor i j offset : Nat) (c : Nat × Nat) (v0 v : ndlz8_vars)
    (hT : ∀ p len, table_entry v0 p len → p ≠ 0 → p < anchor)
    (hA : anchor + 56 < 4294967296) (hoff : exact_offset anchor v0 offset) (hc : c.2 < 8)
    (hc1 : c.1 < c.2)
    (hP : same_tables v0 v ∧
      ((v.triple_match 0 = 1 → entry_near anchor (v0.tab_triple (v.triple_match 4))) ∧
       entry_near anchor (v0.tab_pair (v.pair_matches 3)) ∧
       (v.pair_matches 0 = 2 → entry_near anchor (v0.tab_pair (v.pair_matches 6))))) :
    outcome (fun r : List Nat × ndlz8_vars => offsets_exact buf_cell anchor v0 r.1)
      (fun v' : ndlz8_vars => same_tables v0 v' ∧
        ((v'.triple_match 0 = 1 → entry_near anchor (v0.tab_triple (v'.triple_match 4))) ∧
         entry_near anchor (v0.tab_pair (v'.pair_matches 3)) ∧
         (v'.pair_matches 0 = 2 → entry_near anchor (v0.tab_pair (v'.pair_matches 6)))))
      (pair2_body XXH32 out buf_cell anchor i j offset c v) := by
  unfold pair2_body
  simp only
  refine outcome_ite (fun _ => outcome_ite (fun h2 => ?_) (fun _ => hP)) (fun _ => hP)
  by_cases hz : v.tab_pair (hash12 XXH32 (cell_row buf_cell c.1 ++ cell_row buf_cell c.2)) = 0
  · exfalso
    rw [accepted_iff] at h2
    simp [hz] at h2
  · have ht : table_entry v0 (v.tab_pair (hash12 XXH32
        (cell_row buf_cell c.1 ++ cell_row buf_cell c.2))) 16 :=
      Or.inr (Or.inr (Or.inr ⟨rfl, _, (congrFun hP.1.2.2.2 _).symm⟩))
    obtain ⟨hn, hu⟩ := near_of_accepted_row anchor _ c.1 _ hz (hT _ 16 ht hz) (by omega) h2
    refine loop_inv _ _ _ _
      (fun c' hc' s hs => pair3_body_offsets XXH32 out buf_cell anchor i j c.1 c.2 _ _ c' v0 s
        hT hA hoff ?_ ?_ _ hs) _ ⟨hP.1, hP.2.1, hP.2.2.1, fun _ => ?_⟩
    · rw [hu]
      exact exact_of_near _ _ _ _ ht hn
    · have := mem_pair_indices.mp hc'
      omega
    · show entry_near anchor (v0.tab_pair (hash12 XXH32
        (cell_row buf_cell c.1 ++ cell_row buf_cell c.2)))
      rw [← congrFun hP.1.2.2.2 _]
      exact hn

theorem pair_body_offsets (XXH32 : List Nat → Nat → Nat) (out buf_cell : List Nat)
    (anchor : Nat) (ij : Nat × Nat) (v0 v : ndlz8_vars)
    (hT : ∀ p len, table_entry v0 p len → p ≠ 0 → p < anchor)
    (hA : anchor + 56 < 4294967296) (hj : ij.2 < 8) (hi : ij.1 < ij.2)
    (hP : same_tables v0 v ∧
      ((v.triple_match 0 = 1 → entry_near anchor (v0.tab_triple (v.triple_match 4))) ∧
       (v.pair_matches 0 = 1 ∨ v.pair_matches 0 = 2 →
         entry_near anchor (v0.tab_pair (v.pair_matches 3))) ∧
       (v.pair_matches 0 = 2 → entry_near anchor (v0.tab_pair (v.pair_matches 6))))) :
    outcome (fun r : List Nat × ndlz8_vars => offsets_exact buf_cell anchor v0 r.1)
      (fun v' : ndlz8_vars => same_tables v0 v' ∧
        ((v'.triple_match 0 = 1 → entry_near anchor (v0.tab_triple (v'.triple_match 4))) ∧
         (v'.pair_matches 0 = 1 ∨ v'.pair_matches 0 = 2 →
           entry_near anchor (v0.tab_pair (v'.pair_matches 3))) ∧
         (v'.pair_matches 0 = 2 → entry_near anchor (v0.tab_pair (v'.pair_matches 6)))))
      (pair_body XXH32 out buf_cell anchor ij v) := by
  unfold pair_body
  simp only
  refine outcome_ite (fun h1 => outcome_ite (fun h2 => ?_) (fun _ => hP))
    (fun _ => outcome_ite (fun _ => hP) (fun _ => hP))
  have ht : table_entry v0 (v.tab_pair (hash12 XXH32
      (cell_row buf_cell ij.1 ++ cell_row buf_cell ij.2))) 16 :=
    Or.inr (Or.inr (Or.inr ⟨rfl, _, (congrFun hP.1.2.2.2 _).symm⟩))
  obtain ⟨hn, hu⟩ := near_of_accepted_row anchor _ ij.1 _ h1 (hT _ 16 ht h1) (by omega) h2
  refine outcome_mono (fun _ h => h) (fun s hs => ⟨hs.1, hs.2.1, fun _ => hs.2.2.1, hs.2.2.2⟩)
    _ (loop_inv _ _ _ _
      (fun c hc s hs => pair2_body_offsets XXH32 out buf_cell anchor ij.1 ij.2 _ c v0 s
        hT hA ?_ (mem_pair_indices.mp hc).2.2 (mem_pair_indices.mp hc).2.1 hs) _
      ⟨hP.1, hP.2.1, ?_, fun h => absurd h (by simp)⟩)
  · rw [hu]
    exact exact_of_near _ _ _ _ ht hn
  · show entry_near anchor (v0.tab_pair (hash12 XXH32
      (cell_row buf_cell ij.1 ++ cell_row buf_cell ij.2)))
    rw [← congrFun hP.1.2.2.2 _]
    exact hn


theorem u16_of_near (anchor p : Nat) (h : entry_near anchor p) :
    u16 ((anchor : Int) - (p : Int)) = anchor - p := by
  obtain ⟨_, h1, h2⟩ := h
  exact u16_exact _ _ (by omega) (by omega)

theorem emit_matches_offsets (buf_cell : List Nat) (anchor : Nat) (v0 v : ndlz8_vars)
    (hP : same_tables v0 v ∧
      ((v.triple_match 0 = 1 → entry_near anchor (v0.tab_triple (v.triple_match 4))) ∧
       (v.pair_matches 0 = 1 ∨ v.pair_matches 0 = 2 →
         entry_near anchor (v0.tab_pair (v.pair_matches 3))) ∧
       (v.pair_matches 0 = 2 → entry_near anchor (v0.tab_pair (v.pair_matches 6))))) :
    emit_matches buf_cell anchor v = [] ∨
    offsets_exact buf_cell anchor v0 (emit_matches buf_cell anchor v) := by
  obtain ⟨⟨_, _, t3, t4⟩, m3, m1, m2⟩ := hP
  unfold emit_matches
  simp only
  rw [t3, t4]
  split_ifs with c1 c2 c3
  · right
    have n1 := m1 (Or.inr c1)
    have n2 := m2 c1
    rw [u16_of_near _ _ n1, u16_of_near _ _ n2]
    refine ⟨[_, _], offset_record.two_pairs _ _ _ _ _ _, fun d hd => ?_⟩
    simp only [List.mem_cons, List.mem_singleton, List.not_mem_nil, or_false] at hd
    rcases hd with e | e
    · rw [e]
      exact exact_of_near _ _ 16 _ (Or.inr (Or.inr (Or.inr ⟨rfl, _, rfl⟩))) n1
    · rw [e]
      exact exact_of_near _ _ 16 _ (Or.inr (Or.inr (Or.inr ⟨rfl, _, rfl⟩))) n2
  · right
    have n1 := m3 c2
    rw [u16_of_near _ _ n1]
    refine ⟨[_], offset_record.one_triple _ _ _ _, fun d hd => ?_⟩
    rw [List.mem_singleton.mp hd]
    exact exact_of_near _ _ 24 _ (Or.inr (Or.inr (Or.inl ⟨rfl, _, rfl⟩))) n1
  · right
    have n1 := m1 (Or.inl c3)
    rw [u16_of_near _ _ n1]
    refine ⟨[_], offset_record.one_pair _ _ _, fun d hd => ?_⟩
    rw [List.mem_singleton.mp hd]
    exact exact_of_near _ _ 16 _ (Or.inr (Or.inr (Or.inr ⟨rfl, _, rfl⟩))) n1
  · left
    rfl

theorem outcome_offsets (buf_cell : List Nat) (anchor : Nat) (v : ndlz8_vars)
    (P : ndlz8_vars → Prop) (e : Except (List Nat × ndlz8_vars) ndlz8_vars)
    (h : outcome (fun r : List Nat × ndlz8_vars => offsets_exact buf_cell anchor v r.1) P e) :
    outcome (fun r : List Nat × ndlz8_vars =>
      r.1 = [] ∨ r.1.head? = some 0 ∨ offsets_exact buf_cell anchor v r.1) P e := by
  cases e with
  | error r => exact Or.inr (Or.inr h)
  | ok s => exact h

theorem search_cell_offsets (XXH32 : List Nat → Nat → Nat) (out buf_cell : List Nat)
    (hash_cell : Nat) (v : ndlz8_vars)
    (hT : ∀ p len, table_entry v p len → p ≠ 0 → p < out.length)
    (hA : out.length + 56 < 4294967296) :
    (search_cell XXH32 out buf_cell hash_cell v).1 = [] ∨
    (search_cell XXH32 out buf_cell hash_cell v).1.head? = some 0 ∨
    offsets_exact buf_cell out.length v (search_cell XXH32 out buf_cell hash_cell v).1 := by
  refine search_cell_outcome XXH32 out buf_cell hash_cell v
    (fun r => r.1 = [] ∨ r.1.head? = some 0 ∨ offsets_exact buf_cell out.length v r.1)
    (fun v' => same_tables v v')
    (fun v' => same_tables v v' ∧
      (v'.triple_match 0 = 1 → entry_near out.length (v.tab_triple (v'.triple_match 4))))
    (fun v' => same_tables v v' ∧
      ((v'.triple_match 0 = 1 → entry_near out.length (v.tab_triple (v'.triple_match 4))) ∧
       (v'.pair_matches 0 = 1 ∨ v'.pair_matches 0 = 2 →
         entry_near out.length (v.tab_pair (v'.pair_matches 3))) ∧
       (v'.pair_matches 0 = 2 → entry_near out.length (v.tab_pair (v'.pair_matches 6)))))
    ?_ ?_ ?_ ?_
  · exact outcome_offsets buf_cell out.length v _ _ (loop_inv _ _ _ _
      (fun ij _ s hs => six_body_offsets XXH32 out buf_cell out.length ij v s hT hA hs) _
      (same_tables_refl v))
  · intro v1 h1
    exact outcome_offsets buf_cell out.length v _ _
      (triple_search_offsets XXH32 out buf_cell out.length v v1 hT hA h1)
  · intro v2 h2
    exact outcome_offsets buf_cell out.length v _ _ (loop_inv _ _ _ _
      (fun ij hij s hs => pair_body_offsets XXH32 out buf_cell out.length ij v s hT hA
        (mem_pair_indices.mp hij).2.2 (mem_pair_indices.mp hij).2.1 hs) _
      ⟨h2.1, h2.2, fun h => absurd h (by simp [setAt]), fun h => absurd h (by simp [setAt])⟩)
  · intro v3 h3
    split_ifs with hl
    · exact Or.inr (Or.inl rfl)
    · rcases emit_matches_offsets buf_cell out.length v v3 h3 with h | h
      · exact Or.inl h
      · exact Or.inr (Or.inr h)

theorem ite_ite_cases {α : Type} (P : α → Prop) (c1 c2 : Prop) [Decidable c1] [Decidable c2]
    (a b c : α) (h1 : c1 → P a) (h2 : ¬c1 → c2 → P b) (h3 : ¬c1 → ¬c2 → P c) :
    P (if c1 then a else if c2 then b else c) := by
  split_ifs with g1 g2
  · exact h1 g1
  · exact h2 g1 g2
  · exact h3 g1 g2

theorem full_cell_offsets (XXH32 : List Nat → Nat → Nat) (input : List Nat) (cols : Nat)
    (out : List Nat) (orig : Nat) (v : ndlz8_vars)
    (hT : ∀ p len, table_entry v p len → p ≠ 0 → p < out.length)
    (hA : out.length + 56 < 4294967296) :
    (∃ c, (full_cell XXH32 input cols out orig v).1 = [64, c]) ∨
    (full_cell XXH32 input cols out orig v).1.head? = some 0 ∨
    offsets_exact (fill_cell input cols orig) out.length v
      (full_cell XXH32 input cols out orig v).1 := by
  have hlen := full_cell_length XXH32 input cols out orig v
  revert hlen
  unfold full_cell
  simp only
  refine ite_ite_cases (fun r : List Nat × ndlz8_vars =>
    (2 ≤ r.1.length ∧ r.1.length ≤ 65) → ((∃ c, r.1 = [64, c]) ∨ r.1.head? = some 0 ∨
      offsets_exact (fill_cell input cols orig) out.length v r.1)) _ _ _ _ _ ?_ ?_ ?_
  · intro _ _
    exact Or.inl ⟨_, rfl⟩
  · intro _ _ hlen
    rcases search_cell_offsets XXH32 out (fill_cell input cols orig)
        (hash12 XXH32 (fill_cell input cols orig)) v hT hA with h | h | h
    · rw [h] at hlen; simp at hlen
    · exact Or.inr (Or.inl h)
    · exact Or.inr (Or.inr h)
  · intro _ hd _
    have ht : table_entry v (v.tab_cell (hash12 XXH32 (fill_cell input cols orig))) 64 :=
      Or.inl ⟨rfl, _, rfl⟩
    have h0 : v.tab_cell (hash12 XXH32 (fill_cell input cols orig)) ≠ 0 := by
      intro h
      apply hd
      left
      rw [if_pos h]
    rw [if_neg h0] at hd
    have hacc : accepted (if same_bytes (fill_cell input cols orig) out
        (v.tab_cell (hash12 XXH32 (fill_cell input cols orig))) 64 = true
        then u32 ((out.length : Int) - ((v.tab_cell (hash12 XXH32
          (fill_cell input cols orig)) : Nat) : Int)) else 0) = true := by
      rw [accepted_iff]
      simp only [MAX_DISTANCE] at hd
      omega
    obtain ⟨hn, hu⟩ := near_of_accepted out.length _ _ h0 (hT _ 64 ht h0) (by omega) hacc
    simp only
    rw [hu]
    exact Or.inr (Or.inr ⟨[_], offset_record.cell_match _, fun d hd => by
      rw [List.mem_singleton.mp hd]
      exact exact_of_near _ _ _ _ ht hn⟩)

/-- Every record that `encode_cell` writes is an RLE record, or starts with
the token 0 (a literal or padded cell), or holds back-offsets that are exact. -/
theorem encode_cell_offsets (XXH32 : List Nat → Nat → Nat) (rows cols : Nat)
    (input out : List Nat) (ii0 ii1 : Nat) (v : ndlz8_vars)
    (hT : ∀ p len, table_entry v p len → p ≠ 0 → p < out.length)
    (hA : out.length + 56 < 4294967296) :
    (∃ c, (encode_cell XXH32 rows cols input out ii0 ii1 v).1 = [64, c]) ∨
    (encode_cell XXH32 rows cols input out ii0 ii1 v).1.head? = some 0 ∨
    offsets_exact (fill_cell input cols (ii0 * 8 * cols + ii1 * 8)) out.length v
      (encode_cell XXH32 rows cols input out ii0 ii1 v).1 := by
  unfold encode_cell
  simp only
  split_ifs with hpad
  · exact Or.inr (Or.inl rfl)
  · exact full_cell_offsets XXH32 input cols out _ v hT hA


/-- Every state of the main loop is among the states `written`. -/
theorem encode_cells_written (XXH32 : List Nat → Nat → Nat) (rows cols : Nat)
    (input : List Nat) (length maxout : Int) (header : List Nat) :
    outcome (fun _ : List Nat => True)
      (fun s : ndlz8_vars × List Nat =>
        ∃ recs, written XXH32 rows cols input length maxout header s recs)
      (encode_cells XXH32 rows cols input length maxout header) := by
  unfold encode_cells
  simp only
  refine loop_inv _ _ _ _ ?_ _ ⟨[], written.start⟩
  intro ii0 _ s hs
  refine loop_inv _ _ _ _ ?_ _ hs
  intro ii1 _ s1 hs1
  obtain ⟨recs, hw⟩ := hs1
  cases e : cell_step XXH32 rows cols input length maxout ii0 ii1 s1 with
  | error o => trivial
  | ok s' => exact ⟨_, written.cell ii0 ii1 s1 s' recs hw e⟩

theorem table_entry_len (v : ndlz8_vars) (p len : Nat) (h : table_entry v p len) :
    16 ≤ len := by
  unfold table_entry at h
  rcases h with ⟨h, _⟩ | ⟨h, _⟩ | ⟨h, _⟩ | ⟨h, _⟩ <;> omega

/-! ## The claims on the hash tables and the back-offsets -/

/-- C19. Back-reference discipline of the encoder. In every state of the main
loop of `ndlz8_compress` between two cells (the header has 9 bytes, `recs` are
the records written so far with their anchors): the records lie in the stream
behind the header; each non-zero entry `p` of the four hash tables, keying
`len` = 64, 48, 24 or 16 bytes for `tab_cell`, `tab_6`, `tab_triple`,
`tab_pair`, has `[p, p + len)` inside the 64 data bytes of a literal cell
record already written; hence `p >= 10` and `p + len` is at most the anchor of
the next cell, so that a reference designates bytes before that anchor. The
searches of a cell leave the tables as they are (`search_cell_tables`). -/
theorem table_entries_in_literal_records (XXH32 : List Nat → Nat → Nat) (rows cols : Nat)
    (input : List Nat) (length maxout : Int) (header : List Nat) (hh : header.length = 9)
    (s : ndlz8_vars × List Nat) (recs : List (Nat × List Nat))
    (hw : written XXH32 rows cols input length maxout header s recs) :
    records_in_stream s.2 recs ∧ tables_inside recs s.1 ∧
    (∀ p len, table_entry s.1 p len → p ≠ 0 → 10 ≤ p ∧ p + len ≤ s.2.length) := by
  obtain ⟨_, i1, i2⟩ := written_inv XXH32 rows cols input length maxout header
    (by omega) s recs hw
  refine ⟨i1, i2, ?_⟩
  intro p len hp h0
  obtain ⟨ar, har, ⟨hl, _⟩, h1, h2⟩ := i2 p len hp h0
  obtain ⟨a1, a2, _⟩ := i1 ar har
  omega

/-- Instance of C19, scenario S3: after the first cell of the 8 x 16 block,
written as a literal record at anchor 9, the entry of `tab_cell` for that cell
is 10, and the entries lie in the record. -/
theorem table_entries_in_literal_records_witness :
    ∃ v' : ndlz8_vars,
      v'.tab_cell (hash12 zero_hash cell_S3_0) = 10 ∧
      records_in_stream (header_S3 ++ [0] ++ cell_S3_0) [(9, [0] ++ cell_S3_0)] ∧
      tables_inside [(9, [0] ++ cell_S3_0)] v' ∧
      (∀ p len, table_entry v' p len → p ≠ 0 →
        10 ≤ p ∧ p + len ≤ (header_S3 ++ [0] ++ cell_S3_0).length) := by
  obtain ⟨v', e, a, _⟩ := cell_step_S3_0 zero_hash 200 (by decide)
  have hw : written zero_hash 8 16 block_S3 128 200 header_S3
      (v', header_S3 ++ [0] ++ cell_S3_0) [(9, [0] ++ cell_S3_0)] :=
    written.cell 0 0 (ndlz8_vars.init, header_S3) (v', header_S3 ++ [0] ++ cell_S3_0) []
      written.start e
  refine ⟨v', by rw [a]; simp [setAt], ?_⟩
  exact table_entries_in_literal_records zero_hash 8 16 block_S3 128 200 header_S3 rfl
    (v', header_S3 ++ [0] ++ cell_S3_0) [(9, [0] ++ cell_S3_0)] hw

/-- C18. Every 16-bit back-offset that `ndlz8_compress` writes is exact. In
every state of the main loop between two cells, with `maxout` an `int` and the
65 bytes of the space check available, the record that `encode_cell` writes
for the next cell is an RLE record, or starts with the token 0 (literal or
padded cell), or is a cell-match, six-rows, two-triples, three-pairs,
two-pairs, one-triple or one-pair record whose offset fields hold values `d`
with `0 < d < 65535` and `d + p = anchor` for a non-zero entry `p` of a hash
table: the cast to 16 bits does not truncate the distance. -/
theorem back_offsets_exact (XXH32 : List Nat → Nat → Nat) (rows cols : Nat)
    (input : List Nat) (length maxout : Int) (header : List Nat) (hh : header.length = 9)
    (hmax : maxout ≤ 2147483647) (s : ndlz8_vars × List Nat)
    (recs : List (Nat × List Nat))
    (hw : written XXH32 rows cols input length maxout header s recs)
    (hspace : ¬ ((s.2.length : Int) + 64 + 1 > maxout)) (ii0 ii1 : Nat) :
    (∃ c, (encode_cell XXH32 rows cols input s.2 ii0 ii1
      { s.1 with update_6 := fun _ => 0, update_pair := fun _ => 0,
                 update_triple := fun _ => 0 }).1 = [64, c]) ∨
    (encode_cell XXH32 rows cols input s.2 ii0 ii1
      { s.1 with update_6 := fun _ => 0, update_pair := fun _ => 0,
                 update_triple := fun _ => 0 }).1.head? = some 0 ∨
    offsets_exact (fill_cell input cols (ii0 * 8 * cols + ii1 * 8)) s.2.length s.1
      (encode_cell XXH32 rows cols input s.2 ii0 ii1
        { s.1 with update_6 := fun _ => 0, update_pair := fun _ => 0,
                   update_triple := fun _ => 0 }).1 := by
  obtain ⟨_, i1, i2⟩ := written_inv XXH32 rows cols input length maxout header
    (by omega) s recs hw
  have hT : ∀ p len, table_entry s.1 p len → p ≠ 0 → p < s.2.length := by
    intro p len hp h0
    obtain ⟨ar, har, ⟨hl, _⟩, h1, h2⟩ := i2 p len hp h0
    obtain ⟨a1, a2, _⟩ := i1 ar har
    have := table_entry_len s.1 p len hp
    omega
  exact encode_cell_offsets XXH32 rows cols input s.2 ii0 ii1
    { s.1 with update_6 := fun _ => 0, update_pair := fun _ => 0,
               update_triple := fun _ => 0 } hT (by omega)

/-- Instance of C18, scenario S3: the second cell of the 8 x 16 block is
written at anchor 74 as the six-rows record with the offset 48 = 74 - 26. -/
theorem back_offsets_exact_witness :
    ∃ v' : ndlz8_vars,
      (encode_cell zero_hash 8 16 block_S3 (header_S3 ++ [0] ++ cell_S3_0) 0 1
        { v' with update_6 := fun _ => 0, update_pair := fun _ => 0,
                  update_triple := fun _ => 0 }).1 = six_record_S3 ∧
      ((∃ c, (encode_cell zero_hash 8 16 block_S3 (header_S3 ++ [0] ++ cell_S3_0) 0 1
        { v' with update_6 := fun _ => 0, update_pair := fun _ => 0,
                  update_triple := fun _ => 0 }).1 = [64, c]) ∨
      (encode_cell zero_hash 8 16 block_S3 (header_S3 ++ [0] ++ cell_S3_0) 0 1
        { v' with update_6 := fun _ => 0, update_pair := fun _ => 0,
                  update_triple := fun _ => 0 }).1.head? = some 0 ∨
      offsets_exact (fill_cell block_S3 16 (0 * 8 * 16 + 1 * 8))
        (header_S3 ++ [0] ++ cell_S3_0).length v'
        (encode_cell zero_hash 8 16 block_S3 (header_S3 ++ [0] ++ cell_S3_0) 0 1
          { v' with update_6 := fun _ => 0, update_pair := fun _ => 0,
                    update_triple := fun _ => 0 }).1) := by
  obtain ⟨v', e, a, b⟩ := cell_step_S3_0 zero_hash 200 (by decide)
  have hw : written zero_hash 8 16 block_S3 128 200 header_S3
      (v', header_S3 ++ [0] ++ cell_S3_0) [(9, [0] ++ cell_S3_0)] :=
    written.cell 0 0 (ndlz8_vars.init, header_S3) (v', header_S3 ++ [0] ++ cell_S3_0) []
      written.start e
  have hsp : ¬ ((((v', header_S3 ++ [0] ++ cell_S3_0) : ndlz8_vars × List Nat).2.length : Int)
      + 64 + 1 > 200) := by
    simp [header_S3, cell_S3_0]
  refine ⟨v', encode_cell_S3_1 zero_hash _ a b, ?_⟩
  exact back_offsets_exact zero_hash 8 16 block_S3 128 200 header_S3 rfl
    (show (200 : Int) ≤ 2147483647 by decide)
    (v', header_S3 ++ [0] ++ cell_S3_0) [(9, [0] ++ cell_S3_0)] hw hsp 0 1

/-! ## Block-size chooser: caps and floor -/

namespace Btune

/-- The last two steps of `btune_next_blocksize` (label `last`), on a value
`b0`: the cap at `nbytes` and the rounding down to a multiple of `typesize`. -/
theorem last_steps (b0 t n : Int) (ht : 1 ≤ t) (hn : n ≤ 2147483647) :
    (if (if b0 > n then n else b0) > t
      then mul32 (Int.tdiv (if b0 > n then n else b0) t) t
      else (if b0 > n then n else b0)) ≤ n ∧
    (if (if b0 > n then n else b0) > t
      then mul32 (Int.tdiv (if b0 > n then n else b0) t) t
      else (if b0 > n then n else b0)) ≤ b0 ∧
    (32768 ≤ b0 → 32768 ≤ n →
      32768 < (if (if b0 > n then n else b0) > t
        then mul32 (Int.tdiv (if b0 > n then n else b0) t) t
        else (if b0 > n then n else b0)) + t ∧
      (t ∣ 32768 → 32768 ≤ (if (if b0 > n then n else b0) > t
        then mul32 (Int.tdiv (if b0 > n then n else b0) t) t
        else (if b0 > n then n else b0)))) := by
  generalize hb : (if b0 > n then n else b0) = b
  have h1 : b ≤ n := by rw [← hb]; split_ifs <;> omega
  have h2 : b ≤ b0 := by rw [← hb]; split_ifs <;> omega
  have h3 : 32768 ≤ b0 → 32768 ≤ n → 32768 ≤ b := by
    intro _ _
    rw [← hb]
    split_ifs <;> omega
  split_ifs with hgt
  · have hd : Int.tdiv b t = b / t :=
      Int.tdiv_eq_ediv (show 0 ≤ b by omega) (show 0 ≤ t by omega)
    have hle : b / t * t ≤ b := Int.ediv_mul_le b (by omega)
    have hpos : 0 ≤ b / t := Int.ediv_nonneg (by omega) (by omega)
    have hlt : b < b / t * t + t := by
      have := Int.lt_ediv_add_one_mul_self b (show 0 < t by omega)
      linarith
    rw [hd, mul32_exact _ _ (by positivity) (by omega)]
    refine ⟨by omega, by omega, fun a b' => ⟨by have := h3 a b'; omega, fun hdiv => ?_⟩⟩
    have hb32 := h3 a b'
    obtain ⟨q, hq⟩ := hdiv
    have hq' : q ≤ b / t := by
      apply Int.le_ediv_of_mul_le (by omega)
      rw [Int.mul_comm, ← hq]
      exact hb32
    calc (32768 : Int) = t * q := hq
      _ = q * t := Int.mul_comm _ _
      _ ≤ b / t * t := Int.mul_le_mul_of_nonneg_right hq' (by omega)
  · exact ⟨h1, h2, fun a b' => ⟨by have := h3 a b'; omega, fun _ => h3 a b'⟩⟩

/-- C21. Source cap of the block-size chooser: for every context with
`1 <= typesize <= sourcesize` (and `sourcesize` an `int32_t`), whatever the
level, the codec, the caller-supplied blocksize and the answer of
`split_block`, after `btune_next_blocksize` the field `blocksize` is at most
`sourcesize`. -/
theorem blocksize_at_most_sourcesize (c : constants)
    (split_block : blosc2_context → Int → Int → Bool → Bool) (context : blosc2_context)
    (ht : 1 ≤ context.typesize) (hts : context.typesize ≤ context.sourcesize)
    (hs : context.sourcesize ≤ 2147483647) :
    (btune_next_blocksize c split_block context).blocksize ≤ context.sourcesize := by
  unfold btune_next_blocksize
  simp only
  rw [if_neg (by omega)]
  generalize (if context.blocksize ≠ 0 then context.blocksize else _) = b0
  exact (last_steps b0 context.typesize context.sourcesize ht hs).1

/-- Instance of C21: `typesize = 4`, `sourcesize = 1000` and a caller-supplied
blocksize of 4096: the block size is 1000. -/
theorem blocksize_at_most_sourcesize_witness :
    (btune_next_blocksize sample_constants never_split ⟨5, 4, 1000, 4096, 0, 0⟩).blocksize
      ≤ 1000 ∧
    (btune_next_blocksize sample_constants never_split ⟨5, 4, 1000, 4096, 0, 0⟩).blocksize
      = 1000 :=
  ⟨blocksize_at_most_sourcesize sample_constants never_split ⟨5, 4, 1000, 4096, 0, 0⟩
    (by decide) (by decide) (by decide), by decide⟩

/-- C22 fails as stated: with a caller-supplied blocksize of 2 MiB,
`typesize = 1` and `sourcesize` = 4 MiB, the chooser goes to the label `last`
at once and keeps 2097152, above 1 MiB. -/
theorem user_blocksize_above_1MiB :
    (btune_next_blocksize sample_constants never_split
      ⟨5, 1, 4194304, 2097152, 0, 0⟩).blocksize = 2097152 ∧
    ¬ ((2097152 : Int) ≤ 1048576) := by
  decide

theorem level_blocksize_bound (L : Int) (hcr : Bool) (clevel : Int) (h0 : 0 ≤ L)
    (h1 : L ≤ 32768) :
    (if clevel = 0 then Int.tdiv (if hcr = true then mul32 L 2 else L) 4
      else if clevel = 1 then Int.tdiv (if hcr = true then mul32 L 2 else L) 2
      else if clevel = 2 then mul32 (if hcr = true then mul32 L 2 else L) 1
      else if clevel = 3 then mul32 (if hcr = true then mul32 L 2 else L) 2
      else if clevel = 4 ∨ clevel = 5 then mul32 (if hcr = true then mul32 L 2 else L) 4
      else if clevel = 6 ∨ clevel = 7 ∨ clevel = 8 then
        mul32 (if hcr = true then mul32 L 2 else L) 8
      else if clevel = 9 then
        if hcr = true then mul32 (mul32 (if hcr = true then mul32 L 2 else L) 8) 2
        else mul32 (if hcr = true then mul32 L 2 else L) 8
      else (if hcr = true then mul32 L 2 else L)) ≤ 1048576 := by
  have e2 : mul32 L 2 = L * 2 := mul32_exact _ _ (by omega) (by omega)
  have m1 : ∀ x : Int, 0 ≤ x → x ≤ 65536 → mul32 x 1 = x * 1 :=
    fun x a b => mul32_exact _ _ (by omega) (by omega)
  have m2 : ∀ x : Int, 0 ≤ x → x ≤ 65536 → mul32 x 2 = x * 2 :=
    fun x a b => mul32_exact _ _ (by omega) (by omega)
  have m4 : ∀ x : Int, 0 ≤ x → x ≤ 65536 → mul32 x 4 = x * 4 :=
    fun x a b => mul32_exact _ _ (by omega) (by omega)
  have m8 : ∀ x : Int, 0 ≤ x → x ≤ 65536 → mul32 x 8 = x * 8 :=
    fun x a b => mul32_exact _ _ (by omega) (by omega)
  have m16 : ∀ x : Int, 0 ≤ x → x ≤ 65536 → mul32 (x * 8) 2 = x * 8 * 2 :=
    fun x a b => mul32_exact _ _ (by omega) (by omega)
  have d4 : ∀ x : Int, 0 ≤ x → Int.tdiv x 4 = x / 4 :=
    fun x a => Int.tdiv_eq_ediv a (by decide)
  have d2 : ∀ x : Int, 0 ≤ x → Int.tdiv x 2 = x / 2 :=
    fun x a => Int.tdiv_eq_ediv a (by decide)
  cases hcr with
  | false =>
    simp only [Bool.false_eq_true, if_false]
    rw [d4 L h0, d2 L h0, m1 L h0 (by omega), m2 L h0 (by omega), m4 L h0 (by omega),
      m8 L h0 (by omega)]
    split_ifs <;> omega
  | true =>
    simp only [if_true]
    rw [e2, d4 (L * 2) (by omega), d2 (L * 2) (by omega), m1 (L * 2) (by omega) (by omega),
      m2 (L * 2) (by omega) (by omega), m4 (L * 2) (by omega) (by omega),
      m8 (L * 2) (by omega) (by omega), m16 (L * 2) (by omega) (by omega)]
    split_ifs <;> omega

/-- C22 as amended. For every context with no caller-supplied blocksize
(`blocksize = 0`), `typesize >= 1` and `sourcesize` an `int32_t`, and for
`0 <= L1 <= 32 KiB`, after `btune_next_blocksize` the field `blocksize` is at
most 1 MiB (1048576). -/
theorem automatic_blocksize_at_most_1MiB (c : constants)
    (split_block : blosc2_context → Int → Int → Bool → Bool) (context : blosc2_context)
    (hb : context.blocksize = 0) (ht : 1 ≤ context.typesize)
    (hs : context.sourcesize ≤ 2147483647) (h0 : 0 ≤ c.L1) (h1 : c.L1 ≤ 32768) :
    (btune_next_blocksize c split_block context).blocksize ≤ 1048576 := by
  unfold btune_next_blocksize
  simp only
  by_cases hsmall : context.sourcesize < context.typesize
  · rw [if_pos hsmall]
    show (1 : Int) ≤ 1048576
    decide
  · rw [if_neg hsmall, if_neg (not_not.mpr hb)]
    have hlev := level_blocksize_bound c.L1 (is_HCR c context) context.clevel h0 h1
    generalize hb1 : (if context.sourcesize ≥ c.L1 then _ else context.sourcesize) = b1
    have hb1le : b1 ≤ 1048576 := by
      rw [← hb1]
      by_cases hge : context.sourcesize ≥ c.L1
      · rw [if_pos hge]
        exact hlev
      · rw [if_neg hge]
        omega
    generalize hb0 : (if context.clevel > 0 ∧
      split_block context context.typesize b1 true = true then _ else b1) = b0
    have hb0le : b0 ≤ 1048576 := by
      rw [← hb0]
      split_ifs <;> omega
    have := (last_steps b0 context.typesize context.sourcesize ht hs).2.1
    exact le_trans this hb0le

/-- Instance of the amended C22: LZ4HC at level 9 on 4 MiB of 1-byte items:
the block size is 32 KiB * 2 * 8 * 2 = 1 MiB. -/
theorem automatic_blocksize_at_most_1MiB_witness :
    (btune_next_blocksize sample_constants never_split
      ⟨9, 1, 4194304, 0, 2, 0⟩).blocksize ≤ 1048576 ∧
    (btune_next_blocksize sample_constants never_split
      ⟨9, 1, 4194304, 0, 2, 0⟩).blocksize = 1048576 :=
  ⟨automatic_blocksize_at_most_1MiB sample_constants never_split ⟨9, 1, 4194304, 0, 2, 0⟩
    (by decide) (by decide) (by decide) (by decide) (by decide), by decide⟩

/-- C23 fails as stated: with `typesize = 3`, `sourcesize = 40000`, level 1,
no caller-supplied blocksize and a block that splits, the floor gives 32768
and the rounding to a multiple of 3 that follows gives 32766, below 32 KiB. -/
theorem floor_then_rounding :
    (btune_next_blocksize sample_constants always_split
      ⟨1, 3, 40000, 0, 0, 0⟩).blocksize = 32766 ∧
    ¬ ((32768 : Int) ≤ 32766) := by
  decide

/-- The chooser calls `split_block` at most once, with the blocksize
`level_blocksize`: the context it leaves is the one it leaves when every call
of `split_block` gives the answer of that call. -/
theorem split_block_called_once (c : constants)
    (split_block : blosc2_context → Int → Int → Bool → Bool) (context : blosc2_context) :
    btune_next_blocksize c split_block context =
      btune_next_blocksize c
        (fun _ _ _ _ => split_block context context.typesize (level_blocksize c context) true)
        context := by
  rfl

/-- C23 as amended. For every context with no caller-supplied blocksize,
`clevel > 0`, `1 <= typesize <= sourcesize`, `sourcesize >= 32 KiB` (an
`int32_t`) and a block that `split_block` reports as splittable (the call of
line 107, made with the blocksize `level_blocksize` that the level table has
chosen), the value that reaches the final rounding is at least 32 KiB: after
`btune_next_blocksize` the field `blocksize` is above `32768 - typesize`, and
it is at least 32768 when `typesize` divides 32768. -/
theorem splittable_blocksize_floor (c : constants)
    (split_block : blosc2_context → Int → Int → Bool → Bool) (context : blosc2_context)
    (hb : context.blocksize = 0) (hc : context.clevel > 0) (ht : 1 ≤ context.typesize)
    (hts : context.typesize ≤ context.sourcesize) (h32 : 32768 ≤ context.sourcesize)
    (hs : context.sourcesize ≤ 2147483647)
    (hsplit : split_block context context.typesize (level_blocksize c context) true = true) :
    32768 < (btune_next_blocksize c split_block context).blocksize + context.typesize ∧
    (context.typesize ∣ 32768 →
      32768 ≤ (btune_next_blocksize c split_block context).blocksize) := by
  have hcall : ∀ b1 : Int, b1 = level_blocksize c context →
      (context.clevel > 0 ∧ split_block context context.typesize b1 true = true) :=
    fun b1 e => ⟨hc, by rw [e]; exact hsplit⟩
  unfold btune_next_blocksize
  unfold level_blocksize at hcall
  simp only at hcall ⊢
  rw [if_neg (by omega), if_neg (not_not.mpr hb)]
  generalize (if context.sourcesize ≥ c.L1 then _ else context.sourcesize) = b1 at hcall ⊢
  rw [if_pos (hcall b1 rfl)]
  generalize mul32 _ context.typesize = x
  generalize hb0 : (if (if x > 1024 * 1024 then (1024 * 1024 : Int) else x) < 32 * 1024
    then (32 * 1024 : Int) else (if x > 1024 * 1024 then (1024 * 1024 : Int) else x)) = b0
  have hb0ge : 32768 ≤ b0 := by
    rw [← hb0]
    split_ifs <;> omega
  exact (last_steps b0 context.typesize context.sourcesize ht hs).2.2 hb0ge h32

/-- Instance of the amended C23 with a `split_block` that splits the blocks of
16 KiB only, the blocksize of level 1 for `L1` = 32 KiB: `typesize = 3`,
`sourcesize = 40000`, level 1: the block size 32766 is above 32768 - 3; with
`typesize = 4` it is 32768. -/
theorem splittable_blocksize_floor_witness :
    level_blocksize sample_constants ⟨1, 3, 40000, 0, 0, 0⟩ = 16384 ∧
    32768 < (btune_next_blocksize sample_constants split_16384
      ⟨1, 3, 40000, 0, 0, 0⟩).blocksize + 3 ∧
    32768 ≤ (btune_next_blocksize sample_constants split_16384
      ⟨1, 4, 40000, 0, 0, 0⟩).blocksize :=
  ⟨by decide,
   (splittable_blocksize_floor sample_constants split_16384 ⟨1, 3, 40000, 0, 0, 0⟩
      (by decide) (by decide) (by decide) (by decide) (by decide) (by decide)
      (by decide)).1,
   (splittable_blocksize_floor sample_constants split_16384 ⟨1, 4, 40000, 0, 0, 0⟩
      (by decide) (by decide) (by decide) (by decide) (by decide) (by decide)
      (by decide)).2 (by decide)⟩

end Btune

/-! ## Token classes of the decoder -/

theorem six_token_first_byte : ∀ j < 8, ∀ i < j,
    ((le16 (((38 <<< 10) ||| (i <<< 7) ||| (j <<< 4)) % 65536)).headD 0) >>> 2 ≠ 38 := by
  decide

theorem pair_token_first_byte : ∀ j < 8, ∀ i < j,
    ((le16 (((34 <<< 10) ||| (i <<< 7) ||| (j <<< 4)) % 65536)).headD 0) >>> 2 ≠ 34 := by
  decide

theorem triple_token_first_byte : ∀ k < 8, ∀ j < k, ∀ i < j,
    ((le16 (((35 <<< 10) ||| (i <<< 7) ||| (j <<< 4) ||| (k <<< 1)) % 65536)).headD 0) >>> 2
      ≠ 35 := by
  decide

set_option maxRecDepth 100000 in
set_option synthInstance.maxSize 1000 in
set_option synthInstance.maxHeartbeats 200000 in
theorem two_triples_token_first_byte :
    ∀ k < 8, ∀ j < k, ∀ i < j, ∀ k_ < 8, ∀ j_ < k_, ∀ i_ < j_,
    ((le24 (((9 <<< 20) ||| (i <<< 15) ||| (j <<< 12) ||| (k <<< 9) |||
      (i_ <<< 6) ||| (j_ <<< 3) ||| k_) % 4294967296)).headD 0) >>> 2 ≠ 36 := by
  decide

set_option maxRecDepth 100000 in
set_option synthInstance.maxSize 1000 in
set_option synthInstance.maxHeartbeats 200000 in
theorem three_pairs_token_first_byte :
    ∀ j__ < 8, ∀ i__ < j__, ∀ i_ < i__, ∀ j_ < 8, ∀ i < i_, ∀ j < 8,
    ((le24 (((33 <<< 18) ||| (i <<< 15) ||| (j <<< 12) ||| (i_ <<< 9) |||
      (j_ <<< 6) ||| (i__ <<< 3) ||| j__) % 4294967296)).headD 0) >>> 2 ≠ 33 := by
  decide

/-- C30. Code defect: the encoder stores its multi-byte tokens low byte first
and the decoder takes the class from the first byte, `match_type = token >> 2`.
For all row indices that the encoder's loops produce (`i < j`, `j < k`, and
`i < i' < i''` for three pairs), the first byte of a
six-rows, one-pair, one-triple, two-triples or three-pairs record gives a
`match_type` other than 38, 34, 35, 36, 33, the value that selects the branch
of its class. On the stream written for scenario S3, the six-rows record at
position 74 starts with 0x10 and the dispatch ends in `Invalid token`. -/
theorem token_dispatch_disagrees (u : indeterminate) (s : decoder_vars) :
    (∀ j < 8, ∀ i < j,
      ((le16 (((38 <<< 10) ||| (i <<< 7) ||| (j <<< 4)) % 65536)).headD 0) >>> 2 ≠ 38) ∧
    (∀ j < 8, ∀ i < j,
      ((le16 (((34 <<< 10) ||| (i <<< 7) ||| (j <<< 4)) % 65536)).headD 0) >>> 2 ≠ 34) ∧
    (∀ k < 8, ∀ j < k, ∀ i < j,
      ((le16 (((35 <<< 10) ||| (i <<< 7) ||| (j <<< 4) ||| (k <<< 1)) % 65536)).headD 0)
        >>> 2 ≠ 35) ∧
    (∀ k < 8, ∀ j < k, ∀ i < j, ∀ k_ < 8, ∀ j_ < k_, ∀ i_ < j_,
      ((le24 (((9 <<< 20) ||| (i <<< 15) ||| (j <<< 12) ||| (k <<< 9) |||
        (i_ <<< 6) ||| (j_ <<< 3) ||| k_) % 4294967296)).headD 0) >>> 2 ≠ 36) ∧
    (∀ j__ < 8, ∀ i__ < j__, ∀ i_ < i__, ∀ j_ < 8, ∀ i < i_, ∀ j < 8,
      ((le24 (((33 <<< 18) ||| (i <<< 15) ||| (j <<< 12) ||| (i_ <<< 9) |||
        (j_ <<< 6) ||| (i__ <<< 3) ||| j__) % 4294967296)).headD 0) >>> 2 ≠ 33) ∧
    ndlz8_compress zero_hash ⟨2, 8, 16, 0⟩ block_S3 128 200 =
      (94, header_S3 ++ [0] ++ cell_S3_0 ++ six_record_S3) ∧
    decode_token u (header_S3 ++ [0] ++ cell_S3_0 ++ six_record_S3) 8 8
      ⟨74, s.out, s.local_buffer, s.cell_aux, s.ind, s.padding1⟩ = none := by
  refine ⟨six_token_first_byte, pair_token_first_byte, triple_token_first_byte,
    two_triples_token_first_byte, three_pairs_token_first_byte,
    compress_S3 zero_hash 0 200 (by decide) (by decide), ?_⟩
  apply decode_token_none
  have := in_byte_inside u (header_S3 ++ [0] ++ cell_S3_0 ++ six_record_S3) 74 (by decide)
  simp only [Nat.cast_ofNat] at this
  rw [this]
  decide

/-! ## Deferred updates of the hash tables -/

theorem six_body_keeps_tables (XXH32 : List Nat → Nat → Nat) (out buf_cell : List Nat)
    (anchor : Nat) (ij : Nat × Nat) (v0 v : ndlz8_vars) (hP : same_tables v0 v) :
    outcome (fun r : List Nat × ndlz8_vars => same_tables v0 r.2)
      (fun v' : ndlz8_vars => same_tables v0 v')
      (six_body XXH32 out buf_cell anchor ij v) := by
  unfold six_body
  simp only
  exact outcome_ite (fun _ => outcome_ite (fun _ => hP) (fun _ => hP))
    (fun _ => outcome_ite (fun _ => hP) (fun _ => hP))

theorem triple_body_keeps_tables (XXH32 : List Nat → Nat → Nat) (out buf_cell : List Nat)
    (anchor i j k : Nat) (v0 v : ndlz8_vars) (hP : same_tables v0 v) :
    outcome (fun r : List Nat × ndlz8_vars => same_tables v0 r.2)
      (fun v' : ndlz8_vars => same_tables v0 v')
      (triple_body XXH32 out buf_cell anchor i j k v) := by
  unfold triple_body
  simp only
  refine outcome_ite (fun _ => outcome_ite (fun _ => ?_) (fun _ => hP))
    (fun _ => outcome_ite (fun _ => hP) (fun _ => hP))
  refine outcome_map _ _ (loop_inv _ _ (fun _ => True) _
    (fun c _ s _ => triple2_body_tables XXH32 out buf_cell anchor _ i j k _ v0 _ c s ?_)
    _ trivial) ?_
  · exact hP
  · intro s _
    exact hP

theorem triple_search_keeps_tables (XXH32 : List Nat → Nat → Nat) (out buf_cell : List Nat)
    (anchor : Nat) (v0 v : ndlz8_vars) (hP : same_tables v0 v) :
    outcome (fun r : List Nat × ndlz8_vars => same_tables v0 r.2)
      (fun v' : ndlz8_vars => same_tables v0 v')
      (triple_search XXH32 out buf_cell anchor v) := by
  unfold triple_search
  refine loop_inv _ _ _ _ ?_ _ hP
  intro i _ v1 h1
  refine loop_inv _ _ _ _ ?_ _ h1
  intro j _ v2 h2
  refine loop_inv _ _ _ _ ?_ _ h2
  intro k _ v3 h3
  exact triple_body_keeps_tables XXH32 out buf_cell anchor i j k v0 v3 h3

theorem pair_body_keeps_tables (XXH32 : List Nat → Nat → Nat) (out buf_cell : List Nat)
    (anchor : Nat) (ij : Nat × Nat) (v0 v : ndlz8_vars) (hP : same_tables v0 v) :
    outcome (fun r : List Nat × ndlz8_vars => same_tables v0 r.2)
      (fun v' : ndlz8_vars => same_tables v0 v')
      (pair_body XXH32 out buf_cell anchor ij v) := by
  unfold pair_body
  simp only
  refine outcome_ite (fun _ => outcome_ite (fun _ => ?_) (fun _ => hP))
    (fun _ => outcome_ite (fun _ => hP) (fun _ => hP))
  refine loop_inv _ _ _ _ (fun c _ s hs => ?_) _ hP
  unfold pair2_body
  simp only
  refine outcome_ite (fun _ => outcome_ite (fun _ => ?_) (fun _ => hs)) (fun _ => hs)
  refine loop_inv _ _ _ _ (fun c' _ s' hs' => ?_) _ hs
  unfold pair3_body
  simp only
  exact outcome_ite (fun _ => outcome_ite (fun _ => hs') (fun _ => hs')) (fun _ => hs')

theorem outcome_imp {ρ σ : Type} (A Q : ρ → Prop) (P : σ → Prop) (e : Except ρ σ)
    (h : outcome Q P e) : outcome (fun r => A r → Q r) P e := by
  cases e with
  | error r => exact fun _ => h
  | ok s => exact h

/-- The record of `search_cell` is the literal record of the cell, or the
tables are left as they are. -/
theorem search_cell_keeps_tables (XXH32 : List Nat → Nat → Nat) (out buf_cell : List Nat)
    (hash_cell : Nat) (v : ndlz8_vars)
    (h : ¬ literal_cell_record (search_cell XXH32 out buf_cell hash_cell v).1) :
    same_tables v (search_cell XXH32 out buf_cell hash_cell v).2 := by
  revert h
  refine search_cell_outcome XXH32 out buf_cell hash_cell v
    (fun r => ¬ literal_cell_record r.1 → same_tables v r.2)
    (fun v' => same_tables v v') (fun v' => same_tables v v') (fun v' => same_tables v v')
    ?_ ?_ ?_ ?_
  · have := loop_inv (six_body XXH32 out buf_cell out.length)
      (fun r : List Nat × ndlz8_vars => same_tables v r.2) (fun v' => same_tables v v')
      (pair_indices 0)
      (fun ij _ s hs => six_body_keeps_tables XXH32 out buf_cell out.length ij v s hs)
      { v with literal := true } (same_tables_refl v)
    exact outcome_imp _ _ _ _ this
  · intro v1 h1
    have := triple_search_keeps_tables XXH32 out buf_cell out.length v v1 h1
    exact outcome_imp _ _ _ _ this
  · intro v2 h2
    have := loop_inv (pair_body XXH32 out buf_cell out.length)
      (fun r : List Nat × ndlz8_vars => same_tables v r.2) (fun v' => same_tables v v')
      (pair_indices 0)
      (fun ij _ s hs => pair_body_keeps_tables XXH32 out buf_cell out.length ij v s hs)
      { v2 with pair_matches := setAt v2.pair_matches 0 0 } h2
    exact outcome_imp _ _ _ _ this
  · intro v3 h3
    split_ifs with hl
    · intro hn
      exfalso
      apply hn
      exact ⟨by simp [length_rd], rfl⟩
    · intro _
      exact h3

/-- Deferred index updates, for the searches of a cell (lines 162-601, the
reset loop left out): for every cell, every state of the variables and every
output written so far, when the record that `encode_cell` writes is not a
full literal record (the token 0 followed by 64 bytes), that is for a padded
literal, an RLE record, a cell match, a six-rows record or a record of triples
or pairs, the four hash tables that `encode_cell` returns are those it was
given. -/
theorem tables_kept_unless_literal (XXH32 : List Nat → Nat → Nat) (rows cols : Nat)
    (input out : List Nat) (ii0 ii1 : Nat) (v : ndlz8_vars)
    (h : ¬ literal_cell_record (encode_cell XXH32 rows cols input out ii0 ii1 v).1) :
    same_tables v (encode_cell XXH32 rows cols input out ii0 ii1 v).2 := by
  revert h
  unfold encode_cell
  simp only
  split_ifs with hpad
  · intro _
    exact same_tables_refl v
  · unfold full_cell
    simp only
    refine ite_ite_cases (fun r : List Nat × ndlz8_vars =>
      ¬ literal_cell_record r.1 → same_tables v r.2) _ _ _ _ _ ?_ ?_ ?_
    · intro _ _
      exact same_tables_refl v
    · intro _ _ h
      exact search_cell_keeps_tables XXH32 out _ _ v h
    · intro _ _ _
      exact same_tables_refl v

/-- Instance: the RLE record of the constant 8x8 cell of 0x42. -/
theorem tables_kept_unless_literal_witness :
    (encode_cell zero_hash 8 8 (List.replicate 64 66) [2, 8, 0, 0, 0, 8, 0, 0, 0] 0 0
      ndlz8_vars.init).1 = [64, 66] ∧
    same_tables ndlz8_vars.init
      (encode_cell zero_hash 8 8 (List.replicate 64 66) [2, 8, 0, 0, 0, 8, 0, 0, 0] 0 0
        ndlz8_vars.init).2 :=
  ⟨by decide,
   tables_kept_unless_literal zero_hash 8 8 (List.replicate 64 66)
    [2, 8, 0, 0, 0, 8, 0, 0, 0] 0 0 ndlz8_vars.init
    (by
      have e : (encode_cell zero_hash 8 8 (List.replicate 64 66)
          [2, 8, 0, 0, 0, 8, 0, 0, 0] 0 0 ndlz8_vars.init).1 = [64, 66] := by decide
      rw [e]
      simp [literal_cell_record])⟩

/-! ## Matches of rows on striped blocks -/

set_option maxRecDepth 100000 in
/-- C25. Code defect: the scan for a second triple overwrites `buf_triple`,
and the rows 0 and 1 of the buffer are not copied again before the next `k`.
On the 8 x 16 block whose left cell has the rows 1, 2, ..., 8 and whose right
cell has the rows 1, 2, 3, 8, 10, 6, 7, 11 (8 equal bytes each), with a hash
that indexes by the first byte, the right cell is written at anchor 74 as the
one-triple record naming rows (0, 1, 3) with the offset 24: the 24 bytes at
position 50 are the rows 6, 7, 8 of the left cell, and rows 0, 1, 3 of the
right cell are 1, 2, 8. The comparison that was accepted held rows 5, 6 and 3
of the cell. -/
theorem stale_triple_rows :
    ndlz8_compress first_byte_hash ⟨2, 8, 16, 0⟩
        (striped_block [1, 2, 3, 4, 5, 6, 7, 8] [1, 2, 3, 8, 10, 6, 7, 11]) 128 200 =
      ((118 : Int), header_S3 ++ [0] ++ striped_cell [1, 2, 3, 4, 5, 6, 7, 8] ++
        le16 (((35 <<< 10) ||| (0 <<< 7) ||| (1 <<< 4) ||| (3 <<< 1)) % 65536) ++
        le16 (74 - 50) ++
        rows_where (striped_cell [1, 2, 3, 8, 10, 6, 7, 11])
          (fun l => decide (l ≠ 0 ∧ l ≠ 1 ∧ l ≠ 3))) ∧
    ((header_S3 ++ [0] ++ striped_cell [1, 2, 3, 4, 5, 6, 7, 8]).drop 50).take 24 =
      List.replicate 8 6 ++ List.replicate 8 7 ++ List.replicate 8 8 ∧
    cell_row (striped_cell [1, 2, 3, 8, 10, 6, 7, 11]) 0 ++
      cell_row (striped_cell [1, 2, 3, 8, 10, 6, 7, 11]) 1 ++
      cell_row (striped_cell [1, 2, 3, 8, 10, 6, 7, 11]) 3 =
      List.replicate 8 1 ++ List.replicate 8 2 ++ List.replicate 8 8 ∧
    cell_row (striped_cell [1, 2, 3, 8, 10, 6, 7, 11]) 5 ++
      cell_row (striped_cell [1, 2, 3, 8, 10, 6, 7, 11]) 6 ++
      cell_row (striped_cell [1, 2, 3, 8, 10, 6, 7, 11]) 3 =
      List.replicate 8 6 ++ List.replicate 8 7 ++ List.replicate 8 8 := by
  decide!

set_option maxRecDepth 100000 in
/-- C28 fails as stated, for pairs and for triples (hash indexing by the first
byte). On the 8 x 16 block whose left cell has the rows 1, 2, 3, 4, 5, 6, 7, 7
and whose right cell has the rows 7, 7, 7, 10, 11, 12, 13, 14, the pairs
(0, 1), (0, 2) and (1, 2) of the right cell pass the match test against rows
6 and 7 of the left cell, at position 58: `pair_body` for the pair (0, 1),
with the tables left by the first cell, stores the match (0, 1); the record
written names the pair (1, 2), the last one, not the first. On the block whose
left cell has the rows 1, 2, 3, 4, 5, 7, 7, 7 and whose right cell has the
rows 7, 7, 7, 7, 10, 11, 12, 13, `triple_body` for the triple (0, 1, 2) stores
the match (0, 1, 2), found at position 50, and the record written names the
triple (1, 2, 3). -/
theorem later_candidate_wins :
    ndlz8_compress first_byte_hash ⟨2, 8, 16, 0⟩
        (striped_block [1, 2, 3, 4, 5, 6, 7, 7] [7, 7, 7, 10, 11, 12, 13, 14]) 128 200 =
      ((126 : Int), header_S3 ++ [0] ++ striped_cell [1, 2, 3, 4, 5, 6, 7, 7] ++
        le16 (((34 <<< 10) ||| (1 <<< 7) ||| (2 <<< 4)) % 65536) ++ le16 (74 - 58) ++
        rows_where (striped_cell [7, 7, 7, 10, 11, 12, 13, 14])
          (fun l => decide (l ≠ 1 ∧ l ≠ 2))) ∧
    ((cell_step first_byte_hash 8 16
        (striped_block [1, 2, 3, 4, 5, 6, 7, 7] [7, 7, 7, 10, 11, 12, 13, 14]) 128 200 0 0
        (ndlz8_vars.init, header_S3)).toOption.bind
      (fun s => (pair_body first_byte_hash s.2 (striped_cell [7, 7, 7, 10, 11, 12, 13, 14])
        s.2.length (0, 1) s.1).toOption.map
          (fun v => (v.pair_matches 0, v.pair_matches 1, v.pair_matches 2)))) =
      some (1, 0, 1) ∧
    ndlz8_compress first_byte_hash ⟨2, 8, 16, 0⟩
        (striped_block [1, 2, 3, 4, 5, 7, 7, 7] [7, 7, 7, 7, 10, 11, 12, 13]) 128 200 =
      ((118 : Int), header_S3 ++ [0] ++ striped_cell [1, 2, 3, 4, 5, 7, 7, 7] ++
        le16 (((35 <<< 10) ||| (1 <<< 7) ||| (2 <<< 4) ||| (3 <<< 1)) % 65536) ++
        le16 (74 - 50) ++
        rows_where (striped_cell [7, 7, 7, 7, 10, 11, 12, 13])
          (fun l => decide (l ≠ 1 ∧ l ≠ 2 ∧ l ≠ 3))) ∧
    ((cell_step first_byte_hash 8 16
        (striped_block [1, 2, 3, 4, 5, 7, 7, 7] [7, 7, 7, 7, 10, 11, 12, 13]) 128 200 0 0
        (ndlz8_vars.init, header_S3)).toOption.bind
      (fun s => (triple_body first_byte_hash s.2 (striped_cell [7, 7, 7, 7, 10, 11, 12, 13])
        s.2.length 0 1 2
        { s.1 with buf_triple :=
            (cell_row (striped_cell [7, 7, 7, 7, 10, 11, 12, 13]) 0,
             cell_row (striped_cell [7, 7, 7, 7, 10, 11, 12, 13]) 1,
             s.1.buf_triple.2.2) }).toOption.map
          (fun v => (v.triple_match 0, v.triple_match 1, v.triple_match 2,
            v.triple_match 3)))) = some (1, 0, 1, 2) := by
  decide!

set_option maxRecDepth 100000 in
/-- C29 fails as stated: on the 8 x 16 block whose left cell has the rows
1, 2, 3, 4, 5, 6, 7, 7 and whose right cell has the rows 6, 7, 7, 7, 7, 7, 7, 9
(hash indexing by the first byte), the triples search of the right cell ends
with the accepted triple (0, 1, 2), rows 6, 7, 7 found at position 50; the
pairs search then finds the pair (0, 1) at position 50 and the pairs (2, 3),
(4, 5) at position 58, and the record written is the three-pairs record. -/
theorem three_pairs_after_triple :
    ((cell_step first_byte_hash 8 16
        (striped_block [1, 2, 3, 4, 5, 6, 7, 7] [6, 7, 7, 7, 7, 7, 7, 9]) 128 200 0 0
        (ndlz8_vars.init, header_S3)).toOption.bind
      (fun s => (triple_search first_byte_hash s.2 (striped_cell [6, 7, 7, 7, 7, 7, 7, 9])
        s.2.length s.1).toOption.map
          (fun v => (v.triple_match 0, v.triple_match 1, v.triple_match 2,
            v.triple_match 3)))) = some (1, 0, 1, 2) ∧
    ndlz8_compress first_byte_hash ⟨2, 8, 16, 0⟩
        (striped_block [1, 2, 3, 4, 5, 6, 7, 7] [6, 7, 7, 7, 7, 7, 7, 9]) 128 200 =
      ((99 : Int), header_S3 ++ [0] ++ striped_cell [1, 2, 3, 4, 5, 6, 7, 7] ++
        le24 (((33 <<< 18) ||| (0 <<< 15) ||| (1 <<< 12) ||| (2 <<< 9) ||| (3 <<< 6) |||
          (4 <<< 3) ||| 5) % 4294967296) ++
        le16 (74 - 50) ++ le16 (74 - 58) ++ le16 (74 - 58) ++
        rows_where (striped_cell [6, 7, 7, 7, 7, 7, 7, 9])
          (fun l => decide (l ≠ 0 ∧ l ≠ 1 ∧ l ≠ 2 ∧ l ≠ 3 ∧ l ≠ 4 ∧ l ≠ 5))) := by
  decide!

/-! ## The rows that the records reference -/

theorem rd_zero_self (l : List Nat) (n : Nat) (h : l.length = n) : rd l 0 n = l := by
  subst h
  apply List.ext_getElem
  · simp [rd]
  · intro k h1 h2
    simp [rd, List.getD_eq_getElem?_getD, List.getElem?_eq_getElem h2]

theorem rd_eq_drop_take (l : List Nat) (p n : Nat) (h : p + n ≤ l.length) :
    rd l p n = (l.drop p).take n := by
  apply List.ext_getElem
  · simp [rd]
    omega
  · intro k h1 h2
    simp [rd] at h1
    have : p + k < l.length := by omega
    simp [rd, List.getD_eq_getElem?_getD, List.getElem?_eq_getElem this]

theorem found_of_same (buf out : List Nat) (p n : Nat)
    (hs : same_bytes buf out p n = true) (hl : buf.length = n) (hp : p + n ≤ out.length) :
    found_at out p buf := by
  unfold same_bytes at hs
  rw [beq_iff_eq, rd_zero_self buf n hl, rd_eq_drop_take out p n hp] at hs
  exact ⟨by omega, by rw [hl]; exact hs.symm⟩

theorem loop_inv_prefix {α σ ρ : Type} (body : α → σ → Except ρ σ) (Q : ρ → Prop)
    (P : List α → σ → Prop) (l : List α)
    (h : ∀ done a rest, l = done ++ a :: rest → ∀ s, P done s →
      outcome Q (P (done ++ [a])) (body a s)) :
    ∀ s, P [] s → outcome Q (P l) (loop body l s) := by
  have key : ∀ rest done, l = done ++ rest → ∀ s, P done s →
      outcome Q (P l) (loop body rest s) := by
    intro rest
    induction rest with
    | nil =>
      intro done hl s hs
      rw [List.append_nil] at hl
      subst hl
      exact hs
    | cons a as ih =>
      intro done hl s hs
      have ha := h done a as hl s hs
      simp only [loop]
      cases hb : body a s with
      | error r => rw [hb] at ha; exact ha
      | ok s' =>
        rw [hb] at ha
        exact ih (done ++ [a]) (by rw [hl]; simp) s' ha
  intro s hs
  exact key l [] rfl s hs

theorem pair_indices_sorted : (pair_indices 0).Pairwise scan_order := by
  unfold scan_order
  decide

theorem same_of_accepted (same : Bool) (d : Nat)
    (h : accepted (if same = true then d else 0) = true) : same = true := by
  rw [accepted_iff] at h
  split_ifs at h with hs
  · exact hs
  · exact absurd rfl h.1

theorem same_of_accepted_guarded (c : Prop) [Decidable c] (sb : Bool) (d : Nat)
    (h : accepted (if (if c then sb else false) = true then d else 0) = true) :
    c ∧ sb = true ∧ accepted (if sb = true then d else 0) = true := by
  have hs := same_of_accepted _ _ h
  by_cases hc : c
  · rw [if_pos hc] at hs h
    exact ⟨hc, hs, h⟩
  · rw [if_neg hc] at hs
    exact absurd hs (by decide)

theorem pair_passes_iff (XXH32 : List Nat → Nat → Nat) (out buf_cell : List Nat)
    (anchor : Nat) (tab : Nat → Nat) (c : Nat × Nat) :
    pair_passes XXH32 out buf_cell anchor tab c = true ↔
      tab (hash12 XXH32 (cell_row buf_cell c.1 ++ cell_row buf_cell c.2)) ≠ 0 ∧
      accepted (if same_bytes (cell_row buf_cell c.1 ++ cell_row buf_cell c.2) out
          (tab (hash12 XXH32 (cell_row buf_cell c.1 ++ cell_row buf_cell c.2))) 16 = true
        then u32 ((anchor : Int) + (c.1 : Int) * 8 -
          (tab (hash12 XXH32 (cell_row buf_cell c.1 ++ cell_row buf_cell c.2)) : Int))
        else 0) = true := by
  unfold pair_passes
  simp only [Bool.and_eq_true, decide_eq_true_eq]

/-- A pair that passes the match test: its entry is near, the offset written
is exact, and the 16 bytes at the entry are the two rows. -/
theorem pair_passes_facts (XXH32 : List Nat → Nat → Nat) (out buf_cell : List Nat)
    (tab : Nat → Nat) (c : Nat × Nat)
    (hT : ∀ h, tab h ≠ 0 → tab h + 16 ≤ out.length)
    (hA : out.length + 56 < 4294967296) (hc : c.1 < 8)
    (h : pair_passes XXH32 out buf_cell out.length tab c = true) :
    entry_near out.length (tab (hash12 XXH32 (cell_row buf_cell c.1 ++ cell_row buf_cell c.2))) ∧
    u16 ((out.length : Int) -
      (tab (hash12 XXH32 (cell_row buf_cell c.1 ++ cell_row buf_cell c.2)) : Int)) =
      out.length - tab (hash12 XXH32 (cell_row buf_cell c.1 ++ cell_row buf_cell c.2)) ∧
    found_at out (tab (hash12 XXH32 (cell_row buf_cell c.1 ++ cell_row buf_cell c.2)))
      (cell_row buf_cell c.1 ++ cell_row buf_cell c.2) := by
  rw [pair_passes_iff] at h
  obtain ⟨h0, h2⟩ := h
  have hp := hT _ h0
  obtain ⟨hn, hu⟩ := near_of_accepted_row out.length _ c.1 _ h0 (by omega) (by omega) h2
  refine ⟨hn, hu, found_of_same _ _ _ 16 (same_of_accepted _ _ h2) ?_ hp⟩
  simp [length_cell_row]

/-- The rows of `range n` that are not in a list of `m` distinct rows below
`n`: there are `n - m` of them. -/
theorem length_filter_not_mem (n : Nat) (l : List Nat) (hd : l.Nodup) (hl : ∀ x ∈ l, x < n) :
    ((List.range n).filter (fun x => decide (x ∉ l))).length + l.length = n := by
  have h1 : ((List.range n).filter (fun x => decide (x ∉ l))).length =
      ((Finset.range n).filter (fun x => x ∉ l.toFinset)).card := by
    rw [← List.toFinset_card_of_nodup ((List.nodup_range n).filter _)]
    congr 1
    ext x
    simp
  have h2 : l.length = ((Finset.range n).filter (fun x => x ∈ l.toFinset)).card := by
    rw [← List.toFinset_card_of_nodup hd]
    congr 1
    ext x
    simp only [List.mem_toFinset, Finset.mem_filter, Finset.mem_range]
    exact ⟨fun h => ⟨hl x h, h⟩, fun h => h.2⟩
  rw [h1, h2, Nat.add_comm, Finset.filter_card_add_filter_neg_card_eq_card, Finset.card_range]

theorem length_rows_six (b : List Nat) (i j : Nat) (hij : i < j) (hj : j < 8) :
    (rows_where b (fun k => decide (k ≠ i ∧ k ≠ j))).length = 48 := by
  rw [length_rows_where]
  have h := length_filter_not_mem 8 [i, j] (by simp; omega) (by simp; omega)
  have e : (fun k => decide (k ≠ i ∧ k ≠ j)) = (fun x => decide (x ∉ [i, j])) := by
    funext k
    simp
  rw [e]
  simp only [List.length_cons, List.length_nil] at h
  omega

theorem length_rows_two (b : List Nat) (i j k i_ j_ k_ : Nat)
    (hd : [i, j, k, i_, j_, k_].Nodup) (hl : ∀ x ∈ [i, j, k, i_, j_, k_], x < 8) :
    (rows_where b (fun l => decide
      (l ≠ i ∧ l ≠ j ∧ l ≠ k ∧ l ≠ i_ ∧ l ≠ j_ ∧ l ≠ k_))).length = 16 := by
  rw [length_rows_where]
  have h := length_filter_not_mem 8 [i, j, k, i_, j_, k_] hd hl
  have e : (fun l => decide (l ≠ i ∧ l ≠ j ∧ l ≠ k ∧ l ≠ i_ ∧ l ≠ j_ ∧ l ≠ k_)) =
      (fun x => decide (x ∉ [i, j, k, i_, j_, k_])) := by
    funext l
    simp
  rw [e]
  simp only [List.length_cons, List.length_nil] at h
  omega

/-! ## The searches of a cell: what the records name -/

theorem six_body_checked (XXH32 : List Nat → Nat → Nat) (out buf_cell : List Nat)
    (ij : Nat × Nat) (v0 v : ndlz8_vars)
    (hT : ∀ p len, table_entry v0 p len → p ≠ 0 → p + len ≤ out.length)
    (hA : out.length + 56 < 4294967296) (hij : ij ∈ pair_indices 0)
    (hv : same_tables v0 v) :
    outcome (fun r : List Nat × ndlz8_vars => ∃ i j p,
        r.1 = record_bytes buf_cell out.length (match_record.six_rows i j p) ∧
        checked XXH32 out buf_cell v0.tab_pair (match_record.six_rows i j p))
      (fun v' : ndlz8_vars => same_tables v0 v')
      (six_body XXH32 out buf_cell out.length ij v) := by
  unfold six_body
  simp only
  refine outcome_ite (fun h1 => outcome_ite (fun h2 => ?_) (fun _ => hv))
    (fun _ => outcome_ite (fun _ => hv) (fun _ => hv))
  have hb := mem_pair_indices.mp hij
  have ht : table_entry v0 (v.tab_6 (hash12 XXH32
      (rows_where buf_cell (fun k => decide (k ≠ ij.1 ∧ k ≠ ij.2))))) 48 :=
    Or.inr (Or.inl ⟨rfl, _, (congrFun hv.2.1 _).symm⟩)
  have hp := hT _ 48 ht h1
  obtain ⟨hn, hu⟩ := near_of_accepted out.length _ _ h1 (by omega) (by omega) h2
  have hl := length_rows_six buf_cell ij.1 ij.2 hb.2.1 hb.2.2
  have hf := found_of_same _ _ _ 48 (same_of_accepted _ _ h2) hl hp
  simp only [outcome]
  rw [hu]
  exact ⟨ij.1, ij.2, _, rfl, hn, ⟨hb.2.1, hb.2.2, hl, hf⟩, trivial, trivial, trivial⟩

theorem triple2_body_checked (XXH32 : List Nat → Nat → Nat) (out buf_cell : List Nat)
    (tab : Nat → Nat) (i j k offset p : Nat) (v0 v : ndlz8_vars)
    (c : Nat × Nat × Nat) (s : (List Nat × List Nat × List Nat) × Bool)
    (hT : ∀ p len, table_entry v0 p len → p ≠ 0 → p + len ≤ out.length)
    (hA : out.length + 56 < 4294967296) (htab : tab = v0.tab_triple)
    (hijk : i < j ∧ j < k ∧ k < 8) (hc : c ∈ triple_indices (i + 1))
    (hp : entry_near out.length p) (hoff : offset = out.length - p) :
    outcome (fun r : List Nat × ndlz8_vars => ∃ i j k i_ j_ k_ p p_2,
        r.1 = record_bytes buf_cell out.length
          (match_record.two_triples i j k i_ j_ k_ p p_2) ∧
        checked XXH32 out buf_cell v0.tab_pair
          (match_record.two_triples i j k i_ j_ k_ p p_2))
      (fun _ : (List Nat × List Nat × List Nat) × Bool => True)
      (triple2_body XXH32 out buf_cell out.length tab i j k offset v c s) := by
  unfold triple2_body
  simp only
  refine outcome_ite (fun hf => outcome_ite (fun h2 => ?_) (fun _ => trivial))
    (fun _ => trivial)
  subst htab
  have hb := mem_triple_indices.mp hc
  obtain ⟨h0, hsb, h3⟩ := same_of_accepted_guarded _ _ _ h2
  have hs : same_bytes (triple_bytes
      (cell_row buf_cell c.1, cell_row buf_cell c.2.1, cell_row buf_cell c.2.2)) out
      (v0.tab_triple (hash12 XXH32 (triple_bytes
        (cell_row buf_cell c.1, cell_row buf_cell c.2.1, cell_row buf_cell c.2.2)))) 24 = true := by
    rw [Bool.and_eq_true] at hsb
    exact hsb.2
  have ht : table_entry v0 (v0.tab_triple (hash12 XXH32 (triple_bytes
      (cell_row buf_cell c.1, cell_row buf_cell c.2.1, cell_row buf_cell c.2.2)))) 24 :=
    Or.inr (Or.inr (Or.inl ⟨rfl, _, rfl⟩))
  have hq := hT _ 24 ht h0
  obtain ⟨hn, hu⟩ := near_of_accepted_row out.length _ c.1 _ h0 (by omega) (by omega) h3
  have hf2 := found_of_same _ _ _ 24 hs (by simp [triple_bytes, length_cell_row]) hq
  have hd : [i, j, k, c.1, c.2.1, c.2.2].Nodup := by
    simp only [List.nodup_cons, List.mem_cons, List.mem_singleton, List.not_mem_nil,
      List.nodup_nil, not_or, or_false, not_false_eq_true, and_true]
    omega
  have hl8 : ∀ x ∈ [i, j, k, c.1, c.2.1, c.2.2], x < 8 := by
    intro x hx
    simp only [List.mem_cons, List.mem_singleton, List.not_mem_nil, or_false] at hx
    omega
  simp only [outcome]
  rw [hu, hoff]
  refine ⟨i, j, k, c.1, c.2.1, c.2.2, p, _, rfl, ⟨hp, hn⟩, trivial,
    ⟨hijk.1, hijk.2.1, hijk.2.2, hb.2.1, hb.2.2.1, hb.2.2.2, ?_, hd,
      length_rows_two buf_cell _ _ _ _ _ _ hd hl8⟩, trivial, trivial⟩
  simp only [triple_bytes] at hf2
  exact hf2

theorem triple_body_checked (XXH32 : List Nat → Nat → Nat) (out buf_cell : List Nat)
    (i j k : Nat) (v0 v : ndlz8_vars)
    (hT : ∀ p len, table_entry v0 p len → p ≠ 0 → p + len ≤ out.length)
    (hA : out.length + 56 < 4294967296) (hijk : i < j ∧ j < k ∧ k < 8)
    (hP : same_tables v0 v ∧
      (v.triple_match 0 = 1 → v.literal = false ∧
        v.triple_match 1 < v.triple_match 2 ∧ v.triple_match 2 < v.triple_match 3 ∧
        v.triple_match 3 < 8 ∧ entry_near out.length (v0.tab_triple (v.triple_match 4)))) :
    outcome (fun r : List Nat × ndlz8_vars => ∃ i j k i_ j_ k_ p p_2,
        r.1 = record_bytes buf_cell out.length
          (match_record.two_triples i j k i_ j_ k_ p p_2) ∧
        checked XXH32 out buf_cell v0.tab_pair
          (match_record.two_triples i j k i_ j_ k_ p p_2))
      (fun v' : ndlz8_vars => same_tables v0 v' ∧
        (v'.triple_match 0 = 1 → v'.literal = false ∧
          v'.triple_match 1 < v'.triple_match 2 ∧ v'.triple_match 2 < v'.triple_match 3 ∧
          v'.triple_match 3 < 8 ∧ entry_near out.length (v0.tab_triple (v'.triple_match 4))))
      (triple_body XXH32 out buf_cell out.length i j k v) := by
  unfold triple_body
  simp only
  refine outcome_ite (fun h1 => outcome_ite (fun h2 => ?_) (fun _ => hP))
    (fun _ => outcome_ite (fun _ => hP) (fun _ => hP))
  have ht : table_entry v0 (v.tab_triple (hash12 XXH32 (triple_bytes
      (v.buf_triple.1, v.buf_triple.2.1, cell_row buf_cell k)))) 24 :=
    Or.inr (Or.inr (Or.inl ⟨rfl, _, (congrFun hP.1.2.2.1 _).symm⟩))
  have hq := hT _ 24 ht h1
  obtain ⟨hn, hu⟩ := near_of_accepted_row out.length _ i _ h1 (by omega) (by omega) h2
  refine outcome_map _ _ (loop_inv _ _ (fun _ => True) _
    (fun c hc s _ => triple2_body_checked XXH32 out buf_cell _ i j k _ _ v0 _ c s
      hT hA hP.1.2.2.1 hijk hc hn hu) _ trivial) ?_
  intro s _
  refine ⟨hP.1, fun _ => ⟨rfl, hijk.1, hijk.2.1, hijk.2.2, ?_⟩⟩
  show entry_near out.length (v0.tab_triple (hash12 XXH32 (triple_bytes
      (v.buf_triple.1, v.buf_triple.2.1, cell_row buf_cell k))))
  rw [← congrFun hP.1.2.2.1 _]
  exact hn

theorem triple_search_checked (XXH32 : List Nat → Nat → Nat) (out buf_cell : List Nat)
    (v0 v : ndlz8_vars)
    (hT : ∀ p len, table_entry v0 p len → p ≠ 0 → p + len ≤ out.length)
    (hA : out.length + 56 < 4294967296) (hv : same_tables v0 v) :
    outcome (fun r : List Nat × ndlz8_vars => ∃ i j k i_ j_ k_ p p_2,
        r.1 = record_bytes buf_cell out.length
          (match_record.two_triples i j k i_ j_ k_ p p_2) ∧
        checked XXH32 out buf_cell v0.tab_pair
          (match_record.two_triples i j k i_ j_ k_ p p_2))
      (fun v' : ndlz8_vars => same_tables v0 v' ∧
        (v'.triple_match 0 = 1 → v'.literal = false ∧
          v'.triple_match 1 < v'.triple_match 2 ∧ v'.triple_match 2 < v'.triple_match 3 ∧
          v'.triple_match 3 < 8 ∧ entry_near out.length (v0.tab_triple (v'.triple_match 4))))
      (triple_search XXH32 out buf_cell out.length v) := by
  unfold triple_search
  refine loop_inv _ _ _ _ ?_ _ ⟨hv, fun h => absurd h (by simp [setAt])⟩
  intro i hi v1 h1
  rw [mem_for_range] at hi
  refine loop_inv _ _ _ _ ?_ _ h1
  intro j hj v2 h2
  rw [mem_for_range] at hj
  refine loop_inv _ _ _ _ ?_ _ h2
  intro k hk v3 h3
  rw [mem_for_range] at hk
  exact triple_body_checked XXH32 out buf_cell i j k v0 v3 hT hA (by omega) h3

theorem pair_scanned_tables (XXH32 : List Nat → Nat → Nat) (out buf_cell : List Nat)
    (v0 v : ndlz8_vars) (done : List (Nat × Nat))
    (h : pair_scanned XXH32 out buf_cell v0 done v) : same_tables v0 v ∧ triple_kept out v0 v := by
  rcases h with h | ⟨_, _, _, _, _, _, h⟩
  · exact ⟨h.1, h.2.1⟩
  · exact ⟨h.1, h.2.1⟩

theorem pair_scanned_step (XXH32 : List Nat → Nat → Nat) (out buf_cell : List Nat)
    (v0 v : ndlz8_vars) (done : List (Nat × Nat)) (x : Nat × Nat)
    (hx : pair_passes XXH32 out buf_cell out.length v0.tab_pair x = false)
    (h : pair_scanned XXH32 out buf_cell v0 done v) :
    pair_scanned XXH32 out buf_cell v0 (done ++ [x]) v := by
  rcases h with ⟨h1, h2, h3, h4⟩ | ⟨l1, y, l2, e, hy, hl, hs⟩
  · left
    refine ⟨h1, h2, h3, fun z hz => ?_⟩
    rcases List.mem_append.mp hz with hz | hz
    · exact h4 z hz
    · rw [List.mem_singleton.mp hz]
      exact hx
  · right
    refine ⟨l1, y, l2 ++ [x], by rw [e]; simp, hy, fun z hz => ?_, hs⟩
    rcases List.mem_append.mp hz with hz | hz
    · exact hl z hz
    · rw [List.mem_singleton.mp hz]
      exact hx

theorem pair3_body_checked (XXH32 : List Nat → Nat → Nat) (out buf_cell : List Nat)
    (x c : Nat × Nat) (offset offset_2 : Nat) (c3 : Nat × Nat) (v0 v : ndlz8_vars)
    (hT : ∀ p len, table_entry v0 p len → p ≠ 0 → p + len ≤ out.length)
    (hA : out.length + 56 < 4294967296)
    (hx : x ∈ pair_indices 0) (hc : c ∈ pair_indices (x.1 + 1))
    (hc3 : c3 ∈ pair_indices (c.1 + 1))
    (hpx : pair_passes XXH32 out buf_cell out.length v0.tab_pair x = true)
    (hpc : pair_passes XXH32 out buf_cell out.length v0.tab_pair c = true)
    (hoff : offset = out.length -
      v0.tab_pair (hash12 XXH32 (cell_row buf_cell x.1 ++ cell_row buf_cell x.2)))
    (hoff2 : offset_2 = out.length -
      v0.tab_pair (hash12 XXH32 (cell_row buf_cell c.1 ++ cell_row buf_cell c.2)))
    (P : ndlz8_vars → Prop) (hP : same_tables v0 v ∧ P v) :
    outcome (fun r : List Nat × ndlz8_vars => ∃ i j i_ j_ i__ j__ p p_2 p_3,
        r.1 = record_bytes buf_cell out.length
          (match_record.three_pairs i j i_ j_ i__ j__ p p_2 p_3) ∧
        checked XXH32 out buf_cell v0.tab_pair
          (match_record.three_pairs i j i_ j_ i__ j__ p p_2 p_3))
      (fun v' : ndlz8_vars => same_tables v0 v' ∧ P v')
      (pair3_body XXH32 out buf_cell out.length x.1 x.2 c.1 c.2 offset offset_2 c3 v) := by
  unfold pair3_body
  simp only
  rw [show v.tab_pair = v0.tab_pair from hP.1.2.2.2]
  refine outcome_ite (fun _ => outcome_ite (fun h2 => ?_) (fun _ => hP)) (fun _ => hP)
  obtain ⟨h0, _, h3⟩ := same_of_accepted_guarded _ _ _ h2
  have hT2 : ∀ h, v0.tab_pair h ≠ 0 → v0.tab_pair h + 16 ≤ out.length :=
    fun h hh => hT _ 16 (Or.inr (Or.inr (Or.inr ⟨rfl, h, rfl⟩))) hh
  have bx := mem_pair_indices.mp hx
  have bc := mem_pair_indices.mp hc
  have bc3 := mem_pair_indices.mp hc3
  have hpc3 : pair_passes XXH32 out buf_cell out.length v0.tab_pair c3 = true :=
    (pair_passes_iff XXH32 out buf_cell out.length v0.tab_pair c3).mpr ⟨h0, h3⟩
  obtain ⟨n1, _, f1⟩ := pair_passes_facts XXH32 out buf_cell v0.tab_pair x hT2 hA (by omega) hpx
  obtain ⟨n2, _, f2⟩ := pair_passes_facts XXH32 out buf_cell v0.tab_pair c hT2 hA (by omega) hpc
  obtain ⟨n3, u3, f3⟩ :=
    pair_passes_facts XXH32 out buf_cell v0.tab_pair c3 hT2 hA (by omega) hpc3
  simp only [outcome]
  rw [u3, hoff, hoff2]
  exact ⟨x.1, x.2, c.1, c.2, c3.1, c3.2, _, _, _, rfl, ⟨n1, n2, n3⟩,
    ⟨bx.2.1, bx.2.2, bc.2.1, bc.2.2, bc3.2.1, bc3.2.2, f1, f2, f3⟩, trivial, trivial, trivial⟩

theorem pair2_body_checked (XXH32 : List Nat → Nat → Nat) (out buf_cell : List Nat)
    (x : Nat × Nat) (offset : Nat) (c : Nat × Nat) (v0 v : ndlz8_vars)
    (hT : ∀ p len, table_entry v0 p len → p ≠ 0 → p + len ≤ out.length)
    (hA : out.length + 56 < 4294967296)
    (hx : x ∈ pair_indices 0) (hc : c ∈ pair_indices (x.1 + 1))
    (hpx : pair_passes XXH32 out buf_cell out.length v0.tab_pair x = true)
    (hoff : offset = out.length -
      v0.tab_pair (hash12 XXH32 (cell_row buf_cell x.1 ++ cell_row buf_cell x.2)))
    (hP : pair_stored XXH32 out buf_cell v0 x v) :
    outcome (fun r : List Nat × ndlz8_vars => ∃ i j i_ j_ i__ j__ p p_2 p_3,
        r.1 = record_bytes buf_cell out.length
          (match_record.three_pairs i j i_ j_ i__ j__ p p_2 p_3) ∧
        checked XXH32 out buf_cell v0.tab_pair
          (match_record.three_pairs i j i_ j_ i__ j__ p p_2 p_3))
      (fun v' : ndlz8_vars => pair_stored XXH32 out buf_cell v0 x v')
      (pair2_body XXH32 out buf_cell out.length x.1 x.2 offset c v) := by
  unfold pair2_body
  simp only
  rw [show v.tab_pair = v0.tab_pair from hP.1.2.2.2]
  refine outcome_ite (fun _ => outcome_ite (fun h2 => ?_) (fun _ => hP)) (fun _ => hP)
  obtain ⟨h0, _, h3⟩ := same_of_accepted_guarded _ _ _ h2
  have hT2 : ∀ h, v0.tab_pair h ≠ 0 → v0.tab_pair h + 16 ≤ out.length :=
    fun h hh => hT _ 16 (Or.inr (Or.inr (Or.inr ⟨rfl, h, rfl⟩))) hh
  have bc := mem_pair_indices.mp hc
  have hpc : pair_passes XXH32 out buf_cell out.length v0.tab_pair c = true :=
    (pair_passes_iff XXH32 out buf_cell out.length v0.tab_pair c).mpr ⟨h0, h3⟩
  obtain ⟨_, u2, _⟩ := pair_passes_facts XXH32 out buf_cell v0.tab_pair c hT2 hA (by omega) hpc
  refine outcome_mono (fun _ h => h) (fun s hs => hs.2) _ (loop_inv _ _
    (fun s => same_tables v0 s ∧ pair_stored XXH32 out buf_cell v0 x s) _
    (fun c3 hc3 s hs => pair3_body_checked XXH32 out buf_cell x c offset _ c3 v0 s
      hT hA hx hc hc3 hpx hpc hoff u2 _ hs) _ ?_)
  obtain ⟨a1, a2, a3, a4, a5, _⟩ := hP
  exact ⟨⟨a1.1, a1.2.1, a1.2.2.1, rfl⟩, ⟨a1.1, a1.2.1, a1.2.2.1, rfl⟩, a2, a3, a4, a5,
    Or.inr ⟨rfl, c, hc, hpc⟩⟩

theorem pair_body_checked (XXH32 : List Nat → Nat → Nat) (out buf_cell : List Nat)
    (x : Nat × Nat) (done : List (Nat × Nat)) (v0 v : ndlz8_vars)
    (hT : ∀ p len, table_entry v0 p len → p ≠ 0 → p + len ≤ out.length)
    (hA : out.length + 56 < 4294967296) (hx : x ∈ pair_indices 0)
    (hP : pair_scanned XXH32 out buf_cell v0 done v) :
    outcome (fun r : List Nat × ndlz8_vars => ∃ i j i_ j_ i__ j__ p p_2 p_3,
        r.1 = record_bytes buf_cell out.length
          (match_record.three_pairs i j i_ j_ i__ j__ p p_2 p_3) ∧
        checked XXH32 out buf_cell v0.tab_pair
          (match_record.three_pairs i j i_ j_ i__ j__ p p_2 p_3))
      (fun v' : ndlz8_vars => pair_scanned XXH32 out buf_cell v0 (done ++ [x]) v')
      (pair_body XXH32 out buf_cell out.length x v) := by
  obtain ⟨hst, htk⟩ := pair_scanned_tables XXH32 out buf_cell v0 v done hP
  have hT2 : ∀ h, v0.tab_pair h ≠ 0 → v0.tab_pair h + 16 ≤ out.length :=
    fun h hh => hT _ 16 (Or.inr (Or.inr (Or.inr ⟨rfl, h, rfl⟩))) hh
  have bx := mem_pair_indices.mp hx
  have etab : v.tab_pair = v0.tab_pair := hst.2.2.2
  unfold pair_body
  simp only
  refine outcome_ite (fun h1 => outcome_ite (fun h2 => ?_) (fun h2 => ?_))
    (fun h1 => outcome_ite (fun _ => ?_) (fun _ => ?_))
  · have hpx : pair_passes XXH32 out buf_cell out.length v0.tab_pair x = true := by
      rw [← etab]
      exact (pair_passes_iff XXH32 out buf_cell out.length v.tab_pair x).mpr ⟨h1, h2⟩
    obtain ⟨_, u1, _⟩ :=
      pair_passes_facts XXH32 out buf_cell v0.tab_pair x hT2 hA (by omega) hpx
    refine outcome_mono (fun _ h => h)
      (fun s hs => Or.inr ⟨done, x, [], rfl, hpx, fun y hy => absurd hy (List.not_mem_nil _), hs⟩)
      _ (loop_inv _ _ (fun s => pair_stored XXH32 out buf_cell v0 x s) _
        (fun c hc s hs => pair2_body_checked XXH32 out buf_cell x _ c v0 s
          hT hA hx hc hpx (by rw [etab]; exact u1) hs) _ ?_)
    exact ⟨⟨hst.1, hst.2.1, hst.2.2.1, hst.2.2.2⟩,
      fun h => ⟨rfl, (htk h).2⟩, rfl, rfl, rfl, Or.inl rfl⟩
  · have hpx : pair_passes XXH32 out buf_cell out.length v0.tab_pair x = false := by
      rw [Bool.eq_false_iff, ← etab]
      intro h
      exact h2 ((pair_passes_iff XXH32 out buf_cell out.length v.tab_pair x).mp h).2
    exact pair_scanned_step XXH32 out buf_cell v0 v done x hpx hP
  · have hpx : pair_passes XXH32 out buf_cell out.length v0.tab_pair x = false := by
      rw [Bool.eq_false_iff, ← etab]
      intro h
      exact h1 ((pair_passes_iff XXH32 out buf_cell out.length v.tab_pair x).mp h).1
    exact pair_scanned_step XXH32 out buf_cell v0 _ done x hpx hP
  · have hpx : pair_passes XXH32 out buf_cell out.length v0.tab_pair x = false := by
      rw [Bool.eq_false_iff, ← etab]
      intro h
      exact h1 ((pair_passes_iff XXH32 out buf_cell out.length v.tab_pair x).mp h).1
    exact pair_scanned_step XXH32 out buf_cell v0 v done x hpx hP

theorem pair_search_checked (XXH32 : List Nat → Nat → Nat) (out buf_cell : List Nat)
    (v0 v : ndlz8_vars)
    (hT : ∀ p len, table_entry v0 p len → p ≠ 0 → p + len ≤ out.length)
    (hA : out.length + 56 < 4294967296)
    (hP : same_tables v0 v ∧ triple_kept out v0 v) :
    outcome (fun r : List Nat × ndlz8_vars => ∃ i j i_ j_ i__ j__ p p_2 p_3,
        r.1 = record_bytes buf_cell out.length
          (match_record.three_pairs i j i_ j_ i__ j__ p p_2 p_3) ∧
        checked XXH32 out buf_cell v0.tab_pair
          (match_record.three_pairs i j i_ j_ i__ j__ p p_2 p_3))
      (fun v' : ndlz8_vars => pair_scanned XXH32 out buf_cell v0 (pair_indices 0) v')
      (loop (pair_body XXH32 out buf_cell out.length) (pair_indices 0)
        { v with pair_matches := setAt v.pair_matches 0 0 }) := by
  refine loop_inv_prefix _ _ (pair_scanned XXH32 out buf_cell v0) _ ?_ _ ?_
  · intro done a rest hl s hs
    exact pair_body_checked XXH32 out buf_cell a done v0 s hT hA
      (by rw [hl]; simp) hs
  · exact Or.inl ⟨hP.1, hP.2, by simp [setAt], fun y hy => absurd hy (List.not_mem_nil _)⟩

/-- At the end of the pairs search no second pair is stored, and the pair
stored passes the match test and is the last one to pass it. -/
theorem pair_scanned_last (XXH32 : List Nat → Nat → Nat) (out buf_cell : List Nat)
    (v0 v : ndlz8_vars) (h : pair_scanned XXH32 out buf_cell v0 (pair_indices 0) v) :
    v.pair_matches 0 ≠ 2 ∧
    (v.pair_matches 0 = 1 →
      (v.pair_matches 1, v.pair_matches 2) ∈ pair_indices 0 ∧
      pair_passes XXH32 out buf_cell out.length v0.tab_pair
        (v.pair_matches 1, v.pair_matches 2) = true ∧
      v.pair_matches 3 = hash12 XXH32 (cell_row buf_cell (v.pair_matches 1) ++
        cell_row buf_cell (v.pair_matches 2)) ∧
      ∀ c ∈ pair_indices 0, pair_passes XXH32 out buf_cell out.length v0.tab_pair c = true →
        c = (v.pair_matches 1, v.pair_matches 2) ∨
        scan_order c (v.pair_matches 1, v.pair_matches 2)) := by
  rcases h with ⟨_, _, h3, _⟩ | ⟨l1, x, l2, e, hx, hl, _, _, m1, m2, m3, m0⟩
  · exact ⟨by omega, fun h => by omega⟩
  · have hsort := pair_indices_sorted
    rw [e, List.pairwise_append] at hsort
    obtain ⟨_, _, hlt⟩ := hsort
    have hmem : ∀ c ∈ pair_indices 0,
        pair_passes XXH32 out buf_cell out.length v0.tab_pair c = true →
        c = x ∨ scan_order c x := by
      intro c hc hpc
      rw [e] at hc
      rcases List.mem_append.mp hc with hc | hc
      · exact Or.inr (hlt c hc x (List.mem_cons_self _ _))
      · rcases List.mem_cons.mp hc with hc | hc
        · exact Or.inl hc
        · rw [hl c hc] at hpc
          exact absurd hpc (by decide)
    have hxm : x ∈ pair_indices 0 := by rw [e]; simp
    have ex : (v.pair_matches 1, v.pair_matches 2) = x := by rw [m1, m2]
    constructor
    · intro h2
      rcases m0 with m0 | ⟨_, y, hy, hpy⟩
      · omega
      · have by1 := mem_pair_indices.mp hy
        rcases hmem y (mem_pair_indices.mpr ⟨by omega, by1.2.1, by1.2.2⟩) hpy with h | h
        · rw [h] at by1
          omega
        · unfold scan_order at h
          omega
    · intro _
      rw [ex]
      refine ⟨hxm, hx, ?_, hmem⟩
      rw [m3, m1, m2]

theorem emit_matches_checked (XXH32 : List Nat → Nat → Nat) (out buf_cell : List Nat)
    (v0 v : ndlz8_vars)
    (hT : ∀ p len, table_entry v0 p len → p ≠ 0 → p + len ≤ out.length)
    (hA : out.length + 56 < 4294967296)
    (hS : pair_scanned XXH32 out buf_cell v0 (pair_indices 0) v) :
    (∃ m, emit_matches buf_cell out.length v = record_bytes buf_cell out.length m ∧
      checked XXH32 out buf_cell v0.tab_pair m ∧
      (v.triple_match 0 = 1 → triple_accepted_class m)) ∨
    (emit_matches buf_cell out.length v = [] ∧ v.triple_match 0 ≠ 1) := by
  obtain ⟨⟨_, _, t3, t4⟩, htk⟩ := pair_scanned_tables XXH32 out buf_cell v0 v _ hS
  obtain ⟨hne2, hlast⟩ := pair_scanned_last XXH32 out buf_cell v0 v hS
  have hT2 : ∀ h, v0.tab_pair h ≠ 0 → v0.tab_pair h + 16 ≤ out.length :=
    fun h hh => hT _ 16 (Or.inr (Or.inr (Or.inr ⟨rfl, h, rfl⟩))) hh
  unfold emit_matches
  simp only
  rw [t3, t4]
  split_ifs with c1 c2 c3
  · exact absurd c1 hne2
  · left
    obtain ⟨_, b1, b2, b3, n1⟩ := htk c2
    rw [u16_of_near _ _ n1]
    exact ⟨match_record.one_triple _ _ _ _, rfl, ⟨n1, trivial, trivial, trivial, trivial⟩,
      fun _ => trivial⟩
  · left
    obtain ⟨hm, hp, m3, hl⟩ := hlast c3
    have bx := mem_pair_indices.mp hm
    obtain ⟨n1, u1, f1⟩ := pair_passes_facts XXH32 out buf_cell v0.tab_pair _ hT2 hA
      (show (v.pair_matches 1, v.pair_matches 2).1 < 8 by have := bx.2.1; have := bx.2.2; omega)
      hp
    rw [m3, u1]
    exact ⟨match_record.one_pair _ _ _, rfl,
      ⟨n1, ⟨bx.2.1, bx.2.2, f1⟩, trivial, ⟨hm, hp, rfl, hl⟩, trivial⟩,
      fun h => absurd h c2⟩
  · right
    exact ⟨rfl, c2⟩

theorem outcome_checked (XXH32 : List Nat → Nat → Nat) (out buf_cell : List Nat)
    (tab : Nat → Nat) (P : ndlz8_vars → Prop)
    (e : Except (List Nat × ndlz8_vars) ndlz8_vars)
    (h : outcome (fun r : List Nat × ndlz8_vars => ∃ m,
        r.1 = record_bytes buf_cell out.length m ∧ checked XXH32 out buf_cell tab m) P e) :
    outcome (fun r : List Nat × ndlz8_vars =>
      r.1 = [] ∨ r.1.head? = some 0 ∨
      ∃ m, r.1 = record_bytes buf_cell out.length m ∧ checked XXH32 out buf_cell tab m)
      P e := by
  cases e with
  | error r => exact Or.inr (Or.inr h)
  | ok s => exact h

/-- The record that the searches of a cell write is empty (never, by its
length), or a literal record, or a match record of which `checked` holds. -/
theorem search_cell_checked (XXH32 : List Nat → Nat → Nat) (out buf_cell : List Nat)
    (hash_cell : Nat) (v : ndlz8_vars)
    (hT : ∀ p len, table_entry v p len → p ≠ 0 → p + len ≤ out.length)
    (hA : out.length + 56 < 4294967296) :
    (search_cell XXH32 out buf_cell hash_cell v).1 = [] ∨
    (search_cell XXH32 out buf_cell hash_cell v).1.head? = some 0 ∨
    ∃ m, (search_cell XXH32 out buf_cell hash_cell v).1 = record_bytes buf_cell out.length m ∧
      checked XXH32 out buf_cell v.tab_pair m := by
  refine search_cell_outcome XXH32 out buf_cell hash_cell v
    (fun r => r.1 = [] ∨ r.1.head? = some 0 ∨
      ∃ m, r.1 = record_bytes buf_cell out.length m ∧
        checked XXH32 out buf_cell v.tab_pair m)
    (fun v' => same_tables v v')
    (fun v' => same_tables v v' ∧ triple_kept out v v')
    (fun v' => pair_scanned XXH32 out buf_cell v (pair_indices 0) v')
    ?_ ?_ ?_ ?_
  · refine outcome_checked XXH32 out buf_cell v.tab_pair _ _ ?_
    refine outcome_mono (fun r hr => ?_) (fun _ h => h) _ (loop_inv _ _ _ _
      (fun ij hij s hs => six_body_checked XXH32 out buf_cell ij v s hT hA hij hs) _
      (same_tables_refl v))
    obtain ⟨i, j, p, h1, h2⟩ := hr
    exact ⟨_, h1, h2⟩
  · intro v1 h1
    refine outcome_checked XXH32 out buf_cell v.tab_pair _ _ ?_
    refine outcome_mono (fun r hr => ?_) (fun _ h => h) _
      (triple_search_checked XXH32 out buf_cell v v1 hT hA h1)
    obtain ⟨i, j, k, i_, j_, k_, p, p_2, h1, h2⟩ := hr
    exact ⟨_, h1, h2⟩
  · intro v2 h2
    refine outcome_checked XXH32 out buf_cell v.tab_pair _ _ ?_
    refine outcome_mono (fun r hr => ?_) (fun _ h => h) _
      (pair_search_checked XXH32 out buf_cell v v2 hT hA h2)
    obtain ⟨i, j, i_, j_, i__, j__, p, p_2, p_3, h1, h2⟩ := hr
    exact ⟨_, h1, h2⟩
  · intro v3 h3
    split_ifs with hl
    · exact Or.inr (Or.inl rfl)
    · rcases emit_matches_checked XXH32 out buf_cell v v3 hT hA h3 with ⟨m, h1, h2, _⟩ | h
      · exact Or.inr (Or.inr ⟨m, h1, h2⟩)
      · exact Or.inl h.1

theorem length_fill_cell (input : List Nat) (cols orig : Nat) :
    (fill_cell input cols orig).length = 64 := by
  unfold fill_cell
  rw [length_flatMap_const _ _ 8 (fun i => length_rd _ _ _)]
  simp

theorem full_cell_checked (XXH32 : List Nat → Nat → Nat) (input : List Nat) (cols : Nat)
    (out : List Nat) (orig : Nat) (v : ndlz8_vars)
    (hT : ∀ p len, table_entry v p len → p ≠ 0 → p + len ≤ out.length)
    (hA : out.length + 56 < 4294967296) :
    (∃ c, (full_cell XXH32 input cols out orig v).1 = [64, c]) ∨
    (full_cell XXH32 input cols out orig v).1.head? = some 0 ∨
    ∃ m, (full_cell XXH32 input cols out orig v).1 =
        record_bytes (fill_cell input cols orig) out.length m ∧
      checked XXH32 out (fill_cell input cols orig) v.tab_pair m := by
  have hlen := full_cell_length XXH32 input cols out orig v
  revert hlen
  unfold full_cell
  simp only
  refine ite_ite_cases (fun r : List Nat × ndlz8_vars =>
    (2 ≤ r.1.length ∧ r.1.length ≤ 65) → ((∃ c, r.1 = [64, c]) ∨ r.1.head? = some 0 ∨
      ∃ m, r.1 = record_bytes (fill_cell input cols orig) out.length m ∧
        checked XXH32 out (fill_cell input cols orig) v.tab_pair m)) _ _ _ _ _ ?_ ?_ ?_
  · intro _ _
    exact Or.inl ⟨_, rfl⟩
  · intro _ _ hlen
    rcases search_cell_checked XXH32 out (fill_cell input cols orig)
        (hash12 XXH32 (fill_cell input cols orig)) v hT hA with h | h | h
    · rw [h] at hlen; simp at hlen
    · exact Or.inr (Or.inl h)
    · exact Or.inr (Or.inr h)
  · intro _ hd _
    have ht : table_entry v (v.tab_cell (hash12 XXH32 (fill_cell input cols orig))) 64 :=
      Or.inl ⟨rfl, _, rfl⟩
    have h0 : v.tab_cell (hash12 XXH32 (fill_cell input cols orig)) ≠ 0 := by
      intro h
      apply hd
      left
      rw [if_pos h]
    rw [if_neg h0] at hd
    have hacc : accepted (if same_bytes (fill_cell input cols orig) out
        (v.tab_cell (hash12 XXH32 (fill_cell input cols orig))) 64 = true
        then u32 ((out.length : Int) - ((v.tab_cell (hash12 XXH32
          (fill_cell input cols orig)) : Nat) : Int)) else 0) = true := by
      rw [accepted_iff]
      simp only [MAX_DISTANCE] at hd
      omega
    have hp := hT _ 64 ht h0
    obtain ⟨hn, hu⟩ := near_of_accepted out.length _ _ h0 (by omega) (by omega) hacc
    have hf := found_of_same _ _ _ 64 (same_of_accepted _ _ hacc)
      (length_fill_cell input cols orig) hp
    simp only
    rw [hu]
    exact Or.inr (Or.inr ⟨match_record.cell_match _, rfl, hn,
      ⟨length_fill_cell input cols orig, hf⟩, trivial, trivial, trivial⟩)

/-- Every record that `encode_cell` writes is an RLE record, or starts with
the token 0 (a literal or padded cell), or is a match record of which
`checked` holds. -/
theorem encode_cell_checked (XXH32 : List Nat → Nat → Nat) (rows cols : Nat)
    (input out : List Nat) (ii0 ii1 : Nat) (v : ndlz8_vars)
    (hT : ∀ p len, table_entry v p len → p ≠ 0 → p + len ≤ out.length)
    (hA : out.length + 56 < 4294967296) :
    (∃ c, (encode_cell XXH32 rows cols input out ii0 ii1 v).1 = [64, c]) ∨
    (encode_cell XXH32 rows cols input out ii0 ii1 v).1.head? = some 0 ∨
    ∃ m, (encode_cell XXH32 rows cols input out ii0 ii1 v).1 =
        record_bytes (fill_cell input cols (ii0 * 8 * cols + ii1 * 8)) out.length m ∧
      checked XXH32 out (fill_cell input cols (ii0 * 8 * cols + ii1 * 8)) v.tab_pair m := by
  unfold encode_cell
  simp only
  split_ifs with hpad
  · exact Or.inr (Or.inl rfl)
  · exact full_cell_checked XXH32 input cols out _ v hT hA

/-- The table entries of a state of the main loop key bytes of the output. -/
theorem written_entries (XXH32 : List Nat → Nat → Nat) (rows cols : Nat) (input : List Nat)
    (length maxout : Int) (header : List Nat) (hh : header.length = 9)
    (s : ndlz8_vars × List Nat) (recs : List (Nat × List Nat))
    (hw : written XXH32 rows cols input length maxout header s recs) :
    ∀ p len, table_entry s.1 p len → p ≠ 0 → p + len ≤ s.2.length := by
  obtain ⟨_, i1, i2⟩ := written_inv XXH32 rows cols input length maxout header
    (by omega) s recs hw
  intro p len hp h0
  obtain ⟨ar, har, ⟨hl, _⟩, h1, h2⟩ := i2 p len hp h0
  obtain ⟨a1, a2, _⟩ := i1 ar har
  omega

theorem pair3_body_triple (XXH32 : List Nat → Nat → Nat) (out buf_cell : List Nat)
    (anchor i j i_ j_ offset offset_2 : Nat) (c : Nat × Nat) (tm : Nat → Nat) (v : ndlz8_vars)
    (hv : v.triple_match = tm) :
    outcome (fun _ : List Nat × ndlz8_vars => True)
      (fun v' : ndlz8_vars => v'.triple_match = tm)
      (pair3_body XXH32 out buf_cell anchor i j i_ j_ offset offset_2 c v) := by
  unfold pair3_body
  simp only
  exact outcome_ite (fun _ => outcome_ite (fun _ => trivial) (fun _ => hv)) (fun _ => hv)

theorem pair2_body_triple (XXH32 : List Nat → Nat → Nat) (out buf_cell : List Nat)
    (anchor i j offset : Nat) (c : Nat × Nat) (tm : Nat → Nat) (v : ndlz8_vars)
    (hv : v.triple_match = tm) :
    outcome (fun _ : List Nat × ndlz8_vars => True)
      (fun v' : ndlz8_vars => v'.triple_match = tm)
      (pair2_body XXH32 out buf_cell anchor i j offset c v) := by
  unfold pair2_body
  simp only
  refine outcome_ite (fun _ => outcome_ite (fun _ => ?_) (fun _ => hv)) (fun _ => hv)
  exact loop_inv _ _ _ _
    (fun c' _ s hs => pair3_body_triple XXH32 out buf_cell anchor i j _ _ _ _ c' tm s hs) _ hv

theorem pair_body_triple (XXH32 : List Nat → Nat → Nat) (out buf_cell : List Nat)
    (anchor : Nat) (ij : Nat × Nat) (tm : Nat → Nat) (v : ndlz8_vars)
    (hv : v.triple_match = tm) :
    outcome (fun _ : List Nat × ndlz8_vars => True)
      (fun v' : ndlz8_vars => v'.triple_match = tm)
      (pair_body XXH32 out buf_cell anchor ij v) := by
  unfold pair_body
  simp only
  refine outcome_ite (fun _ => outcome_ite (fun _ => ?_) (fun _ => hv))
    (fun _ => outcome_ite (fun _ => hv) (fun _ => hv))
  exact loop_inv _ _ _ _
    (fun c _ s hs => pair2_body_triple XXH32 out buf_cell anchor ij.1 ij.2 _ c tm s hs) _ hv

/-- A cell in which a triple match is accepted: the record written is a
two-triples, a one-triple or a three-pairs record. -/
theorem search_cell_triple_class (XXH32 : List Nat → Nat → Nat) (out buf_cell : List Nat)
    (hash_cell : Nat) (v : ndlz8_vars)
    (hT : ∀ p len, table_entry v p len → p ≠ 0 → p + len ≤ out.length)
    (hA : out.length + 56 < 4294967296)
    (hacc : triple_accepted XXH32 out buf_cell v = true) :
    ∃ m, (search_cell XXH32 out buf_cell hash_cell v).1 = record_bytes buf_cell out.length m ∧
      checked XXH32 out buf_cell v.tab_pair m ∧ triple_accepted_class m := by
  unfold triple_accepted at hacc
  unfold search_cell
  simp only at hacc ⊢
  have h6 := loop_inv _ _ _ _
    (fun ij hij s hs => six_body_checked XXH32 out buf_cell ij v s hT hA hij hs)
    { v with literal := true } (same_tables_refl v)
  cases e1 : loop (six_body XXH32 out buf_cell out.length) (pair_indices 0)
      { v with literal := true } with
  | error r =>
    rw [e1] at hacc
    simp at hacc
  | ok v1 =>
    rw [e1] at hacc h6
    simp only at hacc ⊢
    have h3 := triple_search_checked XXH32 out buf_cell v v1 hT hA h6
    cases e2 : triple_search XXH32 out buf_cell out.length v1 with
    | error r =>
      rw [e2] at h3
      obtain ⟨i, j, k, i_, j_, k_, p, p_2, a, b⟩ := h3
      exact ⟨_, a, b, trivial⟩
    | ok v2 =>
      rw [e2] at hacc h3
      simp only [beq_iff_eq] at hacc
      simp only
      have h2 := pair_search_checked XXH32 out buf_cell v v2 hT hA h3
      have ht := loop_inv (pair_body XXH32 out buf_cell out.length)
        (fun _ : List Nat × ndlz8_vars => True)
        (fun v' : ndlz8_vars => v'.triple_match = v2.triple_match) (pair_indices 0)
        (fun ij _ s hs => pair_body_triple XXH32 out buf_cell out.length ij v2.triple_match s hs)
        { v2 with pair_matches := setAt v2.pair_matches 0 0 } rfl
      cases e3 : loop (pair_body XXH32 out buf_cell out.length) (pair_indices 0)
          { v2 with pair_matches := setAt v2.pair_matches 0 0 } with
      | error r =>
        rw [e3] at h2
        obtain ⟨i, j, i_, j_, i__, j__, p, p_2, p_3, a, b⟩ := h2
        exact ⟨_, a, b, trivial⟩
      | ok v3 =>
        rw [e3] at h2 ht
        simp only [outcome] at h2 ht
        have htm : v3.triple_match 0 = 1 := by rw [ht]; exact hacc
        have hlit := ((pair_scanned_tables XXH32 out buf_cell v v3 _ h2).2 htm).1
        simp only
        rw [hlit]
        simp only [Bool.false_eq_true, if_false]
        rcases emit_matches_checked XXH32 out buf_cell v v3 hT hA h2 with ⟨m, a, b, c⟩ | h
        · exact ⟨m, a, b, c htm⟩
        · exact absurd htm h.2

/-! ## The claims on the matches that the records name -/

theorem written_after_first (XXH32 : List Nat → Nat → Nat) (input : List Nat)
    (h : (after_first_cell XXH32 input).2 ≠ []) :
    written XXH32 8 16 input 128 200 header_S3 (after_first_cell XXH32 input)
      [(9, (after_first_cell XXH32 input).2.drop 9)] := by
  unfold after_first_cell at h ⊢
  cases e : cell_step XXH32 8 16 input 128 200 0 0 (ndlz8_vars.init, header_S3) with
  | error o =>
    rw [e] at h
    exact absurd rfl h
  | ok s' =>
    exact written.cell 0 0 (ndlz8_vars.init, header_S3) s' [] written.start e

/-- C24. Verification of cell, six-rows and pair matches. In every state of
the main loop of `ndlz8_compress` between two cells (`maxout` an `int`, the 65
bytes of the space check available), the record written for the next cell is
an RLE record, or starts with the token 0, or is a match record `m` written
with offsets `anchor - p` for positions `p` that are not 0, lie before the
anchor and at a distance below 65535, and: for a cell match the 64 bytes of
the output at `p` are the cell; for a six-rows record naming `i < j < 8` the
48 bytes at `p` are the six other rows in increasing order; for a one-pair
record the 16 bytes at `p` are rows `i`, `j` with `i < j < 8`; for a
three-pairs record the 16 bytes at each of the three positions are the rows
of the pair. -/
theorem referenced_rows_verified (XXH32 : List Nat → Nat → Nat) (rows cols : Nat)
    (input : List Nat) (length maxout : Int) (header : List Nat) (hh : header.length = 9)
    (hmax : maxout ≤ 2147483647) (s : ndlz8_vars × List Nat)
    (recs : List (Nat × List Nat))
    (hw : written XXH32 rows cols input length maxout header s recs)
    (hspace : ¬ ((s.2.length : Int) + 64 + 1 > maxout)) (ii0 ii1 : Nat) :
    (∃ c, (encode_cell XXH32 rows cols input s.2 ii0 ii1
      { s.1 with update_6 := fun _ => 0, update_pair := fun _ => 0,
                 update_triple := fun _ => 0 }).1 = [64, c]) ∨
    (encode_cell XXH32 rows cols input s.2 ii0 ii1
      { s.1 with update_6 := fun _ => 0, update_pair := fun _ => 0,
                 update_triple := fun _ => 0 }).1.head? = some 0 ∨
    ∃ m, (encode_cell XXH32 rows cols input s.2 ii0 ii1
        { s.1 with update_6 := fun _ => 0, update_pair := fun _ => 0,
                   update_triple := fun _ => 0 }).1 =
        record_bytes (fill_cell input cols (ii0 * 8 * cols + ii1 * 8)) s.2.length m ∧
      positions_near s.2.length m ∧
      refs_verified s.2 (fill_cell input cols (ii0 * 8 * cols + ii1 * 8)) m := by
  have hT := written_entries XXH32 rows cols input length maxout header hh s recs hw
  rcases encode_cell_checked XXH32 rows cols input s.2 ii0 ii1
    { s.1 with update_6 := fun _ => 0, update_pair := fun _ => 0,
               update_triple := fun _ => 0 } hT (by omega) with h | h | ⟨m, h1, h2⟩
  · exact Or.inl h
  · exact Or.inr (Or.inl h)
  · exact Or.inr (Or.inr ⟨m, h1, h2.1, h2.2.1⟩)

/-- C26. Second triple of the two-triples path. In every state of the main
loop of `ndlz8_compress` between two cells, the record written for the next
cell is an RLE record, or starts with the token 0, or is a match record whose
positions are near, and if it is a two-triples record naming `(i, j, k)` and
`(i_, j_, k_)`, then `i < j < k < 8`, `i_ < j_ < k_ < 8`, the 24 bytes of the
output at the second position are rows `i_`, `j_`, `k_` of the cell, the six
rows named are pairwise distinct, and the literal rows that follow the
offsets are 16 bytes, two rows. -/
theorem second_triple_rows_verified (XXH32 : List Nat → Nat → Nat) (rows cols : Nat)
    (input : List Nat) (length maxout : Int) (header : List Nat) (hh : header.length = 9)
    (hmax : maxout ≤ 2147483647) (s : ndlz8_vars × List Nat)
    (recs : List (Nat × List Nat))
    (hw : written XXH32 rows cols input length maxout header s recs)
    (hspace : ¬ ((s.2.length : Int) + 64 + 1 > maxout)) (ii0 ii1 : Nat) :
    (∃ c, (encode_cell XXH32 rows cols input s.2 ii0 ii1
      { s.1 with update_6 := fun _ => 0, update_pair := fun _ => 0,
                 update_triple := fun _ => 0 }).1 = [64, c]) ∨
    (encode_cell XXH32 rows cols input s.2 ii0 ii1
      { s.1 with update_6 := fun _ => 0, update_pair := fun _ => 0,
                 update_triple := fun _ => 0 }).1.head? = some 0 ∨
    ∃ m, (encode_cell XXH32 rows cols input s.2 ii0 ii1
        { s.1 with update_6 := fun _ => 0, update_pair := fun _ => 0,
                   update_triple := fun _ => 0 }).1 =
        record_bytes (fill_cell input cols (ii0 * 8 * cols + ii1 * 8)) s.2.length m ∧
      positions_near s.2.length m ∧
      second_triple_verified s.2 (fill_cell input cols (ii0 * 8 * cols + ii1 * 8)) m := by
  have hT := written_entries XXH32 rows cols input length maxout header hh s recs hw
  rcases encode_cell_checked XXH32 rows cols input s.2 ii0 ii1
    { s.1 with update_6 := fun _ => 0, update_pair := fun _ => 0,
               update_triple := fun _ => 0 } hT (by omega) with h | h | ⟨m, h1, h2⟩
  · exact Or.inl h
  · exact Or.inr (Or.inl h)
  · exact Or.inr (Or.inr ⟨m, h1, h2.1, h2.2.2.1⟩)

/-- C28, amended. Tie-breaking inside the pair class. In every state of the
main loop of `ndlz8_compress` between two cells, the record written for the
next cell is an RLE record, or starts with the token 0, or is a match record
written in one of the six classes other than two pairs, and if it is a
one-pair record naming `(i, j)`, then `(i, j)` passes the match test of the
pairs search for this cell, the position referenced is its entry of
`tab_pair`, and every pair that passes the test is `(i, j)` or is visited
before `(i, j)`: the pair named is the last one, in scan order, that passes
the test. -/
theorem one_pair_names_last_passing_pair (XXH32 : List Nat → Nat → Nat) (rows cols : Nat)
    (input : List Nat) (length maxout : Int) (header : List Nat) (hh : header.length = 9)
    (hmax : maxout ≤ 2147483647) (s : ndlz8_vars × List Nat)
    (recs : List (Nat × List Nat))
    (hw : written XXH32 rows cols input length maxout header s recs)
    (hspace : ¬ ((s.2.length : Int) + 64 + 1 > maxout)) (ii0 ii1 : Nat) :
    (∃ c, (encode_cell XXH32 rows cols input s.2 ii0 ii1
      { s.1 with update_6 := fun _ => 0, update_pair := fun _ => 0,
                 update_triple := fun _ => 0 }).1 = [64, c]) ∨
    (encode_cell XXH32 rows cols input s.2 ii0 ii1
      { s.1 with update_6 := fun _ => 0, update_pair := fun _ => 0,
                 update_triple := fun _ => 0 }).1.head? = some 0 ∨
    ∃ m, (encode_cell XXH32 rows cols input s.2 ii0 ii1
        { s.1 with update_6 := fun _ => 0, update_pair := fun _ => 0,
                   update_triple := fun _ => 0 }).1 =
        record_bytes (fill_cell input cols (ii0 * 8 * cols + ii1 * 8)) s.2.length m ∧
      written_class m ∧
      last_passing_pair XXH32 s.2 (fill_cell input cols (ii0 * 8 * cols + ii1 * 8))
        s.1.tab_pair m := by
  have hT := written_entries XXH32 rows cols input length maxout header hh s recs hw
  rcases encode_cell_checked XXH32 rows cols input s.2 ii0 ii1
    { s.1 with update_6 := fun _ => 0, update_pair := fun _ => 0,
               update_triple := fun _ => 0 } hT (by omega) with h | h | ⟨m, h1, h2⟩
  · exact Or.inl h
  · exact Or.inr (Or.inl h)
  · exact Or.inr (Or.inr ⟨m, h1, h2.2.2.2.2, h2.2.2.2.1⟩)

/-- C29, amended. Class priority. In every state of the main loop of
`ndlz8_compress` between two cells, if a triple match is accepted in the
searches of the cell `buf_cell` (the six-rows search found no match, and the
triples search left with two triples or ended with `triple_match[0] = 1`),
then the record that the searches write is a two-triples, a one-triple or a
three-pairs record, with positions that are near: the one-pair and two-pairs
classes are not used for it, the three-pairs class is. -/
theorem accepted_triple_record_class (XXH32 : List Nat → Nat → Nat) (rows cols : Nat)
    (input : List Nat) (length maxout : Int) (header : List Nat) (hh : header.length = 9)
    (hmax : maxout ≤ 2147483647) (s : ndlz8_vars × List Nat)
    (recs : List (Nat × List Nat))
    (hw : written XXH32 rows cols input length maxout header s recs)
    (hspace : ¬ ((s.2.length : Int) + 64 + 1 > maxout)) (buf_cell : List Nat)
    (hash_cell : Nat)
    (hacc : triple_accepted XXH32 s.2 buf_cell
      { s.1 with update_6 := fun _ => 0, update_pair := fun _ => 0,
                 update_triple := fun _ => 0 } = true) :
    ∃ m, (search_cell XXH32 s.2 buf_cell hash_cell
        { s.1 with update_6 := fun _ => 0, update_pair := fun _ => 0,
                   update_triple := fun _ => 0 }).1 = record_bytes buf_cell s.2.length m ∧
      positions_near s.2.length m ∧ triple_accepted_class m := by
  have hT := written_entries XXH32 rows cols input length maxout header hh s recs hw
  obtain ⟨m, h1, h2, h3⟩ := search_cell_triple_class XXH32 s.2 buf_cell hash_cell
    { s.1 with update_6 := fun _ => 0, update_pair := fun _ => 0,
               update_triple := fun _ => 0 } hT (by omega) hacc
  exact ⟨m, h1, h2.1, h3⟩

set_option maxRecDepth 100000 in
/-- Instance of C24: the second cell of the 8 x 16 block whose left cell has
the rows 1, 2, 3, 4, 5, 6, 7, 7 and whose right cell has the rows 6, 7, 7, 7,
7, 7, 7, 9 (hash constantly 0) is written at anchor 74 as the three-pairs
record naming (1, 2), (3, 4), (5, 6), each with the position 58, where rows 6
and 7 of the left cell stand. -/
theorem referenced_rows_verified_witness :
    (encode_cell zero_hash 8 16 block_three_pairs (after_first_cell zero_hash block_three_pairs).2 0 1
      { (after_first_cell zero_hash block_three_pairs).1 with
        update_6 := fun _ => 0, update_pair := fun _ => 0, update_triple := fun _ => 0 }).1 =
      record_bytes (fill_cell block_three_pairs 16 8) 74 (match_record.three_pairs 1 2 3 4 5 6 58 58 58) ∧
    ((∃ c, (encode_cell zero_hash 8 16 block_three_pairs (after_first_cell zero_hash block_three_pairs).2 0 1
      { (after_first_cell zero_hash block_three_pairs).1 with
        update_6 := fun _ => 0, update_pair := fun _ => 0, update_triple := fun _ => 0 }).1 = [64, c]) ∨
    (encode_cell zero_hash 8 16 block_three_pairs (after_first_cell zero_hash block_three_pairs).2 0 1
      { (after_first_cell zero_hash block_three_pairs).1 with
        update_6 := fun _ => 0, update_pair := fun _ => 0, update_triple := fun _ => 0 }).1.head? = some 0 ∨
    ∃ m, (encode_cell zero_hash 8 16 block_three_pairs (after_first_cell zero_hash block_three_pairs).2 0 1
      { (after_first_cell zero_hash block_three_pairs).1 with
        update_6 := fun _ => 0, update_pair := fun _ => 0, update_triple := fun _ => 0 }).1 =
        record_bytes (fill_cell block_three_pairs 16 (0 * 8 * 16 + 1 * 8))
          (after_first_cell zero_hash block_three_pairs).2.length m ∧
      positions_near (after_first_cell zero_hash block_three_pairs).2.length m ∧
      refs_verified (after_first_cell zero_hash block_three_pairs).2
        (fill_cell block_three_pairs 16 (0 * 8 * 16 + 1 * 8)) m) := by
  have h1 : (after_first_cell zero_hash block_three_pairs).2 ≠ [] := by
    decide!
  have h2 : ¬ (((after_first_cell zero_hash block_three_pairs).2.length : Int) + 64 + 1 > 200) := by
    decide!
  refine ⟨by decide!, ?_⟩
  exact referenced_rows_verified zero_hash 8 16 block_three_pairs 128 200 header_S3 rfl
    (show (200 : Int) ≤ 2147483647 by decide) _ _
    (written_after_first zero_hash _ h1) h2 0 1

set_option maxRecDepth 100000 in
/-- Instance of C26: the second cell of the 8 x 16 block whose left cell has
the rows 1, 2, ..., 8 and whose right cell has the rows 6, 7, 8, 6, 7, 8, 9, 10
(hash constantly 0) is written at anchor 74 as the two-triples record naming
(0, 1, 2) and (3, 4, 5), both with the position 50, where rows 5, 6, 7 of the
left cell stand; rows 6 and 7 follow as literals. -/
theorem second_triple_rows_verified_witness :
    (encode_cell zero_hash 8 16 block_two_triples (after_first_cell zero_hash block_two_triples).2 0 1
      { (after_first_cell zero_hash block_two_triples).1 with
        update_6 := fun _ => 0, update_pair := fun _ => 0, update_triple := fun _ => 0 }).1 =
      record_bytes (fill_cell block_two_triples 16 8) 74 (match_record.two_triples 0 1 2 3 4 5 50 50) ∧
    ((∃ c, (encode_cell zero_hash 8 16 block_two_triples (after_first_cell zero_hash block_two_triples).2 0 1
      { (after_first_cell zero_hash block_two_triples).1 with
        update_6 := fun _ => 0, update_pair := fun _ => 0, update_triple := fun _ => 0 }).1 = [64, c]) ∨
    (encode_cell zero_hash 8 16 block_two_triples (after_first_cell zero_hash block_two_triples).2 0 1
      { (after_first_cell zero_hash block_two_triples).1 with
        update_6 := fun _ => 0, update_pair := fun _ => 0, update_triple := fun _ => 0 }).1.head? = some 0 ∨
    ∃ m, (encode_cell zero_hash 8 16 block_two_triples (after_first_cell zero_hash block_two_triples).2 0 1
      { (after_first_cell zero_hash block_two_triples).1 with
        update_6 := fun _ => 0, update_pair := fun _ => 0, update_triple := fun _ => 0 }).1 =
        record_bytes (fill_cell block_two_triples 16 (0 * 8 * 16 + 1 * 8))
          (after_first_cell zero_hash block_two_triples).2.length m ∧
      positions_near (after_first_cell zero_hash block_two_triples).2.length m ∧
      second_triple_verified (after_first_cell zero_hash block_two_triples).2
        (fill_cell block_two_triples 16 (0 * 8 * 16 + 1 * 8)) m) := by
  have h1 : (after_first_cell zero_hash block_two_triples).2 ≠ [] := by
    decide!
  have h2 : ¬ (((after_first_cell zero_hash block_two_triples).2.length : Int) + 64 + 1 > 200) := by
    decide!
  refine ⟨by decide!, ?_⟩
  exact second_triple_rows_verified zero_hash 8 16 block_two_triples 128 200 header_S3 rfl
    (show (200 : Int) ≤ 2147483647 by decide) _ _
    (written_after_first zero_hash _ h1) h2 0 1

set_option maxRecDepth 100000 in
/-- Instance of C28, amended: the second cell of the 8 x 16 block whose left
cell has the rows 1, 2, 3, 4, 5, 6, 7, 7 and whose right cell has the rows
7, 7, 7, 10, 11, 12, 13, 14 (hash constantly 0) is written at anchor 74 as the
one-pair record naming (1, 2), the last of the pairs (0, 1), (0, 2), (1, 2)
that pass the test, with the position 58. -/
theorem one_pair_names_last_passing_pair_witness :
    (encode_cell zero_hash 8 16 block_later_pair (after_first_cell zero_hash block_later_pair).2 0 1
      { (after_first_cell zero_hash block_later_pair).1 with
        update_6 := fun _ => 0, update_pair := fun _ => 0, update_triple := fun _ => 0 }).1 =
      record_bytes (fill_cell block_later_pair 16 8) 74 (match_record.one_pair 1 2 58) ∧
    ((∃ c, (encode_cell zero_hash 8 16 block_later_pair (after_first_cell zero_hash block_later_pair).2 0 1
      { (after_first_cell zero_hash block_later_pair).1 with
        update_6 := fun _ => 0, update_pair := fun _ => 0, update_triple := fun _ => 0 }).1 = [64, c]) ∨
    (encode_cell zero_hash 8 16 block_later_pair (after_first_cell zero_hash block_later_pair).2 0 1
      { (after_first_cell zero_hash block_later_pair).1 with
        update_6 := fun _ => 0, update_pair := fun _ => 0, update_triple := fun _ => 0 }).1.head? = some 0 ∨
    ∃ m, (encode_cell zero_hash 8 16 block_later_pair (after_first_cell zero_hash block_later_pair).2 0 1
      { (after_first_cell zero_hash block_later_pair).1 with
        update_6 := fun _ => 0, update_pair := fun _ => 0, update_triple := fun _ => 0 }).1 =
        record_bytes (fill_cell block_later_pair 16 (0 * 8 * 16 + 1 * 8))
          (after_first_cell zero_hash block_later_pair).2.length m ∧
      written_class m ∧
      last_passing_pair zero_hash (after_first_cell zero_hash block_later_pair).2
        (fill_cell block_later_pair 16 (0 * 8 * 16 + 1 * 8))
        (after_first_cell zero_hash block_later_pair).1.tab_pair m) := by
  have h1 : (after_first_cell zero_hash block_later_pair).2 ≠ [] := by
    decide!
  have h2 : ¬ (((after_first_cell zero_hash block_later_pair).2.length : Int) + 64 + 1 > 200) := by
    decide!
  refine ⟨by decide!, ?_⟩
  exact one_pair_names_last_passing_pair zero_hash 8 16 block_later_pair 128 200 header_S3 rfl
    (show (200 : Int) ≤ 2147483647 by decide) _ _
    (written_after_first zero_hash _ h1) h2 0 1

set_option maxRecDepth 100000 in
/-- Instance of C29, amended: in the second cell of the 8 x 16 block whose left
cell has the rows 1, 2, ..., 8 and whose right cell has the rows 6, 7, 8, 11,
12, 13, 14, 15 (hash constantly 0) the triple (0, 1, 2) is accepted at the
position 50 and the pair (1, 2) at the position 58; the record written at
anchor 74 is the one-triple record. -/
theorem accepted_triple_record_class_witness :
    (search_cell zero_hash (after_first_cell zero_hash block_one_triple).2 (fill_cell block_one_triple 16 8) 0
      { (after_first_cell zero_hash block_one_triple).1 with
        update_6 := fun _ => 0, update_pair := fun _ => 0, update_triple := fun _ => 0 }).1 =
      record_bytes (fill_cell block_one_triple 16 8) 74 (match_record.one_triple 0 1 2 50) ∧
    ∃ m, (search_cell zero_hash (after_first_cell zero_hash block_one_triple).2 (fill_cell block_one_triple 16 8) 0
        { (after_first_cell zero_hash block_one_triple).1 with
          update_6 := fun _ => 0, update_pair := fun _ => 0,
          update_triple := fun _ => 0 }).1 =
        record_bytes (fill_cell block_one_triple 16 8) (after_first_cell zero_hash block_one_triple).2.length m ∧
      positions_near (after_first_cell zero_hash block_one_triple).2.length m ∧
      triple_accepted_class m := by
  have h1 : (after_first_cell zero_hash block_one_triple).2 ≠ [] := by
    decide!
  have h2 : ¬ (((after_first_cell zero_hash block_one_triple).2.length : Int) + 64 + 1 > 200) := by
    decide!
  have h3 : triple_accepted zero_hash (after_first_cell zero_hash block_one_triple).2
      (fill_cell block_one_triple 16 8)
      { (after_first_cell zero_hash block_one_triple).1 with
        update_6 := fun _ => 0, update_pair := fun _ => 0,
        update_triple := fun _ => 0 } = true := by
    decide!
  refine ⟨by decide!, ?_⟩
  exact accepted_triple_record_class zero_hash 8 16 block_one_triple 128 200 header_S3 rfl
    (show (200 : Int) ≤ 2147483647 by decide) _ _
    (written_after_first zero_hash _ h1) h2 (fill_cell block_one_triple 16 8) 0 h3

/-! ## Capacity and small blocks -/

/-- The capacity that a compressed block needs, for a block shape of natural
numbers: whenever `ndlz8_compress` returns `n > 0`,
`maxout >= 74 + 2 * (num_cells - 1)` with
`num_cells = ceil(rows / 8) * ceil(cols / 8)`: each cell record has at least 2
bytes and 65 free bytes are demanded before each cell, the last one included.
In particular a block of one cell is not compressed with `maxout = 64`. -/
theorem compressed_needs_capacity (XXH32 : List Nat → Nat → Nat) (context : blosc2_context)
    (input : List Nat) (length maxout : Int)
    (h : 0 < (ndlz8_compress XXH32 context input length maxout).1) :
    74 + 2 * (((((context.blockshape0 + 7) / 8) * ((context.blockshape1 + 7) / 8) : Nat)
      : Int) - 1) ≤ maxout ∧
    (((context.blockshape0 + 7) / 8) * ((context.blockshape1 + 7) / 8) = 1 → 74 ≤ maxout) := by
  obtain ⟨_, _, hlen, _, h64, _, e⟩ :=
    ndlz8_compress_checked XXH32 context input length maxout (Or.inr h)
  have hpos : 64 ≤ context.blockshape0 * context.blockshape1 := by
    rw [hlen] at h64
    exact_mod_cast h64
  have hrows : 1 ≤ context.blockshape0 := by
    rcases Nat.eq_zero_or_pos context.blockshape0 with h0 | h0
    · rw [h0] at hpos; simp at hpos
    · exact h0
  have hcols : 1 ≤ context.blockshape1 := by
    rcases Nat.eq_zero_or_pos context.blockshape1 with h0 | h0
    · rw [h0] at hpos; simp at hpos
    · exact h0
  rw [e] at h
  cases hc : encode_cells XXH32 context.blockshape0 context.blockshape1 input length maxout
      ([2] ++ le32 context.blockshape0 ++ le32 context.blockshape1) with
  | error o =>
    rw [hc] at h
    simp at h
  | ok s =>
    have hs := (encode_cells_space XXH32 context.blockshape0 context.blockshape1 input
      length maxout _ s hrows hcols hc).2
    simp only [List.length_append, List.length_cons, List.length_nil, length_le32] at hs
    constructor
    · push_cast at hs ⊢
      omega
    · intro h1
      rw [h1] at hs
      push_cast at hs
      omega

/-- Instance: scenario S3 (two cells) with `maxout = 200` is compressed to 94
bytes, and 200 >= 76; a block of one cell with `maxout = 64` is not
compressed. -/
theorem compressed_needs_capacity_witness :
    0 < (ndlz8_compress zero_hash ⟨2, 8, 16, 0⟩ block_S3 128 200).1 ∧
    (74 + 2 * (((((8 + 7) / 8) * ((16 + 7) / 8) : Nat) : Int) - 1) ≤ 200 ∧
      (((8 + 7) / 8) * ((16 + 7) / 8) = 1 → (74 : Int) ≤ 200)) ∧
    ¬ 0 < (ndlz8_compress zero_hash ⟨2, 8, 8, 0⟩ (List.range 64) 64 64).1 := by
  have h : 0 < (ndlz8_compress zero_hash ⟨2, 8, 16, 0⟩ block_S3 128 200).1 := by
    rw [compress_S3 zero_hash 0 200 (by decide) (by decide)]
    decide
  refine ⟨h, compressed_needs_capacity zero_hash ⟨2, 8, 16, 0⟩ block_S3 128 200 h, ?_⟩
  intro h1
  have := (compressed_needs_capacity zero_hash ⟨2, 8, 8, 0⟩ (List.range 64) 64 64 h1).2
    (by decide)
  exact absurd this (by decide)

/-! ## The two-pairs record is never written -/

theorem pair3_body_counted (XXH32 : List Nat → Nat → Nat) (out buf_cell : List Nat)
    (anchor i j i_ j_ offset offset_2 : Nat) (c : Nat × Nat) (P : ndlz8_vars → Prop)
    (v : ndlz8_vars) (hP : P v) :
    outcome (fun _ : List Nat × ndlz8_vars => True) P
      (pair3_body XXH32 out buf_cell anchor i j i_ j_ offset offset_2 c v) := by
  unfold pair3_body
  simp only
  exact outcome_ite (fun _ => outcome_ite (fun _ => trivial) (fun _ => hP)) (fun _ => hP)

theorem pair2_body_counted (XXH32 : List Nat → Nat → Nat) (out buf_cell : List Nat)
    (anchor : Nat) (tab : Nat → Nat) (x : Nat × Nat) (offset : Nat) (c : Nat × Nat)
    (v : ndlz8_vars) (hc : c ∈ pair_indices (x.1 + 1))
    (hP : pair_counted XXH32 out buf_cell anchor tab x v) :
    outcome (fun _ : List Nat × ndlz8_vars => True)
      (fun v' : ndlz8_vars => pair_counted XXH32 out buf_cell anchor tab x v')
      (pair2_body XXH32 out buf_cell anchor x.1 x.2 offset c v) := by
  have etab : v.tab_pair = tab := hP.1
  unfold pair2_body
  simp only
  refine outcome_ite (fun _ => outcome_ite (fun h2 => ?_) (fun _ => hP)) (fun _ => hP)
  obtain ⟨h0, _, h3⟩ := same_of_accepted_guarded _ _ _ h2
  have hpc : pair_passes XXH32 out buf_cell anchor tab c = true := by
    rw [← etab]
    exact (pair_passes_iff XXH32 out buf_cell anchor v.tab_pair c).mpr ⟨h0, h3⟩
  exact loop_inv _ _ (fun s => pair_counted XXH32 out buf_cell anchor tab x s) _
    (fun c3 _ s hs => pair3_body_counted XXH32 out buf_cell anchor x.1 x.2 c.1 c.2 _ _ c3 _ s hs)
    _ ⟨etab, Or.inr ⟨rfl, c, hc, hpc⟩⟩

theorem pairs_counted_step (XXH32 : List Nat → Nat → Nat) (out buf_cell : List Nat)
    (anchor : Nat) (tab : Nat → Nat) (v : ndlz8_vars) (done : List (Nat × Nat))
    (x : Nat × Nat) (hx : pair_passes XXH32 out buf_cell anchor tab x = false)
    (h : pairs_counted XXH32 out buf_cell anchor tab done v) :
    pairs_counted XXH32 out buf_cell anchor tab (done ++ [x]) v := by
  obtain ⟨h1, h2 | ⟨l1, y, l2, e, hl, hs⟩⟩ := h
  · exact ⟨h1, Or.inl h2⟩
  · refine ⟨h1, Or.inr ⟨l1, y, l2 ++ [x], by rw [e]; simp, fun z hz => ?_, hs⟩⟩
    rcases List.mem_append.mp hz with hz | hz
    · exact hl z hz
    · rw [List.mem_singleton.mp hz]
      exact hx

theorem pair_body_counted (XXH32 : List Nat → Nat → Nat) (out buf_cell : List Nat)
    (anchor : Nat) (tab : Nat → Nat) (x : Nat × Nat) (done : List (Nat × Nat))
    (v : ndlz8_vars) (hP : pairs_counted XXH32 out buf_cell anchor tab done v) :
    outcome (fun _ : List Nat × ndlz8_vars => True)
      (fun v' : ndlz8_vars => pairs_counted XXH32 out buf_cell anchor tab (done ++ [x]) v')
      (pair_body XXH32 out buf_cell anchor x v) := by
  have etab : v.tab_pair = tab := hP.1
  unfold pair_body
  simp only
  refine outcome_ite (fun h1 => outcome_ite (fun h2 => ?_) (fun h2 => ?_))
    (fun h1 => outcome_ite (fun _ => ?_) (fun _ => ?_))
  · refine outcome_mono (fun _ h => h)
      (fun s hs => ⟨hs.1, Or.inr ⟨done, x, [], rfl,
        fun y hy => absurd hy (List.not_mem_nil _), hs⟩⟩)
      _ (loop_inv _ _ (fun s => pair_counted XXH32 out buf_cell anchor tab x s) _
        (fun c hc s hs => pair2_body_counted XXH32 out buf_cell anchor tab x _ c s hc hs)
        _ ⟨etab, Or.inl rfl⟩)
  · have hpx : pair_passes XXH32 out buf_cell anchor tab x = false := by
      rw [Bool.eq_false_iff, ← etab]
      intro h
      exact h2 ((pair_passes_iff XXH32 out buf_cell anchor v.tab_pair x).mp h).2
    exact pairs_counted_step XXH32 out buf_cell anchor tab v done x hpx hP
  · have hpx : pair_passes XXH32 out buf_cell anchor tab x = false := by
      rw [Bool.eq_false_iff, ← etab]
      intro h
      exact h1 ((pair_passes_iff XXH32 out buf_cell anchor v.tab_pair x).mp h).1
    exact pairs_counted_step XXH32 out buf_cell anchor tab _ done x hpx hP
  · have hpx : pair_passes XXH32 out buf_cell anchor tab x = false := by
      rw [Bool.eq_false_iff, ← etab]
      intro h
      exact h1 ((pair_passes_iff XXH32 out buf_cell anchor v.tab_pair x).mp h).1
    exact pairs_counted_step XXH32 out buf_cell anchor tab v done x hpx hP

theorem pairs_counted_end (XXH32 : List Nat → Nat → Nat) (out buf_cell : List Nat)
    (anchor : Nat) (tab : Nat → Nat) (v : ndlz8_vars)
    (h : pairs_counted XXH32 out buf_cell anchor tab (pair_indices 0) v) :
    v.pair_matches 0 = 0 ∨ v.pair_matches 0 = 1 := by
  obtain ⟨_, h0 | ⟨l1, x, l2, e, hl, _, m0⟩⟩ := h
  · exact Or.inl h0
  · rcases m0 with m0 | ⟨_, y, hy, hpy⟩
    · exact Or.inr m0
    · exfalso
      have hsort := pair_indices_sorted
      rw [e, List.pairwise_append] at hsort
      obtain ⟨_, _, hlt⟩ := hsort
      have by1 := mem_pair_indices.mp hy
      have hy0 : y ∈ pair_indices 0 := mem_pair_indices.mpr ⟨by omega, by1.2.1, by1.2.2⟩
      rw [e] at hy0
      rcases List.mem_append.mp hy0 with hc | hc
      · have := hlt y hc x (List.mem_cons_self _ _)
        unfold scan_order at this
        omega
      · rcases List.mem_cons.mp hc with hc | hc
        · rw [hc] at by1
          omega
        · rw [hl y hc] at hpy
          exact absurd hpy (by decide)

/-- C35. The two-pairs record is dead code. For every hash function, every
output written so far, every cell and every value of the variables, when the
pairs search of `ndlz8_compress` ends without leaving by `goto match` (with a
three-pairs record), the counter `pair_matches[0]` is 0 or 1: a second pair
that is accepted is visited later as a first pair, passes the same test and
sets the counter to 1 again. The record written after the searches is then
the one-triple record, the one-pair record or nothing, never the record with
the tag 11 of the branch `pair_matches[0] == 2`. -/
theorem two_pairs_never_written (XXH32 : List Nat → Nat → Nat) (out buf_cell : List Nat)
    (anchor : Nat) (v : ndlz8_vars) :
    outcome (fun _ : List Nat × ndlz8_vars => True)
      (fun v3 : ndlz8_vars =>
        (v3.pair_matches 0 = 0 ∨ v3.pair_matches 0 = 1) ∧
        emit_matches buf_cell anchor v3 =
          if v3.triple_match 0 = 1 then
            le16 (((35 <<< 10) ||| (v3.triple_match 1 <<< 7) ||| (v3.triple_match 2 <<< 4) |||
              (v3.triple_match 3 <<< 1)) % 65536) ++
            le16 (u16 ((anchor : Int) - (v3.tab_triple (v3.triple_match 4) : Int))) ++
            rows_where buf_cell (fun l => decide
              (l ≠ v3.triple_match 1 ∧ l ≠ v3.triple_match 2 ∧ l ≠ v3.triple_match 3))
          else if v3.pair_matches 0 = 1 then
            le16 (((34 <<< 10) ||| (v3.pair_matches 1 <<< 7) ||| (v3.pair_matches 2 <<< 4))
              % 65536) ++
            le16 (u16 ((anchor : Int) - (v3.tab_pair (v3.pair_matches 3) : Int))) ++
            rows_where buf_cell (fun l => decide
              (l ≠ v3.pair_matches 1 ∧ l ≠ v3.pair_matches 2))
          else [])
      (loop (pair_body XXH32 out buf_cell anchor) (pair_indices 0)
        { v with pair_matches := setAt v.pair_matches 0 0 }) := by
  refine outcome_mono (fun _ h => h) (fun v3 h3 => ?_) _
    ( loop_inv_prefix _ _ (pairs_counted XXH32 out buf_cell anchor v.tab_pair) _
      (fun done a rest _ s hs => pair_body_counted XXH32 out buf_cell anchor v.tab_pair a done
        s hs) _ ⟨rfl, Or.inl (by simp [setAt])⟩)
  have hc := pairs_counted_end XXH32 out buf_cell anchor v.tab_pair v3 h3
  refine ⟨hc, ?_⟩
  unfold emit_matches
  simp only
  rw [if_neg (by omega)]

/-! ## The row arrays of the decoder -/

set_option maxRecDepth 100000 in
/-- C33. Code defect: `valueinarray(val, arr)` loops up to `sizeof(arr)`, the
size of a pointer (8), whatever the number `n` of elements of the array it is
given. For an array of 2 elements it reads `arr[2..7]`, and the value found
at `arr[7]`, behind the array, counts as present. In the one-pair branch of
the decoder (first token byte 0x8B, `rows = {1, 3}`), when the words behind
`rows` hold 0 the row 0 is taken as referenced and 5 rows are read inline
instead of 6: the read cursor ends at 74 + 4 + 40; when they hold 9 it ends at
74 + 4 + 48. -/
theorem valueinarray_reads_behind_array :
    (∀ (tail : Nat → Int) (i j : Nat),
      valueinarray (tail 7) (rows_array [i, j] tail) = 1) ∧
    valueinarray 5 (rows_array [1, 2] (fun _ => 5)) = 1 ∧
    valueinarray 5 (rows_array [1, 2] (fun _ => 9)) = 0 ∧
    (decode_token (tail_indeterminate 0) (handmade_stream [139, 0] [24]) 8 8
      handmade_vars).map (fun d => d.ip) = some (74 + 4 + 40) ∧
    (decode_token (tail_indeterminate 9) (handmade_stream [139, 0] [24]) 8 8
      handmade_vars).map (fun d => d.ip) = some (74 + 4 + 48) := by
  refine ⟨?_, by decide, by decide, by decide!, by decide!⟩
  intro tail i j
  unfold valueinarray
  rw [if_pos]
  simp only [List.any_eq_true, List.mem_range, beq_iff_eq]
  exact ⟨7, by omega, by simp [rows_array]⟩

/-! ## The row fields of the tokens -/

theorem shift_and_seven (a h s : Nat) (hs : s ≤ 21) :
    ((a + h * 16777216) >>> s) &&& 7 = (a >>> s) &&& 7 := by
  have e7 : (7 : Nat) = 2 ^ 3 - 1 := rfl
  rw [e7, Nat.and_pow_two_sub_one_eq_mod, Nat.and_pow_two_sub_one_eq_mod,
    Nat.shiftRight_eq_div_pow, Nat.shiftRight_eq_div_pow]
  obtain ⟨t, ht⟩ : ∃ t, s + t = 21 := ⟨21 - s, by omega⟩
  have e : h * 16777216 = 2 ^ s * (h * 2 ^ t * 8) := by
    have : (16777216 : Nat) = 2 ^ s * 2 ^ t * 8 := by
      rw [← pow_add, ht]
      norm_num
    rw [this]
    ring
  rw [e, Nat.add_mul_div_left _ _ (by positivity)]
  omega

theorem token_rows_high_byte (a h : Nat) :
    (token_rows (a + h * 16777216) (8 + 15) 6).drop 1 = token_rows a 20 5 := by
  simp only [token_rows, List.range, List.range.loop, List.map, List.drop]
  rw [shift_and_seven a h _ (by decide), shift_and_seven a h _ (by decide),
    shift_and_seven a h _ (by decide), shift_and_seven a h _ (by decide),
    shift_and_seven a h _ (by decide)]

theorem field_value (x s : Nat) : (x >>> s) &&& 7 = x / 2 ^ s % 8 := by
  have e7 : (7 : Nat) = 2 ^ 3 - 1 := rfl
  rw [e7, Nat.and_pow_two_sub_one_eq_mod, Nat.shiftRight_eq_div_pow]

/-- A 3-bit field or-ed below a value that has no bits there is added. -/
theorem or_field (a k s : Nat) (hk : k < 8) :
    (2 ^ (s + 3) * a) ||| (k <<< s) = 2 ^ (s + 3) * a + k * 2 ^ s := by
  have hlt : k * 2 ^ s < 2 ^ (s + 3) := by
    calc k * 2 ^ s < 8 * 2 ^ s := Nat.mul_lt_mul_of_pos_right hk (by positivity)
      _ = 2 ^ (s + 3) := by rw [pow_add]; ring
  rw [Nat.shiftLeft_eq, ← Nat.mul_add_lt_is_or hlt a]

theorem token_read_le16 (v : Nat) : token_read (le16 v) = v % 256 + v / 256 % 256 * 256 := by
  simp [token_read, le16, List.enum]

theorem token_read_le24 (v : Nat) :
    token_read (le24 v) = v % 256 + v / 256 % 256 * 256 + v / 65536 % 256 * 65536 := by
  simp [token_read, le24, List.enum]
  ring

theorem token_read_le16_small (v : Nat) (h : v < 65536) :
    token_read (le16 (v % 65536)) = v := by
  rw [token_read_le16]
  omega

theorem token_read_le24_small (v : Nat) (h : v < 16777216) :
    token_read (le24 (v % 4294967296)) = v := by
  rw [token_read_le24]
  omega

theorem two_pairs_token (i j i_ j_ : Nat) (hi : i < 8) (hj : j < 8) (hi_ : i_ < 8)
    (hj_ : j_ < 8) :
    (11 <<< 12) ||| (i <<< 9) ||| (j <<< 6) ||| (i_ <<< 3) ||| j_ =
      45056 + i * 512 + j * 64 + i_ * 8 + j_ := by
  have e1 := or_field 11 i 9 hi
  have e2 := or_field (88 + i) j 6 hj
  have e3 := or_field (704 + i * 8 + j) i_ 3 hi_
  have e4 := or_field (5632 + i * 64 + j * 8 + i_) j_ 0 hj_
  rw [show (11 <<< 12 : Nat) = 2 ^ (9 + 3) * 11 from rfl, e1,
    show 2 ^ (9 + 3) * 11 + i * 2 ^ 9 = 2 ^ (6 + 3) * (88 + i) by norm_num; ring, e2,
    show 2 ^ (6 + 3) * (88 + i) + j * 2 ^ 6 = 2 ^ (3 + 3) * (704 + i * 8 + j) by
      norm_num; ring, e3,
    show 2 ^ (3 + 3) * (704 + i * 8 + j) + i_ * 2 ^ 3 =
      2 ^ (0 + 3) * (5632 + i * 64 + j * 8 + i_) by norm_num; ring,
    show j_ = j_ <<< 0 from rfl, e4]
  norm_num
  ring

theorem three_byte_token (t i j k l m n : Nat) (hi : i < 8) (hj : j < 8) (hk : k < 8)
    (hl : l < 8) (hm : m < 8) (hn : n < 8) :
    (2 ^ (15 + 3) * t) ||| (i <<< 15) ||| (j <<< 12) ||| (k <<< 9) ||| (l <<< 6) |||
        (m <<< 3) ||| n =
      262144 * t + i * 32768 + j * 4096 + k * 512 + l * 64 + m * 8 + n := by
  have e1 := or_field t i 15 hi
  have e2 := or_field (8 * t + i) j 12 hj
  have e3 := or_field (64 * t + i * 8 + j) k 9 hk
  have e4 := or_field (512 * t + i * 64 + j * 8 + k) l 6 hl
  have e5 := or_field (4096 * t + i * 512 + j * 64 + k * 8 + l) m 3 hm
  have e6 := or_field (32768 * t + i * 4096 + j * 512 + k * 64 + l * 8 + m) n 0 hn
  rw [e1,
    show 2 ^ (15 + 3) * t + i * 2 ^ 15 = 2 ^ (12 + 3) * (8 * t + i) by norm_num; ring, e2,
    show 2 ^ (12 + 3) * (8 * t + i) + j * 2 ^ 12 = 2 ^ (9 + 3) * (64 * t + i * 8 + j) by
      norm_num; ring, e3,
    show 2 ^ (9 + 3) * (64 * t + i * 8 + j) + k * 2 ^ 9 =
      2 ^ (6 + 3) * (512 * t + i * 64 + j * 8 + k) by norm_num; ring, e4,
    show 2 ^ (6 + 3) * (512 * t + i * 64 + j * 8 + k) + l * 2 ^ 6 =
      2 ^ (3 + 3) * (4096 * t + i * 512 + j * 64 + k * 8 + l) by norm_num; ring, e5,
    show 2 ^ (3 + 3) * (4096 * t + i * 512 + j * 64 + k * 8 + l) + m * 2 ^ 3 =
      2 ^ (0 + 3) * (32768 * t + i * 4096 + j * 512 + k * 64 + l * 8 + m) by norm_num; ring,
    show n = n <<< 0 from rfl, e6]
  norm_num
  ring

theorem six_rows_fields : ∀ i < 8, ∀ j < 8,
    token_rows (token_read (le16 (((38 <<< 10) ||| (i <<< 7) ||| (j <<< 4)) % 65536))) 7 2 =
      [i, j] := by
  decide

theorem one_triple_fields : ∀ i < 8, ∀ j < 8, ∀ k < 8,
    token_rows (token_read (le16 (((35 <<< 10) ||| (i <<< 7) ||| (j <<< 4) ||| (k <<< 1))
      % 65536))) 7 3 = [i, j, k] := by
  decide

theorem two_pairs_fields : ∀ i < 8, ∀ j < 8, ∀ i_ < 8, ∀ j_ < 8,
    token_rows (token_read (le16 (((11 <<< 12) ||| (i <<< 9) ||| (j <<< 6) ||| (i_ <<< 3) |||
      j_) % 65536))) 9 4 = [i, j, i_, j_] := by
  intro i hi j hj i_ hi_ j_ hj_
  rw [two_pairs_token i j i_ j_ hi hj hi_ hj_, token_read_le16_small _ (by omega)]
  show [_, _, _, _] = _
  simp only [field_value]
  congr 1
  · omega
  congr 1
  · omega
  congr 1
  · omega
  congr 1
  omega

theorem one_pair_fields : ∀ i < 8, ∀ j < 8,
    token_rows (token_read (le16 (((34 <<< 10) ||| (i <<< 7) ||| (j <<< 4)) % 65536))) 3 2 =
      [j % 4 * 2, 0] := by
  decide

/-- The decoder takes the second row of a two-triples token from the bits
17..19, which hold the tag bit 18 and the top bit of the first index: the
value is 0 or 1, below the third index of the first triple. -/
theorem two_triples_fields (i j k i_ j_ k_ : Nat) (hij : i < j) (hjk : j < k) (hk : k < 8)
    (hi_ : i_ < 8) (hj_ : j_ < 8) (hk_ : k_ < 8) :
    token_rows (token_read (le24 (((9 <<< 20) ||| (i <<< 15) ||| (j <<< 12) ||| (k <<< 9) |||
      (i_ <<< 6) ||| (j_ <<< 3) ||| k_) % 4294967296))) 20 5 ≠ [j, k, i_, j_, k_] := by
  rw [show (9 <<< 20 : Nat) = 2 ^ (15 + 3) * 36 from rfl,
    three_byte_token 36 i j k i_ j_ k_ (by omega) (by omega) hk hi_ hj_ hk_,
    token_read_le24_small _ (by omega)]
  intro h
  have h2 : [_, _, _, _, _] = [j, k, i_, j_, k_] := h
  simp only [List.cons.injEq, field_value, Nat.reduceMul, Nat.reduceSub, Nat.reducePow] at h2
  have h3 := h2.2.1
  clear h h2
  omega

/-- The decoder takes the first row after the unset byte of a three-pairs
token from the bits 20..22, which are 0, while the second index of the first
pair is at least 1. -/
theorem three_pairs_fields (i j i_ j_ i__ j__ : Nat) (hij : i < j) (hj : j < 8)
    (hi_ : i_ < 8) (hj_ : j_ < 8) (hi__ : i__ < 8) (hj__ : j__ < 8) :
    token_rows (token_read (le24 (((33 <<< 18) ||| (i <<< 15) ||| (j <<< 12) ||| (i_ <<< 9) |||
      (j_ <<< 6) ||| (i__ <<< 3) ||| j__) % 4294967296))) 20 5 ≠ [j, i_, j_, i__, j__] := by
  rw [show (33 <<< 18 : Nat) = 2 ^ (15 + 3) * 33 from rfl,
    three_byte_token 33 i j i_ j_ i__ j__ (by omega) hj hi_ hj_ hi__ hj__,
    token_read_le24_small _ (by omega)]
  intro h
  have h2 : [_, _, _, _, _] = [j, i_, j_, i__, j__] := h
  simp only [List.cons.injEq, field_value, Nat.reduceMul, Nat.reduceSub, Nat.reducePow] at h2
  have h3 := h2.1
  clear h h2
  omega

/-- C32 (code defect): the row indices that the decoder takes from a token are
those the encoder packed only for the six-rows, one-triple and two-pairs
tokens.  From the one-pair token `(34 << 10) | (i << 7) | (j << 4)` the
decoder takes `(token >> 3) & 7` and `token & 7`, which are `(j % 4) * 2` and
0 (rows 4 and 0 for the pair (1, 2)); from the 3-byte tokens it takes the
fields at the shifts 23, 20, 17, 14, 11, 8 while the encoder packed them at
15, 12, 9, 6, 3, 0, so that for all indices the encoder produces, and every
value of the unset top byte of `token_3`, the last five decoded rows differ
from the packed ones. -/
theorem row_fields_disagree :
    (∀ i < 8, ∀ j < 8,
      token_rows (token_read (le16 (((38 <<< 10) ||| (i <<< 7) ||| (j <<< 4)) % 65536))) 7 2 =
        [i, j]) ∧
    (∀ i < 8, ∀ j < 8, ∀ k < 8,
      token_rows (token_read (le16 (((35 <<< 10) ||| (i <<< 7) ||| (j <<< 4) ||| (k <<< 1))
        % 65536))) 7 3 = [i, j, k]) ∧
    (∀ i < 8, ∀ j < 8, ∀ i_ < 8, ∀ j_ < 8,
      token_rows (token_read (le16 (((11 <<< 12) ||| (i <<< 9) ||| (j <<< 6) ||| (i_ <<< 3) |||
        j_) % 65536))) 9 4 = [i, j, i_, j_]) ∧
    (∀ i < 8, ∀ j < 8,
      token_rows (token_read (le16 (((34 <<< 10) ||| (i <<< 7) ||| (j <<< 4)) % 65536))) 3 2 =
        [j % 4 * 2, 0]) ∧
    token_rows (token_read (le16 (((34 <<< 10) ||| (1 <<< 7) ||| (2 <<< 4)) % 65536))) 3 2 =
      [4, 0] ∧
    (∀ hi : Nat, ∀ k < 8, ∀ j < k, ∀ i < j, ∀ k_ < 8, ∀ j_ < k_, ∀ i_ < j_,
      (token_rows (token_read (le24 (((9 <<< 20) ||| (i <<< 15) ||| (j <<< 12) ||| (k <<< 9) |||
        (i_ <<< 6) ||| (j_ <<< 3) ||| k_) % 4294967296)) + hi * 16777216) (8 + 15) 6).drop 1 ≠
        [j, k, i_, j_, k_]) ∧
    (∀ hi : Nat, ∀ j__ < 8, ∀ i__ < j__, ∀ i_ < i__, ∀ j_ < 8, ∀ j < 8, ∀ i < j,
      (token_rows (token_read (le24 (((33 <<< 18) ||| (i <<< 15) ||| (j <<< 12) |||
        (i_ <<< 9) ||| (j_ <<< 6) ||| (i__ <<< 3) ||| j__) % 4294967296)) + hi * 16777216)
        (8 + 15) 6).drop 1 ≠ [j, i_, j_, i__, j__]) := by
  refine ⟨six_rows_fields, one_triple_fields, two_pairs_fields, one_pair_fields, by decide,
    ?_, ?_⟩
  · intro hi k hk j hj i hi1 k_ hk_ j_ hj_ i_ hi_
    rw [token_rows_high_byte]
    exact two_triples_fields i j k i_ j_ k_ hi1 hj hk (by omega) (by omega) hk_
  · intro hi j__ h1 i__ h2 i_ h3 j_ h4 j h5 i h6
    rw [token_rows_high_byte]
    exact three_pairs_fields i j i_ j_ i__ j__ h6 h5 (by omega) h4 (by omega) h1

/-! ## The source address of the referenced rows in the decoder -/

set_option maxRecDepth 100000 in
/-- C31 (code defect): the decoder does not copy the referenced rows from the
position the encoder verified.  In `handmade_stream` the byte at position `q`
of the literal cell is `90 + q`, the record starts at the anchor 74 and its
offsets are `74 - p` for the verified positions `p = 26`, `34`, `42`, as
the encoder stores them.  With `offset + 3` subtracted from the read cursor
after the offset fields, the first referenced row is copied from `p + 1` for
the six-rows, one-triple and one-pair records, from `p + 3` for two pairs,
from `p + 4` for two triples and from `p + 6` for three pairs; only the cell
match, which subtracts `offset + 1` from the cursor after the token byte,
reads at `p`. -/
theorem referenced_rows_source_shifted :
    (decode_token zero_indeterminate (handmade_stream [152, 1] [74 - 26]) 8 8
        handmade_vars).map (fun d => d.buffercpy 0) = some (90 + (26 + 1)) ∧
    (decode_token zero_indeterminate (handmade_stream [140, 0] [74 - 26]) 8 8
        handmade_vars).map (fun d => d.buffercpy (1 * 8)) = some (90 + (26 + 1)) ∧
    (decode_token zero_indeterminate (handmade_stream [139, 0] [74 - 26]) 8 8
        handmade_vars).map (fun d => d.buffercpy (1 * 8)) = some (90 + (26 + 1)) ∧
    (decode_token zero_indeterminate (handmade_stream [177, 0] [74 - 26, 74 - 34]) 8 8
        handmade_vars).map (fun d => (d.buffercpy 0, d.buffercpy (6 * 8))) =
      some (90 + (26 + 3), 90 + (34 + 3)) ∧
    (decode_token zero_indeterminate (handmade_stream [144, 229, 20] [74 - 26, 74 - 34]) 8 8
        handmade_vars).map (fun d => (d.buffercpy 0, d.buffercpy (3 * 8))) =
      some (90 + (26 + 4), 90 + (34 + 4)) ∧
    (decode_token zero_indeterminate
        (handmade_stream [132, 229, 20] [74 - 26, 74 - 34, 74 - 42]) 8 8
        handmade_vars).map (fun d => (d.buffercpy 0, d.buffercpy (2 * 8), d.buffercpy (4 * 8))) =
      some (90 + (26 + 6), 90 + (34 + 6), 90 + (42 + 6)) ∧
    (decode_token zero_indeterminate (handmade_stream [192] [74 - 26]) 8 8
        handmade_vars).map (fun d => d.buffercpy 0) = some (90 + 26) := by
  refine ⟨?_, ?_, ?_, ?_, ?_, ?_, ?_⟩ <;> decide!

/-! ## The size check of the decoder -/

/-- The decoder in terms of its cell loop. -/
theorem decompress_cells (u : indeterminate) (input : List Nat) (length maxout : Int) :
    ndlz8_decompress u input length maxout =
      if length ≤ 0 then (0, u.output)
      else
        match decoder_cells u input length maxout with
        | Except.error s => (0, s.out)
        | Except.ok s =>
          if (s.ind + s.padding1) % 4294967296 ≠
              (header_rows u input * header_cols u input) % 4294967296 then (0, s.out)
          else if (s.ind + s.padding1) % 4294967296 > u32 maxout then (0, s.out)
          else (i32 ((s.ind + s.padding1) % 4294967296), s.out) := by
  rfl

/-- What holds after an iteration holds, for the last element, after a loop
that ends normally. -/
theorem loop_last {α σ ρ : Type} (body : α → σ → Except ρ σ) (L : α → σ → Prop)
    (hb : ∀ a s s', body a s = Except.ok s' → L a s') :
    ∀ (l : List α) (a : α) (s s' : σ), loop body (l ++ [a]) s = Except.ok s' → L a s' := by
  intro l
  induction l with
  | nil =>
    intro a s s' h
    obtain ⟨s1, h1, h2⟩ := loop_cons_ok body a [] s s' h
    rw [← loop_nil_ok body s1 s' h2]
    exact hb a s s1 h1
  | cons x xs ih =>
    intro a s s' h
    obtain ⟨s1, _, h2⟩ := loop_cons_ok body x (xs ++ [a]) s s' h
    exact ih a s1 s' h2

theorem for_range_last (n : Nat) (h : 1 ≤ n) :
    for_range 0 n = for_range 0 (n - 1) ++ [n - 1] := by
  obtain ⟨m, rfl⟩ : ∃ m, n = m + 1 := ⟨n - 1, by omega⟩
  simp only [for_range, Nat.sub_zero, Nat.add_sub_cancel]
  rw [List.range'_concat]
  simp

/-- A cell step of the decoder that stays in the loop leaves in `ind` the
start of the last row of the cell, and in `padding[1]` its width. -/
theorem decode_step_ind (u : indeterminate) (input : List Nat) (length maxout : Int)
    (rows cols i_stop0 i_stop1 ii0 ii1 : Nat) (s s' : decoder_vars)
    (h : decode_step u input length maxout rows cols i_stop0 i_stop1 ii0 ii1 s =
      Except.ok s') :
    s'.ind = ((ii0 * 8 * cols + ii1 * 8) % 4294967296 +
        (decoder_padding rows i_stop0 ii0 - 1) * cols) % 4294967296 ∧
    s'.padding1 = decoder_padding cols i_stop1 ii1 := by
  unfold decode_step at h
  split_ifs at h with h1
  simp only at h
  cases hd : decode_token u input (decoder_padding rows i_stop0 ii0)
      (decoder_padding cols i_stop1 ii1) s with
  | none =>
    rw [hd] at h
    simp at h
  | some d =>
    rw [hd] at h
    simp only at h
    split_ifs at h with h2
    cases h
    exact ⟨rfl, rfl⟩

/-- After a nested cell loop of the decoder that ran to completion, `ind` and
`padding[1]` are those of the last cell of the grid. -/
theorem decoder_loop_last (u : indeterminate) (input : List Nat) (length maxout : Int)
    (rows cols i_stop0 i_stop1 : Nat) (h0 : 1 ≤ i_stop0) (h1 : 1 ≤ i_stop1)
    (s s' : decoder_vars)
    (h : loop (fun ii0 s =>
        loop (fun ii1 s1 =>
            decode_step u input length maxout rows cols i_stop0 i_stop1 ii0 ii1 s1)
          (for_range 0 i_stop1) s)
      (for_range 0 i_stop0) s = Except.ok s') :
    s'.ind = (((i_stop0 - 1) * 8 * cols + (i_stop1 - 1) * 8) % 4294967296 +
        (decoder_padding rows i_stop0 (i_stop0 - 1) - 1) * cols) % 4294967296 ∧
    s'.padding1 = decoder_padding cols i_stop1 (i_stop1 - 1) := by
  rw [for_range_last i_stop0 h0] at h
  refine loop_last _ (fun ii0 t =>
      t.ind = ((ii0 * 8 * cols + (i_stop1 - 1) * 8) % 4294967296 +
        (decoder_padding rows i_stop0 ii0 - 1) * cols) % 4294967296 ∧
      t.padding1 = decoder_padding cols i_stop1 (i_stop1 - 1)) ?_ _ _ s s' h
  intro ii0 t t' ht
  rw [for_range_last i_stop1 h1] at ht
  exact loop_last _ (fun ii1 t =>
      t.ind = ((ii0 * 8 * cols + ii1 * 8) % 4294967296 +
        (decoder_padding rows i_stop0 ii0 - 1) * cols) % 4294967296 ∧
      t.padding1 = decoder_padding cols i_stop1 ii1)
    (fun ii1 a b hab => decode_step_ind u input length maxout rows cols i_stop0 i_stop1
      ii0 ii1 a b hab) _ _ t t' ht

/-- The sum `ind + padding[1]` of the last cell is the size of the block. -/
theorem last_cell_size (rows cols : Nat) (hr1 : 1 ≤ rows) (hr2 : rows ≤ 4294967288)
    (hc1 : 1 ≤ cols) (hc2 : cols ≤ 4294967288) (hp : rows * cols < 4294967296) :
    ((((((rows + 7) % 4294967296 / 8 * 8 / 8 - 1) * 8 * cols +
        ((cols + 7) % 4294967296 / 8 * 8 / 8 - 1) * 8) % 4294967296 +
      (decoder_padding rows ((rows + 7) % 4294967296 / 8 * 8 / 8)
        ((rows + 7) % 4294967296 / 8 * 8 / 8 - 1) - 1) * cols) % 4294967296) +
      decoder_padding cols ((cols + 7) % 4294967296 / 8 * 8 / 8)
        ((cols + 7) % 4294967296 / 8 * 8 / 8 - 1)) % 4294967296 = rows * cols := by
  have ea : (rows + 7) % 4294967296 / 8 * 8 / 8 = (rows + 7) / 8 := by omega
  have eb : (cols + 7) % 4294967296 / 8 * 8 / 8 = (cols + 7) / 8 := by omega
  rw [ea, eb]
  unfold decoder_padding
  rw [if_pos rfl, if_pos rfl]
  obtain ⟨x, p, hx, hpd, hxp⟩ : ∃ x p, ((rows + 7) / 8 - 1) * 8 = x ∧
      (if rows % 8 = 0 then 8 else rows % 8) - 1 = p ∧ x + p + 1 = rows := by
    refine ⟨_, _, rfl, rfl, ?_⟩
    split_ifs <;> omega
  obtain ⟨y, q, hy, hq, hyq⟩ : ∃ y q, ((cols + 7) / 8 - 1) * 8 = y ∧
      (if cols % 8 = 0 then 8 else cols % 8) = q ∧ y + q = cols := by
    refine ⟨_, _, rfl, rfl, ?_⟩
    split_ifs <;> omega
  rw [hx, hpd, hy, hq]
  have e : rows * cols = x * cols + y + p * cols + q := by
    rw [← hxp]
    nlinarith
  have b1 : x * cols + y < 4294967296 := by omega
  rw [Nat.mod_eq_of_lt b1, Nat.mod_eq_of_lt (by omega), Nat.mod_eq_of_lt (by omega)]
  omega

/-- The size check of the decoder on a cell grid that is not empty: for every
header with `rows` and `cols` between 1 and `2^32 - 8` and `rows * cols <
2^32`, whenever the cell loop of `ndlz8_decompress` runs to completion the
value `ind + padding[1]` computed after the loop equals `rows * cols`. -/
theorem size_check_passes (u : indeterminate) (input : List Nat) (length maxout : Int)
    (s : decoder_vars)
    (hr1 : 1 ≤ header_rows u input) (hr2 : header_rows u input ≤ 4294967288)
    (hc1 : 1 ≤ header_cols u input) (hc2 : header_cols u input ≤ 4294967288)
    (hp : header_rows u input * header_cols u input < 4294967296)
    (h : decoder_cells u input length maxout = Except.ok s) :
    (s.ind + s.padding1) % 4294967296 =
      (header_rows u input * header_cols u input) % 4294967296 := by
  unfold decoder_cells at h
  simp only at h
  obtain ⟨e1, e2⟩ := decoder_loop_last u input length maxout _ _ _ _ (by omega) (by omega)
    _ s h
  rw [e1, e2, last_cell_size _ _ hr1 hr2 hc1 hc2 hp, Nat.mod_eq_of_lt hp]

/-! ## Constant cells and the cell table -/

/-- A constant cell is written as the RLE record whatever the tables hold. -/
theorem full_cell_constant (XXH32 : List Nat → Nat → Nat) (input : List Nat) (cols : Nat)
    (out : List Nat) (orig : Nat) (v : ndlz8_vars)
    (h : all_equal (fill_cell input cols orig) = true) :
    full_cell XXH32 input cols out orig v = ([64, (fill_cell input cols orig).getD 0 0], v) := by
  unfold all_equal at h
  unfold full_cell
  simp only
  rw [if_pos h]

/-- The searches of a cell leave `tab_cell` as it is, or write the literal
record of the cell and enter its first data byte in `tab_cell`. -/
theorem search_cell_tab_cell (XXH32 : List Nat → Nat → Nat) (out buf_cell : List Nat)
    (hash_cell : Nat) (v : ndlz8_vars) :
    (search_cell XXH32 out buf_cell hash_cell v).2.tab_cell = v.tab_cell ∨
    ((search_cell XXH32 out buf_cell hash_cell v).1 = [0] ++ rd buf_cell 0 64 ∧
      (search_cell XXH32 out buf_cell hash_cell v).2.tab_cell =
        setAt v.tab_cell hash_cell (out.length + 1)) := by
  refine search_cell_outcome XXH32 out buf_cell hash_cell v
    (fun r => r.2.tab_cell = v.tab_cell ∨
      (r.1 = [0] ++ rd buf_cell 0 64 ∧
        r.2.tab_cell = setAt v.tab_cell hash_cell (out.length + 1)))
    (fun v' => same_tables v v') (fun v' => same_tables v v') (fun v' => same_tables v v')
    ?_ ?_ ?_ ?_
  · have := loop_inv (six_body XXH32 out buf_cell out.length)
      (fun r : List Nat × ndlz8_vars => same_tables v r.2) (fun v' => same_tables v v')
      (pair_indices 0)
      (fun ij _ s hs => six_body_keeps_tables XXH32 out buf_cell out.length ij v s hs)
      { v with literal := true } (same_tables_refl v)
    exact outcome_mono (fun r hr => Or.inl hr.1) (fun _ h => h) _ this
  · intro v1 h1
    have := triple_search_keeps_tables XXH32 out buf_cell out.length v v1 h1
    exact outcome_mono (fun r hr => Or.inl hr.1) (fun _ h => h) _ this
  · intro v2 h2
    have := loop_inv (pair_body XXH32 out buf_cell out.length)
      (fun r : List Nat × ndlz8_vars => same_tables v r.2) (fun v' => same_tables v v')
      (pair_indices 0)
      (fun ij _ s hs => pair_body_keeps_tables XXH32 out buf_cell out.length ij v s hs)
      { v2 with pair_matches := setAt v2.pair_matches 0 0 } h2
    exact outcome_mono (fun r hr => Or.inl hr.1) (fun _ h => h) _ this
  · intro v3 h3
    split_ifs with hl
    · right
      refine ⟨rfl, ?_⟩
      simp only [literal_update]
      rw [h3.1]
    · left
      exact h3.1

/-- A cell leaves `tab_cell` as it is, or it is not constant, its record is
the literal record and the first data byte of the record is entered. -/
theorem encode_cell_tab_cell (XXH32 : List Nat → Nat → Nat) (rows cols : Nat)
    (input out : List Nat) (ii0 ii1 : Nat) (v : ndlz8_vars) :
    (encode_cell XXH32 rows cols input out ii0 ii1 v).2.tab_cell = v.tab_cell ∨
    (all_equal (fill_cell input cols (ii0 * 8 * cols + ii1 * 8)) = false ∧
      (encode_cell XXH32 rows cols input out ii0 ii1 v).1 =
        [0] ++ fill_cell input cols (ii0 * 8 * cols + ii1 * 8) ∧
      (encode_cell XXH32 rows cols input out ii0 ii1 v).2.tab_cell =
        setAt v.tab_cell (hash12 XXH32 (fill_cell input cols (ii0 * 8 * cols + ii1 * 8)))
          (out.length + 1)) := by
  unfold encode_cell
  simp only
  split_ifs with hpad
  · exact Or.inl rfl
  · unfold full_cell
    simp only
    refine ite_ite_cases (fun r : List Nat × ndlz8_vars =>
      r.2.tab_cell = v.tab_cell ∨
      (all_equal (fill_cell input cols (ii0 * 8 * cols + ii1 * 8)) = false ∧
        r.1 = [0] ++ fill_cell input cols (ii0 * 8 * cols + ii1 * 8) ∧
        r.2.tab_cell =
          setAt v.tab_cell (hash12 XXH32 (fill_cell input cols (ii0 * 8 * cols + ii1 * 8)))
            (out.length + 1))) _ _ _ _ _ ?_ ?_ ?_
    · intro _
      exact Or.inl rfl
    · intro ha _
      rcases search_cell_tab_cell XXH32 out (fill_cell input cols (ii0 * 8 * cols + ii1 * 8))
          (hash12 XXH32 (fill_cell input cols (ii0 * 8 * cols + ii1 * 8))) v with h | ⟨h1, h2⟩
      · exact Or.inl h
      · right
        refine ⟨?_, ?_, h2⟩
        · unfold all_equal
          simpa using ha
        · rw [h1, rd_zero_self _ _ (length_fill_cell _ _ _)]
    · intro _ _
      exact Or.inl rfl

/-- The invariant of the main loop on the cell table. -/
theorem written_cell_entries (XXH32 : List Nat → Nat → Nat) (rows cols : Nat)
    (input : List Nat) (length maxout : Int) (header : List Nat)
    (s : ndlz8_vars × List Nat) (recs : List (Nat × List Nat))
    (hw : written XXH32 rows cols input length maxout header s recs) :
    cell_entries_literal recs s.1 := by
  induction hw with
  | start =>
    intro h hne
    exact absurd rfl hne
  | cell ii0 ii1 s s' recs _ hstep ih =>
    unfold cell_step at hstep
    simp only at hstep
    split_ifs at hstep with h1 h2
    cases hstep
    simp only [List.drop_left]
    intro h hne
    rcases encode_cell_tab_cell XXH32 rows cols input s.2 ii0 ii1
        { s.1 with update_6 := fun _ => 0, update_pair := fun _ => 0,
                   update_triple := fun _ => 0 } with e | ⟨e1, e2, e3⟩
    · rw [e] at hne ⊢
      obtain ⟨ar, har, hr⟩ := ih h hne
      exact ⟨ar, List.mem_cons_of_mem _ har, hr⟩
    · rw [e3] at hne ⊢
      simp only [setAt] at hne ⊢
      split_ifs at hne ⊢ with hh
      · refine ⟨_, List.mem_cons_self _ _, ?_, rfl, ?_⟩
        · rw [e2]
          exact ⟨by simp [length_fill_cell], rfl⟩
        · rw [e2]
          simpa using e1
      · obtain ⟨ar, har, hr⟩ := ih h hne
        exact ⟨ar, List.mem_cons_of_mem _ har, hr⟩

/-- C36. A full 8x8 cell whose 64 bytes are all equal is written as the
2-byte RLE record `0x40, value` whatever the hash tables and the output hold;
and in every state of the main loop of `ndlz8_compress` between two cells,
every non-zero entry of the cell table is the position of the first data byte
of a literal cell record already written whose 64 data bytes, which are the
64 bytes of the output at the entry, are not all equal.  A cell match names an
entry of the cell table, so it never refers to a constant cell, and it is
never written for one. -/
theorem constant_cells_rle_only (XXH32 : List Nat → Nat → Nat) (rows cols : Nat)
    (input : List Nat) (length maxout : Int) (header : List Nat) (hh : header.length = 9)
    (s : ndlz8_vars × List Nat) (recs : List (Nat × List Nat))
    (hw : written XXH32 rows cols input length maxout header s recs) :
    (∀ (out : List Nat) (orig : Nat) (v : ndlz8_vars),
      all_equal (fill_cell input cols orig) = true →
      full_cell XXH32 input cols out orig v =
        ([64, (fill_cell input cols orig).getD 0 0], v)) ∧
    (∀ h, s.1.tab_cell h ≠ 0 → ∃ ar ∈ recs, literal_cell_record ar.2 ∧
      s.1.tab_cell h = ar.1 + 1 ∧ all_equal (ar.2.drop 1) = false ∧
      rd s.2 (s.1.tab_cell h) 64 = ar.2.drop 1) := by
  refine ⟨fun out orig v h => full_cell_constant XXH32 input cols out orig v h, ?_⟩
  intro h hne
  obtain ⟨ar, har, hl, hp, ha⟩ :=
    written_cell_entries XXH32 rows cols input length maxout header s recs hw h hne
  obtain ⟨_, hrs, _⟩ := written_inv XXH32 rows cols input length maxout header (by omega)
    s recs hw
  obtain ⟨_, b2, b3⟩ := hrs ar har
  refine ⟨ar, har, hl, hp, ha, ?_⟩
  rw [hl.1] at b2 b3
  rw [hp, rd_eq_drop_take _ _ _ (by omega), ← b3, List.drop_take, List.drop_drop]

set_option maxRecDepth 100000 in
/-- Instance of C36: after the first cell of scenario S3, a literal, the only
entry of the cell table is 10, the first data byte of that record. -/
theorem constant_cells_rle_only_witness :
    header_S3.length = 9 ∧
    (after_first_cell zero_hash block_S3).1.tab_cell 0 = 10 ∧
    ((∀ (out : List Nat) (orig : Nat) (v : ndlz8_vars),
      all_equal (fill_cell block_S3 16 orig) = true →
      full_cell zero_hash block_S3 16 out orig v =
        ([64, (fill_cell block_S3 16 orig).getD 0 0], v)) ∧
    (∀ h, (after_first_cell zero_hash block_S3).1.tab_cell h ≠ 0 →
      ∃ ar ∈ [(9, (after_first_cell zero_hash block_S3).2.drop 9)],
      literal_cell_record ar.2 ∧
      (after_first_cell zero_hash block_S3).1.tab_cell h = ar.1 + 1 ∧
      all_equal (ar.2.drop 1) = false ∧
      rd (after_first_cell zero_hash block_S3).2
        ((after_first_cell zero_hash block_S3).1.tab_cell h) 64 = ar.2.drop 1)) :=
  ⟨rfl, by decide!,
    constant_cells_rle_only zero_hash 8 16 block_S3 128 200 header_S3 rfl _ _
      (written_after_first zero_hash block_S3 (by decide!))⟩

/-! ## The records that start with the token 0 or are a cell match -/

theorem or_low_byte (A k : Nat) (hk0 : 0 < k) (hk : k < 256) : (A ||| k) % 256 ≠ 0 := by
  intro h
  obtain ⟨i, hi⟩ := Nat.ne_zero_implies_bit_true (Nat.pos_iff_ne_zero.mp hk0)
  have hi8 : i < 8 := by
    by_contra hc
    have : k < 2 ^ i := lt_of_lt_of_le hk (by
      rw [show (256 : Nat) = 2 ^ 8 by rfl]
      exact Nat.pow_le_pow_right (by decide) (by omega))
    rw [Nat.testBit_lt_two_pow this] at hi
    exact absurd hi (by decide)
  have hb : ((A ||| k) % 2 ^ 8).testBit i = true := by
    rw [Nat.testBit_mod_two_pow, Nat.testBit_or, hi]
    simp [hi8]
  rw [show (2 : Nat) ^ 8 = 256 by rfl, h] at hb
  simp at hb

/-- The first byte of a 2-byte token whose last field is not 0. -/
theorem or_low_16 (A k : Nat) (hk0 : 0 < k) (hk : k < 256) :
    (A ||| k) % 65536 % 256 ≠ 0 := by
  rw [Nat.mod_mod_of_dvd _ (by decide)]
  exact or_low_byte A k hk0 hk

/-- The first byte of a 3-byte token whose last field is not 0. -/
theorem or_low_32 (A k : Nat) (hk0 : 0 < k) (hk : k < 256) :
    (A ||| k) % 4294967296 % 256 ≠ 0 := by
  rw [Nat.mod_mod_of_dvd _ (by decide)]
  exact or_low_byte A k hk0 hk

theorem not_plain (r : List Nat) (h0 : r.headD 0 ≠ 0) (h3 : r.length ≠ 3) :
    plain_record r = false := by
  simp only [plain_record, Bool.or_eq_false_iff, Bool.and_eq_false_iff, beq_eq_false_iff_ne,
    ne_eq]
  exact ⟨h0, Or.inr h3⟩

theorem shift_field (k s : Nat) (hk0 : 0 < k) (hk : k < 8) (hs : s ≤ 4) :
    0 < k <<< s ∧ k <<< s < 256 := by
  rw [Nat.shiftLeft_eq]
  have h1 : 1 ≤ 2 ^ s := Nat.one_le_two_pow
  have h2 : 2 ^ s ≤ 2 ^ 4 := Nat.pow_le_pow_right (by decide) hs
  constructor
  · positivity
  · calc k * 2 ^ s ≤ 7 * 2 ^ 4 := Nat.mul_le_mul (by omega) h2
      _ < 256 := by decide

/-- The record that ends the searches of a cell without a `goto match` and
without a literal: it is empty or is no plain record. -/
theorem emit_matches_plain (XXH32 : List Nat → Nat → Nat) (out buf_cell : List Nat)
    (v0 v : ndlz8_vars)
    (hS : pair_scanned XXH32 out buf_cell v0 (pair_indices 0) v) :
    emit_matches buf_cell out.length v = [] ∨
    plain_record (emit_matches buf_cell out.length v) = false := by
  obtain ⟨_, htk⟩ := pair_scanned_tables XXH32 out buf_cell v0 v _ hS
  obtain ⟨hne2, hlast⟩ := pair_scanned_last XXH32 out buf_cell v0 v hS
  unfold emit_matches
  simp only
  split_ifs with c1 c2 c3
  · exact absurd c1 hne2
  · right
    obtain ⟨_, b1, b2, b3, _⟩ := htk c2
    obtain ⟨k0, k1⟩ := shift_field (v.triple_match 3) 1 (by omega) b3 (by decide)
    apply not_plain
    · simp only [le16, List.cons_append, List.headD_cons]
      exact or_low_16 _ _ k0 k1
    · simp only [le16, List.cons_append, List.nil_append, List.length_cons, List.length_append]
      omega
  · right
    obtain ⟨hm, _, _, _⟩ := hlast c3
    have bx := mem_pair_indices.mp hm
    obtain ⟨k0, k1⟩ := shift_field (v.pair_matches 2) 4 (by have := bx.2.1; omega) bx.2.2
      (by decide)
    apply not_plain
    · simp only [le16, List.cons_append, List.headD_cons]
      exact or_low_16 _ _ k0 k1
    · simp only [le16, List.cons_append, List.nil_append, List.length_cons, List.length_append]
      omega
  · left
    rfl

theorem six_rows_not_plain (buf_cell : List Nat) (anchor i j p : Nat) (hj0 : 0 < j)
    (hj : j < 8) :
    plain_record (record_bytes buf_cell anchor (match_record.six_rows i j p)) = false := by
  obtain ⟨k0, k1⟩ := shift_field j 4 hj0 hj (by decide)
  apply not_plain
  · simp only [record_bytes, le16, List.cons_append, List.headD_cons]
    exact or_low_16 _ _ k0 k1
  · simp only [record_bytes, le16, List.cons_append, List.nil_append, List.length_cons,
      List.length_append]
    omega

theorem two_triples_not_plain (buf_cell : List Nat) (anchor i j k i_ j_ k_ p p_2 : Nat)
    (hk0 : 0 < k_) (hk : k_ < 8) :
    plain_record (record_bytes buf_cell anchor
      (match_record.two_triples i j k i_ j_ k_ p p_2)) = false := by
  apply not_plain
  · simp only [record_bytes, le24, List.cons_append, List.headD_cons]
    exact or_low_32 _ _ hk0 (by omega)
  · simp only [record_bytes, le24, le16, List.cons_append, List.nil_append, List.length_cons,
      List.length_append]
    omega

theorem three_pairs_not_plain (buf_cell : List Nat) (anchor i j i_ j_ i__ j__ p p_2 p_3 : Nat)
    (hk0 : 0 < j__) (hk : j__ < 8) :
    plain_record (record_bytes buf_cell anchor
      (match_record.three_pairs i j i_ j_ i__ j__ p p_2 p_3)) = false := by
  apply not_plain
  · simp only [record_bytes, le24, List.cons_append, List.headD_cons]
    exact or_low_32 _ _ hk0 (by omega)
  · simp only [record_bytes, le24, le16, List.cons_append, List.nil_append, List.length_cons,
      List.length_append]
    omega

/-- The record that the searches of a cell write is the literal record of the
cell, or it is no plain record. -/
theorem search_cell_plain (XXH32 : List Nat → Nat → Nat) (out buf_cell : List Nat)
    (hash_cell : Nat) (v : ndlz8_vars)
    (hT : ∀ p len, table_entry v p len → p ≠ 0 → p + len ≤ out.length)
    (hA : out.length + 56 < 4294967296) :
    (search_cell XXH32 out buf_cell hash_cell v).1 = [0] ++ rd buf_cell 0 64 ∨
    plain_record (search_cell XXH32 out buf_cell hash_cell v).1 = false := by
  have hlen := search_cell_length XXH32 out buf_cell hash_cell v
  have key : (search_cell XXH32 out buf_cell hash_cell v).1 = [] ∨
      (search_cell XXH32 out buf_cell hash_cell v).1 = [0] ++ rd buf_cell 0 64 ∨
      plain_record (search_cell XXH32 out buf_cell hash_cell v).1 = false := by
    refine search_cell_outcome XXH32 out buf_cell hash_cell v
      (fun r => r.1 = [] ∨ r.1 = [0] ++ rd buf_cell 0 64 ∨ plain_record r.1 = false)
      (fun v' => same_tables v v')
      (fun v' => same_tables v v' ∧ triple_kept out v v')
      (fun v' => pair_scanned XXH32 out buf_cell v (pair_indices 0) v')
      ?_ ?_ ?_ ?_
    · refine outcome_mono (fun r hr => ?_) (fun _ h => h) _ (loop_inv _ _ _ _
        (fun ij hij s hs => six_body_checked XXH32 out buf_cell ij v s hT hA hij hs) _
        (same_tables_refl v))
      obtain ⟨i, j, p, h1, h2⟩ := hr
      obtain ⟨b1, b2, _⟩ := h2.2.1
      right; right
      rw [h1]
      exact six_rows_not_plain _ _ _ _ _ (by omega) b2
    · intro v1 h1
      refine outcome_mono (fun r hr => ?_) (fun _ h => h) _
        (triple_search_checked XXH32 out buf_cell v v1 hT hA h1)
      obtain ⟨i, j, k, i_, j_, k_, p, p_2, h1, h2⟩ := hr
      obtain ⟨_, _, _, c1, c2, c3, _⟩ := h2.2.2.1
      right; right
      rw [h1]
      exact two_triples_not_plain _ _ _ _ _ _ _ _ _ _ (by omega) c3
    · intro v2 h2
      refine outcome_mono (fun r hr => ?_) (fun _ h => h) _
        (pair_search_checked XXH32 out buf_cell v v2 hT hA h2)
      obtain ⟨i, j, i_, j_, i__, j__, p, p_2, p_3, h1, h2⟩ := hr
      obtain ⟨_, _, _, _, c1, c2, _⟩ := h2.2.1
      right; right
      rw [h1]
      exact three_pairs_not_plain _ _ _ _ _ _ _ _ _ _ _ (by omega) c2
    · intro v3 h3
      split_ifs with hl
      · exact Or.inr (Or.inl rfl)
      · rcases emit_matches_plain XXH32 out buf_cell v v3 h3 with h | h
        · exact Or.inl h
        · exact Or.inr (Or.inr h)
  rcases key with h | h
  · rw [h] at hlen
    simp at hlen
  · exact h

/-- The cells off the padded edges have the padding 8, 8. -/
theorem padding_full (rows cols ii0 ii1 : Nat)
    (h : on_padded_edge rows cols ((rows + 8 - 1) / 8) ((cols + 8 - 1) / 8) ii0 ii1 = false) :
    padding rows ((rows + 8 - 1) / 8) ii0 = 8 ∧ padding cols ((cols + 8 - 1) / 8) ii1 = 8 := by
  unfold on_padded_edge at h
  simp only [Bool.or_eq_false_iff, Bool.and_eq_false_iff, decide_eq_false_iff_not,
    not_not] at h
  unfold padding
  constructor
  · split_ifs with h1 h2 <;> first | rfl | omega
  · split_ifs with h1 h2 <;> first | rfl | omega

/-- A plain record of a cell: the literal of the cell with its padding, or,
for a cell off the padded edges, a cell match whose offset designates 64
bytes of the output that are the cell. -/
theorem encode_cell_plain (XXH32 : List Nat → Nat → Nat) (rows cols : Nat)
    (input out : List Nat) (ii0 ii1 : Nat) (v : ndlz8_vars)
    (hT : ∀ p len, table_entry v p len → p ≠ 0 → p + len ≤ out.length)
    (hA : out.length + 56 < 4294967296)
    (hp : plain_record (encode_cell XXH32 rows cols input out ii0 ii1 v).1 = true) :
    (encode_cell XXH32 rows cols input out ii0 ii1 v).1 =
      padded_cell input cols (ii0 * 8 * cols + ii1 * 8)
        (padding rows ((rows + 8 - 1) / 8) ii0) (padding cols ((cols + 8 - 1) / 8) ii1) ∨
    (padding rows ((rows + 8 - 1) / 8) ii0 = 8 ∧ padding cols ((cols + 8 - 1) / 8) ii1 = 8 ∧
      ∃ p, (encode_cell XXH32 rows cols input out ii0 ii1 v).1 = [192] ++ le16 (out.length - p) ∧
        entry_near out.length p ∧
        found_at out p (fill_cell input cols (ii0 * 8 * cols + ii1 * 8))) := by
  revert hp
  unfold encode_cell
  simp only
  split_ifs with hpad
  · intro _
    exact Or.inl rfl
  · have hpd := padding_full rows cols ii0 ii1 (by simpa using hpad)
    unfold full_cell
    simp only
    refine ite_ite_cases (fun r : List Nat × ndlz8_vars =>
      plain_record r.1 = true →
      (r.1 = padded_cell input cols (ii0 * 8 * cols + ii1 * 8)
          (padding rows ((rows + 8 - 1) / 8) ii0) (padding cols ((cols + 8 - 1) / 8) ii1) ∨
        (padding rows ((rows + 8 - 1) / 8) ii0 = 8 ∧
          padding cols ((cols + 8 - 1) / 8) ii1 = 8 ∧
          ∃ p, r.1 = [192] ++ le16 (out.length - p) ∧
          entry_near out.length p ∧
          found_at out p (fill_cell input cols (ii0 * 8 * cols + ii1 * 8))))) _ _ _ _ _
      ?_ ?_ ?_
    · intro _ hp
      simp [plain_record] at hp
    · intro _ _ hp
      rcases search_cell_plain XXH32 out (fill_cell input cols (ii0 * 8 * cols + ii1 * 8))
          (hash12 XXH32 (fill_cell input cols (ii0 * 8 * cols + ii1 * 8))) v hT hA with h | h
      · left
        rw [h, rd_zero_self _ _ (length_fill_cell _ _ _), hpd.1, hpd.2]
        rfl
      · rw [h] at hp
        cases hp
    · intro _ hd _
      have ht : table_entry v
          (v.tab_cell (hash12 XXH32 (fill_cell input cols (ii0 * 8 * cols + ii1 * 8)))) 64 :=
        Or.inl ⟨rfl, _, rfl⟩
      have h0 : v.tab_cell (hash12 XXH32 (fill_cell input cols (ii0 * 8 * cols + ii1 * 8)))
          ≠ 0 := by
        intro h
        apply hd
        left
        rw [if_pos h]
      rw [if_neg h0] at hd
      have hacc : accepted (if same_bytes (fill_cell input cols (ii0 * 8 * cols + ii1 * 8)) out
          (v.tab_cell (hash12 XXH32 (fill_cell input cols (ii0 * 8 * cols + ii1 * 8)))) 64 = true
          then u32 ((out.length : Int) - ((v.tab_cell (hash12 XXH32
            (fill_cell input cols (ii0 * 8 * cols + ii1 * 8))) : Nat) : Int)) else 0) = true := by
        rw [accepted_iff]
        simp only [MAX_DISTANCE] at hd
        omega
      have hp := hT _ 64 ht h0
      obtain ⟨hn, hu⟩ := near_of_accepted out.length _ _ h0 (by omega) (by omega) hacc
      have hf := found_of_same _ _ _ 64 (same_of_accepted _ _ hacc)
        (length_fill_cell input cols (ii0 * 8 * cols + ii1 * 8)) hp
      simp only
      rw [hu]
      exact Or.inr ⟨hpd.1, hpd.2, _, rfl, hn, hf⟩

/-! ## Bytes of the records as the decoder reads them -/

theorem getD_rd (mem : List Nat) (pos n k : Nat) (hk : k < n) :
    (rd mem pos n).getD k 0 = mem.getD (pos + k) 0 := by
  unfold rd
  rw [List.getD_eq_getElem?_getD, List.getElem?_map, List.getElem?_range hk]
  rfl

theorem getD_range_flatMap (f : Nat → List Nat) (m : Nat) (hf : ∀ i, (f i).length = m) :
    ∀ (n i k : Nat), i < n → k < m →
      ((List.range n).flatMap f).getD (i * m + k) 0 = (f i).getD k 0 := by
  intro n
  induction n with
  | zero =>
    intro i k hi
    exact absurd hi (Nat.not_lt_zero _)
  | succ n ih =>
    intro i k hi hk
    have hlen : ((List.range n).flatMap f).length = n * m := by
      rw [length_flatMap_const _ _ m (fun i => hf i)]
      simp
    rw [List.range_succ, List.flatMap_append]
    simp only [List.flatMap_cons, List.flatMap_nil, List.append_nil]
    by_cases hin : i < n
    · have hlt : i * m + k < ((List.range n).flatMap f).length := by
        rw [hlen]
        calc i * m + k < i * m + m := by omega
          _ = (i + 1) * m := by ring
          _ ≤ n * m := Nat.mul_le_mul_right _ (by omega)
      rw [List.getD_append _ _ _ _ hlt]
      exact ih i k hin hk
    · have hi' : i = n := by omega
      subst hi'
      rw [List.getD_append_right _ _ _ _ (by rw [hlen]; omega), hlen]
      congr 1
      omega

theorem getD_of_extends (l S : List Nat) (h : l <+: S) (k : Nat) (hk : k < l.length) :
    S.getD k 0 = l.getD k 0 := by
  obtain ⟨t, rfl⟩ := h
  exact List.getD_append _ _ _ _ hk

theorem getD_found (out : List Nat) (p : Nat) (bytes : List Nat) (h : found_at out p bytes)
    (j : Nat) (hj : j < bytes.length) : out.getD (p + j) 0 = bytes.getD j 0 := by
  obtain ⟨h1, h2⟩ := h
  rw [← h2]
  simp only [List.getD_eq_getElem?_getD]
  rw [List.getElem?_take_of_lt hj, List.getElem?_drop]

theorem padded_cell_getD (input : List Nat) (cols orig pad0 pad1 i k : Nat) (hi : i < pad0)
    (hk : k < pad1) :
    (padded_cell input cols orig pad0 pad1).getD (1 + (i * pad1 + k)) 0 =
      input.getD (orig + i * cols + k) 0 := by
  unfold padded_cell
  rw [List.getD_append_right _ _ _ _ (by simp)]
  simp only [List.length_singleton, Nat.add_sub_cancel_left]
  rw [getD_range_flatMap _ pad1 (fun i => length_rd _ _ _) pad0 i k hi hk, getD_rd _ _ _ _ hk]

theorem fill_cell_getD (input : List Nat) (cols orig i k : Nat) (hi : i < 8) (hk : k < 8) :
    (fill_cell input cols orig).getD (i * 8 + k) 0 = input.getD (orig + i * cols + k) 0 := by
  unfold fill_cell
  rw [getD_range_flatMap _ 8 (fun i => length_rd _ _ _) 8 i k hi hk, getD_rd _ _ _ _ hk]

/-! ## The copy of a decoded cell into the output -/

theorem scatter_rows (out buf tgt : Nat → Nat) (orig cols pad0 pad1 : Nat)
    (hw : ∀ i, i < pad0 → orig + i * cols < 4294967296)
    (hv : ∀ i, i < pad0 → ∀ k, k < pad1 → buf (i * pad1 + k) = tgt (orig + i * cols + k)) :
    ∀ n : Nat,
      (∀ x, (List.range n).foldl
          (fun o i => if i < pad0
            then copy_to o ((orig + i * cols) % 4294967296) (fun k => buf (i * pad1 + k)) pad1
            else o) out x = out x ∨
        (List.range n).foldl
          (fun o i => if i < pad0
            then copy_to o ((orig + i * cols) % 4294967296) (fun k => buf (i * pad1 + k)) pad1
            else o) out x = tgt x) ∧
      (∀ i, i < n → i < pad0 → ∀ k, k < pad1 →
        (List.range n).foldl
          (fun o i => if i < pad0
            then copy_to o ((orig + i * cols) % 4294967296) (fun k => buf (i * pad1 + k)) pad1
            else o) out (orig + i * cols + k) = tgt (orig + i * cols + k)) := by
  intro n
  induction n with
  | zero =>
    exact ⟨fun x => Or.inl rfl, fun i hi => absurd hi (Nat.not_lt_zero _)⟩
  | succ n ih =>
    obtain ⟨ih1, ih2⟩ := ih
    rw [List.range_succ, List.foldl_append]
    simp only [List.foldl_cons, List.foldl_nil]
    by_cases hn : n < pad0
    · rw [if_pos hn, Nat.mod_eq_of_lt (hw n hn)]
      have hcopy : ∀ (o : Nat → Nat) (x : Nat),
          copy_to o (orig + n * cols) (fun k => buf (n * pad1 + k)) pad1 x = o x ∨
          (orig + n * cols ≤ x ∧ x < orig + n * cols + pad1 ∧
            copy_to o (orig + n * cols) (fun k => buf (n * pad1 + k)) pad1 x = tgt x) := by
        intro o x
        unfold copy_to
        split_ifs with hx
        · right
          refine ⟨hx.1, hx.2, ?_⟩
          show buf (n * pad1 + (x - (orig + n * cols))) = tgt x
          rw [hv n hn (x - (orig + n * cols)) (by omega)]
          congr 1
          omega
        · exact Or.inl rfl
      constructor
      · intro x
        rcases hcopy ((List.range n).foldl
          (fun o i => if i < pad0
            then copy_to o ((orig + i * cols) % 4294967296) (fun k => buf (i * pad1 + k)) pad1
            else o) out) x with h | ⟨_, _, h⟩
        · rw [h]
          exact ih1 x
        · exact Or.inr h
      · intro i hi hip k hk
        by_cases hin : i < n
        · rcases hcopy ((List.range n).foldl
            (fun o i => if i < pad0
              then copy_to o ((orig + i * cols) % 4294967296) (fun k => buf (i * pad1 + k)) pad1
              else o) out) (orig + i * cols + k) with h | ⟨_, _, h⟩
          · rw [h]
            exact ih2 i hin hip k hk
          · exact h
        · have e : i = n := by omega
          subst e
          unfold copy_to
          rw [if_pos ⟨by omega, by omega⟩]
          show buf (i * pad1 + (orig + i * cols + k - (orig + i * cols))) = _
          rw [hv i hip (orig + i * cols + k - (orig + i * cols)) (by omega)]
          congr 1
          omega
    · rw [if_neg hn]
      refine ⟨ih1, ?_⟩
      intro i hi hip k hk
      exact ih2 i (by omega) hip k hk

/-- The copy of lines 906-913 writes the bytes of the cell at their places
and leaves every other byte of the output as it is or as it should be. -/
theorem scatter_spec (out buf tgt : Nat → Nat) (orig cols pad0 pad1 : Nat) (hp : pad0 ≤ 8)
    (hw : ∀ i, i < pad0 → orig + i * cols < 4294967296)
    (hv : ∀ i, i < pad0 → ∀ k, k < pad1 → buf (i * pad1 + k) = tgt (orig + i * cols + k)) :
    (∀ x, scatter out buf orig cols pad0 pad1 x = out x ∨
      scatter out buf orig cols pad0 pad1 x = tgt x) ∧
    (∀ i, i < pad0 → ∀ k, k < pad1 →
      scatter out buf orig cols pad0 pad1 (orig + i * cols + k) = tgt (orig + i * cols + k)) := by
  obtain ⟨h1, h2⟩ := scatter_rows out buf tgt orig cols pad0 pad1 hw hv 8
  exact ⟨h1, fun i hi k hk => h2 i (by omega) hi k hk⟩

/-! ## The token branches for the plain records -/

theorem decoder_padding_eq (shape i_stop ii : Nat) :
    decoder_padding shape i_stop ii = padding shape i_stop ii := rfl

theorem decode_token_literal (u : indeterminate) (input : List Nat) (pad0 pad1 : Nat)
    (s : decoder_vars) (ht : in_byte u input s.ip % 256 = 0) :
    decode_token u input pad0 pad1 s =
      some ⟨in_at u input (s.ip + 1), s.ip + 1 + ((pad0 * pad1 : Nat) : Int),
        s.local_buffer, s.cell_aux⟩ := by
  unfold decode_token
  simp only [ht, if_true]

theorem decode_token_cell_match (u : indeterminate) (input : List Nat) (pad0 pad1 : Nat)
    (s : decoder_vars) (ht : in_byte u input s.ip % 256 = 192) :
    decode_token u input pad0 pad1 s =
      some ⟨in_at u input (s.ip + 1 - (in_u16 u input (s.ip + 1) : Int) - 1), s.ip + 1 + 2,
        s.local_buffer, s.cell_aux⟩ := by
  unfold decode_token
  simp only [ht]
  rw [if_pos trivial, if_neg (by decide)]

theorem decode_step_of_token (u : indeterminate) (input : List Nat) (length maxout : Int)
    (rows cols i_stop0 i_stop1 ii0 ii1 : Nat) (s : decoder_vars) (d : decoded_cell)
    (hip : ¬ s.ip > length)
    (ht : decode_token u input (decoder_padding rows i_stop0 ii0)
      (decoder_padding cols i_stop1 ii1) s = some d)
    (hind : ¬ ((ii0 * 8 * cols + ii1 * 8) % 4294967296 +
      (decoder_padding rows i_stop0 ii0 - 1) * cols) % 4294967296 > u32 maxout) :
    decode_step u input length maxout rows cols i_stop0 i_stop1 ii0 ii1 s =
      Except.ok ⟨d.ip,
        scatter s.out d.buffercpy ((ii0 * 8 * cols + ii1 * 8) % 4294967296) cols
          (decoder_padding rows i_stop0 ii0) (decoder_padding cols i_stop1 ii1),
        d.local_buffer, d.cell_aux,
        ((ii0 * 8 * cols + ii1 * 8) % 4294967296 +
          (decoder_padding rows i_stop0 ii0 - 1) * cols) % 4294967296,
        decoder_padding cols i_stop1 ii1⟩ := by
  unfold decode_step
  rw [if_neg hip]
  simp only [ht]
  rw [if_neg hind]

/-! ## The nested loops as one loop over the cells -/

theorem loop_append {α σ ρ : Type} (body : α → σ → Except ρ σ) (l1 l2 : List α) (s : σ) :
    loop body (l1 ++ l2) s =
      match loop body l1 s with
      | Except.error r => Except.error r
      | Except.ok s' => loop body l2 s' := by
  induction l1 generalizing s with
  | nil => rfl
  | cons a as ih =>
    simp only [List.cons_append, loop]
    cases body a s with
    | error r => rfl
    | ok s1 => exact ih s1

theorem loop_map {α β σ ρ : Type} (body : β → σ → Except ρ σ) (g : α → β) (l : List α)
    (s : σ) : loop body (l.map g) s = loop (fun a s => body (g a) s) l s := by
  induction l generalizing s with
  | nil => rfl
  | cons a as ih =>
    simp only [List.map_cons, loop]
    cases body (g a) s with
    | error r => rfl
    | ok s1 => exact ih s1

theorem loop_grid {σ ρ : Type} (f : Nat → Nat → σ → Except ρ σ) (l0 l1 : List Nat) (s : σ) :
    loop (fun a s => loop (fun b s1 => f a b s1) l1 s) l0 s =
      loop (fun (c : Nat × Nat) s => f c.1 c.2 s)
        (l0.flatMap (fun a => l1.map (fun b => (a, b)))) s := by
  induction l0 generalizing s with
  | nil => rfl
  | cons a as ih =>
    rw [List.flatMap_cons, loop_append, loop_map]
    simp only [loop]
    cases loop (fun b s1 => f a b s1) l1 s with
    | error r => rfl
    | ok s1 => exact ih s1

/-! ## A cell of the grid inside the block -/

theorem cell_arith (rows cols ii0 ii1 : Nat) (h0 : ii0 < (rows + 8 - 1) / 8)
    (h1 : ii1 < (cols + 8 - 1) / 8) :
    ii0 * 8 + padding rows ((rows + 8 - 1) / 8) ii0 ≤ rows ∧
    ii1 * 8 + padding cols ((cols + 8 - 1) / 8) ii1 ≤ cols := by
  unfold padding
  constructor <;> split_ifs <;> omega

theorem cell_inside (rows cols ii0 ii1 pad0 pad1 i k : Nat) (hr : ii0 * 8 + pad0 ≤ rows)
    (hc : ii1 * 8 + pad1 ≤ cols) (hi : i < pad0) (hk : k < pad1) :
    ii0 * 8 * cols + ii1 * 8 + i * cols + k < rows * cols := by
  have e : ii0 * 8 * cols + ii1 * 8 + i * cols + k = (ii0 * 8 + i) * cols + (ii1 * 8 + k) := by
    ring
  have h1 : (ii0 * 8 + i + 1) * cols ≤ rows * cols := Nat.mul_le_mul_right _ (by omega)
  have e2 : (ii0 * 8 + i + 1) * cols = (ii0 * 8 + i) * cols + cols := by ring
  rw [e]
  omega

theorem grid_cover (rows cols x : Nat) (hx : x < rows * cols) :
    ∃ c ∈ cell_grid ((rows + 8 - 1) / 8) ((cols + 8 - 1) / 8),
      ∃ i, i < padding rows ((rows + 8 - 1) / 8) c.1 ∧
      ∃ k, k < padding cols ((cols + 8 - 1) / 8) c.2 ∧
        x = c.1 * 8 * cols + c.2 * 8 + i * cols + k := by
  have hc : 0 < cols := by
    rcases Nat.eq_zero_or_pos cols with h | h
    · rw [h] at hx
      simp at hx
    · exact h
  have hr : x / cols < rows := (Nat.div_lt_iff_lt_mul hc).mpr hx
  have hq : x % cols < cols := Nat.mod_lt _ hc
  refine ⟨(x / cols / 8, x % cols / 8), ?_, x / cols % 8, ?_, x % cols % 8, ?_, ?_⟩
  · simp only [cell_grid, for_range, List.mem_flatMap, List.mem_map, List.mem_range',
      Prod.mk.injEq]
    refine ⟨x / cols / 8, ⟨x / cols / 8, by omega, by omega⟩, x % cols / 8,
      ⟨x % cols / 8, by omega, by omega⟩, rfl, rfl⟩
  · unfold padding
    simp only
    split_ifs <;> omega
  · unfold padding
    simp only
    split_ifs <;> omega
  · simp only
    have e1 : x / cols / 8 * 8 * cols + x / cols % 8 * cols = x / cols * cols := by
      rw [← Nat.add_mul]
      congr 1
      omega
    have e2 := Nat.div_add_mod x cols
    have e3 : cols * (x / cols) = x / cols * cols := Nat.mul_comm _ _
    omega

/-! ## One cell: the decoder follows the encoder -/

theorem cell_step_extends (XXH32 : List Nat → Nat → Nat) (rows cols : Nat) (input : List Nat)
    (length maxout : Int) (ii0 ii1 : Nat) (s s1 : ndlz8_vars × List Nat)
    (h : cell_step XXH32 rows cols input length maxout ii0 ii1 s = Except.ok s1) :
    s.2 <+: s1.2 := by
  unfold cell_step at h
  simp only at h
  split_ifs at h with h1 h2
  cases h
  exact List.prefix_append _ _

theorem cells_extend (XXH32 : List Nat → Nat → Nat) (rows cols : Nat) (input : List Nat)
    (length maxout : Int) (cells : List (Nat × Nat)) :
    ∀ (s sf : ndlz8_vars × List Nat),
      loop (fun (c : Nat × Nat) s => cell_step XXH32 rows cols input length maxout c.1 c.2 s)
        cells s = Except.ok sf → s.2 <+: sf.2 := by
  induction cells with
  | nil =>
    intro s sf h
    rw [loop_nil_ok _ s sf h]
  | cons c cs ih =>
    intro s sf h
    obtain ⟨s1, h1, h2⟩ := loop_cons_ok _ c cs s sf h
    exact (cell_step_extends XXH32 rows cols input length maxout c.1 c.2 s s1 h1).trans
      (ih s1 sf h2)

theorem stream_byte (u : indeterminate) (S out r : List Nat) (hS : out ++ r <+: S) (j : Nat)
    (hj : j < r.length) (z : Int) (hz : z = (out.length : Int) + (j : Int)) :
    in_byte u S z = r.getD j 0 := by
  have hl := hS.length_le
  simp only [List.length_append] at hl
  have e : z = ((out.length + j : Nat) : Int) := by
    rw [hz]
    push_cast
    rfl
  rw [e, in_byte_inside u S _ (by omega),
    getD_of_extends _ _ hS _ (by simp only [List.length_append]; omega),
    List.getD_append_right _ _ _ _ (by omega)]
  congr 1
  omega

theorem stream_byte_old (u : indeterminate) (S out r : List Nat) (hS : out ++ r <+: S)
    (k : Nat) (hk : k < out.length) (z : Int) (hz : z = (k : Int)) :
    in_byte u S z = out.getD k 0 := by
  have hl := hS.length_le
  simp only [List.length_append] at hl
  rw [hz, in_byte_inside u S _ (by omega),
    getD_of_extends _ _ hS _ (by simp only [List.length_append]; omega),
    List.getD_append _ _ _ _ hk]

/-- A cell step of the decoder whose token branch delivers the bytes of the
cell: it stays in the loop and copies the cell to its place. -/
theorem decode_step_correct (u : indeterminate) (S input : List Nat) (cap : Int)
    (rows cols ii0 ii1 : Nat) (dv : decoder_vars) (d : decoded_cell)
    (hsz : rows * cols ≤ 2147483647) (hcap : ((rows * cols : Nat) : Int) ≤ cap)
    (hcap2 : cap ≤ 2147483647)
    (h0 : ii0 < (rows + 8 - 1) / 8) (h1 : ii1 < (cols + 8 - 1) / 8)
    (hip : ¬ dv.ip > (S.length : Int))
    (ht : decode_token u S (padding rows ((rows + 8 - 1) / 8) ii0)
      (padding cols ((cols + 8 - 1) / 8) ii1) dv = some d)
    (hv : ∀ i, i < padding rows ((rows + 8 - 1) / 8) ii0 →
      ∀ k, k < padding cols ((cols + 8 - 1) / 8) ii1 →
      d.buffercpy (i * padding cols ((cols + 8 - 1) / 8) ii1 + k) =
        input.getD (ii0 * 8 * cols + ii1 * 8 + i * cols + k) 0) :
    ∃ d1, decode_step u S (S.length : Int) cap rows cols ((rows + 8 - 1) / 8)
        ((cols + 8 - 1) / 8) ii0 ii1 dv = Except.ok d1 ∧
      d1.ip = d.ip ∧ (∀ x, d1.out x = dv.out x ∨ d1.out x = input.getD x 0) ∧
      (∀ i, i < padding rows ((rows + 8 - 1) / 8) ii0 →
        ∀ k, k < padding cols ((cols + 8 - 1) / 8) ii1 →
        d1.out (ii0 * 8 * cols + ii1 * 8 + i * cols + k) =
          input.getD (ii0 * 8 * cols + ii1 * 8 + i * cols + k) 0) := by
  obtain ⟨pr, pc⟩ := cell_arith rows cols ii0 ii1 h0 h1
  have pb0 := padding_bounds rows ((rows + 8 - 1) / 8) ii0
  have pb1 := padding_bounds cols ((cols + 8 - 1) / 8) ii1
  have hin : ∀ i, i < padding rows ((rows + 8 - 1) / 8) ii0 →
      ∀ k, k < padding cols ((cols + 8 - 1) / 8) ii1 →
      ii0 * 8 * cols + ii1 * 8 + i * cols + k < rows * cols :=
    fun i hi k hk => cell_inside rows cols ii0 ii1 _ _ i k pr pc hi hk
  have horig : (ii0 * 8 * cols + ii1 * 8) % 4294967296 = ii0 * 8 * cols + ii1 * 8 :=
    Nat.mod_eq_of_lt (by have := hin 0 (by omega) 0 (by omega); omega)
  have hlast := hin (padding rows ((rows + 8 - 1) / 8) ii0 - 1) (by omega) 0 (by omega)
  have hind : ((ii0 * 8 * cols + ii1 * 8) % 4294967296 +
      (padding rows ((rows + 8 - 1) / 8) ii0 - 1) * cols) % 4294967296 =
      ii0 * 8 * cols + ii1 * 8 + (padding rows ((rows + 8 - 1) / 8) ii0 - 1) * cols := by
    rw [horig]
    exact Nat.mod_eq_of_lt (by omega)
  have hu : u32 cap = cap.toNat := by
    unfold u32
    congr 1
    omega
  refine ⟨_, decode_step_of_token u S _ cap rows cols _ _ ii0 ii1 dv d hip ht ?_, rfl, ?_⟩
  · rw [decoder_padding_eq, hind, hu]
    omega
  · have sp := scatter_spec dv.out d.buffercpy (fun x => input.getD x 0)
      (ii0 * 8 * cols + ii1 * 8) cols _ _ pb0.2
      (fun i hi => by have := hin i hi 0 (by omega); omega) hv
    simp only [decoder_padding_eq, horig]
    exact sp

/-- One cell of a run of the encoder whose record is plain: the decoder, at
the anchor of the record in the final stream, stays in the loop, arrives at
the end of the record and has copied the bytes of the cell to their places
in the output. -/
theorem cell_simulation (XXH32 : List Nat → Nat → Nat) (u : indeterminate) (rows cols : Nat)
    (input : List Nat) (length maxout : Int) (header : List Nat) (hh : header.length = 9)
    (S : List Nat) (cap : Int)
    (hsz : rows * cols ≤ 2147483647) (hlen : length ≤ 2147483647)
    (hcap : ((rows * cols : Nat) : Int) ≤ cap) (hcap2 : cap ≤ 2147483647)
    (ii0 ii1 : Nat) (h0 : ii0 < (rows + 8 - 1) / 8) (h1 : ii1 < (cols + 8 - 1) / 8)
    (s s1 : ndlz8_vars × List Nat) (recs : List (Nat × List Nat))
    (hw : written XXH32 rows cols input length maxout header s recs)
    (hE : cell_step XXH32 rows cols input length maxout ii0 ii1 s = Except.ok s1)
    (hpl : plain_record (s1.2.drop s.2.length) = true)
    (hS : s1.2 <+: S) (dv : decoder_vars) (hip : dv.ip = (s.2.length : Int)) :
    ∃ d1, decode_step u S (S.length : Int) cap rows cols ((rows + 8 - 1) / 8)
        ((cols + 8 - 1) / 8) ii0 ii1 dv = Except.ok d1 ∧
      d1.ip = (s1.2.length : Int) ∧
      (∀ x, d1.out x = dv.out x ∨ d1.out x = input.getD x 0) ∧
      (∀ i, i < padding rows ((rows + 8 - 1) / 8) ii0 →
        ∀ k, k < padding cols ((cols + 8 - 1) / 8) ii1 →
        d1.out (ii0 * 8 * cols + ii1 * 8 + i * cols + k) =
          input.getD (ii0 * 8 * cols + ii1 * 8 + i * cols + k) 0) := by
  have hT := written_entries XXH32 rows cols input length maxout header hh s recs hw
  unfold cell_step at hE
  simp only at hE
  split_ifs at hE with e1 e2
  cases hE
  simp only [List.drop_left] at hpl
  simp only at hS ⊢
  have hSl := hS.length_le
  simp only [List.length_append] at hSl e2
  have hA : s.2.length + 56 < 4294967296 := by omega
  have pb0 := padding_bounds rows ((rows + 8 - 1) / 8) ii0
  have pb1 := padding_bounds cols ((cols + 8 - 1) / 8) ii1
  have hipS : ¬ dv.ip > (S.length : Int) := by
    rw [hip]
    omega
  rcases encode_cell_plain XXH32 rows cols input s.2 ii0 ii1
      { s.1 with update_6 := fun _ => 0, update_pair := fun _ => 0,
                 update_triple := fun _ => 0 } hT hA hpl with hr | ⟨q0, q1, p, hr, hn, hf⟩
  · rw [hr] at hS hSl ⊢
    have hl := length_padded_cell input cols (ii0 * 8 * cols + ii1 * 8)
      (padding rows ((rows + 8 - 1) / 8) ii0) (padding cols ((cols + 8 - 1) / 8) ii1)
    have hpos : 0 < padding rows ((rows + 8 - 1) / 8) ii0 *
        padding cols ((cols + 8 - 1) / 8) ii1 := Nat.mul_pos (by omega) (by omega)
    have htok : in_byte u S dv.ip % 256 = 0 := by
      rw [stream_byte u S s.2 _ hS 0 (by omega) dv.ip (by rw [hip]; simp)]
      rfl
    obtain ⟨d1, a1, a2, a3, a4⟩ := decode_step_correct u S input cap rows cols ii0 ii1 dv _
      hsz hcap hcap2 h0 h1 hipS (decode_token_literal u S _ _ dv htok) (by
        intro i hi k hk
        have hik : i * padding cols ((cols + 8 - 1) / 8) ii1 + k <
            padding rows ((rows + 8 - 1) / 8) ii0 * padding cols ((cols + 8 - 1) / 8) ii1 := by
          calc i * padding cols ((cols + 8 - 1) / 8) ii1 + k
              < i * padding cols ((cols + 8 - 1) / 8) ii1 +
                padding cols ((cols + 8 - 1) / 8) ii1 := by omega
            _ = (i + 1) * padding cols ((cols + 8 - 1) / 8) ii1 := by ring
            _ ≤ _ := Nat.mul_le_mul_right _ (by omega)
        show in_byte u S (dv.ip + 1 +
          ((i * padding cols ((cols + 8 - 1) / 8) ii1 + k : Nat) : Int)) = _
        rw [stream_byte u S s.2 _ hS (1 + (i * padding cols ((cols + 8 - 1) / 8) ii1 + k))
          (by omega) _ (by rw [hip]; push_cast; ring)]
        exact padded_cell_getD input cols _ _ _ i k hi hk)
    refine ⟨d1, a1, ?_, a3, a4⟩
    rw [a2, hip, List.length_append, hl]
    push_cast
    ring
  · rw [hr] at hS hSl ⊢
    obtain ⟨hp0, hpA, hpd⟩ := hn
    have htok : in_byte u S dv.ip % 256 = 192 := by
      rw [stream_byte u S s.2 _ hS 0 (by simp [le16]) dv.ip (by rw [hip]; simp)]
      rfl
    have hoff : in_u16 u S (dv.ip + 1) = s.2.length - p := by
      unfold in_u16
      rw [stream_byte u S s.2 _ hS 1 (by simp [le16]) (dv.ip + 1) (by rw [hip]; simp),
        stream_byte u S s.2 _ hS 2 (by simp [le16]) (dv.ip + 1 + 1)
          (by rw [hip]; push_cast; ring)]
      simp only [le16, List.singleton_append, List.getD_cons_succ, List.getD_cons_zero]
      omega
    obtain ⟨d1, a1, a2, a3, a4⟩ := decode_step_correct u S input cap rows cols ii0 ii1 dv _
      hsz hcap hcap2 h0 h1 hipS (decode_token_cell_match u S _ _ dv htok) (by
        intro i hi k hk
        rw [q1] at hk ⊢
        rw [q0] at hi
        have hfl := length_fill_cell input cols (ii0 * 8 * cols + ii1 * 8)
        obtain ⟨hf1, _⟩ := id hf
        rw [hfl] at hf1
        show in_byte u S (dv.ip + 1 - (in_u16 u S (dv.ip + 1) : Int) - 1 +
          ((i * 8 + k : Nat) : Int)) = _
        rw [hoff, stream_byte_old u S s.2 _ hS (p + (i * 8 + k)) (by omega) _
          (by rw [hip]; push_cast; omega),
          getD_found s.2 p _ hf (i * 8 + k) (by omega)]
        exact fill_cell_getD input cols _ i k hi hk)
    refine ⟨d1, a1, ?_, a3, a4⟩
    rw [a2, hip]
    simp only [List.length_append, le16, List.length_cons, List.length_nil]
    push_cast
    ring

/-- The cells of a run of the encoder, all with plain records: the decoder
follows the encoder cell by cell on the final stream. -/
theorem cells_simulation (XXH32 : List Nat → Nat → Nat) (u : indeterminate) (rows cols : Nat)
    (input : List Nat) (length maxout : Int) (header : List Nat) (hh : header.length = 9)
    (S : List Nat) (cap : Int)
    (hsz : rows * cols ≤ 2147483647) (hlen : length ≤ 2147483647)
    (hcap : ((rows * cols : Nat) : Int) ≤ cap) (hcap2 : cap ≤ 2147483647)
    (cells : List (Nat × Nat)) :
    (∀ c ∈ cells, c.1 < (rows + 8 - 1) / 8 ∧ c.2 < (cols + 8 - 1) / 8) →
    ∀ (s sf : ndlz8_vars × List Nat) (recs : List (Nat × List Nat)) (dv : decoder_vars),
      written XXH32 rows cols input length maxout header s recs →
      loop (fun (c : Nat × Nat) s => cell_step XXH32 rows cols input length maxout c.1 c.2 s)
        cells s = Except.ok sf →
      sf.2 <+: S →
      (∀ r ∈ cell_records XXH32 rows cols input length maxout cells s,
        plain_record r = true) →
      dv.ip = (s.2.length : Int) →
      ∃ df, loop (fun (c : Nat × Nat) d => decode_step u S (S.length : Int) cap rows cols
            ((rows + 8 - 1) / 8) ((cols + 8 - 1) / 8) c.1 c.2 d) cells dv = Except.ok df ∧
        df.ip = (sf.2.length : Int) ∧
        (∀ x, df.out x = dv.out x ∨ df.out x = input.getD x 0) ∧
        (∀ c ∈ cells, ∀ i, i < padding rows ((rows + 8 - 1) / 8) c.1 →
          ∀ k, k < padding cols ((cols + 8 - 1) / 8) c.2 →
          df.out (c.1 * 8 * cols + c.2 * 8 + i * cols + k) =
            input.getD (c.1 * 8 * cols + c.2 * 8 + i * cols + k) 0) := by
  induction cells with
  | nil =>
    intro _ s sf recs dv _ hE _ _ hip
    rw [← loop_nil_ok _ s sf hE]
    exact ⟨dv, rfl, hip, fun x => Or.inl rfl, fun c hc => absurd hc (List.not_mem_nil _)⟩
  | cons c cs ih =>
    intro hc s sf recs dv hw hE hS hpl hip
    obtain ⟨s1, h1, h2⟩ := loop_cons_ok _ c cs s sf hE
    have hpre := cells_extend XXH32 rows cols input length maxout cs s1 sf h2
    have hrec : cell_records XXH32 rows cols input length maxout (c :: cs) s =
        s1.2.drop s.2.length :: cell_records XXH32 rows cols input length maxout cs s1 := by
      simp only [cell_records, h1]
    rw [hrec] at hpl
    obtain ⟨d1, a1, a2, a3, a4⟩ := cell_simulation XXH32 u rows cols input length maxout
      header hh S cap hsz hlen hcap hcap2 c.1 c.2 (hc c (List.mem_cons_self _ _)).1
      (hc c (List.mem_cons_self _ _)).2 s s1 recs hw h1
      (hpl _ (List.mem_cons_self _ _)) (hpre.trans hS) dv hip
    obtain ⟨df, b1, b2, b3, b4⟩ := ih (fun c' hc' => hc c' (List.mem_cons_of_mem _ hc'))
      s1 sf _ d1 (written.cell c.1 c.2 s s1 recs hw h1) h2 hS
      (fun r hr => hpl r (List.mem_cons_of_mem _ hr)) a2
    refine ⟨df, ?_, b2, ?_, ?_⟩
    · simp only [loop, a1]
      exact b1
    · intro x
      rcases b3 x with h | h
      · rw [h]
        exact a3 x
      · exact Or.inr h
    · intro c' hc' i hi k hk
      rcases List.mem_cons.mp hc' with e | hm
      · subst e
        rcases b3 (c'.1 * 8 * cols + c'.2 * 8 + i * cols + k) with h | h
        · rw [h]
          exact a4 i hi k hk
        · exact h
      · exact b4 c' hm i hi k hk

theorem mem_cell_grid (a b : Nat) (c : Nat × Nat) (h : c ∈ cell_grid a b) :
    c.1 < a ∧ c.2 < b := by
  simp only [cell_grid, for_range, List.mem_flatMap, List.mem_map, List.mem_range'] at h
  obtain ⟨x, ⟨i, hi, rfl⟩, y, ⟨j, hj, rfl⟩, rfl⟩ := h
  simp only
  omega

theorem header_read (u : indeterminate) (S : List Nat) (n rows cols : Nat)
    (hS : [n] ++ le32 rows ++ le32 cols <+: S) (hr : rows < 4294967296)
    (hc : cols < 4294967296) :
    header_rows u S = rows ∧ header_cols u S = cols := by
  have hl := hS.length_le
  simp only [List.length_append, List.length_cons, List.length_nil, le32] at hl
  have g : ∀ j, j < 9 → S.getD j 0 = ([n] ++ le32 rows ++ le32 cols).getD j 0 :=
    fun j hj => getD_of_extends _ _ hS j (by simp [le32]; omega)
  rw [header_rows_eq u S (by omega), header_cols_eq u S (by omega),
    g 1 (by omega), g 2 (by omega), g 3 (by omega), g 4 (by omega),
    g 5 (by omega), g 6 (by omega), g 7 (by omega), g 8 (by omega)]
  simp only [le32, List.singleton_append, List.cons_append, List.nil_append,
    List.getD_cons_succ, List.getD_cons_zero]
  constructor <;> omega

/-! ## The restricted round trip -/

theorem i32_small (x : Nat) (h : x ≤ 2147483647) : i32 x = (x : Int) := by
  unfold i32
  rw [if_pos (by omega)]
  congr 1
  omega

/-- C34. Restricted round trip: for every block (`input` holds its
`rows * cols` bytes) and every capacity such that `ndlz8_compress` returns
`n > 0` and every cell record written is a literal, full or padded, or a
cell-match record, `ndlz8_decompress` on those `n` bytes, with a capacity of
at least `rows * cols` (an `int`), returns `rows * cols` and its output holds
the block.  The proof follows the two loops cell by cell (`cell_simulation`):
for a cell match the decoder reads at `ip - offset - 1`, which is the entry of
the cell table, the first data byte of the literal record that the encoder
compared with the cell. -/
theorem restricted_round_trip (XXH32 : List Nat → Nat → Nat) (u : indeterminate)
    (context : blosc2_context) (input : List Nat) (length maxout capacity : Int)
    (hin : input.length = context.blockshape0 * context.blockshape1)
    (hlen : length ≤ 2147483647)
    (hn : 0 < (ndlz8_compress XXH32 context input length maxout).1)
    (hplain : ∀ r ∈ compress_records XXH32 context input length maxout,
      plain_record r = true)
    (hcap : ((context.blockshape0 * context.blockshape1 : Nat) : Int) ≤ capacity)
    (hcap2 : capacity ≤ 2147483647) :
    (ndlz8_decompress u (ndlz8_compress XXH32 context input length maxout).2
        (ndlz8_compress XXH32 context input length maxout).1 capacity).1 =
      ((context.blockshape0 * context.blockshape1 : Nat) : Int) ∧
    out_bytes (ndlz8_decompress u (ndlz8_compress XXH32 context input length maxout).2
        (ndlz8_compress XXH32 context input length maxout).1 capacity).2
      (context.blockshape0 * context.blockshape1) = input := by
  obtain ⟨hnd, _, hl, _, h64, _, e⟩ :=
    ndlz8_compress_checked XXH32 context input length maxout (Or.inr hn)
  have hpos : 64 ≤ context.blockshape0 * context.blockshape1 := by
    rw [hl] at h64
    exact_mod_cast h64
  have hsz : context.blockshape0 * context.blockshape1 ≤ 2147483647 := by
    rw [hl] at hlen
    exact_mod_cast hlen
  have hrows : 1 ≤ context.blockshape0 := by
    rcases Nat.eq_zero_or_pos context.blockshape0 with h0 | h0
    · rw [h0] at hpos; simp at hpos
    · exact h0
  have hcols : 1 ≤ context.blockshape1 := by
    rcases Nat.eq_zero_or_pos context.blockshape1 with h0 | h0
    · rw [h0] at hpos; simp at hpos
    · exact h0
  have hr2 : context.blockshape0 ≤ 2147483647 :=
    le_trans (Nat.le_mul_of_pos_right _ hcols) hsz
  have hc2 : context.blockshape1 ≤ 2147483647 :=
    le_trans (Nat.le_mul_of_pos_left _ hrows) hsz
  have hpl : ∀ r ∈ cell_records XXH32 context.blockshape0 context.blockshape1 input length
      maxout (cell_grid ((context.blockshape0 + 8 - 1) / 8) ((context.blockshape1 + 8 - 1) / 8))
      (ndlz8_vars.init, [2] ++ le32 context.blockshape0 ++ le32 context.blockshape1),
      plain_record r = true := by
    have h := hplain
    unfold compress_records at h
    rw [hnd] at h
    exact h
  rw [e] at hn ⊢
  cases hc : encode_cells XXH32 context.blockshape0 context.blockshape1 input length maxout
      ([2] ++ le32 context.blockshape0 ++ le32 context.blockshape1) with
  | error o =>
    rw [hc] at hn
    simp at hn
  | ok sf =>
    simp only
    unfold encode_cells at hc
    simp only at hc
    rw [loop_grid] at hc
    have hpre := cells_extend XXH32 context.blockshape0 context.blockshape1 input length
      maxout _ _ _ hc
    simp only at hpre
    obtain ⟨hR, hC⟩ := header_read u sf.2 2 context.blockshape0 context.blockshape1 hpre
      (by omega) (by omega)
    have h9 : 9 ≤ sf.2.length := by
      have := hpre.length_le
      simp only [List.length_append, List.length_cons, List.length_nil, le32] at this
      omega
    obtain ⟨df, b1, _, _, b4⟩ := cells_simulation XXH32 u context.blockshape0
      context.blockshape1 input length maxout
      ([2] ++ le32 context.blockshape0 ++ le32 context.blockshape1) (by simp [le32]) sf.2
      capacity
      hsz hlen hcap hcap2
      (cell_grid ((context.blockshape0 + 8 - 1) / 8) ((context.blockshape1 + 8 - 1) / 8))
      (fun c hc => mem_cell_grid _ _ c hc)
      (ndlz8_vars.init, [2] ++ le32 context.blockshape0 ++ le32 context.blockshape1) sf []
      ⟨9, copy_to u.output 0 (fun _ => 0)
        ((header_rows u sf.2 * header_cols u sf.2) % 4294967296),
        u.local_buffer, u.cell_aux, u.ind, u.padding1⟩
      written.start hc (List.prefix_refl _) hpl rfl
    have ea : (context.blockshape0 + 7) % 4294967296 / 8 * 8 / 8 =
        (context.blockshape0 + 8 - 1) / 8 := by omega
    have eb : (context.blockshape1 + 7) % 4294967296 / 8 * 8 / 8 =
        (context.blockshape1 + 8 - 1) / 8 := by omega
    have hnest : decoder_cells u sf.2 (sf.2.length : Int) capacity = Except.ok df := by
      unfold decoder_cells
      simp only
      rw [loop_grid]
      rw [hR, hC] at b1
      rw [hR, hC, ea, eb]
      exact b1
    have hsize : (df.ind + df.padding1) % 4294967296 =
        context.blockshape0 * context.blockshape1 := by
      have h := hnest
      unfold decoder_cells at h
      simp only at h
      obtain ⟨e1, e2⟩ := decoder_loop_last u sf.2 _ capacity _ _ _ _
        (by rw [hR]; omega) (by rw [hC]; omega) _ df h
      rw [e1, e2, hR, hC]
      exact last_cell_size _ _ hrows (by omega) hcols (by omega) (by omega)
    have hu : u32 capacity = capacity.toNat := by
      unfold u32
      congr 1
      omega
    rw [decompress_cells, if_neg (by omega), hnest]
    simp only
    rw [hsize, hR, hC, Nat.mod_eq_of_lt (by omega), if_neg (by simp), if_neg (by rw [hu]; omega),
      i32_small _ hsz]
    refine ⟨rfl, ?_⟩
    apply List.ext_getElem
    · simp [out_bytes, hin]
    · intro x h1 h2
      have hx : x < context.blockshape0 * context.blockshape1 := by
        rw [← hin]
        exact h2
      obtain ⟨c, hcm, i, hi, k, hk, he⟩ :=
        grid_cover context.blockshape0 context.blockshape1 x hx
      simp only [out_bytes, List.getElem_map, List.getElem_range]
      rw [← List.getD_eq_getElem _ 0 h2]
      have h := b4 c hcm i hi k hk
      rw [← he] at h
      exact h

set_option maxRecDepth 100000 in
/-- Instance of C34: the 8 x 16 block `twin_block`, whose two cells are equal,
is written as a literal record and the cell-match record `C0 40 00` (77
bytes), and the decoder gives the block back. -/
theorem restricted_round_trip_witness :
    compress_records zero_hash ⟨2, 8, 16, 0⟩ twin_block 128 200 =
      [[0] ++ List.range 64, [192, 64, 0]] ∧
    (ndlz8_compress zero_hash ⟨2, 8, 16, 0⟩ twin_block 128 200).1 = 77 ∧
    ((ndlz8_decompress zero_indeterminate
        (ndlz8_compress zero_hash ⟨2, 8, 16, 0⟩ twin_block 128 200).2
        (ndlz8_compress zero_hash ⟨2, 8, 16, 0⟩ twin_block 128 200).1 128).1 =
      ((8 * 16 : Nat) : Int) ∧
    out_bytes (ndlz8_decompress zero_indeterminate
        (ndlz8_compress zero_hash ⟨2, 8, 16, 0⟩ twin_block 128 200).2
        (ndlz8_compress zero_hash ⟨2, 8, 16, 0⟩ twin_block 128 200).1 128).2
      (8 * 16) = twin_block) :=
  ⟨by decide!, by decide!,
    restricted_round_trip zero_hash zero_indeterminate ⟨2, 8, 16, 0⟩ twin_block 128 200 128
      (by decide) (by decide) (by decide!) (by decide!) (by decide) (by decide)⟩

/-- Instance: on `literal_stream` (shape 8 x 8, one literal record) the cell
loop runs to completion and leaves `ind + padding[1] = 56 + 8 = 64`. -/
theorem size_check_passes_witness :
    ∃ s, decoder_cells zero_indeterminate literal_stream 74 64 = Except.ok s ∧
      (s.ind + s.padding1) % 4294967296 = 64 ∧
      (s.ind + s.padding1) % 4294967296 =
        (header_rows zero_indeterminate literal_stream *
          header_cols zero_indeterminate literal_stream) % 4294967296 := by
  have hok : (match decoder_cells zero_indeterminate literal_stream 74 64 with
      | Except.error _ => none
      | Except.ok s => some ((s.ind + s.padding1) % 4294967296)) = some 64 := by
    decide
  cases h : decoder_cells zero_indeterminate literal_stream 74 64 with
  | error e =>
    rw [h] at hok
    simp at hok
  | ok s =>
    rw [h] at hok
    simp only [Option.some.injEq] at hok
    exact ⟨s, rfl, hok, size_check_passes zero_indeterminate literal_stream 74 64 s
      (by decide) (by decide) (by decide) (by decide) (by decide) h⟩

/-! ## The decoder writes before it checks -/

/-- The decoder on an input whose first token passes none of the tests of the
dispatch, for header fields between 1 and `2^32 - 8`: it returns 0 at the
first cell, and the output buffer is the one that `memset(op, 0,
blockshape[0] * blockshape[1])` has left, whatever `maxout` is. -/
theorem invalid_token_result (u : indeterminate) (input : List Nat) (maxout : Int)
    (hlen : 10 ≤ input.length)
    (hrows : 1 ≤ header_rows u input) (hrows' : header_rows u input ≤ 4294967288)
    (hcols : 1 ≤ header_cols u input) (hcols' : header_cols u input ≤ 4294967288)
    (htok : no_token_class (input.getD 9 0 % 256) = true) :
    ndlz8_decompress u input (input.length : Int) maxout =
      (0, copy_to u.output 0 (fun _ => 0)
        (header_rows u input * header_cols u input % 4294967296)) := by
  have hb : in_byte u input 9 = input.getD 9 0 := by
    unfold in_byte
    rw [if_pos ⟨by decide, by omega⟩]
    rfl
  unfold ndlz8_decompress
  simp only
  rw [if_neg (by omega)]
  rw [for_range_zero_cons _ (show 1 ≤ (header_rows u input + 7) % 4294967296 / 8 * 8 / 8 by
    omega)]
  simp only [loop]
  rw [for_range_zero_cons _ (show 1 ≤ (header_cols u input + 7) % 4294967296 / 8 * 8 / 8 by
    omega)]
  simp only [loop]
  have hstep : ∀ (r c a b : Nat) (o : Nat → Nat),
      ∃ e, e.out = o ∧ decode_step u input (input.length : Int) maxout r c a b 0 0
        (⟨9, o, u.local_buffer, u.cell_aux, u.ind, u.padding1⟩ : decoder_vars) =
        Except.error e := by
    intro r c a b o
    unfold decode_step
    simp only
    rw [if_neg (by omega), decode_token_none u input _ _ _ (by simpa [hb] using htok)]
    exact ⟨_, rfl, rfl⟩
  obtain ⟨e, ho, he⟩ := hstep (header_rows u input) (header_cols u input)
    ((header_rows u input + 7) % 4294967296 / 8 * 8 / 8)
    ((header_cols u input + 7) % 4294967296 / 8 * 8 / 8)
    (copy_to u.output 0 (fun _ => 0) (header_rows u input * header_cols u input % 4294967296))
  rw [he]
  simp only [ho]

/-- The decoder on a header whose padded shape wraps to an empty cell grid:
the cell loop has no iteration, and the size check compares the variables
`ind` and `padding[1]`, which nothing has assigned, with the 32-bit product of
the header fields. -/
theorem empty_grid_result (u : indeterminate) (input : List Nat) (length maxout : Int)
    (hlen : 0 < length) (hrows : 4294967289 ≤ header_rows u input) :
    decoder_cells u input length maxout =
      Except.ok ⟨9, copy_to u.output 0 (fun _ => 0)
        (header_rows u input * header_cols u input % 4294967296),
        u.local_buffer, u.cell_aux, u.ind, u.padding1⟩ ∧
    ndlz8_decompress u input length maxout =
      (if (u.ind + u.padding1) % 4294967296 =
            header_rows u input * header_cols u input % 4294967296 ∧
          (u.ind + u.padding1) % 4294967296 ≤ u32 maxout
        then i32 ((u.ind + u.padding1) % 4294967296) else 0,
       copy_to u.output 0 (fun _ => 0)
        (header_rows u input * header_cols u input % 4294967296)) := by
  have hr : header_rows u input < 4294967296 := by
    unfold header_rows
    omega
  have hz : (header_rows u input + 7) % 4294967296 / 8 * 8 / 8 = 0 := by omega
  have hc : decoder_cells u input length maxout =
      Except.ok ⟨9, copy_to u.output 0 (fun _ => 0)
        (header_rows u input * header_cols u input % 4294967296),
        u.local_buffer, u.cell_aux, u.ind, u.padding1⟩ := by
    unfold decoder_cells
    simp only
    rw [hz]
    rfl
  refine ⟨hc, ?_⟩
  rw [decompress_cells, if_neg (by omega), hc]
  simp only
  by_cases h1 : (u.ind + u.padding1) % 4294967296 =
      header_rows u input * header_cols u input % 4294967296
  · by_cases h2 : (u.ind + u.padding1) % 4294967296 ≤ u32 maxout
    · rw [if_neg (not_not.mpr h1), if_neg (by omega), if_pos ⟨h1, h2⟩]
    · rw [if_neg (not_not.mpr h1), if_pos (by omega), if_neg (fun h => h2 h.2)]
  · rw [if_pos h1, if_neg (fun h => h1 h.1)]

theorem fields_invalid_stream_16 (u : indeterminate) :
    header_rows u invalid_stream_16 = 16 ∧ header_cols u invalid_stream_16 = 16 := by
  rw [header_rows_eq u _ (by decide), header_cols_eq u _ (by decide)]
  exact ⟨by decide, by decide⟩

theorem fields_invalid_stream_big (u : indeterminate) :
    header_rows u invalid_stream_big = 65536 ∧ header_cols u invalid_stream_big = 65535 := by
  rw [header_rows_eq u _ (by decide), header_cols_eq u _ (by decide)]
  exact ⟨by decide, by decide⟩

theorem fields_invalid_stream_65535 (u : indeterminate) :
    header_rows u invalid_stream_65535 = 65535 ∧ header_cols u invalid_stream_65535 = 65535 := by
  rw [header_rows_eq u _ (by decide), header_cols_eq u _ (by decide)]
  exact ⟨by decide, by decide⟩

theorem fields_invalid_stream_wrapped (u : indeterminate) :
    header_rows u invalid_stream_wrapped = 4294967289 ∧
    header_cols u invalid_stream_wrapped = 4294967289 := by
  rw [header_rows_eq u _ (by decide), header_cols_eq u _ (by decide)]
  exact ⟨by decide, by decide⟩

theorem fields_wrapped_header (u : indeterminate) :
    header_rows u wrapped_header = 4294967289 ∧ header_cols u wrapped_header = 1 := by
  rw [header_rows_eq u _ (by decide), header_cols_eq u _ (by decide)]
  exact ⟨by decide, by decide⟩

/-- C4 (code defect). `ndlz8_decompress` clears `blockshape[0] *
blockshape[1]` bytes of the output with `memset` (line 705) and copies whole
cells into it (lines 906-913) before it compares anything with `maxout`, and
it compares with `(uint32_t) maxout`.  For a header of 16 x 16 and the
reserved token `0x80` the call returns 0 and has set the 256 bytes `op[0 ..
255]` to zero, whatever `maxout` is; for a header of 65536 x 65535 it has set
4294901760 bytes to zero, more than any `int` capacity.  With a header of
16 x 16, a literal first cell, the capacity 64 and a buffer that held `0xAA`,
the call returns 0 after it has stored row 7 of the cell at `op[112 .. 119]`
and zeros up to `op[255]`, behind the 64 bytes of the capacity.  With
`maxout = -1` the stream of one 8 x 8 literal cell returns 64: the product of
the header fields, which is not at most `maxout`. -/
theorem decompress_writes_behind_capacity :
    (∀ (u : indeterminate) (maxout : Int),
      ndlz8_decompress u invalid_stream_16 10 maxout =
        (0, copy_to u.output 0 (fun _ => 0) 256)) ∧
    (∀ (u : indeterminate) (maxout : Int),
      ndlz8_decompress u invalid_stream_big 10 maxout =
        (0, copy_to u.output 0 (fun _ => 0) 4294901760)) ∧
    ((ndlz8_decompress sentinel_indeterminate literal_stream_16 74 64).1 = 0 ∧
      (List.range' 112 8).map (ndlz8_decompress sentinel_indeterminate literal_stream_16 74 64).2
        = [57, 58, 59, 60, 61, 62, 63, 64] ∧
      (ndlz8_decompress sentinel_indeterminate literal_stream_16 74 64).2 120 = 0 ∧
      (ndlz8_decompress sentinel_indeterminate literal_stream_16 74 64).2 255 = 0 ∧
      (ndlz8_decompress sentinel_indeterminate literal_stream_16 74 64).2 256 = 170) ∧
    (header_rows zero_indeterminate literal_stream * header_cols zero_indeterminate literal_stream
        = 64 ∧
      (ndlz8_decompress zero_indeterminate literal_stream 74 (-1)).1 = 64) := by
  refine ⟨?_, ?_, ⟨by decide, by decide, by decide, by decide, by decide⟩, by decide, by decide⟩
  · intro u maxout
    have h := invalid_token_result u invalid_stream_16 maxout (by decide)
      (by rw [(fields_invalid_stream_16 u).1]; decide)
      (by rw [(fields_invalid_stream_16 u).1]; decide)
      (by rw [(fields_invalid_stream_16 u).2]; decide)
      (by rw [(fields_invalid_stream_16 u).2]; decide) (by decide)
    rw [(fields_invalid_stream_16 u).1, (fields_invalid_stream_16 u).2] at h
    exact h
  · intro u maxout
    have h := invalid_token_result u invalid_stream_big maxout (by decide)
      (by rw [(fields_invalid_stream_big u).1]; decide)
      (by rw [(fields_invalid_stream_big u).1]; decide)
      (by rw [(fields_invalid_stream_big u).2]; decide)
      (by rw [(fields_invalid_stream_big u).2]; decide) (by decide)
    rw [(fields_invalid_stream_big u).1, (fields_invalid_stream_big u).2] at h
    exact h

/-- C10 (code defect). The stream `invalid_stream_wrapped` has 10 bytes, the
header fields `rows = cols = 2^32 - 7`, and the reserved token `0x80` at
byte 9.  The 32-bit sum `blockshape + 7` wraps (lines 702-710), the cell grid
is empty and the token is never read: the decoder clears `rows * cols mod 2^32
= 49` bytes and returns 49 when the variables `ind` and `padding[1]`, which
nothing has assigned, add up to 49 (and 0 otherwise).  For the header fields
`rows = cols = 65535` the token is read and refused, but only after `memset`
has cleared `65535 * 65535 = 4294836225` bytes of the output, whatever
`maxout` is. -/
theorem invalid_token_not_refused :
    (10 ≤ invalid_stream_wrapped.length ∧
      1 ≤ header_rows primed_indeterminate invalid_stream_wrapped ∧
      1 ≤ header_cols primed_indeterminate invalid_stream_wrapped ∧
      no_token_class (invalid_stream_wrapped.getD 9 0) = true) ∧
    (ndlz8_decompress primed_indeterminate invalid_stream_wrapped 10 64).1 = 49 ∧
    (∀ (u : indeterminate) (maxout : Int),
      ndlz8_decompress u invalid_stream_wrapped 10 maxout =
        (if (u.ind + u.padding1) % 4294967296 = 49 ∧
            (u.ind + u.padding1) % 4294967296 ≤ u32 maxout
          then i32 ((u.ind + u.padding1) % 4294967296) else 0,
         copy_to u.output 0 (fun _ => 0) 49)) ∧
    (∀ (u : indeterminate) (maxout : Int),
      ndlz8_decompress u invalid_stream_65535 10 maxout =
        (0, copy_to u.output 0 (fun _ => 0) 4294836225)) := by
  refine ⟨⟨by decide, by decide, by decide, by decide⟩, by decide, ?_, ?_⟩
  · intro u maxout
    have h := (empty_grid_result u invalid_stream_wrapped 10 maxout (by decide)
      (by rw [(fields_invalid_stream_wrapped u).1])).2
    rw [(fields_invalid_stream_wrapped u).1, (fields_invalid_stream_wrapped u).2] at h
    exact h
  · intro u maxout
    have h := invalid_token_result u invalid_stream_65535 maxout (by decide)
      (by rw [(fields_invalid_stream_65535 u).1]; decide)
      (by rw [(fields_invalid_stream_65535 u).1]; decide)
      (by rw [(fields_invalid_stream_65535 u).2]; decide)
      (by rw [(fields_invalid_stream_65535 u).2]; decide) (by decide)
    rw [(fields_invalid_stream_65535 u).1, (fields_invalid_stream_65535 u).2] at h
    exact h

/-- C37 (code defect). The header `wrapped_header` has `rows = 2^32 - 7` and
`cols = 1`, so `rows >= 1`, `cols >= 1` and `rows * cols < 2^32`.  The 32-bit
sum `rows + 7` wraps to 0 (lines 702-710), the cell loop has no iteration and
runs to completion, and the value `ind + padding[1]` computed after the loop
is made of two variables that nothing has assigned: it equals `rows * cols`
only by accident, and with both variables 0 the decoder returns 0 through the
branch `Output size is not compatible with embedded blockshape`.  Before the
loop, `memset` has cleared `2^32 - 7` bytes of the output, more than any
capacity that the `int` `maxout` can express. -/
theorem size_check_reads_unset_variables :
    (header_rows zero_indeterminate wrapped_header = 4294967289 ∧
      header_cols zero_indeterminate wrapped_header = 1) ∧
    (∀ (u : indeterminate) (maxout : Int),
      decoder_cells u wrapped_header 9 maxout =
        Except.ok ⟨9, copy_to u.output 0 (fun _ => 0) 4294967289,
          u.local_buffer, u.cell_aux, u.ind, u.padding1⟩) ∧
    (∀ (u : indeterminate) (maxout : Int),
      ndlz8_decompress u wrapped_header 9 maxout =
        (if (u.ind + u.padding1) % 4294967296 = 4294967289 ∧
            (u.ind + u.padding1) % 4294967296 ≤ u32 maxout
          then i32 ((u.ind + u.padding1) % 4294967296) else 0,
         copy_to u.output 0 (fun _ => 0) 4294967289)) ∧
    (ndlz8_decompress zero_indeterminate wrapped_header 9 100).1 = 0 ∧
    (2147483647 : Int) < ((header_rows zero_indeterminate wrapped_header *
      header_cols zero_indeterminate wrapped_header % 4294967296 : Nat) : Int) := by
  refine ⟨⟨by decide, by decide⟩, ?_, ?_, by decide, by decide⟩
  · intro u maxout
    have h := (empty_grid_result u wrapped_header 9 maxout (by decide)
      (by rw [(fields_wrapped_header u).1])).1
    rw [(fields_wrapped_header u).1, (fields_wrapped_header u).2] at h
    exact h
  · intro u maxout
    have h := (empty_grid_result u wrapped_header 9 maxout (by decide)
      (by rw [(fields_wrapped_header u).1])).2
    rw [(fields_wrapped_header u).1, (fields_wrapped_header u).2] at h
    exact h

/-! ## The encoder on block shapes that are no shape of a block -/

theorem i_stop_nat (n : Nat) (h : n ≤ 2147483640) : i_stop (n : Int) = (n + 8 - 1) / 8 := by
  unfold i_stop
  have e1 : u32 ((n : Int) + 8 - 1) = n + 7 := by
    unfold u32
    omega
  rw [e1, i32_small _ (by omega)]
  have e2 : Int.tdiv ((n + 7 : Nat) : Int) 8 = (((n + 7) / 8 : Nat) : Int) := by
    rw [Int.tdiv_eq_ediv (by omega) (by decide)]
    norm_cast
  rw [e2]
  unfold u32
  omega

/-- On a block shape of natural numbers whose product is at most `2^31 - 1`
(and whose dimensions are at most `2^31 - 8`, so that `blockshape[i] + 7` is
an `int`), the entry in the types of the source, with `cell_step` as the body
of the main loop, is `ndlz8_compress`. -/
theorem compress_signed_agrees (XXH32 : List Nat → Nat → Nat) (ndim leftover : Int)
    (rows cols : Nat) (input : List Nat) (length maxout : Int)
    (hr : rows ≤ 2147483640) (hc : cols ≤ 2147483640) (hp : rows * cols ≤ 2147483647) :
    ndlz8_compress_signed (cell_step XXH32 rows cols input length maxout)
        ⟨ndim, (rows : Int), (cols : Int), leftover⟩ length maxout =
      ndlz8_compress XXH32 ⟨ndim, rows, cols, leftover⟩ input length maxout := by
  have hm : Btune.mul32 (rows : Int) (cols : Int) = ((rows * cols : Nat) : Int) := by
    rw [Btune.mul32_exact _ _ (by positivity) (by exact_mod_cast hp)]
    norm_cast
  have hd : Int.tdiv ((rows * cols : Nat) : Int) 64 = ((rows * cols / 64 : Nat) : Int) := by
    rw [Int.tdiv_eq_ediv (by omega) (by decide)]
    norm_cast
  have hur : u32 (rows : Int) = rows := by
    unfold u32
    omega
  have huc : u32 (cols : Int) = cols := by
    unfold u32
    omega
  unfold ndlz8_compress_signed ndlz8_compress encode_cells
  simp only [hm, hd, hur, huc, i_stop_nat rows hr, i_stop_nat cols hc]

/-- A call that passes the argument checks with a first dimension whose
`i_stop` is 0: the main loop has no iteration, and the call returns 9 after
the header. -/
theorem compress_signed_empty_grid
    (cell : Nat → Nat → ndlz8_vars × List Nat → Except (List Nat) (ndlz8_vars × List Nat))
    (context : signed_context) (length maxout : Int) (hndim : context.ndim = 2)
    (hleft : length ≠ context.leftover)
    (hlen : length = Btune.mul32 context.blockshape0 context.blockshape1)
    (h64 : 64 ≤ length) (hmax : 9 ≤ maxout)
    (hover : 17 + (Int.tdiv (Btune.mul32 context.blockshape0 context.blockshape1) 64 - 1) * 2
      ≤ maxout)
    (hstop : i_stop context.blockshape0 = 0) :
    ndlz8_compress_signed cell context length maxout =
      (9, [2] ++ le32 (u32 context.blockshape0) ++ le32 (u32 context.blockshape1)) := by
  unfold ndlz8_compress_signed
  rw [if_neg (by simp [hndim]), if_neg hleft, if_neg (not_not.mpr hlen),
    if_neg (by rw [hndim]; omega), if_neg (by omega), hstop, hndim]
  simp only [for_range, loop, List.range'_zero, Nat.sub_self]
  rfl

/-- C5 (code defect). The block shape is an array of `int32_t` that the
encoder never tests for its sign.  For the shape `{-8, -8}` the `int` product
is 64: the call with `length = 64` and `maxout = 100` passes every argument
check, `i_stop` is `(-8 + 7) / 8 = 0` for both dimensions, the main loop has
no iteration whatever its body is, and the call returns 9, a positive value
below 11, after a header whose dimension fields are the bytes F8 FF FF FF. -/
theorem negative_shape_header_only :
    (∀ cell : Nat → Nat → ndlz8_vars × List Nat → Except (List Nat) (ndlz8_vars × List Nat),
      ndlz8_compress_signed cell ⟨2, -8, -8, 0⟩ 64 100 =
        (9, [2, 248, 255, 255, 255, 248, 255, 255, 255])) ∧
    (0 : Int) < 9 ∧ ¬ ((11 : Int) ≤ 9) := by
  refine ⟨fun cell => ?_, by decide, by decide⟩
  exact compress_signed_empty_grid cell ⟨2, -8, -8, 0⟩ 64 100 rfl (by decide) (by decide)
    (by decide) (by decide) (by decide) (by decide)

/-- C38 (code defect). For the block shape `{-8, -8}` (an `int32_t` shape
whose `int` product is 64) and `length = 64`, the main loop has no iteration
and the space check of line 157 is never made: the call returns 9, a positive
value, with `maxout = 17`, below 74, and also with `maxout = 64`, the input
length. -/
theorem negative_shape_needs_no_capacity :
    (∀ cell : Nat → Nat → ndlz8_vars × List Nat → Except (List Nat) (ndlz8_vars × List Nat),
      (ndlz8_compress_signed cell ⟨2, -8, -8, 0⟩ 64 17).1 = 9 ∧
      (ndlz8_compress_signed cell ⟨2, -8, -8, 0⟩ 64 64).1 = 9) ∧
    i_stop (-8) = 0 ∧ (17 : Int) < 74 ∧ (64 : Int) < 74 := by
  have e : i_stop (-8) = 0 := by decide
  refine ⟨fun cell => ⟨?_, ?_⟩, e, by decide, by decide⟩
  · rw [compress_signed_empty_grid cell ⟨2, -8, -8, 0⟩ 64 17 rfl (by decide) (by decide)
      (by decide) (by decide) (by decide) (by decide)]
  · rw [compress_signed_empty_grid cell ⟨2, -8, -8, 0⟩ 64 64 rfl (by decide) (by decide)
      (by decide) (by decide) (by decide) (by decide)]

/-- The product of the length check is an `int`: for the shape 65536 x 65536
it is 0, the call with `length = 0` passes the length check and returns 0 at
the test `length < cell_size`. -/
theorem wrapped_product_passes_length_check :
    Btune.mul32 65536 65536 = 0 ∧
    ∀ cell : Nat → Nat → ndlz8_vars × List Nat → Except (List Nat) (ndlz8_vars × List Nat),
      ndlz8_compress_signed cell ⟨2, 65536, 65536, 5⟩ 0 200 = (0, []) := by
  refine ⟨by decide, fun cell => ?_⟩
  unfold ndlz8_compress_signed
  rw [if_neg (by decide), if_neg (by decide), if_neg (by decide), if_neg (by decide),
    if_pos (by decide)]

/-- C16 fails as stated: with `ndim = 2`, block shape 8 x 8, `leftover = 10`
and `length = 10` (not 64 = rows * cols), `ndlz8_compress` returns 0, which is
not negative, whatever the body of the main loop is: the test `length ==
context->leftover` of line 75 comes before the length check. -/
theorem leftover_call_returns_zero :
    (10 : Int) ≠ 8 * 8 ∧
    (∀ cell : Nat → Nat → ndlz8_vars × List Nat → Except (List Nat) (ndlz8_vars × List Nat),
      ndlz8_compress_signed cell ⟨2, 8, 8, 10⟩ 10 200 = (0, []) ∧
      ¬ (ndlz8_compress_signed cell ⟨2, 8, 8, 10⟩ 10 200).1 < 0) := by
  refine ⟨by decide, fun cell => ?_⟩
  have e : ndlz8_compress_signed cell ⟨2, 8, 8, 10⟩ 10 200 = (0, []) := by
    unfold ndlz8_compress_signed
    rw [if_neg (by decide), if_pos (by decide)]
  rw [e]
  exact ⟨rfl, by decide⟩

/-- C16 as amended. For every call with `ndim = 2` and a `length` that
differs from the product `blockshape[0] * blockshape[1]` as the code computes
it (an `int` product, reduced to 32 bits): when `length != context->leftover`
the call returns -1 and writes nothing; when `length == context->leftover`
(the leftover block) it returns 0 and writes nothing. -/
theorem compress_rejects_length
    (cell : Nat → Nat → ndlz8_vars × List Nat → Except (List Nat) (ndlz8_vars × List Nat))
    (context : signed_context) (length maxout : Int) (hndim : context.ndim = 2)
    (hlen : length ≠ Btune.mul32 context.blockshape0 context.blockshape1) :
    (length ≠ context.leftover →
      ndlz8_compress_signed cell context length maxout = (-1, [])) ∧
    (length = context.leftover →
      ndlz8_compress_signed cell context length maxout = (0, [])) := by
  unfold ndlz8_compress_signed
  rw [if_neg (by simp [hndim])]
  constructor
  · intro h
    rw [if_neg h, if_pos hlen]
  · intro h
    rw [if_pos h]

/-- Instance of the amended C16: shape 8 x 8 and `length = 10`, once with
`leftover = 0` (returns -1) and once with `leftover = 10` (returns 0), with
the cell step of the encoder as the body of the main loop. -/
theorem compress_rejects_length_witness :
    ndlz8_compress_signed (cell_step zero_hash 8 8 (List.replicate 10 66) 10 200)
      ⟨2, 8, 8, 0⟩ 10 200 = (-1, []) ∧
    ndlz8_compress_signed (cell_step zero_hash 8 8 (List.replicate 10 66) 10 200)
      ⟨2, 8, 8, 10⟩ 10 200 = (0, []) :=
  ⟨(compress_rejects_length (cell_step zero_hash 8 8 (List.replicate 10 66) 10 200)
      ⟨2, 8, 8, 0⟩ 10 200 (by decide) (by decide)).1 (by decide),
   (compress_rejects_length (cell_step zero_hash 8 8 (List.replicate 10 66) 10 200)
      ⟨2, 8, 8, 10⟩ 10 200 (by decide) (by decide)).2 (by decide)⟩

/-! ## The reset loop stores behind `update_6` -/

/-- In a frame where no hash table follows `update_6`, the iteration is
`cell_step`. -/
theorem cell_step_stray_none (XXH32 : List Nat → Nat → Nat) (rows cols : Nat)
    (input : List Nat) (length maxout : Int) (ii0 ii1 : Nat) (s : ndlz8_vars × List Nat) :
    cell_step_stray no_table_behind XXH32 rows cols input length maxout ii0 ii1 s =
      cell_step XXH32 rows cols input length maxout ii0 ii1 s := by
  rfl

/-- The three ways out of an iteration of the main loop: `return 0` at the
space check with nothing written, `return 0` at the size check behind the
record, or the next iteration behind the record. -/
theorem cell_step_cases (XXH32 : List Nat → Nat → Nat) (rows cols : Nat) (input : List Nat)
    (length maxout : Int) (ii0 ii1 : Nat) (s : ndlz8_vars × List Nat) :
    cell_step XXH32 rows cols input length maxout ii0 ii1 s = Except.error s.2 ∨
    (∃ out v, cell_step XXH32 rows cols input length maxout ii0 ii1 s =
      Except.error (s.2 ++ (encode_cell XXH32 rows cols input out ii0 ii1 v).1)) ∨
    (∃ out v s', cell_step XXH32 rows cols input length maxout ii0 ii1 s = Except.ok s' ∧
      s'.2 = s.2 ++ (encode_cell XXH32 rows cols input out ii0 ii1 v).1) := by
  unfold cell_step
  simp only
  split_ifs with h1 h2
  · exact Or.inl rfl
  · exact Or.inr (Or.inl ⟨_, _, rfl⟩)
  · exact Or.inr (Or.inr ⟨_, _, _, rfl, rfl⟩)

/-- The main loop, run over the cells `cells` from the state `s`, appends one
complete record per cell it has written to the output, in the order of the
cells, each the record that `encode_cell` gives for its cell; a loop that
ends normally has written a record for every cell. -/
theorem cells_emit (XXH32 : List Nat → Nat → Nat) (rows cols : Nat) (input : List Nat)
    (length maxout : Int) :
    ∀ (cells : List (Nat × Nat)) (s : ndlz8_vars × List Nat),
      ∃ recs : List (List Nat), recs.length ≤ cells.length ∧
        (∀ p ∈ cells.zip recs, ∃ out v,
          p.2 = (encode_cell XXH32 rows cols input out p.1.1 p.1.2 v).1) ∧
        match loop (fun (c : Nat × Nat) s =>
            cell_step XXH32 rows cols input length maxout c.1 c.2 s) cells s with
        | Except.error out => out = s.2 ++ recs.flatten
        | Except.ok s' => s'.2 = s.2 ++ recs.flatten ∧ recs.length = cells.length := by
  intro cells
  induction cells with
  | nil =>
    intro s
    refine ⟨[], le_refl _, ?_, ?_⟩
    · intro p hp
      simp at hp
    · simp [loop]
  | cons c cs ih =>
    intro s
    simp only [loop]
    rcases cell_step_cases XXH32 rows cols input length maxout c.1 c.2 s with
      h | ⟨out, v, h⟩ | ⟨out, v, s1, h, hs1⟩
    · rw [h]
      refine ⟨[], by simp, ?_, ?_⟩
      · intro p hp
        simp at hp
      · simp
    · rw [h]
      refine ⟨[(encode_cell XXH32 rows cols input out c.1 c.2 v).1], by simp, ?_, ?_⟩
      · intro p hp
        simp only [List.zip_cons_cons, List.zip_nil_right, List.mem_singleton] at hp
        rw [hp]
        exact ⟨_, _, rfl⟩
      · simp
    · rw [h]
      simp only
      obtain ⟨recs, hl, hz, hm⟩ := ih s1
      refine ⟨(encode_cell XXH32 rows cols input out c.1 c.2 v).1 :: recs,
        by simpa using hl, ?_, ?_⟩
      · intro p hp
        simp only [List.zip_cons_cons, List.mem_cons] at hp
        rcases hp with hp | hp
        · rw [hp]
          exact ⟨_, _, rfl⟩
        · exact hz p hp
      · revert hm
        cases loop (fun (c : Nat × Nat) s =>
            cell_step XXH32 rows cols input length maxout c.1 c.2 s) cs s1 with
        | error o =>
          intro hm
          simp only at hm ⊢
          rw [hm, hs1]
          simp
        | ok s' =>
          intro hm
          simp only at hm ⊢
          rw [hm.1, hs1]
          simp [hm.2]

theorem length_cell_grid (a b : Nat) : (cell_grid a b).length = a * b := by
  unfold cell_grid
  rw [length_flatMap_const _ _ b (fun i => by simp [for_range])]
  simp [for_range]

/-- The record of a cell on a padded edge: the token 0 and the live bytes,
`1 + pad0 * pad1` bytes. -/
theorem padded_record (XXH32 : List Nat → Nat → Nat) (rows cols : Nat)
    (input out : List Nat) (ii0 ii1 : Nat) (v : ndlz8_vars)
    (hedge : (rows % 8 ≠ 0 ∧ ii0 = (rows + 7) / 8 - 1) ∨
      (cols % 8 ≠ 0 ∧ ii1 = (cols + 7) / 8 - 1)) :
    (encode_cell XXH32 rows cols input out ii0 ii1 v).1 =
      0 :: (List.range (if ii0 = (rows + 7) / 8 - 1 ∧ rows % 8 ≠ 0 then rows % 8 else 8)).flatMap
        (fun r =>
          (List.range (if ii1 = (cols + 7) / 8 - 1 ∧ cols % 8 ≠ 0 then cols % 8 else 8)).map
            (fun c => input.getD ((8 * ii0 + r) * cols + (8 * ii1 + c)) 0)) ∧
    (encode_cell XXH32 rows cols input out ii0 ii1 v).1.length =
      1 + (if ii0 = (rows + 7) / 8 - 1 ∧ rows % 8 ≠ 0 then rows % 8 else 8) *
        (if ii1 = (cols + 7) / 8 - 1 ∧ cols % 8 ≠ 0 then cols % 8 else 8) ∧
    (encode_cell XXH32 rows cols input out ii0 ii1 v).2 = v := by
  have e := encode_cell_padded XXH32 rows cols input out ii0 ii1 v hedge
  refine ⟨by rw [e], ?_, by rw [e]⟩
  rw [e]
  simp only [List.length_cons]
  rw [length_flatMap_const _ _
    (if ii1 = (cols + 7) / 8 - 1 ∧ cols % 8 ≠ 0 then cols % 8 else 8) (fun a => by simp)]
  simp only [List.length_range]
  omega

/-- What `ndlz8_compress` has written when it has written anything: the
header and one complete record for each of the first cells of the grid, in
the order of the cells, for all the cells when the call returns a positive
value; the record of a cell on a padded edge is the token 0 and the live
bytes of the cell. -/
theorem compress_emits (XXH32 : List Nat → Nat → Nat) (context : blosc2_context)
    (input : List Nat) (length maxout : Int)
    (hout : (ndlz8_compress XXH32 context input length maxout).2 ≠ []) :
    ∃ recs : List (List Nat),
      recs.length ≤ ((context.blockshape0 + 7) / 8) * ((context.blockshape1 + 7) / 8) ∧
      (0 < (ndlz8_compress XXH32 context input length maxout).1 →
        recs.length = ((context.blockshape0 + 7) / 8) * ((context.blockshape1 + 7) / 8)) ∧
      (ndlz8_compress XXH32 context input length maxout).2 =
        [2] ++ le32 context.blockshape0 ++ le32 context.blockshape1 ++ recs.flatten ∧
      ∀ ii0 ii1 r, ((ii0, ii1), r) ∈
          (cell_grid ((context.blockshape0 + 7) / 8) ((context.blockshape1 + 7) / 8)).zip recs →
        ((context.blockshape0 % 8 ≠ 0 ∧ ii0 = (context.blockshape0 + 7) / 8 - 1) ∨
          (context.blockshape1 % 8 ≠ 0 ∧ ii1 = (context.blockshape1 + 7) / 8 - 1)) →
        r = 0 :: (List.range (if ii0 = (context.blockshape0 + 7) / 8 - 1 ∧
              context.blockshape0 % 8 ≠ 0 then context.blockshape0 % 8 else 8)).flatMap
            (fun i =>
              (List.range (if ii1 = (context.blockshape1 + 7) / 8 - 1 ∧
                  context.blockshape1 % 8 ≠ 0 then context.blockshape1 % 8 else 8)).map
                (fun k => input.getD ((8 * ii0 + i) * context.blockshape1 + (8 * ii1 + k)) 0)) ∧
        r.length = 1 + (if ii0 = (context.blockshape0 + 7) / 8 - 1 ∧
              context.blockshape0 % 8 ≠ 0 then context.blockshape0 % 8 else 8) *
            (if ii1 = (context.blockshape1 + 7) / 8 - 1 ∧
              context.blockshape1 % 8 ≠ 0 then context.blockshape1 % 8 else 8) := by
  obtain ⟨_, _, _, _, _, _, heq⟩ :=
    ndlz8_compress_checked XXH32 context input length maxout (Or.inl hout)
  have e0 : context.blockshape0 + 8 - 1 = context.blockshape0 + 7 := by omega
  have e1 : context.blockshape1 + 8 - 1 = context.blockshape1 + 7 := by omega
  obtain ⟨recs, hl, hz, hm⟩ := cells_emit XXH32 context.blockshape0 context.blockshape1 input
    length maxout (cell_grid ((context.blockshape0 + 7) / 8) ((context.blockshape1 + 7) / 8))
    (ndlz8_vars.init, [2] ++ le32 context.blockshape0 ++ le32 context.blockshape1)
  rw [length_cell_grid] at hl hm
  have hedge : ∀ ii0 ii1 r, ((ii0, ii1), r) ∈
        (cell_grid ((context.blockshape0 + 7) / 8) ((context.blockshape1 + 7) / 8)).zip recs →
      ((context.blockshape0 % 8 ≠ 0 ∧ ii0 = (context.blockshape0 + 7) / 8 - 1) ∨
        (context.blockshape1 % 8 ≠ 0 ∧ ii1 = (context.blockshape1 + 7) / 8 - 1)) →
      r = 0 :: (List.range (if ii0 = (context.blockshape0 + 7) / 8 - 1 ∧
            context.blockshape0 % 8 ≠ 0 then context.blockshape0 % 8 else 8)).flatMap
          (fun i =>
            (List.range (if ii1 = (context.blockshape1 + 7) / 8 - 1 ∧
                context.blockshape1 % 8 ≠ 0 then context.blockshape1 % 8 else 8)).map
              (fun k => input.getD ((8 * ii0 + i) * context.blockshape1 + (8 * ii1 + k)) 0)) ∧
      r.length = 1 + (if ii0 = (context.blockshape0 + 7) / 8 - 1 ∧
            context.blockshape0 % 8 ≠ 0 then context.blockshape0 % 8 else 8) *
          (if ii1 = (context.blockshape1 + 7) / 8 - 1 ∧
            context.blockshape1 % 8 ≠ 0 then context.blockshape1 % 8 else 8) := by
    intro ii0 ii1 r hmem hedge
    obtain ⟨out, v, hr⟩ := hz ((ii0, ii1), r) hmem
    simp only at hr
    rw [hr]
    exact ⟨(padded_record XXH32 _ _ input out ii0 ii1 v hedge).1,
      (padded_record XXH32 _ _ input out ii0 ii1 v hedge).2.1⟩
  rw [heq]
  cases hc : encode_cells XXH32 context.blockshape0 context.blockshape1 input length maxout
      ([2] ++ le32 context.blockshape0 ++ le32 context.blockshape1) with
  | error o =>
    unfold encode_cells at hc
    simp only at hc
    rw [loop_grid, e0, e1] at hc
    have hc' : loop (fun (c : Nat × Nat) s => cell_step XXH32 context.blockshape0
        context.blockshape1 input length maxout c.1 c.2 s)
        (cell_grid ((context.blockshape0 + 7) / 8) ((context.blockshape1 + 7) / 8))
        (ndlz8_vars.init, [2] ++ le32 context.blockshape0 ++ le32 context.blockshape1) =
        Except.error o := hc
    rw [hc'] at hm
    simp only at hm ⊢
    exact ⟨recs, hl, fun h => absurd h (lt_irrefl 0), hm, hedge⟩
  | ok sf =>
    unfold encode_cells at hc
    simp only at hc
    rw [loop_grid, e0, e1] at hc
    have hc' : loop (fun (c : Nat × Nat) s => cell_step XXH32 context.blockshape0
        context.blockshape1 input length maxout c.1 c.2 s)
        (cell_grid ((context.blockshape0 + 7) / 8) ((context.blockshape1 + 7) / 8))
        (ndlz8_vars.init, [2] ++ le32 context.blockshape0 ++ le32 context.blockshape1) =
        Except.ok sf := hc
    rw [hc'] at hm
    simp only at hm ⊢
    exact ⟨recs, hl, fun _ => hm.2, hm.1, hedge⟩

theorem cell_grid_10 : cell_grid ((10 + 7) / 8) ((10 + 7) / 8) = [(0, 0), (0, 1), (1, 0), (1, 1)] := by
  decide

/-- C9. Padded cells. Whenever `ndlz8_compress` has written anything, its
output is the 9-byte header followed by one complete record for each of the
first cells of the grid, in the order of the main loop, and for all the cells
when the call returns a positive value.  In that output the record of every
cell `(ii0, ii1)` on a right or bottom edge whose dimension is not a
multiple of 8 is the token 0x00 followed by `pad_rows * pad_cols` bytes, the
live bytes `input[(8 * ii0 + r) * cols + 8 * ii1 + c]` row by row, where the pad
of an axis is the dimension mod 8 for the last cell of an axis whose dimension
is not a multiple of 8, and 8 otherwise; the record depends on the input
alone, and the step of such a cell returns the variables (tables included)
unchanged.  For a 10 x 10 block with a positive return value the output is the
header, the record of the cell (0,0), and the records of the cells (0,1),
(1,0), (1,1): the token 0 with 16, 16 and 4 payload bytes. -/
theorem padded_cells_emitted (XXH32 : List Nat → Nat → Nat) (context : blosc2_context)
    (input : List Nat) (length maxout : Int)
    (hout : (ndlz8_compress XXH32 context input length maxout).2 ≠ []) :
    (∃ recs : List (List Nat),
      recs.length ≤ ((context.blockshape0 + 7) / 8) * ((context.blockshape1 + 7) / 8) ∧
      (0 < (ndlz8_compress XXH32 context input length maxout).1 →
        recs.length = ((context.blockshape0 + 7) / 8) * ((context.blockshape1 + 7) / 8)) ∧
      (ndlz8_compress XXH32 context input length maxout).2 =
        [2] ++ le32 context.blockshape0 ++ le32 context.blockshape1 ++ recs.flatten ∧
      ∀ ii0 ii1 r, ((ii0, ii1), r) ∈
          (cell_grid ((context.blockshape0 + 7) / 8) ((context.blockshape1 + 7) / 8)).zip recs →
        ((context.blockshape0 % 8 ≠ 0 ∧ ii0 = (context.blockshape0 + 7) / 8 - 1) ∨
          (context.blockshape1 % 8 ≠ 0 ∧ ii1 = (context.blockshape1 + 7) / 8 - 1)) →
        r = 0 :: (List.range (if ii0 = (context.blockshape0 + 7) / 8 - 1 ∧
              context.blockshape0 % 8 ≠ 0 then context.blockshape0 % 8 else 8)).flatMap
            (fun i =>
              (List.range (if ii1 = (context.blockshape1 + 7) / 8 - 1 ∧
                  context.blockshape1 % 8 ≠ 0 then context.blockshape1 % 8 else 8)).map
                (fun k => input.getD ((8 * ii0 + i) * context.blockshape1 + (8 * ii1 + k)) 0)) ∧
        r.length = 1 + (if ii0 = (context.blockshape0 + 7) / 8 - 1 ∧
              context.blockshape0 % 8 ≠ 0 then context.blockshape0 % 8 else 8) *
            (if ii1 = (context.blockshape1 + 7) / 8 - 1 ∧
              context.blockshape1 % 8 ≠ 0 then context.blockshape1 % 8 else 8)) ∧
    (∀ (out : List Nat) (ii0 ii1 : Nat) (v : ndlz8_vars),
      ((context.blockshape0 % 8 ≠ 0 ∧ ii0 = (context.blockshape0 + 7) / 8 - 1) ∨
        (context.blockshape1 % 8 ≠ 0 ∧ ii1 = (context.blockshape1 + 7) / 8 - 1)) →
      (encode_cell XXH32 context.blockshape0 context.blockshape1 input out ii0 ii1 v).2 = v) ∧
    (context.blockshape0 = 10 → context.blockshape1 = 10 →
      0 < (ndlz8_compress XXH32 context input length maxout).1 →
      ∃ r0 : List Nat,
        (ndlz8_compress XXH32 context input length maxout).2 =
          [2, 10, 0, 0, 0, 10, 0, 0, 0] ++ r0 ++
          (0 :: [8, 9, 18, 19, 28, 29, 38, 39, 48, 49, 58, 59, 68, 69, 78, 79].map
            (fun k => input.getD k 0)) ++
          (0 :: [80, 81, 82, 83, 84, 85, 86, 87, 90, 91, 92, 93, 94, 95, 96, 97].map
            (fun k => input.getD k 0)) ++
          (0 :: [88, 89, 98, 99].map (fun k => input.getD k 0))) := by
  have hgen := compress_emits XXH32 context input length maxout hout
  refine ⟨hgen, ?_, ?_⟩
  · intro out ii0 ii1 v hedge
    exact (padded_record XXH32 _ _ input out ii0 ii1 v hedge).2.2
  · intro h0 h1 hpos
    obtain ⟨recs, _, hlen, hval, hrec⟩ := hgen
    have hl := hlen hpos
    rw [h0, h1] at hl hval hrec
    rw [cell_grid_10] at hrec
    obtain ⟨r0, r1, r2, r3, rfl⟩ : ∃ r0 r1 r2 r3, recs = [r0, r1, r2, r3] := by
      match recs, hl with
      | [a, b, c, d], _ => exact ⟨a, b, c, d, rfl⟩
    have e1 := (hrec 0 1 r1 (by simp) (by decide)).1
    have e2 := (hrec 1 0 r2 (by simp) (by decide)).1
    have e3 := (hrec 1 1 r3 (by simp) (by decide)).1
    refine ⟨r0, ?_⟩
    rw [hval, e1, e2, e3]
    simp only [List.flatten, List.append_nil, List.append_assoc]
    rfl

set_option maxRecDepth 100000 in
/-- Instance of C9: the 10 x 10 block `edge_block`, whose first cell is
constant, with capacity 200 and the hash constantly 0: the call returns 50
after the header, the RLE record of the cell (0,0) and the records of the
three edge cells, the token 0 with 16, 16 and 4 payload bytes. -/
theorem padded_cells_emitted_witness :
    ndlz8_compress zero_hash ⟨2, 10, 10, 0⟩ edge_block 100 200 =
      (50, [2, 10, 0, 0, 0, 10, 0, 0, 0] ++ [64, 7] ++
        [0, 8, 9, 18, 19, 28, 29, 38, 39, 48, 49, 58, 59, 68, 69, 78, 79] ++
        [0, 80, 81, 82, 83, 84, 85, 86, 87, 90, 91, 92, 93, 94, 95, 96, 97] ++
        [0, 88, 89, 98, 99]) ∧
    ∃ r0 : List Nat,
      (ndlz8_compress zero_hash ⟨2, 10, 10, 0⟩ edge_block 100 200).2 =
        [2, 10, 0, 0, 0, 10, 0, 0, 0] ++ r0 ++
        (0 :: [8, 9, 18, 19, 28, 29, 38, 39, 48, 49, 58, 59, 68, 69, 78, 79].map
          (fun k => edge_block.getD k 0)) ++
        (0 :: [80, 81, 82, 83, 84, 85, 86, 87, 90, 91, 92, 93, 94, 95, 96, 97].map
          (fun k => edge_block.getD k 0)) ++
        (0 :: [88, 89, 98, 99].map (fun k => edge_block.getD k 0)) :=
  ⟨by decide!,
   (padded_cells_emitted zero_hash ⟨2, 10, 10, 0⟩ edge_block 100 200 (by decide!)).2.2
    rfl rfl (by decide!)⟩

end Ndlz8
